import Mathlib

/-!
# Horza workspace overview: snapshot cache and overview session

A shallow embedding of `src/overview.cpp` / `src/config.hpp`.

Conventions of the embedding

* `float` / `double` values are rationals (`ℚ`); `int` / `int64_t` values are `Int`.  Where
  the program compares a rounded quantity (the age tests of the cache and of the live
  preview, the capture budget, the scroll accumulator, the drag threshold) the operands are
  rounded as the machine rounds them (`f32`, `f64`: nearest value of the format, ties to
  even); elsewhere the value is kept exact.
* A `std::chrono::steady_clock::time_point` is its tick count (`Int`, nanoseconds); the
  default-constructed time point is `0`.  The cache functions take every reading of
  `steady_clock::now()` they make as an explicit argument; the session methods draw their
  readings from the host's `clock`, so consecutive readings may be equal or differ.
* `SP<T>` (nullable shared pointer) is `Option T`.
* `g_workspaceTileCache` (a `std::unordered_map`) is an association list; the order of the
  list is the iteration order of the map, which the C++ standard leaves unspecified, so
  statements quantify over every list.
-/

namespace Horza

set_option autoImplicit false

/-- Number of `steady_clock` ticks (nanoseconds) in a millisecond. -/
def ticksPerMs : ℚ := 1000000

/-! ## Rounding to `float` and `double`

IEEE 754 round-to-nearest, ties-to-even, for a binary format with `prec` significand bits and
least normal exponent `emin` (subnormals included).  Overflow to infinity is left out: the
only values that can overflow are compared against quantities they exceed either way. -/

/-- Number of binary digits of `n`; `fuel` bounds the recursion and `n` itself is enough. -/
def bitLength : Nat → Nat → Nat
  | 0, _ => 0
  | fuel + 1, n => if n = 0 then 0 else bitLength fuel (n / 2) + 1

/-- The power `2^k` for an integer exponent. -/
def pow2 (k : Int) : ℚ :=
  if 0 ≤ k then ((2 ^ k.toNat : Nat) : ℚ) else 1 / ((2 ^ (-k).toNat : Nat) : ℚ)

/-- The integer `e` with `2^e <= a < 2^(e+1)`, for `a > 0`. -/
def floorLog2 (a : ℚ) : Int :=
  if pow2 ((bitLength a.num.natAbs a.num.natAbs : Int) - (bitLength a.den a.den : Int)) ≤ a
  then (bitLength a.num.natAbs a.num.natAbs : Int) - (bitLength a.den a.den : Int)
  else (bitLength a.num.natAbs a.num.natAbs : Int) - (bitLength a.den a.den : Int) - 1

/-- Nearest integer, a tie going to the even one. -/
def roundHalfEven (q : ℚ) : Int :=
  if q - ⌊q⌋ < 1 / 2 then ⌊q⌋
  else if 1 / 2 < q - ⌊q⌋ then ⌊q⌋ + 1
  else if ⌊q⌋ % 2 = 0 then ⌊q⌋ else ⌊q⌋ + 1

/-- The unit in the last place of the format at magnitude `a > 0`. -/
def ulpAt (prec : Nat) (emin : Int) (a : ℚ) : ℚ :=
  pow2 (max (floorLog2 a) emin - ((prec : Int) - 1))

/-- Rounding of `x` to the format: the nearest multiple of the unit in the last place at the
magnitude of `x`, ties to even. -/
def roundFloat (prec : Nat) (emin : Int) (x : ℚ) : ℚ :=
  if x = 0 then 0
  else if x < 0 then
    -((roundHalfEven (|x| / ulpAt prec emin |x|) : ℚ) * ulpAt prec emin |x|)
  else (roundHalfEven (|x| / ulpAt prec emin |x|) : ℚ) * ulpAt prec emin |x|

/-- Rounding to `float` (binary32): a conversion to `float`, or the result of a `float`
operation on the exact operands. -/
def f32 (x : ℚ) : ℚ := roundFloat 24 (-126) x

/-- Rounding to `double` (binary64). -/
def f64 (x : ℚ) : ℚ := roundFloat 53 (-1022) x

/-- The integer square root, bit by bit from bit `k - 1` down, with `r` the bits set so
far. -/
def isqrtBits (n : Nat) : Nat → Nat → Nat
  | 0, r => r
  | k + 1, r =>
      if (r + 2 ^ k) * (r + 2 ^ k) ≤ n then isqrtBits n k (r + 2 ^ k) else isqrtBits n k r

/-- The integer square root `floor(sqrt n)`. -/
def isqrt (n : Nat) : Nat := isqrtBits n (bitLength n n) 0

/-- The integer nearest to `sqrt m` (ties to even), for `m >= 0`: with `n = floor(sqrt m)`,
the root is compared with `n + 1/2` through the squares. -/
def roundSqrtInt (m : ℚ) : Int :=
  if m < ((isqrt ⌊m⌋.toNat : Int) : ℚ) * (isqrt ⌊m⌋.toNat : Int) + (isqrt ⌊m⌋.toNat : Int) + 1 / 4
  then (isqrt ⌊m⌋.toNat : Int)
  else if ((isqrt ⌊m⌋.toNat : Int) : ℚ) * (isqrt ⌊m⌋.toNat : Int) + (isqrt ⌊m⌋.toNat : Int) +
      1 / 4 < m
  then (isqrt ⌊m⌋.toNat : Int) + 1
  else if (isqrt ⌊m⌋.toNat : Int) % 2 = 0 then (isqrt ⌊m⌋.toNat : Int)
  else (isqrt ⌊m⌋.toNat : Int) + 1

/-- The unit in the last place of the format at the magnitude of `sqrt q`, for `q > 0`. -/
def ulpSqrt (prec : Nat) (emin : Int) (q : ℚ) : ℚ :=
  pow2 (max (floorLog2 q / 2) emin - ((prec : Int) - 1))

/-- The value of the format nearest to `sqrt q` (ties to even), for `q >= 0`. -/
def roundSqrt (prec : Nat) (emin : Int) (q : ℚ) : ℚ :=
  if q ≤ 0 then 0
  else
    (roundSqrtInt (q / (ulpSqrt prec emin q * ulpSqrt prec emin q)) : ℚ) * ulpSqrt prec emin q

/-- The correctly rounded `hypot` on doubles: the double nearest to `sqrt(dx^2 + dy^2)`. -/
def hypotD (dx dy : ℚ) : ℚ := roundSqrt 53 (-1022) (dx * dx + dy * dy)

/-- Hyprland `Vector2D` (two doubles). -/
structure Vector2D where
  x : ℚ := 0
  y : ℚ := 0
deriving DecidableEq

/-- Hyprland `CBox` (position and size, doubles). -/
structure CBox where
  x : ℚ := 0
  y : ℚ := 0
  w : ℚ := 0
  h : ℚ := 0
deriving DecidableEq

/-- The part of `CTexture` the overview reads: the object identity and `m_size`. -/
structure CTexture where
  texID : Nat
  m_size : Vector2D
deriving DecidableEq

/-- The record `HorzaConfig` of config.hpp, with its default member initialisers. -/
structure HorzaConfig where
  captureScale : ℚ := 96 / 100
  displayScale : ℚ := 70 / 100
  overviewGap : ℚ := 16
  inactiveTileSizePercent : ℚ := 85
  persistentCache : Bool := true
  cacheTtlMs : ℚ := 1500
  cacheMaxEntries : Int := 96
  captureBudgetMs : ℚ := 4
  maxCapturesPerFrame : Int := 1
  livePreviewFps : ℚ := 6
  livePreviewRadius : Int := 2
  prewarmAll : Bool := false
  hyprpaperBackground : Bool := false
  freezeAnimationsInOverview : Bool := true
  escOnly : Bool := true
  asyncCloseHandoff : Bool := false
  asyncCloseFadeStart : ℚ := 88 / 100
  asyncCloseFadeCurve : String := "ease_out"
  asyncCloseMinAlpha : ℚ := 0
  closeDropDelayMs : ℚ := 100
  dragHoverJumpDelayMs : ℚ := 1000
  vertical : Bool := false
  centerOffset : ℚ := 0
  cornerRadius : Int := 5

/-! ## Snapshot cache (overview.cpp lines 46-150) -/

/-- The key `STileCacheKey`. -/
structure STileCacheKey where
  monitorID : Int
  workspaceID : Int
deriving DecidableEq

/-- The value `STileCacheEntry`. -/
structure STileCacheEntry where
  tex : Option CTexture
  capturedAt : Int
  cachedAt : Int
deriving DecidableEq

/-- The map `g_workspaceTileCache`, in iteration order. -/
abbrev TileCache := List (STileCacheKey × STileCacheEntry)

/-- `tileCacheEnabled()`. -/
def tileCacheEnabled (cfg : HorzaConfig) : Bool :=
  cfg.persistentCache && decide (cfg.cacheTtlMs > 0)

/-- The test `!tex || tex->m_size.x <= 0 || tex->m_size.y <= 0`. -/
def deadTex (tex : Option CTexture) : Bool :=
  match tex with
  | none => true
  | some t => decide (t.m_size.x ≤ 0) || decide (t.m_size.y ≤ 0)

/-- The test `now - cachedAt > ttl` of `pruneWorkspaceTileCache`, with
`ttl = duration<float, milli>(cacheTtlMs)`: both sides are converted to
`duration<float, nano>`, the age by a conversion of the `int64_t` count to `float`, the TTL
by the `float` product with `1000000`. -/
def expired (cfg : HorzaConfig) (now : Int) (e : STileCacheEntry) : Bool :=
  decide (f32 (((now - e.cachedAt : Int) : ℚ)) > f32 (cfg.cacheTtlMs * ticksPerMs))

/-- The inner `for` loop of the trimming phase, started with `oldestIt` given by `best`
(index and `cachedAt` of the entry it points to; `none` is `end()`) at position `i`. -/
def oldestFrom : Option (Nat × Int) → Nat → TileCache → Option (Nat × Int)
  | best, _, [] => best
  | none, i, p :: rest => oldestFrom (some (i, p.2.cachedAt)) (i + 1) rest
  | some (j, t), i, p :: rest =>
      if p.2.cachedAt < t then oldestFrom (some (i, p.2.cachedAt)) (i + 1) rest
      else oldestFrom (some (j, t)) (i + 1) rest

/-- Position of `oldestIt` after the inner loop (`none` is `end()`). -/
def findOldest (c : TileCache) : Option Nat :=
  (oldestFrom none 0 c).map Prod.fst

/-- The loop `while ((int)size() > maxEntries)` of `pruneWorkspaceTileCache`; the first
argument bounds the number of iterations. -/
def trimToMax (maxEntries : Int) : Nat → TileCache → TileCache
  | 0, c => c
  | fuel + 1, c =>
      if (c.length : Int) > maxEntries then
        match findOldest c with
        | none => c
        | some i => trimToMax maxEntries fuel (c.eraseIdx i)
      else c

/-- The entries erased by the trimming loop, in the order of their eviction. -/
def trimEvicted (maxEntries : Int) : Nat → TileCache → TileCache
  | 0, _ => []
  | fuel + 1, m =>
      if (m.length : Int) > maxEntries then
        match findOldest m with
        | none => []
        | some i => m[i]?.toList ++ trimEvicted maxEntries fuel (m.eraseIdx i)
      else []

/-- The first loop of `pruneWorkspaceTileCache`: erase dead and expired entries. -/
def pruneDead (cfg : HorzaConfig) (now : Int) (c : TileCache) : TileCache :=
  c.filter (fun p => !(deadTex p.2.tex || expired cfg now p.2))

/-- `pruneWorkspaceTileCache()`; `now` is its clock reading.  Each iteration of the trimming
loop erases one entry, so the length of the cache bounds the number of iterations. -/
def pruneWorkspaceTileCache (cfg : HorzaConfig) (now : Int) (c : TileCache) : TileCache :=
  if !tileCacheEnabled cfg then []
  else
    let c1 := pruneDead cfg now c
    trimToMax (max 0 cfg.cacheMaxEntries) c1.length c1

/-- First entry with the given key, with its position (`unordered_map::find`). -/
def cacheFind : TileCache → STileCacheKey → Option (Nat × STileCacheEntry)
  | [], _ => none
  | (k', e) :: rest, k =>
      if k' = k then some (0, e)
      else (cacheFind rest k).map (fun r => (r.1 + 1, r.2))

/-- The assignment `g_workspaceTileCache[key] = entry`: an existing node keeps its place; a
new node is put at position `slot` of the iteration order (the hash table decides it). -/
def cacheAssign (c : TileCache) (k : STileCacheKey) (e : STileCacheEntry) (slot : Nat) :
    TileCache :=
  match cacheFind c k with
  | some (i, _) => c.set i (k, e)
  | none => c.take slot ++ (k, e) :: c.drop slot

/-- `storeWorkspaceTileInCache`; `t1`, `t2`, `t3` are the clock readings of the first prune,
of the function itself and of the second prune. -/
def storeWorkspaceTileInCache (cfg : HorzaConfig) (t1 t2 t3 : Int) (slot : Nat)
    (c : TileCache) (monitorID workspaceID : Int) (tex : Option CTexture)
    (capturedAt : Int) : TileCache :=
  if !tileCacheEnabled cfg then c
  else if deadTex tex then c
  else
    let c1 := pruneWorkspaceTileCache cfg t1 c
    let c2 := cacheAssign c1 ⟨monitorID, workspaceID⟩
      { tex := tex, capturedAt := if capturedAt = 0 then t2 else capturedAt, cachedAt := t2 }
      slot
    pruneWorkspaceTileCache cfg t3 c2

/-- Result of `restoreWorkspaceTileFromCache`: the return value, the two reference
arguments and the cache. -/
structure RestoreResult where
  ok : Bool
  outTex : Option CTexture
  outCapturedAt : Int
  cache : TileCache
deriving DecidableEq

/-- `restoreWorkspaceTileFromCache`; `t1` is the clock reading of the prune, `t2` the one
stored in `cachedAt`. -/
def restoreWorkspaceTileFromCache (cfg : HorzaConfig) (t1 t2 : Int) (c : TileCache)
    (monitorID workspaceID : Int) (outTex : Option CTexture) (outCapturedAt : Int) :
    RestoreResult :=
  if !tileCacheEnabled cfg then ⟨false, outTex, outCapturedAt, c⟩
  else
    let c1 := pruneWorkspaceTileCache cfg t1 c
    match cacheFind c1 ⟨monitorID, workspaceID⟩ with
    | none => ⟨false, outTex, outCapturedAt, c1⟩
    | some (i, e) =>
        if deadTex e.tex then ⟨false, outTex, outCapturedAt, c1.eraseIdx i⟩
        else ⟨true, e.tex, e.capturedAt,
              c1.set i (⟨monitorID, workspaceID⟩, { e with cachedAt := t2 })⟩

/-- Invariant of the oldest-entry scan over the entries `l` visited so far. -/
def OldestInv (l : TileCache) : Option (Nat × Int) → Prop
  | none => l = []
  | some (j, t) => (∃ p, l[j]? = some p ∧ p.2.cachedAt = t) ∧ ∀ q ∈ l, t ≤ q.2.cachedAt

/-- Rewriting `capturedAt` of every entry by `g`. -/
def setCapturedAt (g : STileCacheKey × STileCacheEntry → Int)
    (p : STileCacheKey × STileCacheEntry) : STileCacheKey × STileCacheEntry :=
  (p.1, { p.2 with capturedAt := g p })

/-- The keys of the map are pairwise distinct (every `std::unordered_map` satisfies it). -/
def KeysNodup (m : TileCache) : Prop := (m.map Prod.fst).Nodup

/-- An entry that both loops of the prune at clock reading `now` leave alone. -/
def Fresh (cfg : HorzaConfig) (now : Int) (p : STileCacheKey × STileCacheEntry) : Prop :=
  deadTex p.2.tex = false ∧ expired cfg now p.2 = false

/-! ## Host objects read by the overview session

The compositor, renderer and input manager are external.  A `Host` value is the snapshot of
them that one callback of the session observes; calls into the host that matter to the
session's contract are recorded, in order, in the session's `calls` trace. -/

/-- `CWorkspace` as far as the overview reads it.  `ptr` is the identity of the object: a
`PHLWORKSPACE` comparison is the comparison of these records. -/
structure CWorkspace where
  ptr : Nat
  m_id : Int
  monitorID : Int
deriving DecidableEq

/-- `CWindow` as far as the overview reads it; `boxUnified` is the result of
`getWindowBoxUnified(RESERVED_EXTENTS | INPUT_EXTENTS | ALLOW_FLOATING)`. -/
structure CWindow where
  ptr : Nat
  m_isMapped : Bool
  m_workspace : Option CWorkspace
  boxUnified : CBox
deriving DecidableEq

/-- `CMonitor` as far as the overview reads it. -/
structure CMonitor where
  m_id : Int
  m_position : Vector2D
  m_size : Vector2D
  m_pixelSize : Vector2D
  m_scale : ℚ
  m_activeWorkspace : Option CWorkspace
deriving DecidableEq

/-- What one callback observes of the host.  `monitor` is `pMonitor.lock()`; `clock n` is the
`n`-th reading of `steady_clock::now()` made by the process; `hypot` is `std::hypot` of the
C library on doubles.  Its rounding is the library's; a host that does not name it has the
correctly rounded one. -/
structure Host where
  monitor : Option CMonitor
  m_workspaces : List (Option CWorkspace)
  m_windows : List (Option CWindow)
  mouseCoords : Vector2D
  monitorFromCursor : Option CMonitor
  lastFocusedWindow : CWorkspace → Option CWindow
  firstWindow : CWorkspace → Option CWindow
  clock : Nat → Int
  hypot : ℚ → ℚ → ℚ := hypotD

/-- Calls into the host recorded in the trace. -/
inductive HostCall where
  | renderWorkspace (idx : Int) (ws : Option CWorkspace)
  | dispatchWorkspace (id : Int)
  | fullWindowFocus (w : CWindow)
  | moveWindowToWorkspaceSafe (w : CWindow) (ws : CWorkspace)
deriving DecidableEq

/-- A Hyprutils animated variable (`PHLANIMVAR<float>` target) as far as the overview uses
it: current value, goal, and whether the animation manager is still driving it. -/
structure AnimVar where
  value : ℚ
  goal : ℚ
  isBeingAnimated : Bool
deriving DecidableEq

/-- `var->setValueAndWarp(v)`. -/
def AnimVar.setValueAndWarp (_a : AnimVar) (v : ℚ) : AnimVar :=
  { value := v, goal := v, isBeingAnimated := false }

/-- `*var = v` (a new goal starts the animation from the current value). -/
def AnimVar.assign (a : AnimVar) (v : ℚ) : AnimVar :=
  if v = a.goal then a else { a with goal := v, isBeingAnimated := true }

/-- The one-shot `CEventLoopTimer` of the deferred drop: `timeoutMs = none` once cancelled. -/
structure CEventLoopTimer where
  timeoutMs : Option Nat
deriving DecidableEq

/-- `SWorkspaceImage` (the framebuffer, a GPU object, is left out). -/
structure SWorkspaceImage where
  pWorkspace : Option CWorkspace
  displayBox : CBox := {}
  captured : Bool := false
  lastCaptureAt : Int := 0
  cachedTex : Option CTexture := none
  titleTex : Option CTexture := none
  titleTextCached : String := ""
  titleMaxWidthCached : Int := 0
  titleFontCached : Int := 0
  titleFontFamilyCached : String := ""
deriving DecidableEq

/-- The data members of `COverview`, followed by the process-wide state its methods touch:
`cache` is `g_workspaceTileCache`, `ticks` the number of clock readings made so far, and
`calls` the trace of recorded host calls. -/
structure COverview where
  ready : Bool := false
  closing : Bool := false
  transitMode : Bool := false
  blockOverviewRendering : Bool := false
  blockDamageReporting : Bool := false
  images : List SWorkspaceImage := []
  currentIdx : Int := 0
  damageDirty : Bool := false
  pendingCapture : Bool := false
  workspaceListDirty : Bool := false
  nextWorkspaceSyncPollAt : Int := 0
  openAnimPending : Bool := false
  backgroundCaptured : Bool := false
  lastActiveWorkspaceID : Int := -1
  lastMousePosLocal : Vector2D := {}
  dragStartPosLocal : Vector2D := {}
  dragLastPosLocal : Vector2D := {}
  dragWindowPosWorkspace : Vector2D := {}
  dragWindowSizeWorkspace : Vector2D := {}
  dragWindowGrabOffsetWorkspace : Vector2D := {}
  scrollGestureAccum : ℚ := 0
  leftButtonDown : Bool := false
  draggingWindow : Bool := false
  dragSourceIdx : Int := -1
  dragTargetIdx : Int := -1
  dragWindow : Option CWindow := none
  dragNextHoverJumpAt : Int := 0
  handoffActive : Bool := false
  finalCrossfadeActive : Bool := false
  closeDropScheduled : Bool := false
  closeOverlayAlpha : ℚ := 1
  finalCrossfadeStartAlpha : ℚ := 1
  passQueuedThisFrame : Bool := false
  closeStartedAt : Int := 0
  closeAnimFinishedAt : Int := 0
  finalCrossfadeStartedAt : Int := 0
  closeDropTimer : Option CEventLoopTimer := none
  m_scale : Option AnimVar := none
  m_offsetX : Option AnimVar := none
  m_crossOffset : Option AnimVar := none
  cache : TileCache := []
  ticks : Nat := 0
  calls : List HostCall := []

/-- `std::clamp` on floats. -/
def clampQ (v lo hi : ℚ) : ℚ := if v < lo then lo else if hi < v then hi else v

/-- `std::clamp` on ints. -/
def clampI (v lo hi : Int) : Int := if v < lo then lo else if hi < v then hi else v

/-- Two's-complement value of a 32-bit `int` result. -/
def wrapInt32 (x : Int) : Int := (x + 2147483648) % 4294967296 - 2147483648

/-- `clampCaptureScale` of config.hpp (every rational is finite). -/
def clampCaptureScale (v : ℚ) : ℚ := if v ≤ 0 then 1 else clampQ v (5 / 100) 1

/-- `clampDisplayScale` of config.hpp (every rational is finite). -/
def clampDisplayScale (v : ℚ) : ℚ := clampQ v (5 / 100) 3

/-- `(int)images.size()`. -/
def COverview.size (s : COverview) : Int := (s.images.length : Int)

/-- `images[idx]` for an `int` index (`none` when the index is out of range, where the C++
access is undefined). -/
def tileAt (imgs : List SWorkspaceImage) (idx : Int) : Option SWorkspaceImage :=
  if idx < 0 then none else imgs[idx.toNat]?

/-- In-place update of `images[idx]`. -/
def modifyTile (f : SWorkspaceImage → SWorkspaceImage) :
    List SWorkspaceImage → Nat → List SWorkspaceImage
  | [], _ => []
  | t :: ts, 0 => f t :: ts
  | t :: ts, n + 1 => t :: modifyTile f ts n

/-- In-place update of `images[idx]` for an `int` index (no effect out of range). -/
def COverview.updTile (s : COverview) (idx : Int) (f : SWorkspaceImage → SWorkspaceImage) :
    COverview :=
  if idx < 0 then s else { s with images := modifyTile f s.images idx.toNat }

/-- The statements that invalidate a tile's capture and title cache
(`captured = false; cachedTex.reset(); titleTex.reset(); ...`). -/
def invalidateTile (t : SWorkspaceImage) : SWorkspaceImage :=
  { t with captured := false, cachedTex := none, titleTex := none, titleTextCached := "",
           titleMaxWidthCached := 0, titleFontCached := 0, titleFontFamilyCached := "" }

/-- `COverview::clearDragState`. -/
def clearDragState (s : COverview) : COverview :=
  { s with leftButtonDown := false, draggingWindow := false, dragSourceIdx := -1,
           dragTargetIdx := -1, dragWindow := none, dragStartPosLocal := {},
           dragLastPosLocal := {}, dragWindowPosWorkspace := {}, dragWindowSizeWorkspace := {},
           dragWindowGrabOffsetWorkspace := {}, dragNextHoverJumpAt := 0 }

/-- `COverview::damage` (the flag is raised around the host call and lowered after it). -/
def damage (s : COverview) : COverview := { s with blockDamageReporting := false }

/-- The containment test of `hitTileIndex` and `pickWindowInWorkspace` (closed box). -/
def boxContains (b : CBox) (p : Vector2D) : Bool :=
  decide (p.x ≥ b.x) && decide (p.x ≤ b.x + b.w) && decide (p.y ≥ b.y) &&
    decide (p.y ≤ b.y + b.h)

/-- The loop of `hitTileIndex` from index `i` on. -/
def hitTileFrom (p : Vector2D) : List SWorkspaceImage → Int → Int
  | [], _ => -1
  | t :: ts, i => if boxContains t.displayBox p then i else hitTileFrom p ts (i + 1)

/-- `COverview::hitTileIndex`. -/
def hitTileIndex (s : COverview) (localPos : Vector2D) : Int :=
  hitTileFrom localPos s.images 0

/-- `COverview::tileLocalToWorkspacePos`. -/
def tileLocalToWorkspacePos (h : Host) (tileBox : CBox) (localPos : Vector2D) : Vector2D :=
  match h.monitor with
  | none => {}
  | some mon =>
      let scaleX := tileBox.w / max 1 mon.m_size.x
      let scaleY := tileBox.h / max 1 mon.m_size.y
      if scaleX ≤ 0 ∨ scaleY ≤ 0 then {}
      else { x := (localPos.x - tileBox.x) / scaleX, y := (localPos.y - tileBox.y) / scaleY }

/-- `COverview::pickWindowInWorkspace`: the topmost (last in `m_windows`) mapped window of
the workspace whose unified box contains the point. -/
def pickWindowInWorkspace (h : Host) (ws : Option CWorkspace) (workspacePos : Vector2D) :
    Option CWindow :=
  match h.monitor, ws with
  | some mon, some w =>
      let globalPos : Vector2D :=
        { x := workspacePos.x + mon.m_position.x, y := workspacePos.y + mon.m_position.y }
      (h.m_windows.reverse.filterMap id).find? (fun win =>
        win.m_isMapped && decide (win.m_workspace = some w) &&
          boxContains win.boxUnified globalPos)
  | _, _ => none

/-- `COverview::captureWorkspace`, as far as the session state goes: the tile's cached image
is dropped and `lastCaptureAt` takes a clock reading; the render is recorded in the trace. -/
def captureWorkspace (h : Host) (s : COverview) (idx : Int) : COverview :=
  if idx < 0 ∨ idx ≥ s.size then s
  else
    match h.monitor with
    | none => s
    | some mon =>
        if mon.m_pixelSize.x ≤ 0 ∨ mon.m_pixelSize.y ≤ 0 then s
        else
          { (s.updTile idx (fun t =>
                { t with cachedTex := none, lastCaptureAt := h.clock s.ticks })) with
            blockDamageReporting := false
            ticks := s.ticks + 1
            calls := s.calls ++ [HostCall.renderWorkspace idx ((tileAt s.images idx).bind
              (fun t => t.pWorkspace))] }

/-- The block `blockOverviewRendering = true; captureWorkspace(i); blockOverviewRendering =
false; images[i].captured = true; images[i].cachedTex.reset();`. -/
def captureAndMark (h : Host) (s : COverview) (idx : Int) : COverview :=
  ({ captureWorkspace h { s with blockOverviewRendering := true } idx with
      blockOverviewRendering := false }).updTile idx
    (fun t => { t with captured := true, cachedTex := none })

/-- `COverview::restoreTileFromCache`.  Two clock readings are set aside for the cache
lookup (the prune and the refresh of `cachedAt`). -/
def restoreTileFromCache (cfg : HorzaConfig) (h : Host) (s : COverview) (idx : Int) :
    Bool × COverview :=
  if idx < 0 ∨ idx ≥ s.size then (false, s)
  else
    match h.monitor, (tileAt s.images idx).bind (fun t => t.pWorkspace) with
    | some mon, some ws =>
        let r := restoreWorkspaceTileFromCache cfg (h.clock s.ticks) (h.clock (s.ticks + 1))
          s.cache mon.m_id ws.m_id none 0
        let s1 := { s with cache := r.cache, ticks := s.ticks + 2 }
        if !r.ok then (false, s1)
        else
          (true, s1.updTile idx (fun t =>
            { t with cachedTex := r.outTex, lastCaptureAt := r.outCapturedAt,
                     captured := false }))
    | _, _ => (false, s)

/-! ## Navigation (overview.cpp lines 603-655, 835-940, 976-1037) -/

/-- The term `size * 0.5f - (idx * (tile + gap) + tile * 0.5f)` on the primary axis. -/
def centerTerm (mon : CMonitor) (vertical : Bool) (tileW tileH gap : ℚ) (idx : Int) : ℚ :=
  if !vertical then mon.m_size.x * (1 / 2) - ((idx : ℚ) * (tileW + gap) + tileW * (1 / 2))
  else mon.m_size.y * (1 / 2) - ((idx : ℚ) * (tileH + gap) + tileH * (1 / 2))

/-- The statements from `const float sMin = ...` to `*m_offsetX = 0.0f` shared by
`shiftCurrentIndexBy`, `onMouseAxis` and `onWorkspaceChange` (`transit` is the value of
`transitMode` where the function consults it, `false` elsewhere). -/
def recenterOn (cfg : HorzaConfig) (mon : CMonitor) (transit : Bool) (s : COverview)
    (scale offs : AnimVar) (targetIdx : Int) : COverview :=
  let sMin := min 1 cfg.displayScale
  let sMax := max 1 cfg.displayScale
  let sc := if transit then 1 else clampQ scale.value sMin sMax
  let ds := if transit then 1 else max cfg.displayScale (1 / 10000)
  let tileW := mon.m_size.x * sc
  let tileH := mon.m_size.y * sc
  let gap := if transit then 0 else cfg.overviewGap * (sc / ds)
  let vertical := if transit then false else cfg.vertical
  let oldCenter := centerTerm mon vertical tileW tileH gap s.currentIdx
  let newCenter := centerTerm mon vertical tileW tileH gap targetIdx
  { s with
    currentIdx := targetIdx
    m_offsetX := some ((offs.setValueAndWarp (offs.value + (oldCenter - newCenter))).assign 0) }

/-- The `if (!captured && !cachedTex) ... else if (!captured && cachedTex) ...` block run on
the new current tile by `shiftCurrentIndexBy` and `onMouseAxis`. -/
def captureOrDirty (h : Host) (s : COverview) : COverview :=
  match tileAt s.images s.currentIdx with
  | none => s
  | some t =>
      if !t.captured && t.cachedTex.isNone then captureAndMark h s s.currentIdx
      else if !t.captured && t.cachedTex.isSome then { s with damageDirty := true }
      else s

/-- `COverview::shiftCurrentIndexBy`; the sum `currentIdx + step` is taken as a 32-bit
`int`. -/
def shiftCurrentIndexBy (cfg : HorzaConfig) (h : Host) (s : COverview) (step : Int) :
    Bool × COverview :=
  if step = 0 ∨ s.images.length < 2 then (false, s)
  else
    match h.monitor, s.m_scale, s.m_offsetX with
    | some mon, some sc, some off =>
        let targetIdx := clampI (wrapInt32 (s.currentIdx + step)) 0 (s.size - 1)
        if targetIdx = s.currentIdx then (false, s)
        else (true, damage (captureOrDirty h (recenterOn cfg mon false s sc off targetIdx)))
    | _, _, _ => (false, s)

/-- `IPointer::SAxisEvent` (axis 0 is vertical scroll, 1 horizontal scroll). -/
structure SAxisEvent where
  axis : Nat
  delta : ℚ
  deltaDiscrete : Int
deriving DecidableEq

/-- Lines 870-888 of `onMouseAxis`: from the accumulator and the event to the new
accumulator and the requested step (`none`: the function returns without a step).  The
accumulator and the delta are doubles, and `scrollGestureAccum += e.delta` rounds the sum to
a double. -/
def axisSteps (accum : ℚ) (e : SAxisEvent) : ℚ × Option Int :=
  if e.deltaDiscrete ≠ 0 then (accum, some (if e.deltaDiscrete < 0 then -1 else 1))
  else
    let a0 := if (accum > 0 ∧ e.delta < 0) ∨ (accum < 0 ∧ e.delta > 0) then 0 else accum
    let a1 := f64 (a0 + e.delta)
    if |a1| < 48 then (a1, none)
    else (0, some (if a1 < 0 then -1 else 1))

/-- `COverview::onMouseAxis`; `e` is `none` when the payload does not decode to an axis
event. -/
def onMouseAxis (cfg : HorzaConfig) (h : Host) (s : COverview) (e : Option SAxisEvent) :
    COverview :=
  if s.closing ∨ s.images.length < 2 then s
  else
    match h.monitor, e with
    | some mon, some ev =>
        if h.monitorFromCursor ≠ some mon then s
        else if ev.axis ≠ 0 ∧ ev.axis ≠ 1 then s
        else
          let r := axisSteps s.scrollGestureAccum ev
          let s1 := { s with scrollGestureAccum := r.1 }
          match r.2 with
          | none => s1
          | some steps =>
              if steps = 0 then s1
              else
                let targetIdx := clampI (s1.currentIdx + steps) 0 (s1.size - 1)
                if targetIdx = s1.currentIdx then s1
                else
                  match s1.m_scale, s1.m_offsetX with
                  | some sc, some off =>
                      damage (captureOrDirty h (recenterOn cfg mon false s1 sc off targetIdx))
                  | _, _ => s1
    | _, _ => s

/-- The search loop of `onWorkspaceChange` from index `i` on: the first tile whose workspace
is the monitor's active workspace. -/
def findActiveFrom (active : Option CWorkspace) : List SWorkspaceImage → Int → Option Int
  | [], _ => none
  | t :: ts, i => if t.pWorkspace = active then some i else findActiveFrom active ts (i + 1)

/-- `COverview::onWorkspaceChange`. -/
def onWorkspaceChange (cfg : HorzaConfig) (h : Host) (s : COverview) : COverview :=
  match h.monitor, s.m_scale, s.m_offsetX with
  | some mon, some sc, some off =>
      if s.images = [] then s
      else
        let newIdx := (findActiveFrom mon.m_activeWorkspace s.images 0).getD s.currentIdx
        if newIdx = s.currentIdx then s
        else
          let s1 := recenterOn cfg mon s.transitMode s sc off newIdx
          let s2 :=
            match tileAt s1.images s1.currentIdx with
            | some t => if !t.captured then captureAndMark h s1 s1.currentIdx else s1
            | none => s1
          { s2 with damageDirty := true }
  | _, _, _ => s

/-! ## Lifecycle (overview.cpp lines 1260-1296, 2020-2064) -/

/-- `COverview::scheduleCloseDrop`: the timer is created, or re-armed, with 1 ms. -/
def scheduleCloseDrop (s : COverview) : COverview :=
  if s.closeDropScheduled then s
  else { s with closeDropScheduled := true, closeDropTimer := some ⟨some 1⟩ }

/-- `COverview::close`. -/
def close (h : Host) (s : COverview) : COverview :=
  if s.closing then s
  else
    let s1 : COverview :=
      { s with
        closing := true
        closeStartedAt := h.clock s.ticks
        ticks := s.ticks + 1
        closeAnimFinishedAt := 0
        handoffActive := false
        finalCrossfadeActive := false
        finalCrossfadeStartAlpha := 1
        finalCrossfadeStartedAt := 0
        closeDropScheduled := false
        closeOverlayAlpha := 1
        closeDropTimer := none }
    match s1.m_scale, s1.m_offsetX, s1.m_crossOffset with
    | some sc, some off, some cross =>
        if s1.images = [] then scheduleCloseDrop s1
        else
          let s2 := { s1 with m_offsetX := some (off.setValueAndWarp 0) }
          if s2.transitMode then scheduleCloseDrop s2
          else { s2 with m_crossOffset := some (cross.assign 0), m_scale := some (sc.assign 1) }
    | _, _, _ => scheduleCloseDrop s1

/-! ## Pointer gestures (overview.cpp lines 657-833) -/

/-- `kDragThresholdPx`. -/
def kDragThresholdPx : ℚ := 10

/-- `(int)std::lround(x)` for `x >= 0`. -/
def lround (x : ℚ) : Int := ⌊x + 1 / 2⌋

/-- Lines 679-696 of `onMouseMove`: the hover jump to the tile under the pointer, gated by
the cooldown, and the update of the drop target. -/
def dragHover (cfg : HorzaConfig) (h : Host) (s1 : COverview) : COverview :=
  let newTargetIdx := hitTileIndex s1 s1.lastMousePosLocal
  let s2 : COverview :=
    if newTargetIdx ≥ 0 ∧ newTargetIdx ≠ s1.currentIdx then
      let now := h.clock s1.ticks
      let s1t : COverview := { s1 with ticks := s1.ticks + 1 }
      if s1t.dragNextHoverJumpAt = 0 ∨ now ≥ s1t.dragNextHoverJumpAt then
        let r := shiftCurrentIndexBy cfg h s1t (newTargetIdx - s1t.currentIdx)
        if r.1 then
          { r.2 with dragNextHoverJumpAt :=
              now + lround (max 0 cfg.dragHoverJumpDelayMs) * 1000000 }
        else r.2
      else s1t
    else s1
  let newTargetIdx2 := hitTileIndex s2 s2.lastMousePosLocal
  if newTargetIdx2 ≠ s2.dragTargetIdx then damage { s2 with dragTargetIdx := newTargetIdx2 }
  else s2

/-- Lines 669-674 of `onMouseMove`: the promotion of a pressed gesture to a drag.  The delta
is a difference of doubles, rounded to a double, and the test is
`std::hypot(delta.x, delta.y) >= kDragThresholdPx` on the library's result. -/
def promoteDrag (h : Host) (s0 : COverview) : COverview :=
  if !s0.draggingWindow then
    if h.hypot (f64 (s0.lastMousePosLocal.x - s0.dragStartPosLocal.x))
        (f64 (s0.lastMousePosLocal.y - s0.dragStartPosLocal.y)) ≥ kDragThresholdPx
    then { s0 with draggingWindow := true } else s0
  else s0

/-- Lines 664-696 of `onMouseMove`, run once `lastMousePosLocal` is updated. -/
def dragMove (cfg : HorzaConfig) (h : Host) (s0 : COverview) : COverview :=
  if s0.closing ∨ !s0.leftButtonDown then s0
  else if s0.dragWindow.isNone ∨ s0.dragSourceIdx < 0 ∨ s0.dragSourceIdx ≥ s0.size then s0
  else if !(promoteDrag h s0).draggingWindow then promoteDrag h s0
  else dragHover cfg h (promoteDrag h s0)

/-- `COverview::onMouseMove`. -/
def onMouseMove (cfg : HorzaConfig) (h : Host) (s : COverview) : COverview :=
  match h.monitor with
  | none => s
  | some mon =>
      dragMove cfg h { s with lastMousePosLocal :=
        { x := h.mouseCoords.x - mon.m_position.x, y := h.mouseCoords.y - mon.m_position.y } }

/-- `IPointer::SButtonEvent`: `button` is the evdev code, `state` the
`wl_pointer_button_state` (0 released, 1 pressed). -/
structure SButtonEvent where
  button : Nat
  state : Nat
deriving DecidableEq

/-- `BTN_LEFT` of linux/input-event-codes.h. -/
def BTN_LEFT : Nat := 272

/-- The press branch of `onMouseButton` (lines 714-756); `pos` is `lastMousePosLocal`. -/
def onButtonPressed (h : Host) (mon : CMonitor) (s : COverview) : COverview :=
  let pos := s.lastMousePosLocal
  let hit := hitTileIndex s pos
  let s1 := { clearDragState s with
    leftButtonDown := true, dragStartPosLocal := pos, dragLastPosLocal := pos,
    dragSourceIdx := hit, dragTargetIdx := hit }
  match tileAt s1.images hit with
  | none => s1
  | some tile =>
      let workspacePos := tileLocalToWorkspacePos h tile.displayBox pos
      let picked := pickWindowInWorkspace h tile.pWorkspace workspacePos
      let dragWindow : Option CWindow :=
        match picked, tile.pWorkspace with
        | none, some ws =>
            let w := (h.lastFocusedWindow ws).orElse (fun _ => h.firstWindow ws)
            match w with
            | some win => if win.m_workspace ≠ some ws then none else some win
            | none => none
        | p, _ => p
      match dragWindow with
      | none => { s1 with dragWindow := none }
      | some win =>
          let size : Vector2D := { x := max 1 win.boxUnified.w, y := max 1 win.boxUnified.h }
          let topLeft : Vector2D :=
            { x := win.boxUnified.x - mon.m_position.x, y := win.boxUnified.y - mon.m_position.y }
          { s1 with
            dragWindow := some win
            dragWindowSizeWorkspace := size
            dragWindowPosWorkspace := topLeft
            dragWindowGrabOffsetWorkspace :=
              { x := clampQ (workspacePos.x - topLeft.x) 0 size.x,
                y := clampQ (workspacePos.y - topLeft.y) 0 size.y } }

/-- The release branch of `onMouseButton` (lines 762-832). -/
def onButtonReleased (h : Host) (mon : CMonitor) (s : COverview) : COverview :=
  let wasDragging := s.draggingWindow
  let releaseIdx := hitTileIndex s s.lastMousePosLocal
  let sourceIdx := s.dragSourceIdx
  let targetIdx := if releaseIdx = -1 then s.dragTargetIdx else releaseIdx
  let draggedWindow := s.dragWindow
  let s1 := clearDragState s
  if wasDragging then
    match draggedWindow, (tileAt s1.images targetIdx).bind (fun t => t.pWorkspace) with
    | some win, some dst =>
        if win.m_workspace = some dst then s1
        else
          let s2 := { s1 with calls := s1.calls ++ [HostCall.moveWindowToWorkspaceSafe win dst] }
          let s3 := if sourceIdx ≥ 0 ∧ sourceIdx < s2.size then s2.updTile sourceIdx invalidateTile
                    else s2
          let s4 := if targetIdx ≥ 0 ∧ targetIdx < s3.size then s3.updTile targetIdx invalidateTile
                    else s3
          damage { s4 with workspaceListDirty := true, damageDirty := true,
                           pendingCapture := true }
    | _, _ => s1
  else if releaseIdx = -1 then close h s1
  else
    match tileAt s1.images releaseIdx with
    | none => close h s1
    | some tile =>
        match tile.pWorkspace with
        | none => close h s1
        | some ws =>
            let workspacePos := tileLocalToWorkspacePos h tile.displayBox s1.lastMousePosLocal
            let s2 := if mon.m_activeWorkspace ≠ some ws
              then { s1 with calls := s1.calls ++ [HostCall.dispatchWorkspace ws.m_id] } else s1
            let s3 := match pickWindowInWorkspace h (some ws) workspacePos with
              | some win => { s2 with calls := s2.calls ++ [HostCall.fullWindowFocus win] }
              | none => s2
            close h s3

/-- `COverview::onMouseButton`; `e` is `none` when the payload does not decode to a button
event. -/
def onMouseButton (h : Host) (s : COverview) (e : Option SButtonEvent) : COverview :=
  match h.monitor with
  | none => s
  | some mon =>
      let s0 := { s with lastMousePosLocal :=
        { x := h.mouseCoords.x - mon.m_position.x, y := h.mouseCoords.y - mon.m_position.y } }
      match e with
      | none => s0
      | some ev =>
          if ev.button ≠ BTN_LEFT then s0
          else if ev.state = 1 then onButtonPressed h mon s0
          else if ev.state ≠ 0 then s0
          else onButtonReleased h mon s0

/-- The `mouseButton` hook installed by the constructor (ignored while closing). -/
def mouseButtonHook (h : Host) (s : COverview) (e : Option SButtonEvent) : COverview :=
  if s.closing then s else onMouseButton h s e

/-! ## Workspace reconciliation (overview.cpp lines 1089-1218) -/

/-- The list `wsList` before sorting: the live workspaces of the monitor with `m_id >= 0`,
in the order of `g_pCompositor->m_workspaces`. -/
def monitorWorkspaces (h : Host) (mon : CMonitor) : List CWorkspace :=
  (h.m_workspaces.filterMap id).filter
    (fun ws => decide (ws.monitorID = mon.m_id) && decide (ws.m_id ≥ 0))

/-- The list `wsList` after `std::sort` by `m_id`. -/
def sortedWorkspaces (h : Host) (mon : CMonitor) : List CWorkspace :=
  (monitorWorkspaces h mon).insertionSort (fun a b => a.m_id ≤ b.m_id)

/-- The inner loop of the reconciliation: position of the first old tile that still holds a
workspace pointer and whose workspace has the given id. -/
def findOldTile (id : Int) : List SWorkspaceImage → Nat → Option Nat
  | [], _ => none
  | t :: ts, i =>
      match t.pWorkspace with
      | some w => if w.m_id = id then some i else findOldTile id ts (i + 1)
      | none => findOldTile id ts (i + 1)

/-- One round of the loop `for (const auto& ws : wsList)`: the state is `oldImages` (a tile
moved out of it keeps a null workspace pointer) and the new `images`. -/
def reconcileStep (acc : List SWorkspaceImage × List SWorkspaceImage) (ws : CWorkspace) :
    List SWorkspaceImage × List SWorkspaceImage :=
  match findOldTile ws.m_id acc.1 0 with
  | some i =>
      match acc.1[i]? with
      | some img =>
          let img1 := if img.pWorkspace ≠ some ws then invalidateTile img else img
          (modifyTile (fun t => { t with pWorkspace := none }) acc.1 i,
            acc.2 ++ [{ img1 with pWorkspace := some ws }])
      | none => (acc.1, acc.2 ++ [{ pWorkspace := some ws, captured := false }])
  | none => (acc.1, acc.2 ++ [{ pWorkspace := some ws, captured := false }])

/-- The rebuilt tile list. -/
def reconcile (oldImages : List SWorkspaceImage) (wsList : List CWorkspace) :
    List SWorkspaceImage :=
  (wsList.foldl reconcileStep (oldImages, [])).2

/-- The search loops of the index resolution from index `i` on: the first tile with a
workspace of the given id. -/
def findTileById (id : Int) : List SWorkspaceImage → Int → Option Int
  | [], _ => none
  | t :: ts, i =>
      match t.pWorkspace with
      | some w => if w.m_id = id then some i else findTileById id ts (i + 1)
      | none => findTileById id ts (i + 1)

/-- The index resolution of `syncWorkspaces` (lines 1163-1185). -/
def resolveIndex (mon : CMonitor) (previousCenter : Option CWorkspace)
    (images : List SWorkspaceImage) (currentIdx : Int) : Int :=
  let byCenter : Option Int :=
    match previousCenter with
    | some pc => findTileById pc.m_id images 0
    | none => none
  let byActive : Option Int :=
    match byCenter, mon.m_activeWorkspace with
    | none, some aw => findTileById aw.m_id images 0
    | r, _ => r
  match byActive with
  | some i => i
  | none => clampI currentIdx 0 ((images.length : Int) - 1)

/-- The loop restoring from the cache every tile that is neither captured nor holds a
cached image (lines 1188-1192), over the indices `i, i+1, ..., i+n-1`. -/
def restoreLoop (cfg : HorzaConfig) (h : Host) : Nat → Int → COverview → COverview
  | 0, _, s => s
  | n + 1, i, s =>
      let s1 :=
        match tileAt s.images i with
        | some t =>
            if t.captured ∨ t.cachedTex.isSome then s else (restoreTileFromCache cfg h s i).2
        | none => s
      restoreLoop cfg h n (i + 1) s1

/-- The prewarm loop (lines 1196-1202) over the indices `i, i+1, ..., i+n-1`. -/
def prewarmLoop (h : Host) : Nat → Int → COverview → COverview
  | 0, _, s => s
  | n + 1, i, s =>
      let s1 :=
        match tileAt s.images i with
        | some t =>
            if t.captured then s
            else (captureWorkspace h s i).updTile i
              (fun t => { t with captured := true, cachedTex := none })
        | none => s
      prewarmLoop h n (i + 1) s1

/-- Lines 1163-1211 of `syncWorkspaces`: index resolution, restore from the cache, prewarm
and the damage flag, run on the rebuilt (non-empty) tile list. -/
def syncRefill (cfg : HorzaConfig) (h : Host) (mon : CMonitor)
    (previousCenter : Option CWorkspace) (s1 : COverview) : COverview :=
  let s2 : COverview := { s1 with
    currentIdx := resolveIndex mon previousCenter s1.images s1.currentIdx }
  let s3 : COverview := restoreLoop cfg h s2.images.length 0 s2
  let s4 : COverview :=
    if cfg.prewarmAll then
      { prewarmLoop h s3.images.length 0 { s3 with blockOverviewRendering := true } with
        blockOverviewRendering := false, pendingCapture := false }
    else { s3 with pendingCapture := true }
  match tileAt s4.images s4.currentIdx with
  | some t => if t.cachedTex.isSome ∧ !t.captured then { s4 with damageDirty := true } else s4
  | none => s4

/-- Lines 1213-1215 of `syncWorkspaces`: the guard that clears the drag state. -/
def syncDragGuard (oldImageCount : Int) (s : COverview) : COverview :=
  if s.size ≠ oldImageCount ∨ s.dragSourceIdx ≥ s.size ∨ s.dragTargetIdx ≥ s.size
  then clearDragState s else s

/-- `COverview::syncWorkspaces`. -/
def syncWorkspaces (cfg : HorzaConfig) (h : Host) (s : COverview) : Bool × COverview :=
  let s0 := { s with workspaceListDirty := false }
  match h.monitor with
  | none => (false, s0)
  | some mon =>
      let wsList := sortedWorkspaces h mon
      if s0.images.map (fun t => t.pWorkspace) = wsList.map some then (false, s0)
      else
        let previousCenter := (tileAt s0.images s0.currentIdx).bind (fun t => t.pWorkspace)
        let oldImageCount := s0.size
        let s1 : COverview := { s0 with images := reconcile s0.images wsList }
        if s1.images = [] then (true, s1)
        else (true, syncDragGuard oldImageCount (syncRefill cfg h mon previousCenter s1))

/-- `currentIdx` is a valid tile index. -/
def ValidIdx (s : COverview) : Prop := 0 ≤ s.currentIdx ∧ s.currentIdx < s.size

/-- The state `s'` differs from `s` at most in the fields a capture or a cache restore
writes: the tiles, the two rendering flags, `damageDirty`, the cache, the clock position
and the trace. -/
def CaptureFrame (s s' : COverview) : Prop :=
  s' = { s with images := s'.images, blockOverviewRendering := s'.blockOverviewRendering,
                blockDamageReporting := s'.blockDamageReporting, damageDirty := s'.damageDirty,
                cache := s'.cache, ticks := s'.ticks, calls := s'.calls }

/-! ## Sample data for the closed statements -/

/-- Workspace number `n` of monitor 0. -/
def sampleWs (n : Nat) : CWorkspace := ⟨n, n, 0⟩

/-- A 1920x1080 monitor at the origin showing workspace `active`. -/
def sampleMonitor (active : Nat) : CMonitor :=
  ⟨0, ⟨0, 0⟩, ⟨1920, 1080⟩, ⟨1920, 1080⟩, 1, some (sampleWs active)⟩

/-- A window of workspace 2. -/
def sampleWindow : CWindow := ⟨1, true, some (sampleWs 2), ⟨500, 300, 1000, 500⟩⟩

/-- A host with the given workspaces on monitor 0, one window on workspace 2, the pointer at
`mouse`, and a clock that advances by one millisecond per reading. -/
def sampleHost (workspaces : List Nat) (active : Nat) (mouse : Vector2D) : Host :=
  { monitor := some (sampleMonitor active)
    m_workspaces := workspaces.map (fun n => some (sampleWs n))
    m_windows := [some sampleWindow]
    mouseCoords := mouse
    monitorFromCursor := some (sampleMonitor active)
    lastFocusedWindow := fun _ => none
    firstWindow := fun _ => none
    clock := fun n => 1000000 * (n + 1) }

/-- An active session over workspaces 1, 2, 3 centred on workspace 2, with the tile boxes of
the default configuration (display scale 0.7, gap 16, inactive tiles at 85 percent) on a
1920x1080 monitor. -/
def sampleSession : COverview :=
  { ready := true
    images := [{ pWorkspace := some (sampleWs 1),
                 displayBox := ⟨-4856 / 5, 2187 / 10, 5712 / 5, 3213 / 5⟩ },
               { pWorkspace := some (sampleWs 2), displayBox := ⟨288, 162, 1344, 756⟩,
                 captured := true },
               { pWorkspace := some (sampleWs 3),
                 displayBox := ⟨8744 / 5, 2187 / 10, 5712 / 5, 3213 / 5⟩ }]
    currentIdx := 1
    lastActiveWorkspaceID := 2
    m_scale := some ⟨7 / 10, 7 / 10, false⟩
    m_offsetX := some ⟨0, 0, false⟩
    m_crossOffset := some ⟨0, 0, false⟩ }

/-- The sample session in the middle of a drag that started on the tile of workspace 2 and
hovers over it. -/
def sampleDragSession : COverview :=
  { sampleSession with
    leftButtonDown := true, draggingWindow := true, dragSourceIdx := 1, dragTargetIdx := 1,
    dragWindow := some sampleWindow, dragStartPosLocal := ⟨960, 540⟩ }

/-- `COverview::reopen`. -/
def reopen (cfg : HorzaConfig) (s : COverview) : COverview :=
  if !s.closing then s
  else
    damage { s with
      closing := false
      closeStartedAt := 0
      closeAnimFinishedAt := 0
      handoffActive := false
      finalCrossfadeActive := false
      finalCrossfadeStartAlpha := 1
      finalCrossfadeStartedAt := 0
      closeDropScheduled := false
      closeOverlayAlpha := 1
      closeDropTimer := none
      m_offsetX := s.m_offsetX.map (fun a => a.assign 0)
      m_crossOffset := s.m_crossOffset.map (fun a => a.assign cfg.centerOffset)
      m_scale := s.m_scale.map (fun a => a.assign (clampDisplayScale cfg.displayScale))
      openAnimPending := false
      damageDirty := true }

/-- `COverview::closeDropPending`. -/
def closeDropPending (s : COverview) : Bool := s.closeDropScheduled

/-- The callback of the drop timer, run on `g_pOverview`: the timer cancels itself and the
session is destroyed (`none`) when a drop is pending. -/
def closeDropTimerFired (s : COverview) : Option COverview :=
  if closeDropPending s then none
  else some { s with closeDropTimer := s.closeDropTimer.map (fun _ => ⟨none⟩) }

/-! ## Layout (overview.cpp lines 2157-2227) and visibility (lines 1369-1378) -/

/-- The local `s` of `fullRender`. -/
def layoutScale (cfg : HorzaConfig) (s : COverview) : ℚ :=
  if s.transitMode then 1
  else clampQ (match s.m_scale with
      | some a => a.value
      | none => 1) (min 1 cfg.displayScale) (max 1 cfg.displayScale)

/-- The local `gap` of `fullRender`. -/
def layoutGap (cfg : HorzaConfig) (s : COverview) : ℚ :=
  if s.transitMode then 0
  else cfg.overviewGap * (layoutScale cfg s / max cfg.displayScale (1 / 10000))

/-- The local `vertical` of `fullRender`. -/
def layoutVertical (cfg : HorzaConfig) (s : COverview) : Bool :=
  if s.transitMode then false else cfg.vertical

/-- The locals `tileW` and `tileH` of `fullRender`. -/
def layoutTile (cfg : HorzaConfig) (mon : CMonitor) (s : COverview) : Vector2D :=
  { x := mon.m_size.x * layoutScale cfg s, y := mon.m_size.y * layoutScale cfg s }

/-- The local `centerOffset` of `fullRender`. -/
def layoutCenterOffset (cfg : HorzaConfig) (s : COverview) : ℚ :=
  if s.transitMode then 0
  else match s.m_crossOffset with
    | some a => a.value
    | none => cfg.centerOffset

/-- The scroll offset read by `fullRender` (`m_offsetX ? m_offsetX->value() : 0.0f`). -/
def layoutOffset (s : COverview) : ℚ :=
  match s.m_offsetX with
  | some a => a.value
  | none => 0

/-- The locals `startX`, `startY` of `fullRender`. -/
def layoutStart (cfg : HorzaConfig) (mon : CMonitor) (s : COverview) : Vector2D :=
  let t := layoutTile cfg mon s
  let c := centerTerm mon (layoutVertical cfg s) t.x t.y (layoutGap cfg s) s.currentIdx
  if !layoutVertical cfg s then
    { x := c + layoutOffset s, y := (mon.m_size.y - t.y) * (1 / 2) + layoutCenterOffset cfg s }
  else
    { x := (mon.m_size.x - t.x) * (1 / 2) + layoutCenterOffset cfg s, y := c + layoutOffset s }

/-- The locals `baseX`, `baseY` of tile `i`: its box before the inactive shrink. -/
def tileBase (cfg : HorzaConfig) (mon : CMonitor) (s : COverview) (i : Int) : Vector2D :=
  let t := layoutTile cfg mon s
  let st := layoutStart cfg mon s
  if !layoutVertical cfg s then { x := st.x + (i : ℚ) * (t.x + layoutGap cfg s), y := st.y }
  else { x := st.x, y := st.y + (i : ℚ) * (t.y + layoutGap cfg s) }

/-- The local `centerPrimary`. -/
def centerPrimary (cfg : HorzaConfig) (mon : CMonitor) (s : COverview) : ℚ :=
  if !layoutVertical cfg s then mon.m_size.x * (1 / 2) else mon.m_size.y * (1 / 2)

/-- The local `tileStep`. -/
def tileStep (cfg : HorzaConfig) (mon : CMonitor) (s : COverview) : ℚ :=
  if !layoutVertical cfg s then (layoutTile cfg mon s).x + layoutGap cfg s
  else (layoutTile cfg mon s).y + layoutGap cfg s

/-- The local `tileCenterPrimary` of tile `i`. -/
def tileCenterPrimary (cfg : HorzaConfig) (mon : CMonitor) (s : COverview) (i : Int) : ℚ :=
  if !layoutVertical cfg s then (tileBase cfg mon s i).x + (layoutTile cfg mon s).x * (1 / 2)
  else (tileBase cfg mon s i).y + (layoutTile cfg mon s).y * (1 / 2)

/-- The local `normFromCenter` of tile `i`. -/
def normFromCenter (cfg : HorzaConfig) (mon : CMonitor) (s : COverview) (i : Int) : ℚ :=
  if tileStep cfg mon s > 1 / 1000 then
    clampQ (|tileCenterPrimary cfg mon s i - centerPrimary cfg mon s| / tileStep cfg mon s) 0 1
  else 1

/-- The local `inactiveTileSizeScale`. -/
def inactiveTileSizeScale (cfg : HorzaConfig) (s : COverview) : ℚ :=
  if s.transitMode then 1 else clampQ (cfg.inactiveTileSizePercent * (1 / 100)) 0 1

/-- The local `tileScaleFactor` of tile `i`. -/
def tileScaleFactor (cfg : HorzaConfig) (mon : CMonitor) (s : COverview) (i : Int) : ℚ :=
  1 - (1 - inactiveTileSizeScale cfg s) * normFromCenter cfg mon s i

/-- The box `{x, y, drawW, drawH}` stored in `images[i].displayBox`. -/
def tileDisplayBox (cfg : HorzaConfig) (mon : CMonitor) (s : COverview) (i : Int) : CBox :=
  let t := layoutTile cfg mon s
  let b := tileBase cfg mon s i
  let f := tileScaleFactor cfg mon s i
  { x := b.x - (t.x * f - t.x) * (1 / 2), y := b.y - (t.y * f - t.y) * (1 / 2),
    w := t.x * f, h := t.y * f }

/-- The assignments `images[i].displayBox = ...` of the tile loop, from index `i` on. -/
def layoutFrom (box : Int → CBox) : List SWorkspaceImage → Int → List SWorkspaceImage
  | [], _ => []
  | t :: ts, i => { t with displayBox := box i } :: layoutFrom box ts (i + 1)

/-- The layout part of `COverview::fullRender`: the start of the opening transition and the
display box of every tile.  (Drawing, and the repair of capture flags that depends on the
framebuffers, are left out.) -/
def fullRenderLayout (cfg : HorzaConfig) (h : Host) (s : COverview) : COverview :=
  match h.monitor with
  | none => s
  | some mon =>
      if s.images = [] then s
      else
        let s1 : COverview :=
          if s.openAnimPending && !s.closing then
            { s with
              openAnimPending := false
              m_scale := s.m_scale.map (fun a => a.assign (clampDisplayScale cfg.displayScale))
              m_crossOffset := s.m_crossOffset.map (fun a => a.assign cfg.centerOffset) }
          else s
        { s1 with images := layoutFrom (tileDisplayBox cfg mon s1) s1.images 0 }

/-- `COverview::isTileOnScreen`. -/
def isTileOnScreen (h : Host) (box : CBox) : Bool :=
  match h.monitor with
  | none => false
  | some mon =>
      if box.w ≤ 1 ∨ box.h ≤ 1 then false
      else decide (box.x + box.w > 0) && decide (box.y + box.h > 0) &&
        decide (box.x < mon.m_size.x) && decide (box.y < mon.m_size.y)

/-! ## Live preview target (overview.cpp lines 1380-1408) -/

/-- Number of `steady_clock` ticks in a second. -/
def ticksPerSec : ℚ := 1000000000

/-- The loop of `pickVisibleLivePreviewWorkspace` from index `i` on; `best` is `bestIdx`
with `bestCaptureTime` (`none` is `-1`) and `minInterval` the `float` count of seconds of
`minVisibleInterval`.  The test `now - lastCaptureAt < minVisibleInterval` compares in
`duration<float, nano>`: the age is converted to `float`, the interval is the `float`
product with `1000000000`. -/
def livePreviewFrom (h : Host) (currentIdx : Int) (now : Int) (minInterval : ℚ) :
    Option (Int × Int) → List SWorkspaceImage → Int → Option (Int × Int)
  | best, [], _ => best
  | best, t :: ts, i =>
      if i = currentIdx ∨ !t.captured then livePreviewFrom h currentIdx now minInterval best ts (i + 1)
      else if !isTileOnScreen h t.displayBox then
        livePreviewFrom h currentIdx now minInterval best ts (i + 1)
      else if f32 (((now - t.lastCaptureAt : Int) : ℚ)) < f32 (minInterval * ticksPerSec) then
        livePreviewFrom h currentIdx now minInterval best ts (i + 1)
      else
        match best with
        | none => livePreviewFrom h currentIdx now minInterval (some (i, t.lastCaptureAt)) ts (i + 1)
        | some (j, bt) =>
            if t.lastCaptureAt < bt then
              livePreviewFrom h currentIdx now minInterval (some (i, t.lastCaptureAt)) ts (i + 1)
            else livePreviewFrom h currentIdx now minInterval (some (j, bt)) ts (i + 1)

/-- `COverview::pickVisibleLivePreviewWorkspace`; the interval is the `float` quotient
`1.0f / fps`. -/
def pickVisibleLivePreviewWorkspace (cfg : HorzaConfig) (h : Host) (s : COverview)
    (now : Int) : Int :=
  if s.images.length < 2 then -1
  else
    let fps := clampQ cfg.livePreviewFps 0 60
    if fps ≤ 0 then -1
    else
      match livePreviewFrom h s.currentIdx now (f32 (1 / fps)) none s.images 0 with
      | some (i, _) => i
      | none => -1

/-- The assignments at the head of `close()` (lines 2023-2034). -/
def closeBegin (h : Host) (s : COverview) : COverview :=
  { s with
    closing := true
    closeStartedAt := h.clock s.ticks
    ticks := s.ticks + 1
    closeAnimFinishedAt := 0
    handoffActive := false
    finalCrossfadeActive := false
    finalCrossfadeStartAlpha := 1
    finalCrossfadeStartedAt := 0
    closeDropScheduled := false
    closeOverlayAlpha := 1
    closeDropTimer := none }

/-- The rest of `close()` (lines 2036-2063). -/
def closeTail (s1 : COverview) : COverview :=
  match s1.m_scale, s1.m_offsetX, s1.m_crossOffset with
  | some sc, some off, some cross =>
      if s1.images = [] then scheduleCloseDrop s1
      else
        let s2 := { s1 with m_offsetX := some (off.setValueAndWarp 0) }
        if s2.transitMode then scheduleCloseDrop s2
        else { s2 with m_crossOffset := some (cross.assign 0), m_scale := some (sc.assign 1) }
  | _, _, _ => scheduleCloseDrop s1

/-- The local `centerX` (`centerY` when vertical) of `fullRender` for current index `c`. -/
def layoutCenter (cfg : HorzaConfig) (mon : CMonitor) (s : COverview) (c : Int) : ℚ :=
  centerTerm mon (layoutVertical cfg s) (layoutTile cfg mon s).x (layoutTile cfg mon s).y
    (layoutGap cfg s) c

/-- The coordinate of a point on the primary axis of the layout. -/
def primaryOf (cfg : HorzaConfig) (s : COverview) (p : Vector2D) : ℚ :=
  if !layoutVertical cfg s then p.x else p.y

/-- The extent of a tile on the primary axis (`tileW`, or `tileH` when vertical). -/
def tileSizePrimary (cfg : HorzaConfig) (mon : CMonitor) (s : COverview) : ℚ :=
  primaryOf cfg s (layoutTile cfg mon s)

/-- `clampInactiveTileSizePercent` of config.hpp, through which the loader stores
`inactive_tile_size_percent` (every rational is finite). -/
def clampInactiveTileSizePercent (v : ℚ) : ℚ := clampQ v 0 100

/-- The tiles that pass the three `continue` tests of the loop of
`pickVisibleLivePreviewWorkspace`: tile `t` at index `i` is not the current one, is captured,
is on screen, and its age, converted to `float` nanoseconds, is at least the `float`
interval of `minInterval` seconds. -/
def livePreviewEligible (h : Host) (currentIdx : Int) (now : Int) (minInterval : ℚ) (i : Int)
    (t : SWorkspaceImage) : Prop :=
  i ≠ currentIdx ∧ t.captured = true ∧ isTileOnScreen h t.displayBox = true ∧
    f32 (minInterval * ticksPerSec) ≤ f32 (((now - t.lastCaptureAt : Int)) : ℚ)

instance (h : Host) (currentIdx : Int) (now : Int) (minInterval : ℚ) (i : Int)
    (t : SWorkspaceImage) : Decidable (livePreviewEligible h currentIdx now minInterval i t) := by
  unfold livePreviewEligible
  infer_instance

/-- The state `r` has the layout inputs of `s` other than the index and the scroll offset,
and either keeps both of those or has the scroll offset of `s` warped by
`oldCenter - newCenter` for its new index, with goal 0. -/
def Recentred (cfg : HorzaConfig) (mon : CMonitor) (s r : COverview) : Prop :=
  (r.transitMode = s.transitMode ∧ r.m_scale = s.m_scale ∧ r.m_crossOffset = s.m_crossOffset) ∧
    ((r.currentIdx = s.currentIdx ∧ r.m_offsetX = s.m_offsetX) ∨
      ∃ off, s.m_offsetX = some off ∧
        r.m_offsetX = some ((off.setValueAndWarp (off.value +
          (layoutCenter cfg mon s s.currentIdx - layoutCenter cfg mon s r.currentIdx))).assign 0))

/-! ## The pre-render tick (overview.cpp lines 1053-1087, 1220-1258, 1639-1834) -/

/-- The comparison loop at the end of `needsWorkspaceSync`, run on lists of equal length:
some tile has no workspace, or a workspace whose id is not the id at its position. -/
def idsDiffer : List SWorkspaceImage → List Int → Bool
  | t :: ts, id :: ids =>
      match t.pWorkspace with
      | none => true
      | some ws => if ws.m_id ≠ id then true else idsDiffer ts ids
  | _, _ => false

/-- `COverview::needsWorkspaceSync`: at most one poll every 80 ms. -/
def needsWorkspaceSync (h : Host) (s : COverview) : Bool × COverview :=
  match h.monitor with
  | none => (false, s)
  | some mon =>
      let now := h.clock s.ticks
      let s1 : COverview := { s with ticks := s.ticks + 1 }
      if s1.nextWorkspaceSyncPollAt ≠ 0 ∧ now < s1.nextWorkspaceSyncPollAt then (false, s1)
      else
        let s2 : COverview := { s1 with nextWorkspaceSyncPollAt := now + 80 * 1000000 }
        let workspaceIDs :=
          ((monitorWorkspaces h mon).map (fun ws => ws.m_id)).insertionSort (fun a b => a ≤ b)
        if workspaceIDs.length ≠ s2.images.length then (true, s2)
        else (idsDiffer s2.images workspaceIDs, s2)

/-- `COverview::openingAnimInProgress`. -/
def openingAnimInProgress (cfg : HorzaConfig) (s : COverview) : Bool :=
  match s.m_scale with
  | none => false
  | some sc =>
      if s.closing then false
      else if s.openAnimPending then true
      else decide (|sc.value - clampDisplayScale cfg.displayScale| > 2 / 100)

/-- `COverview::closingHandoffActive`. -/
def closingHandoffActive (cfg : HorzaConfig) (s : COverview) : Bool :=
  s.closing && s.handoffActive && cfg.asyncCloseHandoff

/-- `normalizeHorzaToken` of config.hpp: lower case, and `-` replaced by `_`. -/
def normalizeHorzaToken (t : String) : String :=
  String.mk (t.data.map (fun c => if c.toLower = '-' then '_' else c.toLower))

/-- `COverview::computeCloseOverlayAlpha`. -/
def computeCloseOverlayAlpha (cfg : HorzaConfig) (s : COverview) : ℚ :=
  match s.m_scale with
  | none => 1
  | some sc =>
      if !closingHandoffActive cfg s then 1
      else
        let start := clampQ cfg.asyncCloseFadeStart 0 (999 / 1000)
        let minAlpha := clampQ cfg.asyncCloseMinAlpha 0 1
        let currentScale := clampQ sc.value start 1
        let t0 := clampQ ((currentScale - start) / max (1 / 1000) (1 - start)) 0 1
        let t := if normalizeHorzaToken cfg.asyncCloseFadeCurve = "ease_out"
          then 1 - (1 - t0) * (1 - t0) else t0
        clampQ (1 - (1 - minAlpha) * t) minAlpha 1

/-- Lines 1717-1728: the hard timeout of 900 ms after `close()`, else another frame. -/
def closingTail (now : Int) (s : COverview) : COverview :=
  if s.closeStartedAt ≠ 0 ∧ (((now - s.closeStartedAt : Int) : ℚ)) / ticksPerMs ≥ 900 then
    scheduleCloseDrop s
  else damage s

/-- Lines 1669-1677: the start of the handoff and the overlay alpha it gives. -/
def closingHandoff (cfg : HorzaConfig) (s1 : COverview) : COverview :=
  let s2 : COverview :=
    match s1.m_scale with
    | some sc =>
        if cfg.asyncCloseHandoff && !s1.handoffActive then
          if sc.value ≥ clampQ cfg.asyncCloseFadeStart 0 (999 / 1000) then
            { s1 with handoffActive := true }
          else s1
        else s1
    | none => s1
  if closingHandoffActive cfg s2 then
    { s2 with closeOverlayAlpha := computeCloseOverlayAlpha cfg s2 }
  else s2

/-- Lines 1679-1682: the end of the scale animation is noted once. -/
def closingAnimFinished (now : Int) (s3 : COverview) : COverview :=
  let scaleAnimFinished : Bool :=
    match s3.m_scale with
    | none => true
    | some sc => !sc.isBeingAnimated && decide (sc.value ≥ 995 / 1000)
  if scaleAnimFinished && decide (s3.closeAnimFinishedAt = 0) then
    { s3 with closeAnimFinishedAt := now }
  else s3

/-- Lines 1686-1709: the final crossfade; the flag is `elapsedMs >= fadeMs`. -/
def closingCrossfade (cfg : HorzaConfig) (now : Int) (s4 : COverview) : COverview × Bool :=
  let s5 : COverview :=
    if !s4.finalCrossfadeActive then
      { s4 with
        finalCrossfadeActive := true
        finalCrossfadeStartedAt := now
        finalCrossfadeStartAlpha := clampQ s4.closeOverlayAlpha 0 1 }
    else s4
  let fadeMs := max 0 cfg.closeDropDelayMs
  let elapsedMs :=
    if s5.finalCrossfadeStartedAt = 0 then fadeMs
    else (((now - s5.finalCrossfadeStartedAt : Int) : ℚ)) / ticksPerMs
  let s6 : COverview :=
    if fadeMs ≤ 0 then { s5 with closeOverlayAlpha := 0 }
    else
      let t0 := clampQ (elapsedMs / fadeMs) 0 1
      let t := 1 - (1 - t0) * (1 - t0)
      { s5 with closeOverlayAlpha := clampQ (s5.finalCrossfadeStartAlpha * (1 - t)) 0 1 }
  (s6, decide (elapsedMs ≥ fadeMs))

/-- The `if (closing) { ... }` block of `onPreRender` (lines 1665-1729). -/
def closingTick (cfg : HorzaConfig) (h : Host) (s : COverview) : COverview :=
  let now := h.clock s.ticks
  let s4 := closingAnimFinished now
    (closingHandoff cfg { s with ticks := s.ticks + 1, closeOverlayAlpha := 1 })
  if s4.closeAnimFinishedAt ≠ 0 then
    let r := closingCrossfade cfg now s4
    if r.2 then scheduleCloseDrop r.1 else closingTail now r.1
  else closingTail now s4

/-- One optional capture of a pre-render pass, kept for the statements about the scheduler:
the tile, the state in which it was chosen, the value of `optionalCapturesThisFrame` at the
budget check that admitted it, and the elapsed ticks that check read off the clock (`none`
when the time limit is disabled and no reading is made). -/
structure OptionalCapture where
  idx : Int
  before : COverview
  countBefore : Int
  elapsed : Option Int

/-- What `onPreRender` leaves behind: the session, whether the deferred reset of
`g_pOverview` was queued, the optional captures of the pending loop, whether the forced
capture ran, and the live-preview capture. -/
structure PreRenderResult where
  state : COverview
  resetLater : Bool := false
  pending : List OptionalCapture := []
  forced : Bool := false
  live : Option OptionalCapture := none

/-- The value `std::chrono::duration<float, std::milli>(d).count()` for a duration `d` of
`elapsed` nanoseconds: the `int64_t` count is converted to `float` and divided, in `float`,
by `1000000`. -/
def elapsedMsFloat (elapsed : Int) : ℚ := f32 (f32 (elapsed : ℚ) / ticksPerMs)

/-- The lambda `canDoOptionalCapture`: the verdict, the elapsed ticks it read (if it read the
clock), and the state after the reading. -/
def canDoOptionalCapture (cfg : HorzaConfig) (h : Host) (frameCaptureStart : Int)
    (optionalCapturesThisFrame : Int) (s : COverview) : Bool × Option Int × COverview :=
  if optionalCapturesThisFrame ≥ max 0 cfg.maxCapturesPerFrame then (false, none, s)
  else if max 0 cfg.captureBudgetMs ≤ 0 then (true, none, s)
  else
    (decide (elapsedMsFloat (h.clock s.ticks - frameCaptureStart) < max 0 cfg.captureBudgetMs),
      some (h.clock s.ticks - frameCaptureStart), { s with ticks := s.ticks + 1 })

/-- The `for` loop of lines 1769-1779 from index `i` on; `best` is `(nextIdx, bestDist)`. -/
def pendingFrom (h : Host) (currentIdx : Int) :
    Int × Int → List SWorkspaceImage → Int → Int × Int
  | best, [], _ => best
  | best, t :: ts, i =>
      if t.captured then pendingFrom h currentIdx best ts (i + 1)
      else if !isTileOnScreen h t.displayBox then pendingFrom h currentIdx best ts (i + 1)
      else if |i - currentIdx| < best.2 then
        pendingFrom h currentIdx (i, |i - currentIdx|) ts (i + 1)
      else pendingFrom h currentIdx best ts (i + 1)

/-- The value of `nextIdx` after the `for` loop (`bestDist` starts at `INT_MAX`). -/
def pickPending (h : Host) (s : COverview) : Int :=
  (pendingFrom h s.currentIdx (-1, 2147483647) s.images 0).1

/-- The locals of the pending-capture loop, with the list of captures made so far. -/
structure PendingState where
  s : COverview
  optionalCapturesThisFrame : Int
  capturedAny : Bool
  log : List OptionalCapture

/-- One evaluation of the `while` condition and body (lines 1766-1792); the flag tells
whether the loop goes on. -/
def pendingIter (cfg : HorzaConfig) (h : Host) (frameCaptureStart : Int) (p : PendingState) :
    PendingState × Bool :=
  let c := canDoOptionalCapture cfg h frameCaptureStart p.optionalCapturesThisFrame p.s
  if !c.1 then ({ p with s := c.2.2 }, false)
  else
    let nextIdx := pickPending h c.2.2
    let s2 : COverview := { c.2.2 with pendingCapture := decide (nextIdx ≠ -1) }
    if nextIdx = -1 then ({ p with s := s2 }, false)
    else
      ({ s := captureAndMark h s2 nextIdx
         optionalCapturesThisFrame := p.optionalCapturesThisFrame + 1
         capturedAny := true
         log := p.log ++ [⟨nextIdx, s2, p.optionalCapturesThisFrame, c.2.1⟩] }, true)

/-- The `while` loop of lines 1766-1792, for at most `fuel` evaluations of its condition
(`none` when they do not suffice). -/
def pendingLoop (cfg : HorzaConfig) (h : Host) (frameCaptureStart : Int) :
    Nat → PendingState → Option PendingState
  | 0, _ => none
  | fuel + 1, p =>
      let r := pendingIter cfg h frameCaptureStart p
      if r.2 then pendingLoop cfg h frameCaptureStart fuel r.1 else some r.1

/-- The loop of lines 1796-1802: some tile is uncaptured and on screen. -/
def hasVisibleUncaptured (h : Host) (s : COverview) : Bool :=
  s.images.any (fun t => !t.captured && isTileOnScreen h t.displayBox)

/-- Lines 1794-1833 of `onPreRender`: what follows the pending loop, whose locals are `p`. -/
def schedulerTail (cfg : HorzaConfig) (h : Host) (frameCaptureStart : Int)
    (p : PendingState) : PreRenderResult :=
  if p.capturedAny then
    { state := damage { p.s with pendingCapture := hasVisibleUncaptured h p.s }
      pending := p.log }
  else if p.s.damageDirty then
    { state := damage (captureAndMark h { p.s with damageDirty := false } p.s.currentIdx)
      pending := p.log
      forced := true }
  else if !p.s.pendingCapture && !p.s.closing then
    let c := canDoOptionalCapture cfg h frameCaptureStart p.optionalCapturesThisFrame p.s
    if c.1 then
      let now := h.clock c.2.2.ticks
      let s3 : COverview := { c.2.2 with ticks := c.2.2.ticks + 1 }
      let visibleRefreshIdx := pickVisibleLivePreviewWorkspace cfg h s3 now
      if visibleRefreshIdx ≠ -1 then
        { state := damage (captureAndMark h s3 visibleRefreshIdx)
          pending := p.log
          live := some ⟨visibleRefreshIdx, s3, p.optionalCapturesThisFrame, c.2.1⟩ }
      else { state := s3, pending := p.log }
    else { state := c.2.2, pending := p.log }
  else { state := p.s, pending := p.log }

/-- Lines 1746-1833 of `onPreRender`: the capture scheduler of an active session.  Every
iteration of the pending loop captures a tile that was uncaptured, so `images.size() + 1`
evaluations of its condition are provided (`none` if they did not suffice). -/
def schedulerPass (cfg : HorzaConfig) (h : Host) (s : COverview) : Option PreRenderResult :=
  let frameCaptureStart := h.clock s.ticks
  let s0 : COverview := { s with ticks := s.ticks + 1 }
  let p0 : PendingState := ⟨s0, 0, false, []⟩
  (if s0.pendingCapture then pendingLoop cfg h frameCaptureStart (s0.images.length + 1) p0
    else some p0).map (schedulerTail cfg h frameCaptureStart)

/-- The condition `!closing && (workspaceListDirty || needsWorkspaceSync()) &&
syncWorkspaces()` of line 1649, evaluated left to right, with the state it leaves. -/
def preRenderSync (cfg : HorzaConfig) (h : Host) (s : COverview) : Bool × COverview :=
  if s.closing then (false, s)
  else
    let need : Bool × COverview :=
      if s.workspaceListDirty then (true, s) else needsWorkspaceSync h s
    if need.1 then syncWorkspaces cfg h need.2 else (false, need.2)

/-- The test `images.empty() || currentIdx < 0 || currentIdx >= (int)images.size()`. -/
def indexInvalid (s : COverview) : Bool :=
  decide (s.images = [] ∨ s.currentIdx < 0 ∨ s.currentIdx ≥ s.size)

/-- Lines 1731-1737: follow a change of the monitor's active workspace. -/
def activeWorkspaceCheck (cfg : HorzaConfig) (h : Host) (mon : CMonitor) (s : COverview) :
    COverview :=
  let activeWSID : Int :=
    match mon.m_activeWorkspace with
    | some ws => ws.m_id
    | none => -1
  if activeWSID ≠ s.lastActiveWorkspaceID then
    let sa : COverview := { s with lastActiveWorkspaceID := activeWSID }
    if mon.m_activeWorkspace ≠ (tileAt sa.images sa.currentIdx).bind (fun t => t.pWorkspace) then
      onWorkspaceChange cfg h sa
    else sa
  else s

/-- Lines 1640-1744 of `onPreRender`: either the tick returns (`Sum.inl`), or it reaches the
capture scheduler in the given state (`Sum.inr`).  The host-side `suppressGlobalAnimations`
and frame scheduling are left out. -/
def preRenderHead (cfg : HorzaConfig) (h : Host) (s : COverview) :
    PreRenderResult ⊕ COverview :=
  match h.monitor with
  | none => Sum.inl { state := { s with passQueuedThisFrame := false } }
  | some mon =>
      let y := preRenderSync cfg h { s with passQueuedThisFrame := false }
      if y.1 then
        if indexInvalid y.2 then Sum.inl { state := y.2, resetLater := true }
        else Sum.inl { state := damage y.2 }
      else if indexInvalid y.2 then Sum.inl { state := scheduleCloseDrop y.2 }
      else if y.2.closing then Sum.inl { state := closingTick cfg h y.2 }
      else if openingAnimInProgress cfg (activeWorkspaceCheck cfg h mon y.2) then
        Sum.inl { state := activeWorkspaceCheck cfg h mon y.2 }
      else Sum.inr (activeWorkspaceCheck cfg h mon y.2)

/-- `COverview::onPreRender` (`none` only if the pending loop ran out of evaluations). -/
def onPreRender (cfg : HorzaConfig) (h : Host) (s : COverview) : Option PreRenderResult :=
  match preRenderHead cfg h s with
  | Sum.inl r => some r
  | Sum.inr s1 => schedulerPass cfg h s1

/-- The sample session with `damageDirty` and `pendingCapture` set. -/
def sampleDirtySession : COverview :=
  { sampleSession with damageDirty := true, pendingCapture := true }

/-- The sample session right after a step from tile 0 to tile 1 and before the next frame:
the tile boxes are those of the layout centred on tile 0 (so tile 2 is off screen), every
tile shows a cached image and awaits its capture, and the scroll offset runs from 1360 to
0. -/
def sampleScrolledSession : COverview :=
  { ready := true
    images := [{ pWorkspace := some (sampleWs 1), displayBox := ⟨288, 162, 1344, 756⟩,
                 cachedTex := some ⟨7, ⟨4, 3⟩⟩ },
               { pWorkspace := some (sampleWs 2),
                 displayBox := ⟨8744 / 5, 2187 / 10, 5712 / 5, 3213 / 5⟩,
                 cachedTex := some ⟨8, ⟨4, 3⟩⟩ },
               { pWorkspace := some (sampleWs 3),
                 displayBox := ⟨15544 / 5, 2187 / 10, 5712 / 5, 3213 / 5⟩,
                 cachedTex := some ⟨9, ⟨4, 3⟩⟩ }]
    currentIdx := 1
    lastActiveWorkspaceID := 2
    damageDirty := true
    pendingCapture := true
    m_scale := some ⟨7 / 10, 7 / 10, false⟩
    m_offsetX := some ⟨1360, 0, true⟩
    m_crossOffset := some ⟨0, 0, false⟩ }

/-- The tiles that pass the two `continue` tests of the pending loop: uncaptured and on
screen. -/
def pendingEligible (h : Host) (t : SWorkspaceImage) : Prop :=
  t.captured = false ∧ isTileOnScreen h t.displayBox = true

instance (h : Host) (t : SWorkspaceImage) : Decidable (pendingEligible h t) := by
  unfold pendingEligible
  infer_instance

/-- Number of tiles with `captured == false`. -/
def uncapturedCount (l : List SWorkspaceImage) : Nat :=
  (l.filter (fun t => !t.captured)).length

/-- The budget check behind a recorded optional capture passed: fewer than
`max(0, maxCapturesPerFrame)` optional captures had been made, and either the time limit is
disabled and no clock reading was made, or the elapsed time read, in `float` milliseconds,
was below `captureBudgetMs`. -/
def Admitted (cfg : HorzaConfig) (c : OptionalCapture) : Prop :=
  c.countBefore < max 0 cfg.maxCapturesPerFrame ∧
    match c.elapsed with
    | none => max 0 cfg.captureBudgetMs ≤ 0
    | some e => 0 < max 0 cfg.captureBudgetMs ∧ elapsedMsFloat e < max 0 cfg.captureBudgetMs

/-! ## Sample data and helper definitions for the later statements -/

/-- The sample session, closed when the clock read 1 ms and about to make its 901st clock
reading, with the scale animation still running. -/
def sampleClosingSession : COverview :=
  { sampleSession with
    closing := true
    closeStartedAt := 1000000
    ticks := 900
    m_scale := some ⟨8 / 10, 1, true⟩ }

/-- The local `start` of `computeCloseOverlayAlpha`. -/
def fadeStart (cfg : HorzaConfig) : ℚ := clampQ cfg.asyncCloseFadeStart 0 (999 / 1000)

/-- The local `minAlpha` of `computeCloseOverlayAlpha`. -/
def fadeMinAlpha (cfg : HorzaConfig) : ℚ := clampQ cfg.asyncCloseMinAlpha 0 1

/-- The local `t` of `computeCloseOverlayAlpha` before the curve is applied, for scale value
`v`. -/
def fadeProgress (cfg : HorzaConfig) (v : ℚ) : ℚ :=
  clampQ ((clampQ v (fadeStart cfg) 1 - fadeStart cfg) / max (1 / 1000) (1 - fadeStart cfg)) 0 1

/-- The local `t` of `computeCloseOverlayAlpha` after the curve is applied. -/
def fadeCurve (cfg : HorzaConfig) (t : ℚ) : ℚ :=
  if normalizeHorzaToken cfg.asyncCloseFadeCurve = "ease_out" then 1 - (1 - t) * (1 - t) else t

/-! ## Construction (overview.cpp lines 303-475) -/

/-- The workspaces of the tiles, in tile order. -/
def tileWorkspaces (s : COverview) : List (Option CWorkspace) :=
  s.images.map (fun t => t.pWorkspace)

/-- The workspace ids of the tiles, in tile order (`none` for a tile without a workspace). -/
def tileIds (l : List SWorkspaceImage) : List (Option Int) :=
  l.map (fun t => t.pWorkspace.map (fun w => w.m_id))

/-- The value of `currentIdx` after the constructor's loop over `wsList` from position `i`
on: every position holding `startedOn_` assigns it. -/
def startIndexFrom (startedOn : CWorkspace) : List CWorkspace → Int → Int → Int
  | [], _, cur => cur
  | w :: ws, i, cur => startIndexFrom startedOn ws (i + 1) (if w = startedOn then i else cur)

/-- The constructor's loop `for (i ...) restoreTileFromCache(i)` over the indices
`i, i+1, ..., i+n-1`. -/
def restoreAllLoop (cfg : HorzaConfig) (h : Host) : Nat → Int → COverview → COverview
  | 0, _, s => s
  | n + 1, i, s => restoreAllLoop cfg h n (i + 1) (restoreTileFromCache cfg h s i).2

/-- `COverview::captureBackground`, as far as the session state goes (the rendering goes to
the background framebuffer, a GPU object). -/
def captureBackground (h : Host) (s : COverview) : COverview :=
  match h.monitor with
  | none => s
  | some mon =>
      if mon.m_pixelSize.x ≤ 0 ∨ mon.m_pixelSize.y ≤ 0 then { s with backgroundCaptured := false }
      else { s with backgroundCaptured := true, blockDamageReporting := false }

/-- The loop of the transit branch that captures the tile of `transitDest_` (lines 375-385):
the first tile holding that workspace is captured unless it already is. -/
def transitDestCapture (h : Host) (started : CWorkspace) (transitDest : Option CWorkspace)
    (s4 : COverview) : COverview :=
  match transitDest with
  | some dest =>
      if dest ≠ started then
        match findActiveFrom (some dest) s4.images 0 with
        | some i =>
            (match tileAt s4.images i with
              | some t => if !t.captured then captureWorkspace h s4 i else s4
              | none => s4).updTile i (fun t => { t with captured := true })
        | none => s4
      else s4
  | none => s4

/-- The transit branch of the constructor (lines 363-397), run on the tiles just built. -/
def constructTransit (h : Host) (started : CWorkspace) (transitDest : Option CWorkspace)
    (s2 : COverview) : COverview :=
  let s3 : COverview :=
    { s2 with
      m_scale := s2.m_scale.map (fun a => a.setValueAndWarp 1)
      m_offsetX := s2.m_offsetX.map (fun a => a.setValueAndWarp 0)
      m_crossOffset := s2.m_crossOffset.map (fun a => a.setValueAndWarp 0)
      openAnimPending := false
      blockOverviewRendering := true }
  let s4 : COverview :=
    (captureWorkspace h s3 s3.currentIdx).updTile s3.currentIdx
      (fun t => { t with captured := true })
  let s5 : COverview := transitDestCapture h started transitDest s4
  { s5 with blockOverviewRendering := false, pendingCapture := false, ready := true }

/-- The block of the constructor that captures the starting tile unless the cache gave it
an image (lines 403-410). -/
def captureStartTile (h : Host) (s4 : COverview) : COverview :=
  match tileAt s4.images s4.currentIdx with
  | some t =>
      if t.cachedTex.isNone then
        (captureWorkspace h s4 s4.currentIdx).updTile s4.currentIdx
          (fun t => { t with captured := true })
      else if !t.captured then { s4 with damageDirty := true }
      else s4
  | none => s4

/-- The branch of the constructor for a regular overview (lines 399-475), run on the tiles
just built. -/
def constructOverview (cfg : HorzaConfig) (h : Host) (s2 : COverview) : COverview :=
  let s3 : COverview := restoreAllLoop cfg h s2.images.length 0 s2
  let s5 : COverview := captureStartTile h { s3 with blockOverviewRendering := true }
  let s6 : COverview := if cfg.hyprpaperBackground then captureBackground h s5 else s5
  let s7 : COverview := if cfg.prewarmAll then prewarmLoop h s6.images.length 0 s6 else s6
  { s7 with
    blockOverviewRendering := false
    pendingCapture := !cfg.prewarmAll
    m_scale := s7.m_scale.map (fun a => a.setValueAndWarp 1)
    openAnimPending := true
    ready := true }

/-- The constructor `COverview::COverview(startedOn_, transitMode_, transitDest_)`.  Here
`h.monitor` is the focused monitor, which the constructor stores in `pMonitor`; `cache` and
`ticks` are the process-wide cache and the number of clock readings made before the call.
An object built on an early return keeps `ready = false`. -/
def construct (cfg : HorzaConfig) (h : Host) (startedOn : Option CWorkspace)
    (transitMode_ : Bool) (transitDest : Option CWorkspace) (cache : TileCache) (ticks : Nat) :
    COverview :=
  let s0 : COverview := { transitMode := transitMode_, cache := cache, ticks := ticks }
  match h.monitor, startedOn with
  | some mon, some started =>
      let wsList := sortedWorkspaces h mon
      let s1 : COverview :=
        { s0 with
          lastActiveWorkspaceID :=
            match mon.m_activeWorkspace with
            | some aw => aw.m_id
            | none => -1
          images := wsList.map (fun ws => { pWorkspace := some ws, captured := false })
          currentIdx := startIndexFrom started wsList 0 s0.currentIdx }
      if s1.images = [] then s1
      else
        let s2 : COverview :=
          { s1 with
            workspaceListDirty := false
            nextWorkspaceSyncPollAt := h.clock s1.ticks
            ticks := s1.ticks + 1
            m_scale := some ⟨1, 1, false⟩
            m_offsetX := some ⟨0, 0, false⟩
            m_crossOffset := some ((⟨0, 0, false⟩ : AnimVar).setValueAndWarp 0) }
        if s2.transitMode then constructTransit h started transitDest s2
        else constructOverview cfg h s2
  | _, _ => s0

set_option maxRecDepth 100000

/-! ## Lemmas on the rounding functions -/

theorem bitLength_spec : ∀ (fuel n : Nat), n ≤ fuel → n ≠ 0 →
    2 ^ (bitLength fuel n - 1) ≤ n ∧ n < 2 ^ bitLength fuel n ∧ 1 ≤ bitLength fuel n := by
  intro fuel
  induction fuel with
  | zero => intro n h1 h2; omega
  | succ k ih =>
    intro n hle hne
    unfold bitLength
    rw [if_neg hne]
    by_cases h2 : n / 2 = 0
    · have h1 : n = 1 := by omega
      subst h1
      cases k with
      | zero => simp [bitLength]
      | succ k2 => simp [bitLength]
    · obtain ⟨a, b, c⟩ := ih (n / 2) (by omega) h2
      refine ⟨?_, ?_, by omega⟩
      · have : bitLength k (n / 2) + 1 - 1 = (bitLength k (n / 2) - 1) + 1 := by omega
        rw [this, pow_succ]
        omega
      · rw [pow_succ]
        omega

theorem pow2_eq (k : Int) : pow2 k = (2 : ℚ) ^ k := by
  unfold pow2
  split_ifs with h
  · obtain ⟨n, rfl⟩ := Int.eq_ofNat_of_zero_le h
    simp
  · have h2 : 0 ≤ -k := by omega
    obtain ⟨n, hn⟩ := Int.eq_ofNat_of_zero_le h2
    have hk : k = -(n : Int) := by omega
    subst hk
    simp

theorem pow2_pos (k : Int) : 0 < pow2 k := by
  rw [pow2_eq]
  positivity

theorem pow2_add (a b : Int) : pow2 (a + b) = pow2 a * pow2 b := by
  rw [pow2_eq, pow2_eq, pow2_eq, zpow_add₀ (by norm_num)]

theorem pow2_le_pow2 {a b : Int} (h : a ≤ b) : pow2 a ≤ pow2 b := by
  rw [pow2_eq, pow2_eq]
  exact zpow_le_zpow_right₀ (by norm_num) h

theorem pow2_lt_pow2_iff {a b : Int} : pow2 a < pow2 b ↔ a < b := by
  rw [pow2_eq, pow2_eq]
  exact zpow_lt_zpow_iff_right₀ (by norm_num)

theorem natCast_bits (n : Nat) (hn : n ≠ 0) :
    pow2 ((bitLength n n : Int) - 1) ≤ (n : ℚ) ∧ (n : ℚ) < pow2 (bitLength n n : Int) := by
  obtain ⟨a, b, c⟩ := bitLength_spec n n (le_refl _) hn
  constructor
  · rw [pow2_eq]
    have : ((bitLength n n : Int) - 1) = ((bitLength n n - 1 : Nat) : Int) := by omega
    rw [this, zpow_natCast]
    exact_mod_cast a
  · rw [pow2_eq, zpow_natCast]
    exact_mod_cast b

/-- The defining property of `floorLog2`. -/
theorem floorLog2_spec {a : ℚ} (ha : 0 < a) :
    pow2 (floorLog2 a) ≤ a ∧ a < pow2 (floorLog2 a + 1) := by
  have hnum : 0 < a.num := Rat.num_pos.2 ha
  have hn0 : a.num.natAbs ≠ 0 := by omega
  have hd0 : a.den ≠ 0 := a.den_nz
  obtain ⟨n1, n2⟩ := natCast_bits a.num.natAbs hn0
  obtain ⟨d1, d2⟩ := natCast_bits a.den hd0
  have hdpos : (0 : ℚ) < (a.den : ℚ) := by exact_mod_cast Nat.pos_of_ne_zero hd0
  have hcast : ((a.num.natAbs : Nat) : ℚ) = (a.num : ℚ) := by
    have : ((a.num.natAbs : Nat) : Int) = a.num := Int.natAbs_of_nonneg (le_of_lt hnum)
    rw [← Int.cast_natCast, this]
  have ha_eq : a = (a.num : ℚ) / (a.den : ℚ) := (Rat.num_div_den a).symm
  rw [hcast] at n1 n2
  -- a * den = num
  have hmul : a * (a.den : ℚ) = (a.num : ℚ) := Rat.mul_den_eq_num a
  unfold floorLog2
  split_ifs with hk
  · refine ⟨hk, ?_⟩
    -- a < 2^(bn - bd + 1)
    have h1 : (a.num : ℚ) < pow2 ((bitLength a.num.natAbs a.num.natAbs : Int) -
        (bitLength a.den a.den : Int) + 1) * (a.den : ℚ) := by
      have e : pow2 (bitLength a.num.natAbs a.num.natAbs : Int) =
          pow2 ((bitLength a.num.natAbs a.num.natAbs : Int) - (bitLength a.den a.den : Int) + 1) *
            pow2 ((bitLength a.den a.den : Int) - 1) := by
        rw [← pow2_add]
        congr 1
        ring
      calc (a.num : ℚ) < pow2 (bitLength a.num.natAbs a.num.natAbs : Int) := n2
        _ = _ := e
        _ ≤ _ := by
            apply mul_le_mul_of_nonneg_left d1 (le_of_lt (pow2_pos _))
    rw [← hmul] at h1
    exact lt_of_mul_lt_mul_right h1 (le_of_lt hdpos)
  · constructor
    · -- 2^(k-1) ≤ a
      have h1 : pow2 ((bitLength a.num.natAbs a.num.natAbs : Int) -
          (bitLength a.den a.den : Int) - 1) * (a.den : ℚ) ≤ (a.num : ℚ) := by
        have e : pow2 ((bitLength a.num.natAbs a.num.natAbs : Int) - 1) =
            pow2 ((bitLength a.num.natAbs a.num.natAbs : Int) - (bitLength a.den a.den : Int) - 1) *
              pow2 (bitLength a.den a.den : Int) := by
          rw [← pow2_add]
          congr 1
          ring
        calc _ ≤ pow2 ((bitLength a.num.natAbs a.num.natAbs : Int) -
              (bitLength a.den a.den : Int) - 1) * pow2 (bitLength a.den a.den : Int) := by
                apply mul_le_mul_of_nonneg_left (le_of_lt d2) (le_of_lt (pow2_pos _))
          _ = _ := e.symm
          _ ≤ _ := n1
      rw [← hmul] at h1
      exact le_of_mul_le_mul_right h1 hdpos
    · have : (bitLength a.num.natAbs a.num.natAbs : Int) - (bitLength a.den a.den : Int) - 1 + 1 =
          (bitLength a.num.natAbs a.num.natAbs : Int) - (bitLength a.den a.den : Int) := by ring
      rw [this]
      exact not_le.1 hk

theorem floorLog2_unique {a : ℚ} {e : Int} (h1 : pow2 e ≤ a) (h2 : a < pow2 (e + 1)) :
    floorLog2 a = e := by
  have ha : 0 < a := lt_of_lt_of_le (pow2_pos e) h1
  obtain ⟨s1, s2⟩ := floorLog2_spec ha
  have a1 : e < floorLog2 a + 1 := pow2_lt_pow2_iff.1 (lt_of_le_of_lt h1 s2)
  have a2 : floorLog2 a < e + 1 := pow2_lt_pow2_iff.1 (lt_of_le_of_lt s1 h2)
  omega

theorem floorLog2_mono {a b : ℚ} (ha : 0 < a) (hab : a ≤ b) : floorLog2 a ≤ floorLog2 b := by
  obtain ⟨s1, _⟩ := floorLog2_spec ha
  obtain ⟨_, t2⟩ := floorLog2_spec (lt_of_lt_of_le ha hab)
  have := pow2_lt_pow2_iff.1 (lt_of_le_of_lt (le_trans s1 hab) t2)
  omega


theorem roundHalfEven_bounds (q : ℚ) : ⌊q⌋ ≤ roundHalfEven q ∧ roundHalfEven q ≤ ⌊q⌋ + 1 := by
  unfold roundHalfEven
  split_ifs <;> constructor <;> omega

theorem roundHalfEven_intCast (n : Int) : roundHalfEven (n : ℚ) = n := by
  unfold roundHalfEven
  rw [Int.floor_intCast]
  simp

theorem roundHalfEven_mono {q r : ℚ} (h : q ≤ r) : roundHalfEven q ≤ roundHalfEven r := by
  have hfl : ⌊q⌋ ≤ ⌊r⌋ := Int.floor_mono h
  rcases lt_or_eq_of_le hfl with hlt | heq
  · have := (roundHalfEven_bounds q).2
    have := (roundHalfEven_bounds r).1
    omega
  · unfold roundHalfEven
    rw [← heq]
    split_ifs <;> first
      | omega
      | (exfalso; linarith)

/-- The rounded value is within half a unit of the argument. -/
theorem roundHalfEven_near (q : ℚ) : |(roundHalfEven q : ℚ) - q| ≤ 1 / 2 := by
  have h1 := Int.floor_le q
  have h2 := Int.lt_floor_add_one q
  unfold roundHalfEven
  rw [abs_le]
  split_ifs with a b c
  · constructor <;> linarith
  · push_cast
    constructor <;> linarith
  · constructor <;> linarith
  · push_cast
    constructor <;> linarith

theorem ulpAt_pos (prec : Nat) (emin : Int) (a : ℚ) : 0 < ulpAt prec emin a := pow2_pos _

theorem pow2_natCast (n : Nat) : pow2 (n : Int) = (((2 ^ n : Nat) : Int) : ℚ) := by
  rw [pow2_eq, zpow_natCast]
  push_cast
  rfl

/-- Upper bound of a rounded positive value: the next power of two. -/
theorem roundFloat_le_pow2 (prec : Nat) (emin : Int) {x : ℚ} (hx : 0 < x) :
    (roundHalfEven (x / ulpAt prec emin x) : ℚ) * ulpAt prec emin x ≤
      pow2 (max (floorLog2 x) emin + 1) := by
  have hu := ulpAt_pos prec emin x
  have hlt : x < pow2 (max (floorLog2 x) emin + 1) :=
    lt_of_lt_of_le (floorLog2_spec hx).2 (pow2_le_pow2 (by omega))
  have e : pow2 (max (floorLog2 x) emin + 1) = pow2 (prec : Int) * ulpAt prec emin x := by
    unfold ulpAt
    rw [← pow2_add]
    congr 1
    ring
  rw [e]
  apply mul_le_mul_of_nonneg_right _ (le_of_lt hu)
  rw [pow2_natCast]
  have hq : x / ulpAt prec emin x ≤ (((2 ^ prec : Nat) : Int) : ℚ) := by
    rw [div_le_iff₀ hu, ← pow2_natCast, ← e]
    exact le_of_lt hlt
  have := roundHalfEven_mono hq
  rw [roundHalfEven_intCast] at this
  exact_mod_cast this

/-- Lower bound of a rounded normal value: the power of two below it. -/
theorem pow2_le_roundFloat (prec : Nat) (emin : Int) (hp : 1 ≤ prec) {x : ℚ} (hx : 0 < x)
    (hn : emin ≤ floorLog2 x) :
    pow2 (floorLog2 x) ≤ (roundHalfEven (x / ulpAt prec emin x) : ℚ) * ulpAt prec emin x := by
  have hu := ulpAt_pos prec emin x
  have hmax : max (floorLog2 x) emin = floorLog2 x := max_eq_left hn
  have e : pow2 (floorLog2 x) = pow2 ((prec - 1 : Nat) : Int) * ulpAt prec emin x := by
    unfold ulpAt
    rw [← pow2_add, hmax]
    congr 1
    have : ((prec - 1 : Nat) : Int) = (prec : Int) - 1 := by omega
    rw [this]
    ring
  rw [e]
  apply mul_le_mul_of_nonneg_right _ (le_of_lt hu)
  rw [pow2_natCast]
  have hq : (((2 ^ (prec - 1) : Nat) : Int) : ℚ) ≤ x / ulpAt prec emin x := by
    rw [le_div_iff₀ hu, ← pow2_natCast, ← e]
    exact (floorLog2_spec hx).1
  have := roundHalfEven_mono hq
  rw [roundHalfEven_intCast] at this
  exact_mod_cast this

theorem roundFloat_pos_mono (prec : Nat) (emin : Int) (hp : 1 ≤ prec) {x y : ℚ} (hx : 0 < x)
    (hxy : x ≤ y) :
    (roundHalfEven (x / ulpAt prec emin x) : ℚ) * ulpAt prec emin x ≤
      (roundHalfEven (y / ulpAt prec emin y) : ℚ) * ulpAt prec emin y := by
  have hy : 0 < y := lt_of_lt_of_le hx hxy
  have hlog := floorLog2_mono hx hxy
  have hemax : max (floorLog2 x) emin ≤ max (floorLog2 y) emin := max_le_max hlog (le_refl _)
  rcases lt_or_eq_of_le hemax with hlt | heq
  · have hn : emin ≤ floorLog2 y := by
      by_contra hcon
      have : max (floorLog2 y) emin = emin := max_eq_right (by omega)
      rw [this] at hlt
      have := le_max_right (floorLog2 x) emin
      omega
    have hmy : max (floorLog2 y) emin = floorLog2 y := max_eq_left hn
    calc _ ≤ pow2 (max (floorLog2 x) emin + 1) := roundFloat_le_pow2 prec emin hx
      _ ≤ pow2 (floorLog2 y) := pow2_le_pow2 (by omega)
      _ ≤ _ := pow2_le_roundFloat prec emin hp hy hn
  · have hu : ulpAt prec emin x = ulpAt prec emin y := by
      unfold ulpAt
      rw [heq]
    rw [hu]
    apply mul_le_mul_of_nonneg_right _ (le_of_lt (ulpAt_pos prec emin y))
    have : x / ulpAt prec emin y ≤ y / ulpAt prec emin y :=
      div_le_div_of_nonneg_right hxy (le_of_lt (ulpAt_pos prec emin y))
    exact_mod_cast roundHalfEven_mono this

theorem roundFloat_of_pos (prec : Nat) (emin : Int) {x : ℚ} (hx : 0 < x) :
    roundFloat prec emin x =
      (roundHalfEven (x / ulpAt prec emin x) : ℚ) * ulpAt prec emin x := by
  unfold roundFloat
  rw [if_neg (ne_of_gt hx), if_neg (not_lt.2 (le_of_lt hx)), abs_of_pos hx]

theorem roundFloat_neg (prec : Nat) (emin : Int) (x : ℚ) :
    roundFloat prec emin (-x) = -roundFloat prec emin x := by
  rcases lt_trichotomy x 0 with h | h | h
  · have h2 : 0 < -x := by linarith
    rw [roundFloat_of_pos prec emin h2]
    unfold roundFloat
    rw [if_neg (ne_of_lt h), if_pos h, abs_of_neg h]
    ring
  · subst h
    simp [roundFloat]
  · have h2 : -x < 0 := by linarith
    rw [roundFloat_of_pos prec emin h]
    unfold roundFloat
    rw [if_neg (ne_of_lt h2), if_pos h2, abs_neg, abs_of_pos h]

theorem roundFloat_nonneg (prec : Nat) (emin : Int) {x : ℚ} (hx : 0 ≤ x) :
    0 ≤ roundFloat prec emin x := by
  rcases eq_or_lt_of_le hx with h | h
  · subst h
    simp [roundFloat]
  · rw [roundFloat_of_pos prec emin h]
    apply mul_nonneg _ (le_of_lt (ulpAt_pos prec emin x))
    have h1 : (0 : ℚ) ≤ x / ulpAt prec emin x := div_nonneg hx (le_of_lt (ulpAt_pos prec emin x))
    have := roundHalfEven_mono h1
    have e0 : roundHalfEven ((0 : Int) : ℚ) = 0 := roundHalfEven_intCast 0
    rw [Int.cast_zero] at e0
    rw [e0] at this
    exact_mod_cast this

/-- Rounding is monotone. -/
theorem roundFloat_mono (prec : Nat) (emin : Int) (hp : 1 ≤ prec) {x y : ℚ} (hxy : x ≤ y) :
    roundFloat prec emin x ≤ roundFloat prec emin y := by
  rcases lt_trichotomy 0 x with hx | hx | hx
  · rw [roundFloat_of_pos prec emin hx, roundFloat_of_pos prec emin (lt_of_lt_of_le hx hxy)]
    exact roundFloat_pos_mono prec emin hp hx hxy
  · subst hx
    have : roundFloat prec emin 0 = 0 := by simp [roundFloat]
    rw [this]
    exact roundFloat_nonneg prec emin hxy
  · rcases lt_or_le y 0 with hy | hy
    · have h1 : 0 < -y := by linarith
      have h2 : -y ≤ -x := by linarith
      have := roundFloat_pos_mono prec emin hp h1 h2
      rw [← roundFloat_of_pos prec emin h1, ← roundFloat_of_pos prec emin (by linarith),
        roundFloat_neg, roundFloat_neg] at this
      linarith
    · have h1 : roundFloat prec emin x ≤ 0 := by
        have := roundFloat_nonneg prec emin (x := -x) (by linarith)
        rw [roundFloat_neg] at this
        linarith
      exact le_trans h1 (roundFloat_nonneg prec emin hy)

theorem f32_mono {x y : ℚ} (h : x ≤ y) : f32 x ≤ f32 y := roundFloat_mono 24 (-126) (by decide) h

theorem f64_mono {x y : ℚ} (h : x ≤ y) : f64 x ≤ f64 y := roundFloat_mono 53 (-1022) (by decide) h


theorem isqrtBits_spec (n : Nat) : ∀ (k r : Nat), r * r ≤ n → n < (r + 2 ^ k) * (r + 2 ^ k) →
    isqrtBits n k r * isqrtBits n k r ≤ n ∧
      n < (isqrtBits n k r + 1) * (isqrtBits n k r + 1) := by
  intro k
  induction k with
  | zero =>
    intro r h1 h2
    simpa [isqrtBits] using ⟨h1, h2⟩
  | succ j ih =>
    intro r h1 h2
    unfold isqrtBits
    split_ifs with hc
    · apply ih _ hc
      have : r + 2 ^ j + 2 ^ j = r + 2 ^ (j + 1) := by rw [pow_succ]; omega
      rw [this]
      exact h2
    · exact ih _ h1 (not_le.1 hc)

/-- The defining property of the integer square root. -/
theorem isqrt_spec (n : Nat) : isqrt n * isqrt n ≤ n ∧ n < (isqrt n + 1) * (isqrt n + 1) := by
  unfold isqrt
  apply isqrtBits_spec n _ 0 (by simp)
  by_cases hn : n = 0
  · subst hn
    simp [bitLength]
  · obtain ⟨_, b, _⟩ := bitLength_spec n n (le_refl _) hn
    have h1 : 1 ≤ 2 ^ bitLength n n := Nat.one_le_two_pow
    calc n < 2 ^ bitLength n n := b
      _ = 2 ^ bitLength n n * 1 := by ring
      _ ≤ 2 ^ bitLength n n * 2 ^ bitLength n n := Nat.mul_le_mul_left _ h1
      _ = (0 + 2 ^ bitLength n n) * (0 + 2 ^ bitLength n n) := by ring

theorem le_isqrt {a n : Nat} (h : a * a ≤ n) : a ≤ isqrt n := by
  by_contra hcon
  have h1 : isqrt n + 1 ≤ a := by omega
  have := (isqrt_spec n).2
  have : (isqrt n + 1) * (isqrt n + 1) ≤ a * a := Nat.mul_le_mul h1 h1
  omega

theorem isqrt_lt {b n : Nat} (h : n < b * b) : isqrt n < b := by
  by_contra hcon
  have h1 : b ≤ isqrt n := by omega
  have := (isqrt_spec n).1
  have : b * b ≤ isqrt n * isqrt n := Nat.mul_le_mul h1 h1
  omega

theorem isqrt_mono {m n : Nat} (h : m ≤ n) : isqrt m ≤ isqrt n :=
  le_isqrt (le_trans (isqrt_spec m).1 h)

/-- With `n = floor(sqrt m)`: `n^2 <= m < (n + 1)^2`. -/
theorem isqrt_floor_spec {m : ℚ} (hm : 0 ≤ m) :
    ((isqrt ⌊m⌋.toNat : Int) : ℚ) * (isqrt ⌊m⌋.toNat : Int) ≤ m ∧
      m < (((isqrt ⌊m⌋.toNat : Int) : ℚ) + 1) * (((isqrt ⌊m⌋.toNat : Int) : ℚ) + 1) := by
  have hf0 : 0 ≤ ⌊m⌋ := Int.floor_nonneg.2 hm
  have hto : ((⌊m⌋.toNat : Nat) : Int) = ⌊m⌋ := Int.toNat_of_nonneg hf0
  obtain ⟨a, b⟩ := isqrt_spec ⌊m⌋.toNat
  constructor
  · have h1 : ((isqrt ⌊m⌋.toNat * isqrt ⌊m⌋.toNat : Nat) : Int) ≤ ⌊m⌋ := by
      rw [← hto]
      exact_mod_cast a
    have h2 : ((⌊m⌋ : Int) : ℚ) ≤ m := Int.floor_le m
    have h3 : (((isqrt ⌊m⌋.toNat * isqrt ⌊m⌋.toNat : Nat) : Int) : ℚ) ≤ ((⌊m⌋ : Int) : ℚ) := by
      exact_mod_cast h1
    push_cast at h3
    push_cast
    linarith
  · have h1 : ⌊m⌋ + 1 ≤ (((isqrt ⌊m⌋.toNat + 1) * (isqrt ⌊m⌋.toNat + 1) : Nat) : Int) := by
      rw [← hto]
      exact_mod_cast b
    have h2 : m < ((⌊m⌋ : Int) : ℚ) + 1 := Int.lt_floor_add_one m
    have h3 : ((⌊m⌋ + 1 : Int) : ℚ) ≤
        ((((isqrt ⌊m⌋.toNat + 1) * (isqrt ⌊m⌋.toNat + 1) : Nat) : Int) : ℚ) := by
      exact_mod_cast h1
    push_cast at h3
    push_cast
    linarith

theorem roundSqrtInt_bounds (m : ℚ) :
    (isqrt ⌊m⌋.toNat : Int) ≤ roundSqrtInt m ∧ roundSqrtInt m ≤ (isqrt ⌊m⌋.toNat : Int) + 1 := by
  unfold roundSqrtInt
  split_ifs <;> constructor <;> omega

theorem roundSqrtInt_mono {m r : ℚ} (h : m ≤ r) :
    roundSqrtInt m ≤ roundSqrtInt r := by
  have hfl : ⌊m⌋.toNat ≤ ⌊r⌋.toNat := Int.toNat_le_toNat (Int.floor_mono h)
  have hs : isqrt ⌊m⌋.toNat ≤ isqrt ⌊r⌋.toNat := isqrt_mono hfl
  rcases lt_or_eq_of_le hs with hlt | heq
  · have := (roundSqrtInt_bounds m).2
    have := (roundSqrtInt_bounds r).1
    omega
  · unfold roundSqrtInt
    rw [← heq]
    split_ifs <;> first
      | omega
      | (exfalso; linarith)

/-- A square below `m` bounds the rounded root from below. -/
theorem le_roundSqrtInt {a : Nat} {m : ℚ} (h : ((a : ℚ)) * a ≤ m) :
    (a : Int) ≤ roundSqrtInt m := by
  have hm : 0 ≤ m := le_trans (mul_self_nonneg _) h
  have hf0 : 0 ≤ ⌊m⌋ := Int.floor_nonneg.2 hm
  have h1 : ((a * a : Nat) : Int) ≤ ⌊m⌋ := by
    apply Int.le_floor.2
    push_cast
    exact h
  have h2 : a * a ≤ ⌊m⌋.toNat := by
    have := Int.toNat_of_nonneg hf0
    omega
  have := le_isqrt h2
  have := (roundSqrtInt_bounds m).1
  omega

/-- A square above `m` bounds the rounded root from above. -/
theorem roundSqrtInt_le {b : Nat} {m : ℚ} (hm : 0 ≤ m) (h : m < ((b : ℚ)) * b) :
    roundSqrtInt m ≤ (b : Int) := by
  have hf0 : 0 ≤ ⌊m⌋ := Int.floor_nonneg.2 hm
  have h1 : ⌊m⌋ < ((b * b : Nat) : Int) := by
    apply Int.floor_lt.2
    push_cast
    exact h
  have h2 : ⌊m⌋.toNat < b * b := by
    have := Int.toNat_of_nonneg hf0
    omega
  have := isqrt_lt h2
  have := (roundSqrtInt_bounds m).2
  omega

theorem pow2_natCast_nat (n : Nat) : pow2 (n : Int) = ((2 ^ n : Nat) : ℚ) := by
  rw [pow2_natCast]
  push_cast
  rfl

theorem ulpSqrt_pos (prec : Nat) (emin : Int) (q : ℚ) : 0 < ulpSqrt prec emin q := pow2_pos _

theorem roundSqrt_of_pos (prec : Nat) (emin : Int) {q : ℚ} (hq : 0 < q) :
    roundSqrt prec emin q =
      (roundSqrtInt (q / (ulpSqrt prec emin q * ulpSqrt prec emin q)) : ℚ) *
        ulpSqrt prec emin q := by
  unfold roundSqrt
  rw [if_neg (not_le.2 hq)]

theorem roundSqrt_le_pow2 (prec : Nat) (emin : Int) {q : ℚ} (hq : 0 < q) :
    roundSqrt prec emin q ≤ pow2 (max (floorLog2 q / 2) emin + 1) := by
  have hu := ulpSqrt_pos prec emin q
  rw [roundSqrt_of_pos prec emin hq]
  have e : pow2 (max (floorLog2 q / 2) emin + 1) = pow2 (prec : Int) * ulpSqrt prec emin q := by
    unfold ulpSqrt
    rw [← pow2_add]
    congr 1
    ring
  rw [e]
  apply mul_le_mul_of_nonneg_right _ (le_of_lt hu)
  rw [pow2_natCast]
  have hlog : floorLog2 q + 1 ≤ 2 * (max (floorLog2 q / 2) emin + 1) := by
    have h1 := Int.ediv_add_emod (floorLog2 q) 2
    have h2 := Int.emod_lt_of_pos (floorLog2 q) (show (0 : Int) < 2 by decide)
    have h3 := le_max_left (floorLog2 q / 2) emin
    omega
  have hlt : q < pow2 (2 * (max (floorLog2 q / 2) emin + 1)) :=
    lt_of_lt_of_le (floorLog2_spec hq).2 (pow2_le_pow2 hlog)
  have e2 : pow2 (2 * (max (floorLog2 q / 2) emin + 1)) =
      (((2 ^ prec : Nat) : ℚ) * ((2 ^ prec : Nat) : ℚ)) *
        (ulpSqrt prec emin q * ulpSqrt prec emin q) := by
    rw [← pow2_natCast_nat]
    unfold ulpSqrt
    rw [← pow2_add, ← pow2_add, ← pow2_add]
    congr 1
    ring
  have hm : q / (ulpSqrt prec emin q * ulpSqrt prec emin q) <
      ((2 ^ prec : Nat) : ℚ) * ((2 ^ prec : Nat) : ℚ) := by
    rw [div_lt_iff₀ (mul_pos hu hu), ← e2]
    exact hlt
  have := roundSqrtInt_le (div_nonneg (le_of_lt hq) (le_of_lt (mul_pos hu hu))) hm
  exact_mod_cast this

theorem pow2_le_roundSqrt (prec : Nat) (emin : Int) (hp : 1 ≤ prec) {q : ℚ} (hq : 0 < q)
    (hn : emin ≤ floorLog2 q / 2) : pow2 (floorLog2 q / 2) ≤ roundSqrt prec emin q := by
  have hu := ulpSqrt_pos prec emin q
  have hmax : max (floorLog2 q / 2) emin = floorLog2 q / 2 := max_eq_left hn
  rw [roundSqrt_of_pos prec emin hq]
  have hp1 : ((prec - 1 : Nat) : Int) = (prec : Int) - 1 := by omega
  have e : pow2 (floorLog2 q / 2) = pow2 ((prec - 1 : Nat) : Int) * ulpSqrt prec emin q := by
    unfold ulpSqrt
    rw [← pow2_add, hmax, hp1]
    congr 1
    ring
  rw [e]
  apply mul_le_mul_of_nonneg_right _ (le_of_lt hu)
  rw [pow2_natCast]
  have hlog : 2 * (floorLog2 q / 2) ≤ floorLog2 q := by
    have h1 := Int.ediv_add_emod (floorLog2 q) 2
    have h2 := Int.emod_nonneg (floorLog2 q) (show (2 : Int) ≠ 0 by decide)
    omega
  have hle : pow2 (2 * (floorLog2 q / 2)) ≤ q :=
    le_trans (pow2_le_pow2 hlog) (floorLog2_spec hq).1
  have e2 : pow2 (2 * (floorLog2 q / 2)) =
      (((2 ^ (prec - 1) : Nat) : ℚ) * ((2 ^ (prec - 1) : Nat) : ℚ)) *
        (ulpSqrt prec emin q * ulpSqrt prec emin q) := by
    rw [← pow2_natCast_nat]
    unfold ulpSqrt
    rw [← pow2_add, ← pow2_add, ← pow2_add, hmax, hp1]
    congr 1
    ring
  have hm : ((2 ^ (prec - 1) : Nat) : ℚ) * ((2 ^ (prec - 1) : Nat) : ℚ) ≤
      q / (ulpSqrt prec emin q * ulpSqrt prec emin q) := by
    rw [le_div_iff₀ (mul_pos hu hu), ← e2]
    exact hle
  have := le_roundSqrtInt hm
  exact_mod_cast this

theorem roundSqrt_nonneg (prec : Nat) (emin : Int) (q : ℚ) : 0 ≤ roundSqrt prec emin q := by
  rcases le_or_lt q 0 with h | h
  · unfold roundSqrt
    rw [if_pos h]
  · rw [roundSqrt_of_pos prec emin h]
    have hu := ulpSqrt_pos prec emin q
    apply mul_nonneg _ (le_of_lt hu)
    have h0 : ((0 : Nat) : ℚ) * (0 : Nat) ≤ q / (ulpSqrt prec emin q * ulpSqrt prec emin q) := by
      simp only [Nat.cast_zero, mul_zero]
      exact div_nonneg (le_of_lt h) (le_of_lt (mul_pos hu hu))
    have := le_roundSqrtInt h0
    exact_mod_cast this

/-- The rounded square root is monotone. -/
theorem roundSqrt_mono (prec : Nat) (emin : Int) (hp : 1 ≤ prec) {q r : ℚ} (h : q ≤ r) :
    roundSqrt prec emin q ≤ roundSqrt prec emin r := by
  rcases le_or_lt q 0 with hq | hq
  · have : roundSqrt prec emin q = 0 := by unfold roundSqrt; rw [if_pos hq]
    rw [this]
    exact roundSqrt_nonneg prec emin r
  · have hr : 0 < r := lt_of_lt_of_le hq h
    have hlog : floorLog2 q / 2 ≤ floorLog2 r / 2 :=
      Int.ediv_le_ediv (by decide) (floorLog2_mono hq h)
    have hemax : max (floorLog2 q / 2) emin ≤ max (floorLog2 r / 2) emin :=
      max_le_max hlog (le_refl _)
    rcases lt_or_eq_of_le hemax with hlt | heq
    · have hn : emin ≤ floorLog2 r / 2 := by
        by_contra hcon
        have : max (floorLog2 r / 2) emin = emin := max_eq_right (by omega)
        rw [this] at hlt
        have := le_max_right (floorLog2 q / 2) emin
        omega
      have hmr : max (floorLog2 r / 2) emin = floorLog2 r / 2 := max_eq_left hn
      calc _ ≤ pow2 (max (floorLog2 q / 2) emin + 1) := roundSqrt_le_pow2 prec emin hq
        _ ≤ pow2 (floorLog2 r / 2) := pow2_le_pow2 (by omega)
        _ ≤ _ := pow2_le_roundSqrt prec emin hp hr hn
    · have hu : ulpSqrt prec emin q = ulpSqrt prec emin r := by
        unfold ulpSqrt
        rw [heq]
      rw [roundSqrt_of_pos prec emin hq, roundSqrt_of_pos prec emin hr, hu]
      have hup := ulpSqrt_pos prec emin r
      apply mul_le_mul_of_nonneg_right _ (le_of_lt hup)
      have h1 : q / (ulpSqrt prec emin r * ulpSqrt prec emin r) ≤
          r / (ulpSqrt prec emin r * ulpSqrt prec emin r) :=
        div_le_div_of_nonneg_right h (le_of_lt (mul_pos hup hup))
      exact_mod_cast roundSqrtInt_mono h1

theorem hypotD_mono {dx dy ex ey : ℚ} (h : dx * dx + dy * dy ≤ ex * ex + ey * ey) :
    hypotD dx dy ≤ hypotD ex ey := roundSqrt_mono 53 (-1022) (by decide) h


theorem oldestFrom_inv (rest : TileCache) :
    ∀ (pre : TileCache) (best : Option (Nat × Int)), OldestInv pre best →
      OldestInv (pre ++ rest) (oldestFrom best pre.length rest) := by
  induction rest with
  | nil => intro pre best h; cases best <;> simpa [oldestFrom] using h
  | cons p rest ih =>
    intro pre best h
    have hlen : (pre ++ [p]).length = pre.length + 1 := by simp
    have happ : pre ++ p :: rest = (pre ++ [p]) ++ rest := by simp
    cases best with
    | none =>
      have hpre : pre = [] := h
      subst hpre
      have := ih ([] ++ [p]) (some (0, p.2.cachedAt)) (by simp [OldestInv])
      simpa [oldestFrom] using this
    | some jt =>
      obtain ⟨j, t⟩ := jt
      obtain ⟨⟨q, hq, hqt⟩, hall⟩ := h
      have hj : j < pre.length := by
        by_contra hcon
        have hle : pre.length ≤ j := by omega
        rw [List.getElem?_eq_none hle] at hq
        exact absurd hq (by simp)
      by_cases hlt : p.2.cachedAt < t
      · have := ih (pre ++ [p]) (some (pre.length, p.2.cachedAt)) (by
          refine ⟨⟨p, by simp, rfl⟩, ?_⟩
          intro r hr
          rcases List.mem_append.1 hr with hr | hr
          · have := hall r hr; omega
          · simp at hr; subst hr; exact le_refl _)
        rw [hlen] at this
        rw [happ]
        simpa [oldestFrom, hlt] using this
      · have := ih (pre ++ [p]) (some (j, t)) (by
          refine ⟨⟨q, by rw [List.getElem?_append_left hj]; exact hq, hqt⟩, ?_⟩
          intro r hr
          rcases List.mem_append.1 hr with hr | hr
          · exact hall r hr
          · simp at hr; subst hr; omega)
        rw [hlen] at this
        rw [happ]
        simpa [oldestFrom, hlt] using this

theorem findOldest_eq_none {m : TileCache} (h : findOldest m = none) : m = [] := by
  have := oldestFrom_inv m [] none rfl
  simp only [findOldest, Option.map_eq_none'] at h
  simp only [List.nil_append, List.length_nil] at this
  rw [h] at this
  exact this

theorem findOldest_eq_some {m : TileCache} {i : Nat} (h : findOldest m = some i) :
    ∃ p, m[i]? = some p ∧ ∀ q ∈ m, p.2.cachedAt ≤ q.2.cachedAt := by
  have := oldestFrom_inv m [] none rfl
  simp only [List.nil_append, List.length_nil] at this
  simp only [findOldest, Option.map_eq_some'] at h
  obtain ⟨⟨j, t⟩, hjt, hji⟩ := h
  rw [hjt] at this
  obtain ⟨⟨p, hp, hpt⟩, hall⟩ := this
  simp only at hji
  subst hji
  exact ⟨p, hp, fun q hq => by rw [hpt]; exact hall q hq⟩


theorem trimToMax_sublist (M : Int) : ∀ (fuel : Nat) (m : TileCache), List.Sublist (trimToMax M fuel m) m := by
  intro fuel
  induction fuel with
  | zero => intro m; simp [trimToMax]
  | succ n ih =>
    intro m
    unfold trimToMax
    split_ifs with h
    · cases hf : findOldest m with
      | none => simp
      | some i => simpa using (ih (m.eraseIdx i)).trans (List.eraseIdx_sublist m i)
    · exact List.Sublist.refl m

theorem trimToMax_of_le (M : Int) (fuel : Nat) (m : TileCache) (h : (m.length : Int) ≤ M) :
    trimToMax M fuel m = m := by
  cases fuel with
  | zero => rfl
  | succ n => simp [trimToMax, not_lt.2 h]

theorem trimToMax_length_le (M : Int) (hM : 0 ≤ M) :
    ∀ (fuel : Nat) (m : TileCache), m.length ≤ fuel → ((trimToMax M fuel m).length : Int) ≤ M := by
  intro fuel
  induction fuel with
  | zero =>
    intro m hm
    have : m.length = 0 := by omega
    simp [trimToMax, this, hM]
  | succ n ih =>
    intro m hm
    unfold trimToMax
    split_ifs with h
    · cases hf : findOldest m with
      | none =>
        have := findOldest_eq_none hf
        subst this
        simpa using hM
      | some i =>
        obtain ⟨p, hp, -⟩ := findOldest_eq_some hf
        have hi : i < m.length := by
          by_contra hcon
          rw [List.getElem?_eq_none (by omega)] at hp
          exact absurd hp (by simp)
        apply ih
        rw [List.length_eraseIdx_of_lt hi]
        omega
    · omega

theorem trimEvicted_perm (M : Int) :
    ∀ (fuel : Nat) (m : TileCache), List.Perm m (trimEvicted M fuel m ++ trimToMax M fuel m) := by
  intro fuel
  induction fuel with
  | zero => intro m; simp [trimEvicted, trimToMax]
  | succ n ih =>
    intro m
    unfold trimEvicted trimToMax
    split_ifs with h
    · cases hf : findOldest m with
      | none => simp
      | some i =>
        obtain ⟨p, hp, -⟩ := findOldest_eq_some hf
        have hi : i < m.length := by
          by_contra hcon
          rw [List.getElem?_eq_none (by omega)] at hp
          exact absurd hp (by simp)
        have hsplit : List.Perm m (p :: m.eraseIdx i) := by
          have h1 : m = m.take i ++ p :: m.drop (i + 1) := by
            have hget : m[i] = p := by
              rw [List.getElem?_eq_getElem hi] at hp
              exact Option.some.inj hp
            rw [← hget]
            simp
          have h2 : m.eraseIdx i = m.take i ++ m.drop (i + 1) := List.eraseIdx_eq_take_drop_succ m i
          rw [h2]
          conv_lhs => rw [h1]
          exact List.perm_middle
        simp only [hp, Option.toList_some, List.singleton_append, List.cons_append]
        exact hsplit.trans ((ih (m.eraseIdx i)).cons p)
    · simp


theorem trimEvicted_subset (M : Int) (fuel : Nat) (m : TileCache) :
    ∀ e ∈ trimEvicted M fuel m, e ∈ m := fun _ he =>
  (trimEvicted_perm M fuel m).symm.subset (List.mem_append_left _ he)

theorem trimEvicted_le_survivor (M : Int) :
    ∀ (fuel : Nat) (m : TileCache), ∀ e ∈ trimEvicted M fuel m, ∀ s ∈ trimToMax M fuel m,
      e.2.cachedAt ≤ s.2.cachedAt := by
  intro fuel
  induction fuel with
  | zero => intro m _ he; simp [trimEvicted] at he
  | succ n ih =>
    intro m e he s hs
    unfold trimEvicted at he
    unfold trimToMax at hs
    split_ifs at he hs with h
    · cases hf : findOldest m with
      | none => simp [hf] at he
      | some i =>
        obtain ⟨p, hp, hmin⟩ := findOldest_eq_some hf
        simp only [hf, hp, Option.toList_some, List.singleton_append, List.mem_cons] at he hs
        rcases he with he | he
        · subst he
          exact hmin s (List.mem_of_mem_eraseIdx ((trimToMax_sublist M n _).subset hs))
        · exact ih _ e he s hs
    · simp at he

theorem trimEvicted_sorted (M : Int) :
    ∀ (fuel : Nat) (m : TileCache),
      (trimEvicted M fuel m).Pairwise (fun a b => a.2.cachedAt ≤ b.2.cachedAt) := by
  intro fuel
  induction fuel with
  | zero => intro m; simp [trimEvicted]
  | succ n ih =>
    intro m
    unfold trimEvicted
    split_ifs with h
    · cases hf : findOldest m with
      | none => simp
      | some i =>
        obtain ⟨p, hp, hmin⟩ := findOldest_eq_some hf
        simp only [hp, Option.toList_some, List.singleton_append, List.pairwise_cons]
        exact ⟨fun b hb => hmin b (List.mem_of_mem_eraseIdx (trimEvicted_subset M n _ b hb)), ih _⟩
    · simp

theorem oldestFrom_setCapturedAt (g : STileCacheKey × STileCacheEntry → Int) (m : TileCache) :
    ∀ (best : Option (Nat × Int)) (i : Nat),
      oldestFrom best i (m.map (setCapturedAt g)) = oldestFrom best i m := by
  induction m with
  | nil => intro best i; rfl
  | cons p rest ih =>
    intro best i
    cases best with
    | none => simp [oldestFrom, setCapturedAt, ih]
    | some jt =>
      obtain ⟨j, t⟩ := jt
      simp [oldestFrom, setCapturedAt, ih]

theorem eraseIdx_map_comm {α β : Type} (f : α → β) :
    ∀ (l : List α) (i : Nat), (l.map f).eraseIdx i = (l.eraseIdx i).map f := by
  intro l
  induction l with
  | nil => intro i; rfl
  | cons a l ih =>
    intro i
    cases i with
    | zero => rfl
    | succ k => simp [ih]

theorem trimToMax_setCapturedAt (M : Int) (g : STileCacheKey × STileCacheEntry → Int) :
    ∀ (fuel : Nat) (m : TileCache),
      trimToMax M fuel (m.map (setCapturedAt g)) = (trimToMax M fuel m).map (setCapturedAt g) := by
  intro fuel
  induction fuel with
  | zero => intro m; rfl
  | succ n ih =>
    intro m
    have hfo : findOldest (m.map (setCapturedAt g)) = findOldest m := by
      simp [findOldest, oldestFrom_setCapturedAt]
    unfold trimToMax
    rw [hfo, List.length_map]
    split_ifs with h
    · cases hf : findOldest m with
      | none => rfl
      | some i => simp only []; rw [eraseIdx_map_comm, ih]
    · rfl

theorem pruneDead_spec (cfg : HorzaConfig) (now : Int) (m : TileCache) :
    ∀ p ∈ pruneDead cfg now m,
      (∃ t, p.2.tex = some t ∧ 0 < t.m_size.x ∧ 0 < t.m_size.y) ∧
        f32 (((now - p.2.cachedAt : Int) : ℚ)) ≤ f32 (cfg.cacheTtlMs * ticksPerMs) := by
  intro p hp
  simp only [pruneDead, List.mem_filter, Bool.not_eq_true', Bool.or_eq_false_iff] at hp
  obtain ⟨-, hdead, hexp⟩ := hp
  constructor
  · cases ht : p.2.tex with
    | none => simp [deadTex, ht] at hdead
    | some t =>
      simp only [deadTex, ht, Bool.or_eq_false_iff, decide_eq_false_iff_not, not_le] at hdead
      exact ⟨t, rfl, hdead.1, hdead.2⟩
  · simpa [expired] using hexp

theorem cacheFind_eq_none_iff {m : TileCache} {k : STileCacheKey} :
    cacheFind m k = none ↔ ∀ p ∈ m, p.1 ≠ k := by
  induction m with
  | nil => simp [cacheFind]
  | cons p rest ih =>
    obtain ⟨k', e⟩ := p
    by_cases hk : k' = k
    · simp [cacheFind, hk]
    · simp [cacheFind, hk, ih]

theorem cacheFind_some_getElem {m : TileCache} {k : STileCacheKey} :
    ∀ {i : Nat} {e : STileCacheEntry}, cacheFind m k = some (i, e) → m[i]? = some (k, e) := by
  induction m with
  | nil => intro i e h; simp [cacheFind] at h
  | cons p rest ih =>
    intro i e h
    obtain ⟨k', e'⟩ := p
    by_cases hk : k' = k
    · simp only [cacheFind, hk, if_true, Option.some.injEq, Prod.mk.injEq] at h
      obtain ⟨rfl, rfl⟩ := h
      simp [hk]
    · simp only [cacheFind, hk, if_false, Option.map_eq_some', Prod.mk.injEq] at h
      obtain ⟨⟨j, e''⟩, hj, rfl, rfl⟩ := h
      simpa using ih hj

theorem keysNodup_eq {m : TileCache} (hn : KeysNodup m) {p q : STileCacheKey × STileCacheEntry}
    (hp : p ∈ m) (hq : q ∈ m) (h : p.1 = q.1) : p = q :=
  List.inj_on_of_nodup_map hn hp hq h

theorem keysNodup_sublist {m m' : TileCache} (h : List.Sublist m' m) (hn : KeysNodup m) :
    KeysNodup m' :=
  List.Nodup.sublist (h.map Prod.fst) hn

theorem cacheFind_of_mem {m : TileCache} {k : STileCacheKey} {e : STileCacheEntry}
    (hn : KeysNodup m) (h : (k, e) ∈ m) : ∃ i, cacheFind m k = some (i, e) := by
  cases hf : cacheFind m k with
  | none => exact absurd rfl (cacheFind_eq_none_iff.1 hf (k, e) h)
  | some r =>
    obtain ⟨i, e'⟩ := r
    have hmem : (k, e') ∈ m := List.getElem?_mem (cacheFind_some_getElem hf)
    have := keysNodup_eq hn h hmem rfl
    simp only [Prod.mk.injEq, true_and] at this
    subst this
    exact ⟨i, rfl⟩

theorem cacheFind_set_keys {m : TileCache} {k : STileCacheKey} (e : STileCacheEntry) :
    ∀ {i : Nat} {e' : STileCacheEntry}, cacheFind m k = some (i, e') →
      (m.set i (k, e)).map Prod.fst = m.map Prod.fst := by
  induction m with
  | nil => intro i e' h; simp [cacheFind] at h
  | cons p rest ih =>
    intro i e' h
    obtain ⟨k', e''⟩ := p
    by_cases hk : k' = k
    · simp only [cacheFind, hk, if_true, Option.some.injEq, Prod.mk.injEq] at h
      obtain ⟨rfl, rfl⟩ := h
      simp [hk]
    · simp only [cacheFind, hk, if_false, Option.map_eq_some', Prod.mk.injEq] at h
      obtain ⟨⟨j, e3⟩, hj, rfl, rfl⟩ := h
      simpa using ih hj

theorem cacheAssign_perm_fresh {m : TileCache} {k : STileCacheKey} (e : STileCacheEntry)
    (slot : Nat) (hk : ∀ p ∈ m, p.1 ≠ k) : List.Perm (cacheAssign m k e slot) ((k, e) :: m) := by
  have hf := cacheFind_eq_none_iff.2 hk
  simp only [cacheAssign, hf]
  have := @List.perm_middle _ (k, e) (m.take slot) (m.drop slot)
  simpa using this

theorem mem_cacheAssign_self (m : TileCache) (k : STileCacheKey) (e : STileCacheEntry)
    (slot : Nat) : (k, e) ∈ cacheAssign m k e slot := by
  cases hf : cacheFind m k with
  | none => simp [cacheAssign, hf]
  | some r =>
    obtain ⟨i, e'⟩ := r
    have hi : i < m.length := by
      by_contra hcon
      have := cacheFind_some_getElem hf
      rw [List.getElem?_eq_none (by omega)] at this
      exact absurd this (by simp)
    simp only [cacheAssign, hf]
    exact List.mem_iff_getElem.2 ⟨i, by simpa using hi, by simp⟩

theorem mem_cacheAssign {m : TileCache} {k : STileCacheKey} {e : STileCacheEntry} {slot : Nat}
    {p : STileCacheKey × STileCacheEntry} (hp : p ∈ cacheAssign m k e slot) :
    p = (k, e) ∨ p ∈ m := by
  cases hf : cacheFind m k with
  | none =>
    simp only [cacheAssign, hf, List.mem_append, List.mem_cons] at hp
    rcases hp with hp | hp | hp
    · exact Or.inr (List.mem_of_mem_take hp)
    · exact Or.inl hp
    · exact Or.inr (List.mem_of_mem_drop hp)
  | some r =>
    obtain ⟨i, e'⟩ := r
    simp only [cacheAssign, hf] at hp
    rcases List.mem_or_eq_of_mem_set hp with hp | hp
    · exact Or.inr hp
    · exact Or.inl hp

theorem cacheAssign_keysNodup {m : TileCache} (k : STileCacheKey) (e : STileCacheEntry)
    (slot : Nat) (hn : KeysNodup m) : KeysNodup (cacheAssign m k e slot) := by
  cases hf : cacheFind m k with
  | none =>
    have hk := cacheFind_eq_none_iff.1 hf
    have hperm := (cacheAssign_perm_fresh e slot hk).map Prod.fst
    refine (List.Perm.nodup_iff hperm).2 ?_
    simp only [List.map_cons, List.nodup_cons]
    refine ⟨?_, hn⟩
    intro hmem
    obtain ⟨p, hp, hpk⟩ := List.mem_map.1 hmem
    exact hk p hp hpk
  | some r =>
    obtain ⟨i, e'⟩ := r
    unfold KeysNodup
    simp only [cacheAssign, hf]
    rw [cacheFind_set_keys e hf]
    exact hn


theorem mem_pruneDead {cfg : HorzaConfig} {now : Int} {m : TileCache}
    {p : STileCacheKey × STileCacheEntry} : p ∈ pruneDead cfg now m ↔ p ∈ m ∧ Fresh cfg now p := by
  simp [pruneDead, Fresh]

theorem pruneDead_eq_self {cfg : HorzaConfig} {now : Int} {m : TileCache}
    (h : ∀ p ∈ m, Fresh cfg now p) : pruneDead cfg now m = m := by
  unfold pruneDead
  rw [List.filter_eq_self]
  intro p hp
  have := h p hp
  simp [this.1, this.2]

theorem prune_enabled {cfg : HorzaConfig} (hen : tileCacheEnabled cfg = true) (now : Int)
    (m : TileCache) : pruneWorkspaceTileCache cfg now m =
      trimToMax (max 0 cfg.cacheMaxEntries) (pruneDead cfg now m).length (pruneDead cfg now m) := by
  simp [pruneWorkspaceTileCache, hen]

theorem prune_sublist (cfg : HorzaConfig) (now : Int) (m : TileCache) :
    List.Sublist (pruneWorkspaceTileCache cfg now m) m := by
  unfold pruneWorkspaceTileCache
  split_ifs
  · exact List.nil_sublist m
  · exact (trimToMax_sublist _ _ _).trans (List.filter_sublist m)

theorem prune_mem_fresh {cfg : HorzaConfig} (hen : tileCacheEnabled cfg = true) {now : Int}
    {m : TileCache} {p : STileCacheKey × STileCacheEntry}
    (hp : p ∈ pruneWorkspaceTileCache cfg now m) : Fresh cfg now p := by
  rw [prune_enabled hen] at hp
  exact (mem_pruneDead.1 ((trimToMax_sublist _ _ _).subset hp)).2

theorem prune_length_le (cfg : HorzaConfig) (now : Int) (m : TileCache) :
    ((pruneWorkspaceTileCache cfg now m).length : Int) ≤ max 0 cfg.cacheMaxEntries := by
  unfold pruneWorkspaceTileCache
  split_ifs
  · simp
  · exact trimToMax_length_le _ (le_max_left _ _) _ _ (le_refl _)

theorem prune_eq_self {cfg : HorzaConfig} (hen : tileCacheEnabled cfg = true) {now : Int}
    {m : TileCache} (h : ∀ p ∈ m, Fresh cfg now p)
    (hlen : (m.length : Int) ≤ max 0 cfg.cacheMaxEntries) :
    pruneWorkspaceTileCache cfg now m = m := by
  rw [prune_enabled hen, pruneDead_eq_self h]
  exact trimToMax_of_le _ _ _ hlen

theorem prune_eq_pruneDead {cfg : HorzaConfig} (hen : tileCacheEnabled cfg = true) {now : Int}
    {m : TileCache} (hlen : (m.length : Int) ≤ max 0 cfg.cacheMaxEntries) :
    pruneWorkspaceTileCache cfg now m = pruneDead cfg now m := by
  rw [prune_enabled hen]
  apply trimToMax_of_le
  have : (pruneDead cfg now m).length ≤ m.length := List.length_filter_le _ _
  omega

theorem findOldest_lt {m : TileCache} {i : Nat} (h : findOldest m = some i) : i < m.length := by
  obtain ⟨p, hp, -⟩ := findOldest_eq_some h
  by_contra hcon
  rw [List.getElem?_eq_none (by omega)] at hp
  exact absurd hp (by simp)

theorem perm_cons_eraseIdx {α : Type} {l : List α} {i : Nat} {p : α} (hp : l[i]? = some p) :
    List.Perm l (p :: l.eraseIdx i) := by
  have hi : i < l.length := by
    by_contra hcon
    rw [List.getElem?_eq_none (by omega)] at hp
    exact absurd hp (by simp)
  have h1 : l = l.take i ++ p :: l.drop (i + 1) := by
    have hget : l[i] = p := by
      rw [List.getElem?_eq_getElem hi] at hp
      exact Option.some.inj hp
    rw [← hget]
    simp
  rw [List.eraseIdx_eq_take_drop_succ l i]
  conv_lhs => rw [h1]
  exact List.perm_middle

/-- One round of the trimming loop suffices when the cache is one over the bound, and it
evicts the strictly oldest entry. -/
theorem trim_evict_one {M : Int} (hM : 0 ≤ M) {m rest : TileCache}
    {x : STileCacheKey × STileCacheEntry} (hlen : (m.length : Int) = M + 1)
    (hperm : List.Perm m (x :: rest)) (hold : ∀ r ∈ rest, x.2.cachedAt < r.2.cachedAt) :
    List.Perm (trimToMax M m.length m) rest := by
  have hpos : m.length = (m.length - 1) + 1 := by omega
  rw [hpos]
  unfold trimToMax
  have hgt : (m.length : Int) > M := by omega
  simp only [hgt, if_true]
  cases hf : findOldest m with
  | none =>
    have := findOldest_eq_none hf
    subst this
    simp at hlen
    omega
  | some i =>
    obtain ⟨p, hp, hmin⟩ := findOldest_eq_some hf
    have hpx : p = x := by
      have hpm : p ∈ x :: rest := hperm.subset (List.getElem?_mem hp)
      rcases List.mem_cons.1 hpm with h | h
      · exact h
      · have h1 := hold p h
        have h2 := hmin x (hperm.symm.subset (List.mem_cons_self _ _))
        omega
    subst hpx
    have hrest : List.Perm (m.eraseIdx i) rest :=
      ((perm_cons_eraseIdx hp).symm.trans hperm).cons_inv
    simp only []
    rw [trimToMax_of_le]
    · exact hrest
    · rw [List.length_eraseIdx_of_lt (findOldest_lt hf)]
      omega

theorem trim_keeps_newest {M : Int} (hM : 1 ≤ M) {x : STileCacheKey × STileCacheEntry} :
    ∀ (fuel : Nat) (m : TileCache), x ∈ m →
      (∀ y ∈ m, y ≠ x → y.2.cachedAt < x.2.cachedAt) → m.Nodup → x ∈ trimToMax M fuel m := by
  intro fuel
  induction fuel with
  | zero => intro m hx _ _; simpa [trimToMax] using hx
  | succ n ih =>
    intro m hx hnew hnd
    unfold trimToMax
    split_ifs with h
    · cases hf : findOldest m with
      | none => simpa using hx
      | some i =>
        obtain ⟨p, hp, hmin⟩ := findOldest_eq_some hf
        have hperm := perm_cons_eraseIdx hp
        have hnd' : (p :: m.eraseIdx i).Nodup := (List.Perm.nodup_iff hperm).1 hnd
        have hpx : p ≠ x := by
          intro hpx
          subst hpx
          -- some other entry exists because the cache has at least two entries
          have hlen2 : 2 ≤ m.length := by omega
          have hlen' : 1 ≤ (m.eraseIdx i).length := by
            rw [List.length_eraseIdx_of_lt (findOldest_lt hf)]; omega
          obtain ⟨y, hy⟩ := List.exists_mem_of_length_pos (by omega : 0 < (m.eraseIdx i).length)
          have hyne : y ≠ p := by
            intro hyp
            subst hyp
            exact (List.nodup_cons.1 hnd').1 hy
          have h1 := hnew y (List.mem_of_mem_eraseIdx hy) hyne
          have h2 := hmin y (List.mem_of_mem_eraseIdx hy)
          omega
        have hx' : x ∈ m.eraseIdx i := by
          rcases List.mem_cons.1 (hperm.subset hx) with h' | h'
          · exact absurd h'.symm hpx
          · exact h'
        simp only []
        exact ih _ hx' (fun y hy hyx => hnew y (List.mem_of_mem_eraseIdx hy) hyx)
          (List.nodup_cons.1 hnd').2
    · exact hx

theorem fresh_mk {cfg : HorzaConfig} {now : Int} {k : STileCacheKey} {img : CTexture}
    {cap cached : Int} (himg : 0 < img.m_size.x ∧ 0 < img.m_size.y)
    (hage : (((now - cached : Int) : ℚ)) ≤ cfg.cacheTtlMs * ticksPerMs) :
    Fresh cfg now (k, ⟨some img, cap, cached⟩) := by
  constructor
  · simp [deadTex, himg.1, himg.2]
  · simpa [expired] using f32_mono hage

theorem age_le {t s T S : Int} {L : ℚ} (h : t - s ≤ T - S) (hT : (((T - S : Int) : ℚ)) ≤ L) :
    (((t - s : Int) : ℚ)) ≤ L :=
  le_trans (by exact_mod_cast h) hT

theorem store_enabled {cfg : HorzaConfig} (hen : tileCacheEnabled cfg = true)
    {tex : Option CTexture} (hlive : deadTex tex = false) (t1 t2 t3 : Int) (slot : Nat)
    (m : TileCache) (mon ws : Int) (cap : Int) :
    storeWorkspaceTileInCache cfg t1 t2 t3 slot m mon ws tex cap =
      pruneWorkspaceTileCache cfg t3
        (cacheAssign (pruneWorkspaceTileCache cfg t1 m) ⟨mon, ws⟩
          ⟨tex, if cap = 0 then t2 else cap, t2⟩ slot) := by
  simp [storeWorkspaceTileInCache, hen, hlive]

/-- A store of a new key into a cache with room, none of whose entries the prunes touch,
adds the entry and keeps the others. -/
theorem store_perm_insert {cfg : HorzaConfig} (hen : tileCacheEnabled cfg = true)
    {t1 t2 t3 : Int} (slot : Nat) {m : TileCache} {mon ws : Int} {img : CTexture} (cap : Int)
    (himg : 0 < img.m_size.x ∧ 0 < img.m_size.y)
    (hfresh : ∀ p ∈ m, Fresh cfg t1 p ∧ Fresh cfg t3 p)
    (hlen : (m.length : Int) + 1 ≤ max 0 cfg.cacheMaxEntries)
    (hkey : ∀ p ∈ m, p.1 ≠ ⟨mon, ws⟩)
    (hage : (((t3 - t2 : Int) : ℚ)) ≤ cfg.cacheTtlMs * ticksPerMs) :
    List.Perm (storeWorkspaceTileInCache cfg t1 t2 t3 slot m mon ws (some img) cap)
      ((⟨mon, ws⟩, ⟨some img, if cap = 0 then t2 else cap, t2⟩) :: m) := by
  have hlive : deadTex (some img) = false := by simp [deadTex, himg.1, himg.2]
  rw [store_enabled hen hlive, prune_eq_self hen (fun p hp => (hfresh p hp).1) (by omega)]
  have hperm := cacheAssign_perm_fresh (m := m) ⟨some img, if cap = 0 then t2 else cap, t2⟩ slot hkey
  rw [prune_eq_self hen]
  · exact hperm
  · intro p hp
    rcases List.mem_cons.1 (hperm.subset hp) with h | h
    · subst h; exact fresh_mk himg hage
    · exact (hfresh p h).2
  · rw [hperm.length_eq]
    simp only [List.length_cons]
    push_cast
    omega

/-- A store of a new key into a full cache, none of whose entries is dead or expired, evicts
the strictly oldest entry. -/
theorem store_perm_evict {cfg : HorzaConfig} (hen : tileCacheEnabled cfg = true)
    {t1 t2 t3 : Int} (slot : Nat) {m rest : TileCache} {x : STileCacheKey × STileCacheEntry}
    {mon ws : Int} {img : CTexture} (cap : Int)
    (himg : 0 < img.m_size.x ∧ 0 < img.m_size.y)
    (hfresh : ∀ p ∈ m, Fresh cfg t1 p ∧ Fresh cfg t3 p)
    (hlen : (m.length : Int) = max 0 cfg.cacheMaxEntries)
    (hkey : ∀ p ∈ m, p.1 ≠ ⟨mon, ws⟩)
    (hage : (((t3 - t2 : Int) : ℚ)) ≤ cfg.cacheTtlMs * ticksPerMs)
    (hperm : List.Perm m (x :: rest)) (hold : ∀ r ∈ rest, x.2.cachedAt < r.2.cachedAt)
    (hx : x.2.cachedAt < t2) :
    List.Perm (storeWorkspaceTileInCache cfg t1 t2 t3 slot m mon ws (some img) cap)
      ((⟨mon, ws⟩, ⟨some img, if cap = 0 then t2 else cap, t2⟩) :: rest) := by
  have hlive : deadTex (some img) = false := by simp [deadTex, himg.1, himg.2]
  rw [store_enabled hen hlive, prune_eq_self hen (fun p hp => (hfresh p hp).1) (by omega)]
  have hp1 := cacheAssign_perm_fresh (m := m) ⟨some img, if cap = 0 then t2 else cap, t2⟩ slot hkey
  have hfresh2 : ∀ p ∈ cacheAssign m ⟨mon, ws⟩ ⟨some img, if cap = 0 then t2 else cap, t2⟩ slot,
      Fresh cfg t3 p := by
    intro p hp
    rcases List.mem_cons.1 (hp1.subset hp) with h | h
    · subst h; exact fresh_mk himg hage
    · exact (hfresh p h).2
  rw [prune_enabled hen, pruneDead_eq_self hfresh2]
  apply trim_evict_one (le_max_left _ _) (x := x)
  · rw [hp1.length_eq]
    simp only [List.length_cons]
    push_cast
    omega
  · exact hp1.trans (((hperm.cons _).trans (List.Perm.swap _ _ _)))
  · intro r hr
    rcases List.mem_cons.1 hr with h | h
    · subst h; exact hx
    · exact hold r h


theorem keysNodup_nodup {m : TileCache} (hn : KeysNodup m) : m.Nodup :=
  List.Nodup.of_map Prod.fst hn

/-- After a store of a valid image whose clock reading is later than the `cachedAt` of every
entry under another key, the stored entry is in the cache. -/
theorem store_mem_new {cfg : HorzaConfig} (hen : tileCacheEnabled cfg = true)
    (hmax : 1 ≤ cfg.cacheMaxEntries) (t1 : Int) {t2 t3 : Int} (slot : Nat) {m : TileCache}
    {mon ws : Int} {img : CTexture} (cap : Int)
    (himg : 0 < img.m_size.x ∧ 0 < img.m_size.y) (hnd : KeysNodup m)
    (hnewest : ∀ p ∈ m, p.1 ≠ ⟨mon, ws⟩ → p.2.cachedAt < t2)
    (hage : (((t3 - t2 : Int) : ℚ)) ≤ cfg.cacheTtlMs * ticksPerMs) :
    (⟨mon, ws⟩, ⟨some img, if cap = 0 then t2 else cap, t2⟩) ∈
        storeWorkspaceTileInCache cfg t1 t2 t3 slot m mon ws (some img) cap ∧
      KeysNodup (storeWorkspaceTileInCache cfg t1 t2 t3 slot m mon ws (some img) cap) := by
  have hlive : deadTex (some img) = false := by simp [deadTex, himg.1, himg.2]
  rw [store_enabled hen hlive]
  have hnd1 : KeysNodup (pruneWorkspaceTileCache cfg t1 m) :=
    keysNodup_sublist (prune_sublist cfg t1 m) hnd
  have hnd2 := cacheAssign_keysNodup ⟨mon, ws⟩ ⟨some img, if cap = 0 then t2 else cap, t2⟩ slot hnd1
  refine ⟨?_, keysNodup_sublist (prune_sublist cfg t3 _) hnd2⟩
  rw [prune_enabled hen]
  apply trim_keeps_newest (le_trans hmax (le_max_right _ _))
  · exact mem_pruneDead.2 ⟨mem_cacheAssign_self _ _ _ _, fresh_mk himg hage⟩
  · intro y hy hne
    have hy2 := (mem_pruneDead.1 hy).1
    have hself := mem_cacheAssign_self (pruneWorkspaceTileCache cfg t1 m) ⟨mon, ws⟩
      ⟨some img, if cap = 0 then t2 else cap, t2⟩ slot
    have hkey : y.1 ≠ ⟨mon, ws⟩ := fun hk => hne (keysNodup_eq hnd2 hy2 hself hk)
    rcases mem_cacheAssign hy2 with h | h
    · exact absurd h hne
    · exact hnewest y ((prune_sublist cfg t1 m).subset h) hkey
  · exact List.Nodup.sublist (List.filter_sublist _) (keysNodup_nodup hnd2)

/-! ## Lemmas on the overview session -/

theorem modifyTile_length (f : SWorkspaceImage → SWorkspaceImage) :
    ∀ (l : List SWorkspaceImage) (n : Nat), (modifyTile f l n).length = l.length := by
  intro l
  induction l with
  | nil => intro n; rfl
  | cons t ts ih =>
    intro n
    cases n with
    | zero => rfl
    | succ k => simp [modifyTile, ih]

@[simp] theorem updTile_size (s : COverview) (i : Int) (f : SWorkspaceImage → SWorkspaceImage) :
    (s.updTile i f).size = s.size := by
  unfold COverview.updTile COverview.size
  split_ifs <;> simp [modifyTile_length]

@[simp] theorem updTile_currentIdx (s : COverview) (i : Int)
    (f : SWorkspaceImage → SWorkspaceImage) : (s.updTile i f).currentIdx = s.currentIdx := by
  unfold COverview.updTile
  split_ifs <;> rfl

@[simp] theorem captureWorkspace_size (h : Host) (s : COverview) (i : Int) :
    (captureWorkspace h s i).size = s.size := by
  unfold captureWorkspace
  split_ifs
  · rfl
  · split
    · rfl
    · split_ifs
      · rfl
      · exact updTile_size s i _

@[simp] theorem captureWorkspace_currentIdx (h : Host) (s : COverview) (i : Int) :
    (captureWorkspace h s i).currentIdx = s.currentIdx := by
  unfold captureWorkspace
  split_ifs
  · rfl
  · split
    · rfl
    · split_ifs
      · rfl
      · exact updTile_currentIdx s i _

@[simp] theorem captureAndMark_size (h : Host) (s : COverview) (i : Int) :
    (captureAndMark h s i).size = s.size := by
  unfold captureAndMark
  rw [updTile_size]
  exact captureWorkspace_size h { s with blockOverviewRendering := true } i

@[simp] theorem captureAndMark_currentIdx (h : Host) (s : COverview) (i : Int) :
    (captureAndMark h s i).currentIdx = s.currentIdx := by
  unfold captureAndMark
  rw [updTile_currentIdx]
  exact captureWorkspace_currentIdx h { s with blockOverviewRendering := true } i

@[simp] theorem captureOrDirty_size (h : Host) (s : COverview) :
    (captureOrDirty h s).size = s.size := by
  unfold captureOrDirty
  split
  · rfl
  · split_ifs
    · exact captureAndMark_size h s _
    · rfl
    · rfl

@[simp] theorem captureOrDirty_currentIdx (h : Host) (s : COverview) :
    (captureOrDirty h s).currentIdx = s.currentIdx := by
  unfold captureOrDirty
  split
  · rfl
  · split_ifs
    · exact captureAndMark_currentIdx h s _
    · rfl
    · rfl

theorem clampI_bounds (v lo hi : Int) (h : lo ≤ hi) : lo ≤ clampI v lo hi ∧ clampI v lo hi ≤ hi := by
  unfold clampI
  split_ifs <;> omega

theorem validIdx_recenter (cfg : HorzaConfig) (h : Host) (mon : CMonitor) (tr : Bool)
    (s : COverview) (sc off : AnimVar) (t : Int) (ht : 0 ≤ t ∧ t < s.size) :
    ValidIdx (damage (captureOrDirty h (recenterOn cfg mon tr s sc off t))) := by
  unfold ValidIdx
  have h1 : (damage (captureOrDirty h (recenterOn cfg mon tr s sc off t))).currentIdx = t := by
    show (captureOrDirty h (recenterOn cfg mon tr s sc off t)).currentIdx = t
    rw [captureOrDirty_currentIdx]
    rfl
  have h2 : (damage (captureOrDirty h (recenterOn cfg mon tr s sc off t))).size = s.size := by
    show (captureOrDirty h (recenterOn cfg mon tr s sc off t)).size = s.size
    rw [captureOrDirty_size]
    rfl
  rw [h1, h2]
  exact ht

theorem shift_validIdx (cfg : HorzaConfig) (h : Host) (s : COverview) (step : Int)
    (hv : ValidIdx s) : ValidIdx (shiftCurrentIndexBy cfg h s step).2 := by
  unfold shiftCurrentIndexBy
  split_ifs with h1
  · exact hv
  · split
    · rename_i mon sc off _ _ _
      have hsz : (0 : Int) ≤ s.size - 1 := by
        have := hv.1; have := hv.2; omega
      have hb := clampI_bounds (wrapInt32 (s.currentIdx + step)) 0 (s.size - 1) hsz
      simp only []
      split_ifs with h2
      · exact hv
      · exact validIdx_recenter cfg h mon false s sc off _ ⟨hb.1, by omega⟩
    · exact hv

theorem axis_validIdx (cfg : HorzaConfig) (h : Host) (s : COverview) (e : Option SAxisEvent)
    (hv : ValidIdx s) : ValidIdx (onMouseAxis cfg h s e) := by
  have hsz : (0 : Int) ≤ s.size - 1 := by
    have := hv.1; have := hv.2; omega
  unfold onMouseAxis
  split_ifs with h1
  · exact hv
  · split
    · rename_i mon ev _
      split_ifs with h2 h3
      · exact hv
      · exact hv
      · simp only []
        split
        · exact hv
        · rename_i steps _
          split_ifs with h4 h5
          · exact hv
          · exact hv
          · split
            · rename_i sc off _ _
              have hb := clampI_bounds (s.currentIdx + steps) 0 (s.size - 1) hsz
              exact validIdx_recenter cfg h mon false _ sc off _ ⟨hb.1, by
                show clampI (s.currentIdx + steps) 0 (s.size - 1) < s.size
                omega⟩
            · exact hv
    · exact hv

theorem findActiveFrom_bounds (a : Option CWorkspace) :
    ∀ (l : List SWorkspaceImage) (i j : Int), findActiveFrom a l i = some j →
      i ≤ j ∧ j < i + l.length := by
  intro l
  induction l with
  | nil => intro i j h; simp [findActiveFrom] at h
  | cons t ts ih =>
    intro i j h
    unfold findActiveFrom at h
    split_ifs at h with h1
    · simp only [Option.some.injEq] at h
      subst h
      simp only [List.length_cons]
      push_cast
      omega
    · have := ih (i + 1) j h
      simp only [List.length_cons]
      push_cast
      omega

theorem findTileById_bounds (id : Int) :
    ∀ (l : List SWorkspaceImage) (i j : Int), findTileById id l i = some j →
      i ≤ j ∧ j < i + l.length := by
  intro l
  induction l with
  | nil => intro i j h; simp [findTileById] at h
  | cons t ts ih =>
    intro i j h
    unfold findTileById at h
    have hlen : (((t :: ts).length : Nat) : Int) = (ts.length : Int) + 1 := by
      simp only [List.length_cons]; push_cast; rfl
    split at h
    · split_ifs at h with h1
      · simp only [Option.some.injEq] at h
        omega
      · have := ih (i + 1) j h
        omega
    · have := ih (i + 1) j h
      omega

theorem workspaceChange_validIdx (cfg : HorzaConfig) (h : Host) (s : COverview)
    (hv : ValidIdx s) : ValidIdx (onWorkspaceChange cfg h s) := by
  unfold onWorkspaceChange
  split
  · rename_i mon sc off _ _ _
    split_ifs with h1
    · exact hv
    · simp only []
      split_ifs with h2
      · exact hv
      · have hnew : 0 ≤ (findActiveFrom mon.m_activeWorkspace s.images 0).getD s.currentIdx ∧
            (findActiveFrom mon.m_activeWorkspace s.images 0).getD s.currentIdx < s.size := by
          cases hf : findActiveFrom mon.m_activeWorkspace s.images 0 with
          | none => simpa using hv
          | some j =>
            have := findActiveFrom_bounds _ _ _ _ hf
            simp only [Option.getD_some, COverview.size]
            omega
        unfold ValidIdx
        split
        · split_ifs
          · show (captureAndMark h _ _).currentIdx ≥ 0 ∧ (captureAndMark h _ _).currentIdx < (captureAndMark h _ _).size
            rw [captureAndMark_currentIdx, captureAndMark_size]
            exact hnew
          · exact hnew
        · exact hnew
  · exact hv


@[simp] theorem restoreTileFromCache_size (cfg : HorzaConfig) (h : Host) (s : COverview)
    (i : Int) : (restoreTileFromCache cfg h s i).2.size = s.size := by
  unfold restoreTileFromCache
  split_ifs
  · rfl
  · split
    · simp only []
      split_ifs
      · rfl
      · exact updTile_size _ _ _
    · rfl

@[simp] theorem restoreTileFromCache_currentIdx (cfg : HorzaConfig) (h : Host) (s : COverview)
    (i : Int) : (restoreTileFromCache cfg h s i).2.currentIdx = s.currentIdx := by
  unfold restoreTileFromCache
  split_ifs
  · rfl
  · split
    · simp only []
      split_ifs
      · rfl
      · exact updTile_currentIdx _ _ _
    · rfl

theorem restoreLoop_frame (cfg : HorzaConfig) (h : Host) :
    ∀ (n : Nat) (i : Int) (s : COverview),
      (restoreLoop cfg h n i s).size = s.size ∧
        (restoreLoop cfg h n i s).currentIdx = s.currentIdx := by
  intro n
  induction n with
  | zero => intro i s; exact ⟨rfl, rfl⟩
  | succ k ih =>
    intro i s
    unfold restoreLoop
    simp only []
    split
    · split_ifs
      · exact ih _ _
      · have := ih (i + 1) (restoreTileFromCache cfg h s i).2
        rw [restoreTileFromCache_size, restoreTileFromCache_currentIdx] at this
        exact this
    · exact ih _ _

theorem prewarmLoop_frame (h : Host) :
    ∀ (n : Nat) (i : Int) (s : COverview),
      (prewarmLoop h n i s).size = s.size ∧ (prewarmLoop h n i s).currentIdx = s.currentIdx := by
  intro n
  induction n with
  | zero => intro i s; exact ⟨rfl, rfl⟩
  | succ k ih =>
    intro i s
    unfold prewarmLoop
    simp only []
    split
    · split_ifs
      · exact ih _ _
      · have := ih (i + 1) ((captureWorkspace h s i).updTile i
          (fun t => { t with captured := true, cachedTex := none }))
        rw [updTile_size, updTile_currentIdx, captureWorkspace_size,
          captureWorkspace_currentIdx] at this
        exact this
    · exact ih _ _

theorem resolveIndex_bounds (mon : CMonitor) (pc : Option CWorkspace)
    (images : List SWorkspaceImage) (cur : Int) (hne : images ≠ []) :
    0 ≤ resolveIndex mon pc images cur ∧ resolveIndex mon pc images cur < images.length := by
  have hlen : 0 < images.length := List.length_pos.2 hne
  have hclamp := clampI_bounds cur 0 ((images.length : Int) - 1) (by omega)
  have hfind : ∀ id j, findTileById id images 0 = some j → 0 ≤ j ∧ j < images.length := by
    intro id j hj
    have := findTileById_bounds id images 0 j hj
    omega
  unfold resolveIndex
  simp only []
  split
  · rename_i i hi
    split at hi
    · rename_i aw
      exact hfind _ _ hi
    · rename_i r _ _
      split at hi
      · exact hfind _ _ hi
      · exact absurd hi (by simp)
  · omega

theorem syncRefill_frame (cfg : HorzaConfig) (h : Host) (mon : CMonitor)
    (pc : Option CWorkspace) (s1 : COverview) :
    (syncRefill cfg h mon pc s1).size = s1.size ∧
      (syncRefill cfg h mon pc s1).currentIdx =
        resolveIndex mon pc s1.images s1.currentIdx := by
  unfold syncRefill
  simp only []
  have h3 := restoreLoop_frame cfg h s1.images.length 0
    { s1 with currentIdx := resolveIndex mon pc s1.images s1.currentIdx }
  split_ifs with hp
  · have h4 := prewarmLoop_frame h
      (restoreLoop cfg h s1.images.length 0
        { s1 with currentIdx := resolveIndex mon pc s1.images s1.currentIdx }).images.length 0
      { restoreLoop cfg h s1.images.length 0
        { s1 with currentIdx := resolveIndex mon pc s1.images s1.currentIdx } with
        blockOverviewRendering := true }
    split
    · split_ifs
      · exact ⟨h4.1.trans h3.1, h4.2.trans h3.2⟩
      · exact ⟨h4.1.trans h3.1, h4.2.trans h3.2⟩
    · exact ⟨h4.1.trans h3.1, h4.2.trans h3.2⟩
  · split
    · split_ifs
      · exact h3
      · exact h3
    · exact h3


theorem reconcileStep_snd_length (acc : List SWorkspaceImage × List SWorkspaceImage)
    (ws : CWorkspace) : (reconcileStep acc ws).2.length = acc.2.length + 1 := by
  unfold reconcileStep
  split
  · split <;> simp
  · simp

theorem reconcile_foldl_length (wsList : List CWorkspace) :
    ∀ acc : List SWorkspaceImage × List SWorkspaceImage,
      (wsList.foldl reconcileStep acc).2.length = acc.2.length + wsList.length := by
  induction wsList with
  | nil => intro acc; simp
  | cons w rest ih =>
    intro acc
    rw [List.foldl_cons, ih, reconcileStep_snd_length, List.length_cons]
    omega

theorem reconcile_length (old : List SWorkspaceImage) (wsList : List CWorkspace) :
    (reconcile old wsList).length = wsList.length := by
  unfold reconcile
  rw [reconcile_foldl_length]
  simp

theorem syncDragGuard_frame (n : Int) (s : COverview) :
    (syncDragGuard n s).size = s.size ∧ (syncDragGuard n s).currentIdx = s.currentIdx ∧
      (syncDragGuard n s).images = s.images := by
  unfold syncDragGuard
  split_ifs <;> exact ⟨rfl, rfl, rfl⟩

/-- What `syncWorkspaces` returns when it rebuilds the tile list to a non-empty one. -/
theorem sync_rebuild {cfg : HorzaConfig} {h : Host} {s : COverview} {mon : CMonitor}
    (hmon : h.monitor = some mon)
    (hchg : s.images.map (fun t => t.pWorkspace) ≠ (sortedWorkspaces h mon).map some)
    (hne : sortedWorkspaces h mon ≠ []) :
    syncWorkspaces cfg h s =
      (true, syncDragGuard s.size
        (syncRefill cfg h mon ((tileAt s.images s.currentIdx).bind (fun t => t.pWorkspace))
          { s with workspaceListDirty := false,
                   images := reconcile s.images (sortedWorkspaces h mon) })) := by
  have hne' : reconcile s.images (sortedWorkspaces h mon) ≠ [] := by
    intro hnil
    have := reconcile_length s.images (sortedWorkspaces h mon)
    rw [hnil] at this
    exact hne (List.length_eq_zero.1 this.symm)
  unfold syncWorkspaces
  simp only [hmon, hchg, hne', if_false]
  rfl

theorem sync_validIdx (cfg : HorzaConfig) (h : Host) (s : COverview) (hv : ValidIdx s)
    (hne : (syncWorkspaces cfg h s).2.images ≠ []) : ValidIdx (syncWorkspaces cfg h s).2 := by
  cases hmon : h.monitor with
  | none =>
    have : syncWorkspaces cfg h s = (false, { s with workspaceListDirty := false }) := by
      unfold syncWorkspaces; simp only [hmon]
    rw [this]; exact hv
  | some mon =>
    by_cases hchg : s.images.map (fun t => t.pWorkspace) = (sortedWorkspaces h mon).map some
    · have : syncWorkspaces cfg h s = (false, { s with workspaceListDirty := false }) := by
        unfold syncWorkspaces; simp only [hmon, hchg, if_true]
      rw [this]; exact hv
    · by_cases hws : sortedWorkspaces h mon = []
      · exfalso
        apply hne
        rw [hws] at hchg
        have : syncWorkspaces cfg h s =
            (true, { s with workspaceListDirty := false, images := [] }) := by
          unfold syncWorkspaces
          simp only [hmon, hws, hchg, reconcile, List.foldl_nil, if_false, if_true]
        rw [this]
      · rw [sync_rebuild hmon hchg hws]
        have hg := syncDragGuard_frame s.size
          (syncRefill cfg h mon ((tileAt s.images s.currentIdx).bind (fun t => t.pWorkspace))
            { s with workspaceListDirty := false,
                     images := reconcile s.images (sortedWorkspaces h mon) })
        have hr := syncRefill_frame cfg h mon
          ((tileAt s.images s.currentIdx).bind (fun t => t.pWorkspace))
          { s with workspaceListDirty := false,
                   images := reconcile s.images (sortedWorkspaces h mon) }
        have hne' : reconcile s.images (sortedWorkspaces h mon) ≠ [] := by
          intro hnil
          have := reconcile_length s.images (sortedWorkspaces h mon)
          rw [hnil] at this
          exact hws (List.length_eq_zero.1 this.symm)
        have hb := resolveIndex_bounds mon
          ((tileAt s.images s.currentIdx).bind (fun t => t.pWorkspace))
          (reconcile s.images (sortedWorkspaces h mon)) s.currentIdx hne'
        unfold ValidIdx
        simp only []
        rw [hg.1, hg.2.1, hr.1, hr.2]
        exact hb

theorem CaptureFrame.refl (s : COverview) : CaptureFrame s s := by
  unfold CaptureFrame; rfl

theorem CaptureFrame.trans {a b c : COverview} (h1 : CaptureFrame a b) (h2 : CaptureFrame b c) :
    CaptureFrame a c := by
  unfold CaptureFrame at *
  rw [h2, h1]

theorem captureFrame_updTile (s : COverview) (i : Int) (f : SWorkspaceImage → SWorkspaceImage) :
    CaptureFrame s (s.updTile i f) := by
  unfold COverview.updTile
  split_ifs
  · exact CaptureFrame.refl s
  · unfold CaptureFrame; rfl

theorem captureFrame_captureWorkspace (h : Host) (s : COverview) (i : Int) :
    CaptureFrame s (captureWorkspace h s i) := by
  unfold captureWorkspace
  split_ifs
  · exact CaptureFrame.refl s
  · split
    · exact CaptureFrame.refl s
    · split_ifs
      · exact CaptureFrame.refl s
      · exact CaptureFrame.trans
          (captureFrame_updTile s i
            (fun t => { t with cachedTex := none, lastCaptureAt := h.clock s.ticks }))
          (by unfold CaptureFrame; rfl)

theorem captureFrame_captureAndMark (h : Host) (s : COverview) (i : Int) :
    CaptureFrame s (captureAndMark h s i) := by
  unfold captureAndMark
  refine CaptureFrame.trans ?_ (captureFrame_updTile _ i _)
  have h1 : CaptureFrame s { s with blockOverviewRendering := true } := by
    unfold CaptureFrame; rfl
  have h2 := captureFrame_captureWorkspace h { s with blockOverviewRendering := true } i
  refine CaptureFrame.trans (CaptureFrame.trans h1 h2) ?_
  unfold CaptureFrame; rfl

theorem captureFrame_captureOrDirty (h : Host) (s : COverview) :
    CaptureFrame s (captureOrDirty h s) := by
  unfold captureOrDirty
  split
  · exact CaptureFrame.refl s
  · split_ifs
    · exact captureFrame_captureAndMark h s _
    · unfold CaptureFrame; rfl
    · exact CaptureFrame.refl s

theorem captureFrame_damage (s : COverview) : CaptureFrame s (damage s) := by
  unfold CaptureFrame damage; rfl

theorem captureFrame_accum {s s' : COverview} (h : CaptureFrame s s') :
    s'.scrollGestureAccum = s.scrollGestureAccum := by
  unfold CaptureFrame at h; rw [h]

/-- The state after the recentring tail shared by `shiftCurrentIndexBy` and `onMouseAxis`. -/
theorem recentered_fields (cfg : HorzaConfig) (h : Host) (mon : CMonitor) (tr : Bool)
    (s : COverview) (sc off : AnimVar) (t : Int) :
    (damage (captureOrDirty h (recenterOn cfg mon tr s sc off t))).currentIdx = t ∧
      CaptureFrame (recenterOn cfg mon tr s sc off t)
        (damage (captureOrDirty h (recenterOn cfg mon tr s sc off t))) :=
  ⟨by show (captureOrDirty h (recenterOn cfg mon tr s sc off t)).currentIdx = t
      rw [captureOrDirty_currentIdx]; rfl,
    CaptureFrame.trans (captureFrame_captureOrDirty h _) (captureFrame_damage _)⟩

theorem axisSteps_step {a : ℚ} {e : SAxisEvent} {st : Int}
    (h : (axisSteps a e).2 = some st) : st = -1 ∨ st = 1 := by
  unfold axisSteps at h
  by_cases hd : e.deltaDiscrete ≠ 0
  · rw [if_pos hd] at h
    simp only [Option.some.injEq] at h
    split_ifs at h <;> omega
  · rw [if_neg hd] at h
    simp only [] at h
    split_ifs at h <;> simp only [Option.some.injEq] at h <;> omega

/-- The accumulator after `onMouseAxis` is the one computed by lines 870-888, whenever the
event reaches them. -/
theorem axis_accum (cfg : HorzaConfig) (h : Host) (s : COverview) (mon : CMonitor)
    (e : SAxisEvent) (hnc : s.closing = false) (hsize : 2 ≤ s.images.length)
    (hmon : h.monitor = some mon) (hcur : h.monitorFromCursor = some mon)
    (haxis : e.axis = 0 ∨ e.axis = 1) :
    (onMouseAxis cfg h s (some e)).scrollGestureAccum = (axisSteps s.scrollGestureAccum e).1 := by
  have h1 : ¬ (s.closing = true ∨ s.images.length < 2) := by
    rw [hnc]; simp; omega
  have h3 : ¬ (e.axis ≠ 0 ∧ e.axis ≠ 1) := by omega
  unfold onMouseAxis
  simp only [h1, hmon, hcur, h3, if_false, ne_eq, not_true_eq_false]
  split
  · rfl
  · split_ifs
    · rfl
    · rfl
    · split
      · rename_i sc off _ _
        exact captureFrame_accum (recentered_fields cfg h mon false _ sc off _).2
      · rfl

/-- The index after `onMouseAxis`, in terms of the step requested by lines 870-888. -/
theorem axis_currentIdx (cfg : HorzaConfig) (h : Host) (s : COverview) (mon : CMonitor)
    (e : SAxisEvent) (sc off : AnimVar) (hnc : s.closing = false) (hsize : 2 ≤ s.images.length)
    (hmon : h.monitor = some mon) (hcur : h.monitorFromCursor = some mon)
    (haxis : e.axis = 0 ∨ e.axis = 1) (hsc : s.m_scale = some sc) (hoff : s.m_offsetX = some off) :
    (onMouseAxis cfg h s (some e)).currentIdx =
      match (axisSteps s.scrollGestureAccum e).2 with
      | none => s.currentIdx
      | some steps => clampI (s.currentIdx + steps) 0 (s.size - 1) := by
  have h1 : ¬ (s.closing = true ∨ s.images.length < 2) := by
    rw [hnc]; simp; omega
  have h3 : ¬ (e.axis ≠ 0 ∧ e.axis ≠ 1) := by omega
  unfold onMouseAxis
  simp only [h1, hmon, hcur, h3, if_false, ne_eq, not_true_eq_false]
  cases hst : (axisSteps s.scrollGestureAccum e).2 with
  | none => rfl
  | some steps =>
    simp only []
    split_ifs with h4 h5
    · rcases axisSteps_step hst with h6 | h6 <;> omega
    · exact h5.symm
    · simp only [hsc, hoff]
      exact (recentered_fields cfg h mon false _ sc off _).1

theorem tileAt_some_bounds {l : List SWorkspaceImage} {i : Int} {t : SWorkspaceImage}
    (h : tileAt l i = some t) : 0 ≤ i ∧ i < (l.length : Int) := by
  unfold tileAt at h
  split_ifs at h with h0
  have hlt : i.toNat < l.length := by
    by_contra hcon
    rw [List.getElem?_eq_none (by omega)] at h
    exact absurd h (by simp)
  omega

/-- The state right after a left-button press. -/
theorem pressed_fields (h : Host) (mon : CMonitor) (s : COverview) :
    (onButtonPressed h mon s).leftButtonDown = true ∧
      (onButtonPressed h mon s).draggingWindow = false ∧
      (onButtonPressed h mon s).closing = s.closing ∧
      (onButtonPressed h mon s).images = s.images ∧
      (onButtonPressed h mon s).dragStartPosLocal = s.lastMousePosLocal ∧
      ((onButtonPressed h mon s).dragWindow ≠ none →
        0 ≤ (onButtonPressed h mon s).dragSourceIdx ∧
          (onButtonPressed h mon s).dragSourceIdx < (onButtonPressed h mon s).size) := by
  unfold onButtonPressed
  simp only []
  split
  · exact ⟨rfl, rfl, rfl, rfl, rfl, fun hw => absurd rfl hw⟩
  · rename_i tile htile
    have hb := tileAt_some_bounds htile
    split
    · exact ⟨rfl, rfl, rfl, rfl, rfl, fun hw => absurd rfl hw⟩
    · exact ⟨rfl, rfl, rfl, rfl, rfl, fun _ => hb⟩

theorem hook_press (h : Host) (s : COverview) (mon : CMonitor) (hmon : h.monitor = some mon)
    (hnc : s.closing = false) :
    mouseButtonHook h s (some ⟨BTN_LEFT, 1⟩) =
      onButtonPressed h mon { s with lastMousePosLocal :=
        { x := h.mouseCoords.x - mon.m_position.x, y := h.mouseCoords.y - mon.m_position.y } } := by
  unfold mouseButtonHook onMouseButton
  simp [hmon, hnc]

theorem syncDragGuard_cleared {n : Int} {s : COverview} (h : s.size ≠ n) :
    (syncDragGuard n s).leftButtonDown = false ∧ (syncDragGuard n s).draggingWindow = false ∧
      (syncDragGuard n s).dragSourceIdx = -1 ∧ (syncDragGuard n s).dragTargetIdx = -1 ∧
      (syncDragGuard n s).dragWindow = none := by
  unfold syncDragGuard
  rw [if_pos (Or.inl h)]
  exact ⟨rfl, rfl, rfl, rfl, rfl⟩

theorem syncDragGuard_in_range (n : Int) {s : COverview} (h : 0 < s.size) :
    (syncDragGuard n s).dragSourceIdx < (syncDragGuard n s).size ∧
      (syncDragGuard n s).dragTargetIdx < (syncDragGuard n s).size := by
  unfold syncDragGuard
  split_ifs with hc
  · constructor
    · show (-1 : Int) < s.size
      omega
    · show (-1 : Int) < s.size
      omega
  · constructor <;> omega

/-- A duplicate-free list of ids drawn from `old` but missing one of its members is shorter
than `old`. -/
theorem length_lt_of_removed {new old : List Int} {x : Int} (hnd : new.Nodup)
    (hsub : ∀ a ∈ new, a ∈ old) (hx : x ∈ old) (hxn : x ∉ new) : new.length < old.length := by
  have h1 : new ⊆ old.filter (fun a => decide (a ≠ x)) := by
    intro a ha
    rw [List.mem_filter]
    refine ⟨hsub a ha, ?_⟩
    simp only [ne_eq, decide_not, Bool.not_eq_true', decide_eq_false_iff_not]
    intro hax
    exact hxn (hax ▸ ha)
  have h2 := (List.subperm_of_subset hnd h1).length_le
  have h3 : (old.filter (fun a => decide (a ≠ x))).length < old.length := by
    refine List.length_filter_lt_length_iff_exists.2 ⟨x, hx, ?_⟩
    simp
  omega

theorem tileAt_mem {l : List SWorkspaceImage} {i : Int} {t : SWorkspaceImage}
    (h : tileAt l i = some t) : t ∈ l := by
  unfold tileAt at h
  split_ifs at h
  exact List.getElem?_mem h

theorem sync_count_changed {cfg : HorzaConfig} {h : Host} {s : COverview} {mon : CMonitor}
    (hmon : h.monitor = some mon) (hne : sortedWorkspaces h mon ≠ [])
    (hcount : (sortedWorkspaces h mon).length ≠ s.images.length) :
    (syncWorkspaces cfg h s).2.leftButtonDown = false ∧
      (syncWorkspaces cfg h s).2.draggingWindow = false ∧
      (syncWorkspaces cfg h s).2.dragSourceIdx = -1 ∧
      (syncWorkspaces cfg h s).2.dragTargetIdx = -1 ∧
      (syncWorkspaces cfg h s).2.dragWindow = none := by
  have hchg : s.images.map (fun t => t.pWorkspace) ≠ (sortedWorkspaces h mon).map some := by
    intro heq
    have := congrArg List.length heq
    simp only [List.length_map] at this
    exact hcount this.symm
  rw [sync_rebuild hmon hchg hne]
  apply syncDragGuard_cleared
  rw [(syncRefill_frame cfg h mon _ _).1]
  show ((reconcile s.images (sortedWorkspaces h mon)).length : Int) ≠ (s.images.length : Int)
  rw [reconcile_length]
  exact_mod_cast hcount

/-! ## Lemmas on the lifecycle, the layout and the capture scheduler -/

theorem assign_goal (a : AnimVar) (v : ℚ) : (a.assign v).goal = v := by
  unfold AnimVar.assign
  split_ifs with h
  · exact h.symm
  · rfl

theorem assign_value (a : AnimVar) (v : ℚ) : (a.assign v).value = a.value := by
  unfold AnimVar.assign
  split_ifs <;> rfl

theorem scheduleCloseDrop_fields (s : COverview) :
    (scheduleCloseDrop s).closing = s.closing ∧ (scheduleCloseDrop s).m_scale = s.m_scale ∧
      (scheduleCloseDrop s).m_offsetX = s.m_offsetX ∧
      (scheduleCloseDrop s).m_crossOffset = s.m_crossOffset := by
  unfold scheduleCloseDrop
  split_ifs <;> exact ⟨rfl, rfl, rfl, rfl⟩

theorem close_eq (h : Host) (s : COverview) :
    close h s = if s.closing then s else closeTail (closeBegin h s) := rfl

theorem closeTail_fields (s1 : COverview) :
    (closeTail s1).closing = s1.closing ∧ (closeTail s1).m_scale.isSome = s1.m_scale.isSome ∧
      (closeTail s1).m_offsetX.isSome = s1.m_offsetX.isSome ∧
      (closeTail s1).m_crossOffset.isSome = s1.m_crossOffset.isSome := by
  have hs : ∀ x : COverview,
      (scheduleCloseDrop x).closing = x.closing ∧
        (scheduleCloseDrop x).m_scale.isSome = x.m_scale.isSome ∧
        (scheduleCloseDrop x).m_offsetX.isSome = x.m_offsetX.isSome ∧
        (scheduleCloseDrop x).m_crossOffset.isSome = x.m_crossOffset.isSome := by
    intro x
    obtain ⟨a, b, c, d⟩ := scheduleCloseDrop_fields x
    exact ⟨a, by rw [b], by rw [c], by rw [d]⟩
  unfold closeTail
  split
  · rename_i sc off cross h1 h2 h3
    by_cases hi : s1.images = []
    · rw [if_pos hi]
      exact hs s1
    · rw [if_neg hi]
      dsimp only
      by_cases ht : s1.transitMode = true
      · rw [if_pos ht]
        obtain ⟨a, b, c, d⟩ := hs { s1 with m_offsetX := some (off.setValueAndWarp 0) }
        exact ⟨a, b, c.trans (by rw [h2]; rfl), d⟩
      · rw [if_neg ht]
        exact ⟨rfl, by rw [h1]; rfl, by rw [h2]; rfl, by rw [h3]; rfl⟩
  · exact hs s1

/-- After `close()` the session is closing and holds the animated variables it held. -/
theorem close_fields (h : Host) (s : COverview) :
    (close h s).closing = true ∧ (close h s).m_scale.isSome = s.m_scale.isSome ∧
      (close h s).m_offsetX.isSome = s.m_offsetX.isSome ∧
      (close h s).m_crossOffset.isSome = s.m_crossOffset.isSome := by
  rw [close_eq]
  by_cases hc : s.closing = true
  · rw [if_pos hc]; exact ⟨hc, rfl, rfl, rfl⟩
  · rw [if_neg hc]
    obtain ⟨a, b, c, d⟩ := closeTail_fields (closeBegin h s)
    rw [a, b, c, d]
    exact ⟨rfl, rfl, rfl, rfl⟩

/-- The state after `reopen()` of a closing session. -/
theorem reopen_fields (cfg : HorzaConfig) (c : COverview) (hc : c.closing = true) :
    (reopen cfg c).closing = false ∧ (reopen cfg c).closeDropScheduled = false ∧
      (reopen cfg c).handoffActive = false ∧ (reopen cfg c).finalCrossfadeActive = false ∧
      (reopen cfg c).closeOverlayAlpha = 1 ∧ (reopen cfg c).closeDropTimer = none ∧
      (reopen cfg c).m_scale = c.m_scale.map (fun a => a.assign (clampDisplayScale cfg.displayScale)) ∧
      (reopen cfg c).m_offsetX = c.m_offsetX.map (fun a => a.assign 0) ∧
      (reopen cfg c).m_crossOffset = c.m_crossOffset.map (fun a => a.assign cfg.centerOffset) := by
  unfold reopen
  rw [if_neg (by simp [hc])]
  exact ⟨rfl, rfl, rfl, rfl, rfl, rfl, rfl, rfl, rfl⟩

/-- The primary-axis position of tile `i` before the inactive shrink. -/
theorem tileBase_primary (cfg : HorzaConfig) (mon : CMonitor) (s : COverview) (i : Int) :
    primaryOf cfg s (tileBase cfg mon s i) =
      layoutCenter cfg mon s s.currentIdx + layoutOffset s +
        (i : ℚ) * (tileSizePrimary cfg mon s + layoutGap cfg s) := by
  unfold primaryOf tileSizePrimary primaryOf tileBase layoutStart layoutCenter
  cases hv : layoutVertical cfg s <;> simp

theorem layoutCenter_eq (cfg : HorzaConfig) (mon : CMonitor) (s : COverview) (c : Int) :
    layoutCenter cfg mon s c =
      centerPrimary cfg mon s -
        ((c : ℚ) * (tileSizePrimary cfg mon s + layoutGap cfg s) +
          tileSizePrimary cfg mon s * (1 / 2)) := by
  unfold layoutCenter centerTerm centerPrimary tileSizePrimary primaryOf
  cases hv : layoutVertical cfg s <;> simp

theorem clampQ_mem (v lo hi : ℚ) (h : lo ≤ hi) : lo ≤ clampQ v lo hi ∧ clampQ v lo hi ≤ hi := by
  unfold clampQ
  split_ifs with h1 h2
  · exact ⟨le_refl _, h⟩
  · exact ⟨h, le_refl _⟩
  · exact ⟨not_lt.mp h1, not_lt.mp h2⟩

theorem clampQ_id {v lo hi : ℚ} (h1 : lo ≤ v) (h2 : v ≤ hi) : clampQ v lo hi = v := by
  unfold clampQ
  rw [if_neg (not_lt.mpr h1), if_neg (not_lt.mpr h2)]

theorem clampQ_hi {v lo hi : ℚ} (h : lo ≤ hi) (h2 : hi ≤ v) : clampQ v lo hi = hi := by
  unfold clampQ
  split_ifs with h1 h3
  · exact absurd (lt_of_lt_of_le h1 h) (not_lt.mpr h2)
  · rfl
  · exact le_antisymm (not_lt.mp h3) h2

/-- A percentage the loader can store lies in `[0, 100]`, so the clamp of its hundredth
to `[0, 1]` is the identity. -/
theorem loaded_percent_scale {cfg : HorzaConfig}
    (hpct : clampInactiveTileSizePercent cfg.inactiveTileSizePercent =
      cfg.inactiveTileSizePercent) :
    clampQ (cfg.inactiveTileSizePercent * (1 / 100)) 0 1 =
      cfg.inactiveTileSizePercent * (1 / 100) := by
  have hb := clampQ_mem cfg.inactiveTileSizePercent 0 100 (by norm_num)
  unfold clampInactiveTileSizePercent at hpct
  rw [hpct] at hb
  apply clampQ_id <;> linarith [hb.1, hb.2]

theorem layoutFrom_getElem? (box : Int → CBox) (l : List SWorkspaceImage) (i : Int) (n : Nat) :
    (layoutFrom box l i)[n]? = (l[n]?).map (fun t => { t with displayBox := box (i + n) }) := by
  induction l generalizing i n with
  | nil => simp [layoutFrom]
  | cons t ts ih =>
      cases n with
      | zero => simp [layoutFrom]
      | succ n =>
          simp only [layoutFrom, List.getElem?_cons_succ, ih]
          have : i + 1 + (n : Int) = i + ((n + 1 : Nat) : Int) := by push_cast; ring
          rw [this]

theorem layoutFrom_tileAt {box : Int → CBox} {l : List SWorkspaceImage} {i : Int}
    {t : SWorkspaceImage} (h : tileAt (layoutFrom box l 0) i = some t) :
    t.displayBox = box i := by
  unfold tileAt at h
  split_ifs at h with h0
  rw [layoutFrom_getElem?] at h
  cases hl : l[i.toNat]? with
  | none => rw [hl] at h; simp at h
  | some u =>
      rw [hl] at h
      simp only [Option.map_some', Option.some.injEq] at h
      rw [← h]
      have : (0 : Int) + ((i.toNat : Nat) : Int) = i := by
        rw [Int.toNat_of_nonneg (not_lt.mp h0)]; ring
      simp only [this]

/-- The start of the opening transition changes goals only, so the boxes that
`fullRenderLayout` stores are those of the state it was called on. -/
theorem fullRenderLayout_box {cfg : HorzaConfig} {h : Host} {s : COverview} {mon : CMonitor}
    (hm : h.monitor = some mon) {i : Int} {t : SWorkspaceImage}
    (ht : tileAt (fullRenderLayout cfg h s).images i = some t) :
    t.displayBox = tileDisplayBox cfg mon s i := by
  unfold fullRenderLayout at ht
  rw [hm] at ht
  dsimp only at ht
  by_cases he : s.images = []
  · rw [if_pos he] at ht
    rw [he] at ht
    simp [tileAt] at ht
  · rw [if_neg he] at ht
    by_cases hp : (s.openAnimPending && !s.closing) = true
    · rw [if_pos hp] at ht
      dsimp only at ht
      rw [layoutFrom_tileAt ht]
      have hv : ∀ (a : AnimVar) (v : ℚ), (a.assign v).value = a.value := assign_value
      unfold tileDisplayBox tileScaleFactor normFromCenter tileCenterPrimary tileStep
        centerPrimary inactiveTileSizeScale tileBase layoutStart layoutTile layoutGap
        layoutCenterOffset layoutVertical layoutScale layoutOffset
      dsimp only
      cases hsc : s.m_scale <;> cases hco : s.m_crossOffset <;>
        simp only [Option.map_some', Option.map_none', hv]
    · rw [if_neg hp] at ht
      dsimp only at ht
      exact layoutFrom_tileAt ht

theorem tileScaleFactor_eq (cfg : HorzaConfig) (mon : CMonitor) (s : COverview)
    (htr : s.transitMode = false) (hstep : tileStep cfg mon s > 1 / 1000) (i : Int) :
    normFromCenter cfg mon s i =
        clampQ (|tileCenterPrimary cfg mon s i - centerPrimary cfg mon s| / tileStep cfg mon s)
          0 1 ∧
      tileScaleFactor cfg mon s i =
        1 - (1 - clampQ (cfg.inactiveTileSizePercent * (1 / 100)) 0 1) *
          normFromCenter cfg mon s i := by
  constructor
  · unfold normFromCenter
    rw [if_pos hstep]
  · unfold tileScaleFactor inactiveTileSizeScale
    rw [htr]
    simp

theorem isTileOnScreen_iff {h : Host} {mon : CMonitor} (hm : h.monitor = some mon) (box : CBox) :
    isTileOnScreen h box = true ↔
      (1 < box.w ∧ 1 < box.h) ∧ 0 < box.x + box.w ∧ 0 < box.y + box.h ∧
        box.x < mon.m_size.x ∧ box.y < mon.m_size.y := by
  unfold isTileOnScreen
  rw [hm]
  dsimp only
  by_cases hg : box.w ≤ 1 ∨ box.h ≤ 1
  · rw [if_pos hg]
    constructor
    · intro hf; exact absurd hf (by simp)
    · rintro ⟨⟨hw, hh⟩, _⟩
      rcases hg with hg | hg
      · exact absurd hw (not_lt.mpr hg)
      · exact absurd hh (not_lt.mpr hg)
  · rw [if_neg hg]
    rw [not_or, not_le, not_le] at hg
    simp only [Bool.and_eq_true, decide_eq_true_eq, gt_iff_lt]
    constructor
    · rintro ⟨⟨⟨h1, h2⟩, h3⟩, h4⟩
      exact ⟨hg, h1, h2, h3, h4⟩
    · rintro ⟨_, h1, h2, h3, h4⟩
      exact ⟨⟨⟨h1, h2⟩, h3⟩, h4⟩

/-- Two half-open intervals `[a, a + w)` and `[0, m)` of positive length share a point
exactly when `0 < a + w` and `a < m`. -/
theorem interval_meets {a w m : ℚ} (hw : 0 < w) (hmpos : 0 < m) :
    (∃ p : ℚ, a ≤ p ∧ p < a + w ∧ 0 ≤ p ∧ p < m) ↔ 0 < a + w ∧ a < m := by
  constructor
  · rintro ⟨p, h1, h2, h3, h4⟩
    exact ⟨lt_of_le_of_lt h3 h2, lt_of_le_of_lt h1 h4⟩
  · rintro ⟨h1, h2⟩
    refine ⟨max a 0, le_max_left _ _, ?_, le_max_right _ _, ?_⟩
    · exact max_lt (by linarith) h1
    · exact max_lt h2 hmpos

theorem livePreviewFrom_cons (h : Host) (c now : Int) (mi : ℚ) (best : Option (Int × Int))
    (t : SWorkspaceImage) (ts : List SWorkspaceImage) (i : Int) :
    livePreviewFrom h c now mi best (t :: ts) i =
      if i = c ∨ !t.captured then livePreviewFrom h c now mi best ts (i + 1)
      else if !isTileOnScreen h t.displayBox then livePreviewFrom h c now mi best ts (i + 1)
      else if f32 (((now - t.lastCaptureAt : Int) : ℚ)) < f32 (mi * ticksPerSec) then
        livePreviewFrom h c now mi best ts (i + 1)
      else
        match best with
        | none => livePreviewFrom h c now mi (some (i, t.lastCaptureAt)) ts (i + 1)
        | some (j, bt) =>
            if t.lastCaptureAt < bt then
              livePreviewFrom h c now mi (some (i, t.lastCaptureAt)) ts (i + 1)
            else livePreviewFrom h c now mi (some (j, bt)) ts (i + 1) := by
  cases best with
  | none => rfl
  | some b => rfl

theorem livePreviewFrom_skip {h : Host} {c now : Int} {mi : ℚ} {best : Option (Int × Int)}
    {t : SWorkspaceImage} {ts : List SWorkspaceImage} {i : Int}
    (hne : ¬ livePreviewEligible h c now mi i t) :
    livePreviewFrom h c now mi best (t :: ts) i = livePreviewFrom h c now mi best ts (i + 1) := by
  unfold livePreviewEligible at hne
  rw [livePreviewFrom_cons]
  by_cases h1 : i = c ∨ (!t.captured) = true
  · rw [if_pos h1]
  · rw [if_neg h1]
    by_cases h2 : (!isTileOnScreen h t.displayBox) = true
    · rw [if_pos h2]
    · rw [if_neg h2]
      by_cases h3 : f32 (((now - t.lastCaptureAt : Int)) : ℚ) < f32 (mi * ticksPerSec)
      · rw [if_pos h3]
      · exfalso
        apply hne
        rw [not_or] at h1
        refine ⟨h1.1, ?_, ?_, not_lt.mp h3⟩
        · simpa using h1.2
        · simpa using h2

theorem livePreviewFrom_take {h : Host} {c now : Int} {mi : ℚ} {best : Option (Int × Int)}
    {t : SWorkspaceImage} {ts : List SWorkspaceImage} {i : Int}
    (he : livePreviewEligible h c now mi i t) :
    livePreviewFrom h c now mi best (t :: ts) i =
      livePreviewFrom h c now mi
        (match best with
          | none => some (i, t.lastCaptureAt)
          | some (j, bt) => if t.lastCaptureAt < bt then some (i, t.lastCaptureAt)
              else some (j, bt)) ts (i + 1) := by
  obtain ⟨h1, h2, h3, h4⟩ := he
  rw [livePreviewFrom_cons]
  rw [if_neg (by simp [h1, h2]), if_neg (by simp [h3]), if_neg (not_lt.mpr h4)]
  cases best with
  | none => rfl
  | some b =>
      obtain ⟨j, bt⟩ := b
      dsimp only
      split_ifs <;> rfl

/-- What the loop of `pickVisibleLivePreviewWorkspace` returns: nothing exactly when it
started with nothing and met no eligible tile; otherwise the incoming best or an eligible tile
it met, whose capture time is no later than the incoming best and than every eligible tile. -/
theorem livePreviewFrom_inv (h : Host) (c now : Int) (mi : ℚ) (l : List SWorkspaceImage) :
    ∀ (best : Option (Int × Int)) (i : Int),
      (livePreviewFrom h c now mi best l i = none ↔
        best = none ∧ ∀ (n : Nat) (t : SWorkspaceImage), l[n]? = some t → ¬ livePreviewEligible h c now mi (i + n) t) ∧
      ∀ j bt, livePreviewFrom h c now mi best l i = some (j, bt) →
        (best = some (j, bt) ∨
          ∃ (n : Nat) (t : SWorkspaceImage), l[n]? = some t ∧ j = i + (n : Int) ∧ bt = t.lastCaptureAt ∧
            livePreviewEligible h c now mi (i + n) t) ∧
        (∀ b, best = some b → bt ≤ b.2) ∧
        ∀ (n : Nat) (t : SWorkspaceImage), l[n]? = some t → livePreviewEligible h c now mi (i + n) t →
          bt ≤ t.lastCaptureAt := by
  induction l with
  | nil =>
      intro best i
      simp only [livePreviewFrom, List.getElem?_nil]
      refine ⟨⟨fun hb => ⟨hb, fun _ _ hn => by simp at hn⟩, fun hb => hb.1⟩, ?_⟩
      intro j bt hb
      refine ⟨Or.inl hb, ?_, fun _ _ hn => by simp at hn⟩
      intro b hb2
      rw [hb] at hb2
      simp only [Option.some.injEq] at hb2
      rw [← hb2]
  | cons t ts ih =>
      intro best i
      have shift : ∀ n : Nat, i + 1 + (n : Int) = i + ((n + 1 : Nat) : Int) := by
        intro n; push_cast; ring
      by_cases he : livePreviewEligible h c now mi i t
      · rw [livePreviewFrom_take he]
        obtain ⟨ihn, ihs⟩ := ih (match best with
          | none => some (i, t.lastCaptureAt)
          | some (j, bt) => if t.lastCaptureAt < bt then some (i, t.lastCaptureAt)
              else some (j, bt)) (i + 1)
        constructor
        · constructor
          · intro hr
            have := (ihn.mp hr).1
            cases best with
            | none => simp at this
            | some b =>
                obtain ⟨j, bt⟩ := b
                dsimp only at this
                split_ifs at this
          · rintro ⟨_, hall⟩
            exact absurd (by simpa using he) (hall 0 t (by simp))
        · intro j bt hr
          obtain ⟨hsrc, hle, hall⟩ := ihs j bt hr
          have hall2 : ∀ (n : Nat) (u : SWorkspaceImage), ts[n]? = some u → livePreviewEligible h c now mi (i + ((n + 1 : Nat) : Int)) u →
              bt ≤ u.lastCaptureAt := by
            intro n u hn hu
            rw [← shift] at hu
            exact hall n u hn hu
          have hshift : (∃ (n : Nat) (u : SWorkspaceImage), ts[n]? = some u ∧ j = i + 1 + (n : Int) ∧ bt = u.lastCaptureAt ∧
              livePreviewEligible h c now mi (i + 1 + n) u) →
              ∃ (n : Nat) (u : SWorkspaceImage), (t :: ts)[n]? = some u ∧ j = i + (n : Int) ∧ bt = u.lastCaptureAt ∧
                livePreviewEligible h c now mi (i + n) u := by
            rintro ⟨n, u, hn, hj, hb, hu⟩
            refine ⟨n + 1, u, by simpa using hn, ?_, hb, ?_⟩
            · rw [hj, shift]
            · rw [← shift]; exact hu
          have here : ∃ (n : Nat) (u : SWorkspaceImage), (t :: ts)[n]? = some u ∧ i = i + (n : Int) ∧
              t.lastCaptureAt = u.lastCaptureAt ∧ livePreviewEligible h c now mi (i + n) u :=
            ⟨0, t, by simp, by simp, rfl, by simpa using he⟩
          cases best with
          | none =>
              dsimp only at hsrc hle
              have hbt : bt ≤ t.lastCaptureAt := hle (i, t.lastCaptureAt) rfl
              refine ⟨Or.inr ?_, fun b hb => by simp at hb, ?_⟩
              · rcases hsrc with hsrc | hsrc
                · simp only [Option.some.injEq, Prod.mk.injEq] at hsrc
                  obtain ⟨n, u, h1, h2, h3, h4⟩ := here
                  exact ⟨n, u, h1, hsrc.1 ▸ h2, hsrc.2 ▸ h3, h4⟩
                · exact hshift hsrc
              · intro n u hn hu
                cases n with
                | zero =>
                    simp only [List.getElem?_cons_zero, Option.some.injEq] at hn
                    rw [← hn]; exact hbt
                | succ n => exact hall2 n u (by simpa using hn) hu
          | some b =>
              obtain ⟨j0, bt0⟩ := b
              dsimp only at hsrc hle
              by_cases hlt : t.lastCaptureAt < bt0
              · rw [if_pos hlt] at hsrc hle
                have hbt : bt ≤ t.lastCaptureAt := hle (i, t.lastCaptureAt) rfl
                refine ⟨Or.inr ?_, ?_, ?_⟩
                · rcases hsrc with hsrc | hsrc
                  · simp only [Option.some.injEq, Prod.mk.injEq] at hsrc
                    obtain ⟨n, u, h1, h2, h3, h4⟩ := here
                    exact ⟨n, u, h1, hsrc.1 ▸ h2, hsrc.2 ▸ h3, h4⟩
                  · exact hshift hsrc
                · intro b hb
                  simp only [Option.some.injEq] at hb
                  rw [← hb]
                  exact le_of_lt (lt_of_le_of_lt hbt hlt)
                · intro n u hn hu
                  cases n with
                  | zero =>
                      simp only [List.getElem?_cons_zero, Option.some.injEq] at hn
                      rw [← hn]; exact hbt
                  | succ n => exact hall2 n u (by simpa using hn) hu
              · rw [if_neg hlt] at hsrc hle
                have hbt : bt ≤ bt0 := hle (j0, bt0) rfl
                refine ⟨?_, ?_, ?_⟩
                · rcases hsrc with hsrc | hsrc
                  · exact Or.inl hsrc
                  · exact Or.inr (hshift hsrc)
                · intro b hb
                  simp only [Option.some.injEq] at hb
                  rw [← hb]
                  exact hbt
                · intro n u hn hu
                  cases n with
                  | zero =>
                      simp only [List.getElem?_cons_zero, Option.some.injEq] at hn
                      rw [← hn]; exact le_trans hbt (not_lt.mp hlt)
                  | succ n => exact hall2 n u (by simpa using hn) hu
      · rw [livePreviewFrom_skip he]
        obtain ⟨ihn, ihs⟩ := ih best (i + 1)
        constructor
        · rw [ihn]
          constructor
          · rintro ⟨hb, hall⟩
            refine ⟨hb, ?_⟩
            intro n u hn
            cases n with
            | zero =>
                simp only [List.getElem?_cons_zero, Option.some.injEq] at hn
                rw [← hn]; simpa using he
            | succ n =>
                rw [← shift]
                exact hall n u (by simpa using hn)
          · rintro ⟨hb, hall⟩
            refine ⟨hb, ?_⟩
            intro n u hn
            rw [shift]
            exact hall (n + 1) u (by simpa using hn)
        · intro j bt hr
          obtain ⟨hsrc, hle, hall⟩ := ihs j bt hr
          refine ⟨?_, hle, ?_⟩
          · rcases hsrc with hsrc | ⟨n, u, hn, hj, hb, hu⟩
            · exact Or.inl hsrc
            · refine Or.inr ⟨n + 1, u, by simpa using hn, ?_, hb, ?_⟩
              · rw [hj, shift]
              · rw [← shift]; exact hu
          · intro n u hn hu
            cases n with
            | zero =>
                simp only [List.getElem?_cons_zero, Option.some.injEq] at hn
                rw [← hn] at hu
                exact absurd (by simpa using hu) he
            | succ n =>
                rw [← shift] at hu
                exact hall n u (by simpa using hn) hu

theorem tileAt_natCast (l : List SWorkspaceImage) (n : Nat) : tileAt l (n : Int) = l[n]? := by
  unfold tileAt
  rw [if_neg (by omega)]
  simp

theorem clampQ_fps_pos {v : ℚ} : clampQ v 0 60 ≤ 0 ↔ v ≤ 0 := by
  unfold clampQ
  split_ifs with h1 h2
  · exact ⟨fun _ => le_of_lt h1, fun _ => le_refl _⟩
  · constructor
    · intro h; norm_num at h
    · intro h; linarith
  · exact Iff.rfl

theorem geometry_congr (cfg : HorzaConfig) (mon : CMonitor) {s r : COverview}
    (h1 : r.transitMode = s.transitMode) (h2 : r.m_scale = s.m_scale)
    (h3 : r.m_crossOffset = s.m_crossOffset) :
    layoutScale cfg r = layoutScale cfg s ∧ layoutGap cfg r = layoutGap cfg s ∧
      layoutVertical cfg r = layoutVertical cfg s ∧
      layoutTile cfg mon r = layoutTile cfg mon s ∧
      layoutCenterOffset cfg r = layoutCenterOffset cfg s ∧
      inactiveTileSizeScale cfg r = inactiveTileSizeScale cfg s ∧
      ∀ c, layoutCenter cfg mon r c = layoutCenter cfg mon s c := by
  have e1 : layoutScale cfg r = layoutScale cfg s := by unfold layoutScale; rw [h1, h2]
  have e2 : layoutGap cfg r = layoutGap cfg s := by unfold layoutGap; rw [h1, e1]
  have e3 : layoutVertical cfg r = layoutVertical cfg s := by unfold layoutVertical; rw [h1]
  have e4 : layoutTile cfg mon r = layoutTile cfg mon s := by unfold layoutTile; rw [e1]
  have e5 : layoutCenterOffset cfg r = layoutCenterOffset cfg s := by
    unfold layoutCenterOffset; rw [h1, h3]
  have e6 : inactiveTileSizeScale cfg r = inactiveTileSizeScale cfg s := by
    unfold inactiveTileSizeScale; rw [h1]
  refine ⟨e1, e2, e3, e4, e5, e6, ?_⟩
  intro c
  unfold layoutCenter
  rw [e2, e3, e4]

/-- The layout depends on the index and the scroll offset only through the sum of the
centring term and the offset. -/
theorem layout_congr (cfg : HorzaConfig) (mon : CMonitor) {s r : COverview}
    (h1 : r.transitMode = s.transitMode) (h2 : r.m_scale = s.m_scale)
    (h3 : r.m_crossOffset = s.m_crossOffset)
    (hc : layoutCenter cfg mon s r.currentIdx + layoutOffset r =
      layoutCenter cfg mon s s.currentIdx + layoutOffset s) (i : Int) :
    tileBase cfg mon r i = tileBase cfg mon s i ∧
      tileDisplayBox cfg mon r i = tileDisplayBox cfg mon s i := by
  obtain ⟨_, e2, e3, e4, e5, e6, e7⟩ := geometry_congr cfg mon h1 h2 h3
  have hst : layoutStart cfg mon r = layoutStart cfg mon s := by
    have h7 := e7 r.currentIdx
    unfold layoutCenter at h7 hc
    unfold layoutStart
    dsimp only
    rw [e2, e3, e4, e5] at *
    rw [hc]
  have hb : tileBase cfg mon r i = tileBase cfg mon s i := by
    unfold tileBase
    dsimp only
    rw [e2, e3, e4, hst]
  have hcp : centerPrimary cfg mon r = centerPrimary cfg mon s := by
    unfold centerPrimary; rw [e3]
  have hts : tileStep cfg mon r = tileStep cfg mon s := by
    unfold tileStep; rw [e2, e3, e4]
  have htc : tileCenterPrimary cfg mon r i = tileCenterPrimary cfg mon s i := by
    unfold tileCenterPrimary; rw [e3, e4, hb]
  have hn : normFromCenter cfg mon r i = normFromCenter cfg mon s i := by
    unfold normFromCenter; rw [hcp, hts, htc]
  have hf : tileScaleFactor cfg mon r i = tileScaleFactor cfg mon s i := by
    unfold tileScaleFactor; rw [e6, hn]
  refine ⟨hb, ?_⟩
  unfold tileDisplayBox
  dsimp only
  rw [e4, hb, hf]

theorem captureFrame_layout {a b : COverview} (h : CaptureFrame a b) :
    b.transitMode = a.transitMode ∧ b.m_scale = a.m_scale ∧
      b.m_crossOffset = a.m_crossOffset ∧ b.m_offsetX = a.m_offsetX ∧
      b.currentIdx = a.currentIdx := by
  unfold CaptureFrame at h
  refine ⟨?_, ?_, ?_, ?_, ?_⟩ <;> rw [h]

/-- The recentring tail computes its two centres with the geometry of `fullRender`. -/
theorem recenterOn_eq (cfg : HorzaConfig) (mon : CMonitor) (s : COverview) (sc off : AnimVar)
    (t : Int) (hsc : s.m_scale = some sc) :
    recenterOn cfg mon s.transitMode s sc off t =
      { s with
        currentIdx := t
        m_offsetX := some ((off.setValueAndWarp (off.value +
          (layoutCenter cfg mon s s.currentIdx - layoutCenter cfg mon s t))).assign 0) } := by
  unfold recenterOn layoutCenter layoutTile layoutGap layoutVertical layoutScale
  rw [hsc]
  dsimp only
  by_cases htm : s.transitMode = true <;> simp only [htm, Bool.false_eq_true, if_true, if_false]

theorem recentred_refl (cfg : HorzaConfig) (mon : CMonitor) (s : COverview) :
    Recentred cfg mon s s :=
  ⟨⟨rfl, rfl, rfl⟩, Or.inl ⟨rfl, rfl⟩⟩

theorem recentred_of_frame {cfg : HorzaConfig} {mon : CMonitor} {s r : COverview}
    {sc off : AnimVar} {t : Int} {tr : Bool} (htr : tr = s.transitMode)
    (hsc : s.m_scale = some sc) (hoff : s.m_offsetX = some off)
    (hf : CaptureFrame (recenterOn cfg mon tr s sc off t) r) :
    Recentred cfg mon s r := by
  subst htr
  rw [recenterOn_eq cfg mon s sc off t hsc] at hf
  obtain ⟨f1, f2, f3, f4, f5⟩ := captureFrame_layout hf
  refine ⟨⟨f1, f2, f3⟩, Or.inr ⟨off, hoff, ?_⟩⟩
  rw [f4, f5]

/-- A recentred state has the layout of the state it came from, and where the index moved
the offset was warped by `oldCenter - newCenter` towards goal 0. -/
theorem recentred_layout {cfg : HorzaConfig} {mon : CMonitor} {s r : COverview}
    (hr : Recentred cfg mon s r) :
    (∀ i, tileBase cfg mon r i = tileBase cfg mon s i ∧
        tileDisplayBox cfg mon r i = tileDisplayBox cfg mon s i) ∧
      (r.currentIdx ≠ s.currentIdx →
        ∃ off a, s.m_offsetX = some off ∧ r.m_offsetX = some a ∧
          a.value = off.value +
            (layoutCenter cfg mon s s.currentIdx - layoutCenter cfg mon s r.currentIdx) ∧
          a.goal = 0) := by
  obtain ⟨⟨h1, h2, h3⟩, hcase⟩ := hr
  rcases hcase with ⟨hi, ho⟩ | ⟨off, hoff, hro⟩
  · refine ⟨fun i => layout_congr cfg mon h1 h2 h3 ?_ i, fun hne => absurd hi hne⟩
    unfold layoutOffset
    rw [hi, ho]
  · refine ⟨fun i => layout_congr cfg mon h1 h2 h3 ?_ i, fun _ => ⟨off, _, hoff, hro, ?_, ?_⟩⟩
    · unfold layoutOffset
      rw [hro, hoff]
      dsimp only
      rw [assign_value]
      unfold AnimVar.setValueAndWarp
      dsimp only
      ring
    · rw [assign_value]; rfl
    · exact assign_goal _ _

theorem captureFrame_setDirty {a b : COverview} (h : CaptureFrame a b) :
    CaptureFrame a { b with damageDirty := true } :=
  CaptureFrame.trans h (by unfold CaptureFrame; rfl)

theorem shift_recentred (cfg : HorzaConfig) (h : Host) (mon : CMonitor) (s : COverview)
    (step : Int) (hm : h.monitor = some mon) (htr : s.transitMode = false) :
    Recentred cfg mon s (shiftCurrentIndexBy cfg h s step).2 := by
  unfold shiftCurrentIndexBy
  split_ifs
  · exact recentred_refl cfg mon s
  · split
    · rename_i mon2 sc off hm2 hsc hoff
      have hmm : mon2 = mon := by
        rw [hm] at hm2; exact (Option.some.inj hm2).symm
      subst hmm
      simp only []
      split_ifs
      · exact recentred_refl cfg mon2 s
      · exact recentred_of_frame htr.symm hsc hoff (recentered_fields cfg h mon2 false s sc off _).2
    · exact recentred_refl cfg mon s

theorem axis_recentred (cfg : HorzaConfig) (h : Host) (mon : CMonitor) (s : COverview)
    (e : Option SAxisEvent) (hm : h.monitor = some mon) (htr : s.transitMode = false) :
    Recentred cfg mon s (onMouseAxis cfg h s e) := by
  unfold onMouseAxis
  split_ifs with h1
  · exact recentred_refl cfg mon s
  · split
    · rename_i mon2 ev hm2
      have hmm : mon2 = mon := by
        rw [hm] at hm2; exact (Option.some.inj hm2).symm
      subst hmm
      split_ifs with h2 h3
      · exact recentred_refl cfg mon2 s
      · exact recentred_refl cfg mon2 s
      · simp only []
        split
        · exact recentred_refl cfg mon2 s
        · rename_i steps _
          split_ifs with h4 h5
          · exact recentred_refl cfg mon2 s
          · exact recentred_refl cfg mon2 s
          · split
            · rename_i sc off hsc hoff
              exact recentred_of_frame
                (s := { s with scrollGestureAccum := (axisSteps s.scrollGestureAccum ev).1 })
                htr.symm hsc hoff (recentered_fields cfg h mon2 false _ sc off _).2
            · exact recentred_refl cfg mon2 s
    · exact recentred_refl cfg mon s

theorem workspaceChange_recentred (cfg : HorzaConfig) (h : Host) (mon : CMonitor)
    (s : COverview) (hm : h.monitor = some mon) :
    Recentred cfg mon s (onWorkspaceChange cfg h s) := by
  unfold onWorkspaceChange
  split
  · rename_i mon2 sc off hm2 hsc hoff
    have hmm : mon2 = mon := by
      rw [hm] at hm2; exact (Option.some.inj hm2).symm
    subst hmm
    split_ifs with h1
    · exact recentred_refl cfg mon2 s
    · simp only []
      split_ifs with h2
      · exact recentred_refl cfg mon2 s
      · refine recentred_of_frame
          (t := (findActiveFrom mon2.m_activeWorkspace s.images 0).getD s.currentIdx)
          rfl hsc hoff (captureFrame_setDirty ?_)
        split
        · split_ifs
          · exact captureFrame_captureAndMark h _ _
          · exact CaptureFrame.refl _
        · exact CaptureFrame.refl _
  · exact recentred_refl cfg mon s

theorem getElem?_modifyTile (f : SWorkspaceImage → SWorkspaceImage) :
    ∀ (l : List SWorkspaceImage) (n m : Nat),
      (modifyTile f l n)[m]? = if m = n then (l[m]?).map f else l[m]? := by
  intro l
  induction l with
  | nil => intro n m; simp [modifyTile]
  | cons t ts ih =>
      intro n m
      cases n with
      | zero =>
          cases m with
          | zero => simp [modifyTile]
          | succ m => simp [modifyTile]
      | succ n =>
          cases m with
          | zero => simp [modifyTile]
          | succ m => simp [modifyTile, ih]

theorem tileAt_updTile (s : COverview) (i j : Int) (f : SWorkspaceImage → SWorkspaceImage) :
    tileAt (s.updTile i f).images j =
      if j = i then (tileAt s.images j).map f else tileAt s.images j := by
  unfold COverview.updTile
  by_cases hi : i < 0
  · rw [if_pos hi]
    split_ifs with hji
    · have : tileAt s.images j = none := by
        unfold tileAt; rw [if_pos (by omega)]
      rw [this]; rfl
    · rfl
  · rw [if_neg hi]
    dsimp only
    unfold tileAt
    by_cases hj : j < 0
    · rw [if_pos hj]
      split_ifs <;> rfl
    · rw [if_neg hj, getElem?_modifyTile]
      have : (j.toNat = i.toNat) ↔ j = i := by omega
      simp only [this, if_neg hj]

theorem captureWorkspace_images (h : Host) (s : COverview) (i : Int) :
    (captureWorkspace h s i).images = s.images ∨
      (captureWorkspace h s i).images =
        (s.updTile i (fun t =>
          { t with cachedTex := none, lastCaptureAt := h.clock s.ticks })).images := by
  unfold captureWorkspace
  split_ifs
  · exact Or.inl rfl
  · split
    · exact Or.inl rfl
    · split_ifs
      · exact Or.inl rfl
      · exact Or.inr rfl

/-- The tiles after `captureWorkspace`: every tile keeps its workspace, box and `captured`
flag, and tiles other than `i` are untouched. -/
theorem captureWorkspace_tileAt (h : Host) (s : COverview) (i j : Int) :
    (j ≠ i → tileAt (captureWorkspace h s i).images j = tileAt s.images j) ∧
      ∀ t, tileAt s.images j = some t →
        ∃ u, tileAt (captureWorkspace h s i).images j = some u ∧ u.captured = t.captured ∧
          u.pWorkspace = t.pWorkspace ∧ u.displayBox = t.displayBox := by
  rcases captureWorkspace_images h s i with hc | hc
  · rw [hc]
    exact ⟨fun _ => rfl, fun t ht => ⟨t, ht, rfl, rfl, rfl⟩⟩
  · rw [hc, tileAt_updTile]
    constructor
    · intro hne; rw [if_neg hne]
    · intro t ht
      split_ifs
      · rw [ht]; exact ⟨_, rfl, rfl, rfl, rfl⟩
      · exact ⟨t, ht, rfl, rfl, rfl⟩

/-- The tiles after the capture block: tile `i` is marked captured without a cached image,
the other tiles are untouched. -/
theorem captureAndMark_tileAt (h : Host) (s : COverview) (i : Int) :
    (∀ j, j ≠ i → tileAt (captureAndMark h s i).images j = tileAt s.images j) ∧
      ∀ t, tileAt s.images i = some t →
        ∃ u, tileAt (captureAndMark h s i).images i = some u ∧ u.captured = true ∧
          u.cachedTex = none ∧ u.pWorkspace = t.pWorkspace ∧ u.displayBox = t.displayBox := by
  unfold captureAndMark
  constructor
  · intro j hne
    rw [tileAt_updTile, if_neg hne]
    exact (captureWorkspace_tileAt h { s with blockOverviewRendering := true } i j).1 hne
  · intro t ht
    rw [tileAt_updTile, if_pos rfl]
    obtain ⟨u, hu, _, h2, h3⟩ :=
      (captureWorkspace_tileAt h { s with blockOverviewRendering := true } i i).2 t ht
    have hu2 : tileAt (captureWorkspace h { s with blockOverviewRendering := true } i).images i =
        some u := hu
    refine ⟨{ u with captured := true, cachedTex := none }, ?_, rfl, rfl, h2, h3⟩
    show Option.map _ (tileAt (captureWorkspace h { s with blockOverviewRendering := true } i).images i) = _
    rw [hu2]
    rfl

theorem shift_step (cfg : HorzaConfig) {h : Host} {s : COverview} {mon : CMonitor}
    {sc off : AnimVar} (step : Int) (hm : h.monitor = some mon) (hsc : s.m_scale = some sc)
    (hoff : s.m_offsetX = some off) (hstep : step ≠ 0) (hlen : 2 ≤ s.images.length)
    (ht : clampI (wrapInt32 (s.currentIdx + step)) 0 (s.size - 1) ≠ s.currentIdx) :
    shiftCurrentIndexBy cfg h s step =
      (true, damage (captureOrDirty h (recenterOn cfg mon false s sc off
        (clampI (wrapInt32 (s.currentIdx + step)) 0 (s.size - 1))))) := by
  unfold shiftCurrentIndexBy
  rw [if_neg (by rw [not_or]; exact ⟨hstep, by omega⟩)]
  rw [hm, hsc, hoff]
  dsimp only
  rw [if_neg ht]

theorem tileCenterPrimary_eq (cfg : HorzaConfig) (mon : CMonitor) (s : COverview) (i : Int) :
    tileCenterPrimary cfg mon s i =
      centerPrimary cfg mon s + layoutOffset s +
        ((i : ℚ) - (s.currentIdx : ℚ)) * tileStep cfg mon s := by
  unfold tileCenterPrimary tileBase layoutStart centerTerm centerPrimary tileStep
  cases hv : layoutVertical cfg s <;> simp <;> ring

theorem captureOrDirty_spec {h : Host} {s : COverview} {t : SWorkspaceImage}
    (ht : tileAt s.images s.currentIdx = some t) (hc : t.captured = false) :
    (t.cachedTex = none → captureOrDirty h s = captureAndMark h s s.currentIdx) ∧
      (t.cachedTex ≠ none → captureOrDirty h s = { s with damageDirty := true }) := by
  unfold captureOrDirty
  rw [ht]
  dsimp only
  constructor
  · intro hn
    rw [if_pos (by simp [hc, hn])]
  · intro hn
    cases hx : t.cachedTex with
    | none => exact absurd hx hn
    | some x => simp [hc]

theorem pendingFrom_skip {h : Host} {c : Int} {best : Int × Int} {t : SWorkspaceImage}
    {ts : List SWorkspaceImage} {i : Int}
    (hs : ¬ pendingEligible h t ∨ ¬ |i - c| < best.2) :
    pendingFrom h c best (t :: ts) i = pendingFrom h c best ts (i + 1) := by
  unfold pendingEligible at hs
  show (if t.captured then pendingFrom h c best ts (i + 1)
      else if !isTileOnScreen h t.displayBox then pendingFrom h c best ts (i + 1)
      else if |i - c| < best.2 then pendingFrom h c (i, |i - c|) ts (i + 1)
      else pendingFrom h c best ts (i + 1)) = _
  by_cases h1 : t.captured = true
  · rw [if_pos h1]
  · rw [if_neg h1]
    by_cases h2 : (!isTileOnScreen h t.displayBox) = true
    · rw [if_pos h2]
    · rw [if_neg h2]
      by_cases h3 : |i - c| < best.2
      · exfalso
        rcases hs with hs | hs
        · exact hs ⟨by simpa using h1, by simpa using h2⟩
        · exact hs h3
      · rw [if_neg h3]

theorem pendingFrom_take {h : Host} {c : Int} {best : Int × Int} {t : SWorkspaceImage}
    {ts : List SWorkspaceImage} {i : Int}
    (he : pendingEligible h t) (hd : |i - c| < best.2) :
    pendingFrom h c best (t :: ts) i = pendingFrom h c (i, |i - c|) ts (i + 1) := by
  obtain ⟨h1, h2⟩ := he
  show (if t.captured then pendingFrom h c best ts (i + 1)
      else if !isTileOnScreen h t.displayBox then pendingFrom h c best ts (i + 1)
      else if |i - c| < best.2 then pendingFrom h c (i, |i - c|) ts (i + 1)
      else pendingFrom h c best ts (i + 1)) = _
  rw [if_neg (by simp [h1]), if_neg (by simp [h2]), if_pos hd]

/-- What the selection loop returns: the incoming pair or an eligible tile with its
distance; the distance is no larger than the incoming one and than that of any eligible
tile, and among equal distances the earliest candidate is kept. -/
theorem pendingFrom_inv (h : Host) (c : Int) (l : List SWorkspaceImage) :
    ∀ (best : Int × Int) (i : Int),
      (pendingFrom h c best l i = best ∨
        ∃ (n : Nat) (t : SWorkspaceImage), l[n]? = some t ∧ pendingEligible h t ∧
          pendingFrom h c best l i = (i + (n : Int), |i + (n : Int) - c|)) ∧
      (pendingFrom h c best l i).2 ≤ best.2 ∧
      ((pendingFrom h c best l i).2 = best.2 → pendingFrom h c best l i = best) ∧
      ∀ (n : Nat) (t : SWorkspaceImage), l[n]? = some t → pendingEligible h t →
        (pendingFrom h c best l i).2 ≤ |i + (n : Int) - c| ∧
        ((pendingFrom h c best l i).2 = |i + (n : Int) - c| →
          pendingFrom h c best l i = best ∨ (pendingFrom h c best l i).1 ≤ i + (n : Int)) := by
  induction l with
  | nil =>
      intro best i
      refine ⟨Or.inl rfl, le_refl _, fun _ => rfl, ?_⟩
      intro n t hn
      simp at hn
  | cons t ts ih =>
      intro best i
      have shift : ∀ n : Nat, i + 1 + (n : Int) = i + ((n + 1 : Nat) : Int) := by
        intro n; push_cast; ring
      by_cases htake : pendingEligible h t ∧ |i - c| < best.2
      · rw [pendingFrom_take htake.1 htake.2]
        obtain ⟨hsrc, hle, heq, hall⟩ := ih (i, |i - c|) (i + 1)
        have hle2 : (pendingFrom h c (i, |i - c|) ts (i + 1)).2 ≤ |i - c| := hle
        refine ⟨Or.inr ?_, le_of_lt (lt_of_le_of_lt hle2 htake.2), ?_, ?_⟩
        · rcases hsrc with hsrc | ⟨n, u, hn, hu, hr⟩
          · exact ⟨0, t, by simp, htake.1, by rw [hsrc]; simp⟩
          · exact ⟨n + 1, u, by simpa using hn, hu, by rw [hr, shift]⟩
        · intro hcon
          exact absurd (lt_of_le_of_lt hle2 htake.2) (by rw [hcon]; exact lt_irrefl _)
        · intro n u hn hu
          cases n with
          | zero =>
              simp only [List.getElem?_cons_zero, Option.some.injEq] at hn
              simp only [Nat.cast_zero, add_zero]
              refine ⟨hle2, fun he => Or.inr ?_⟩
              have := heq he
              rw [this]
          | succ n =>
              obtain ⟨a1, a2⟩ := hall n u (by simpa using hn) hu
              rw [shift] at a1 a2
              refine ⟨a1, fun he => Or.inr ?_⟩
              rcases a2 he with a3 | a3
              · rw [a3]
                show i ≤ i + ((n + 1 : Nat) : Int)
                omega
              · exact a3
      · rw [pendingFrom_skip (by
          by_cases he : pendingEligible h t
          · exact Or.inr (fun hd => htake ⟨he, hd⟩)
          · exact Or.inl he)]
        obtain ⟨hsrc, hle, heq, hall⟩ := ih best (i + 1)
        refine ⟨?_, hle, heq, ?_⟩
        · rcases hsrc with hsrc | ⟨n, u, hn, hu, hr⟩
          · exact Or.inl hsrc
          · exact Or.inr ⟨n + 1, u, by simpa using hn, hu, by rw [hr, shift]⟩
        · intro n u hn hu
          cases n with
          | zero =>
              simp only [List.getElem?_cons_zero, Option.some.injEq] at hn
              simp only [Nat.cast_zero, add_zero]
              rw [← hn] at hu
              have hd : ¬ |i - c| < best.2 := fun hd => htake ⟨hu, hd⟩
              refine ⟨le_trans hle (not_lt.mp hd), fun he => Or.inl (heq ?_)⟩
              exact le_antisymm hle (by rw [he]; exact not_lt.mp hd)
          | succ n =>
              obtain ⟨a1, a2⟩ := hall n u (by simpa using hn) hu
              rw [shift] at a1 a2
              exact ⟨a1, a2⟩

theorem tileAt_iff_getElem? {l : List SWorkspaceImage} {j : Int} {t : SWorkspaceImage} :
    tileAt l j = some t ↔ 0 ≤ j ∧ l[j.toNat]? = some t := by
  unfold tileAt
  split_ifs with h0
  · constructor
    · intro hc; exact absurd hc (by simp)
    · rintro ⟨hc, _⟩; omega
  · exact ⟨fun hc => ⟨not_lt.mp h0, hc⟩, fun hc => hc.2⟩

/-- The tile chosen by the pending loop in a state with a valid current index: none exactly
when no tile is uncaptured and on screen; otherwise an uncaptured on-screen tile at the least
distance from `currentIdx`, the lowest index among those at that distance. -/
theorem pickPending_spec (h : Host) (s : COverview) (hv : ValidIdx s)
    (hsz : s.size ≤ 2147483647) :
    (pickPending h s = -1 ↔ ∀ j t, tileAt s.images j = some t → ¬ pendingEligible h t) ∧
      (pickPending h s ≠ -1 →
        ∃ t, tileAt s.images (pickPending h s) = some t ∧ pendingEligible h t ∧
          ∀ j u, tileAt s.images j = some u → pendingEligible h u →
            |pickPending h s - s.currentIdx| ≤ |j - s.currentIdx| ∧
            (|j - s.currentIdx| = |pickPending h s - s.currentIdx| → pickPending h s ≤ j)) := by
  obtain ⟨hsrc, _, _, hall⟩ := pendingFrom_inv h s.currentIdx s.images (-1, 2147483647) 0
  have hdist : ∀ (n : Nat) (t : SWorkspaceImage), s.images[n]? = some t →
      |(0 : Int) + (n : Int) - s.currentIdx| < 2147483647 := by
    intro n t hn
    have hlt : n < s.images.length := by
      by_contra hcon
      rw [List.getElem?_eq_none (by omega)] at hn
      exact absurd hn (by simp)
    have h1 := hv.1
    have h2 := hv.2
    unfold COverview.size at h2 hsz
    rw [abs_lt]
    constructor <;> omega
  unfold pickPending
  rcases hsrc with hr | ⟨n, t, hn, he, hr⟩
  · have hnone : ∀ j t, tileAt s.images j = some t → ¬ pendingEligible h t := by
      intro j t hj he
      obtain ⟨h0, hj2⟩ := tileAt_iff_getElem?.mp hj
      have h1 := (hall j.toNat t hj2 he).1
      have h2 := hdist j.toNat t hj2
      rw [hr] at h1
      exact absurd (lt_of_le_of_lt h1 h2) (lt_irrefl _)
    rw [hr]
    exact ⟨⟨fun _ => hnone, fun _ => rfl⟩, fun hc => absurd rfl hc⟩
  · rw [hr]
    simp only [zero_add]
    have hne : ((n : Int)) ≠ -1 := by omega
    have ht : tileAt s.images (n : Int) = some t := by
      rw [tileAt_natCast]; exact hn
    refine ⟨⟨fun hc => absurd hc hne, fun hc => absurd he (hc _ t ht)⟩, fun _ => ?_⟩
    refine ⟨t, ht, he, ?_⟩
    intro j u hj hu
    obtain ⟨h0, hj2⟩ := tileAt_iff_getElem?.mp hj
    obtain ⟨a1, a2⟩ := hall j.toNat u hj2 hu
    rw [hr] at a1 a2
    simp only [zero_add, Int.toNat_of_nonneg h0] at a1 a2
    refine ⟨a1, fun heq => ?_⟩
    rcases a2 heq.symm with a3 | a3
    · exfalso
      have := congrArg Prod.fst a3
      simp only at this
      omega
    · exact a3

/-- The budget check reads the clock at most once and changes nothing else; a positive
verdict means the count is below the maximum and the time limit is off or not yet reached. -/
theorem canDo_spec (cfg : HorzaConfig) (h : Host) (start count : Int) (s : COverview) :
    ((canDoOptionalCapture cfg h start count s).2.2 = s ∨
        (canDoOptionalCapture cfg h start count s).2.2 = { s with ticks := s.ticks + 1 }) ∧
      ((canDoOptionalCapture cfg h start count s).1 = true →
        count < max 0 cfg.maxCapturesPerFrame ∧
          match (canDoOptionalCapture cfg h start count s).2.1 with
          | none => max 0 cfg.captureBudgetMs ≤ 0
          | some e => 0 < max 0 cfg.captureBudgetMs ∧
              elapsedMsFloat e < max 0 cfg.captureBudgetMs) ∧
      (max 0 cfg.maxCapturesPerFrame ≤ count →
        canDoOptionalCapture cfg h start count s = (false, none, s)) := by
  unfold canDoOptionalCapture
  by_cases h1 : count ≥ max 0 cfg.maxCapturesPerFrame
  · rw [if_pos h1]
    exact ⟨Or.inl rfl, fun hc => absurd hc (by simp), fun _ => rfl⟩
  · rw [if_neg h1]
    by_cases h2 : max 0 cfg.captureBudgetMs ≤ 0
    · rw [if_pos h2]
      exact ⟨Or.inl rfl, fun _ => ⟨not_le.mp h1, h2⟩, fun hc => absurd hc h1⟩
    · rw [if_neg h2]
      refine ⟨Or.inr rfl, fun hc => ⟨not_le.mp h1, not_le.mp h2, ?_⟩, fun hc => absurd hc h1⟩
      simpa using hc

theorem canDo_frame (cfg : HorzaConfig) (h : Host) (start count : Int) (s : COverview) :
    CaptureFrame s (canDoOptionalCapture cfg h start count s).2.2 := by
  rcases (canDo_spec cfg h start count s).1 with hc | hc <;> rw [hc]
  · exact CaptureFrame.refl s
  · unfold CaptureFrame; rfl

theorem canDo_fields (cfg : HorzaConfig) (h : Host) (start count : Int) (s : COverview) :
    (canDoOptionalCapture cfg h start count s).2.2.images = s.images ∧
      (canDoOptionalCapture cfg h start count s).2.2.calls = s.calls ∧
      (canDoOptionalCapture cfg h start count s).2.2.damageDirty = s.damageDirty ∧
      (canDoOptionalCapture cfg h start count s).2.2.pendingCapture = s.pendingCapture ∧
      (canDoOptionalCapture cfg h start count s).2.2.currentIdx = s.currentIdx ∧
      (canDoOptionalCapture cfg h start count s).2.2.closing = s.closing := by
  rcases (canDo_spec cfg h start count s).1 with hc | hc <;> rw [hc] <;>
    exact ⟨rfl, rfl, rfl, rfl, rfl, rfl⟩

theorem pickPending_some (h : Host) (s : COverview) (hp : pickPending h s ≠ -1) :
    ∃ t, tileAt s.images (pickPending h s) = some t ∧ pendingEligible h t := by
  obtain ⟨hsrc, _⟩ := pendingFrom_inv h s.currentIdx s.images (-1, 2147483647) 0
  unfold pickPending at hp ⊢
  rcases hsrc with hr | ⟨n, t, hn, he, hr⟩
  · rw [hr] at hp; exact absurd rfl hp
  · rw [hr]
    simp only [zero_add]
    exact ⟨t, by rw [tileAt_natCast]; exact hn, he⟩

theorem modifyTile_modifyTile (f g : SWorkspaceImage → SWorkspaceImage) :
    ∀ (l : List SWorkspaceImage) (n : Nat),
      modifyTile f (modifyTile g l n) n = modifyTile (fun t => f (g t)) l n := by
  intro l
  induction l with
  | nil => intro n; rfl
  | cons t ts ih =>
      intro n
      cases n with
      | zero => rfl
      | succ n => simp only [modifyTile, ih]

theorem uncapturedCount_modifyTile (f : SWorkspaceImage → SWorkspaceImage)
    (hf : ∀ t, (f t).captured = true) :
    ∀ (l : List SWorkspaceImage) (n : Nat) (t : SWorkspaceImage), l[n]? = some t →
      t.captured = false → uncapturedCount (modifyTile f l n) + 1 = uncapturedCount l := by
  intro l
  induction l with
  | nil => intro n t hn; simp at hn
  | cons u us ih =>
      intro n t hn hc
      cases n with
      | zero =>
          simp only [List.getElem?_cons_zero, Option.some.injEq] at hn
          subst hn
          simp [modifyTile, uncapturedCount, List.filter_cons, hf, hc]
      | succ n =>
          have := ih n t (by simpa using hn) hc
          unfold uncapturedCount at this ⊢
          simp only [modifyTile, List.filter_cons]
          split_ifs
          · simp only [List.length_cons]; omega
          · exact this

theorem uncapturedCount_le (l : List SWorkspaceImage) : uncapturedCount l ≤ l.length :=
  List.length_filter_le _ _

/-- The capture block rewrites tile `i` alone, into a captured tile. -/
theorem captureAndMark_images (h : Host) (s : COverview) (i : Int) (hi : 0 ≤ i) :
    ∃ g : SWorkspaceImage → SWorkspaceImage, (∀ t, (g t).captured = true) ∧
      (captureAndMark h s i).images = modifyTile g s.images i.toNat := by
  have hn : ¬ i < 0 := not_lt.mpr hi
  rcases captureWorkspace_images h { s with blockOverviewRendering := true } i with hc | hc
  · refine ⟨fun t => { t with captured := true, cachedTex := none }, fun _ => rfl, ?_⟩
    unfold captureAndMark COverview.updTile
    rw [if_neg hn]
    show modifyTile _ (captureWorkspace h { s with blockOverviewRendering := true } i).images _ = _
    rw [hc]
  · refine ⟨fun t => { ({ t with cachedTex := none, lastCaptureAt := h.clock s.ticks } :
        SWorkspaceImage) with captured := true, cachedTex := none }, fun _ => rfl, ?_⟩
    unfold captureAndMark COverview.updTile
    rw [if_neg hn]
    show modifyTile _ (captureWorkspace h { s with blockOverviewRendering := true } i).images _ = _
    rw [hc]
    unfold COverview.updTile
    rw [if_neg hn]
    exact modifyTile_modifyTile _ _ _ _

theorem captureAndMark_uncaptured (h : Host) (s : COverview) (i : Int) (t : SWorkspaceImage)
    (ht : tileAt s.images i = some t) (hc : t.captured = false) :
    uncapturedCount (captureAndMark h s i).images + 1 = uncapturedCount s.images := by
  obtain ⟨h0, hj⟩ := tileAt_iff_getElem?.mp ht
  obtain ⟨g, hg, himg⟩ := captureAndMark_images h s i h0
  rw [himg]
  exact uncapturedCount_modifyTile g hg s.images i.toNat t hj hc

theorem captureAndMark_fields (h : Host) (s : COverview) (i : Int) :
    (captureAndMark h s i).damageDirty = s.damageDirty ∧
      (captureAndMark h s i).pendingCapture = s.pendingCapture ∧
      (captureAndMark h s i).closing = s.closing ∧
      ((captureAndMark h s i).calls = s.calls ∨
        (captureAndMark h s i).calls = s.calls ++ [HostCall.renderWorkspace i
          ((tileAt s.images i).bind (fun t => t.pWorkspace))]) := by
  have hu : ∀ (a : COverview) (f : SWorkspaceImage → SWorkspaceImage),
      (a.updTile i f).damageDirty = a.damageDirty ∧
        (a.updTile i f).pendingCapture = a.pendingCapture ∧
        (a.updTile i f).closing = a.closing ∧ (a.updTile i f).calls = a.calls := by
    intro a f
    unfold COverview.updTile
    split_ifs <;> exact ⟨rfl, rfl, rfl, rfl⟩
  unfold captureAndMark
  obtain ⟨u1, u2, u3, u4⟩ := hu ({ captureWorkspace h { s with blockOverviewRendering := true } i with
      blockOverviewRendering := false }) (fun t => { t with captured := true, cachedTex := none })
  rw [u1, u2, u3, u4]
  show (captureWorkspace h { s with blockOverviewRendering := true } i).damageDirty = _ ∧
    (captureWorkspace h { s with blockOverviewRendering := true } i).pendingCapture = _ ∧
    (captureWorkspace h { s with blockOverviewRendering := true } i).closing = _ ∧
    ((captureWorkspace h { s with blockOverviewRendering := true } i).calls = _ ∨
      (captureWorkspace h { s with blockOverviewRendering := true } i).calls = _)
  unfold captureWorkspace
  split_ifs
  · exact ⟨rfl, rfl, rfl, Or.inl rfl⟩
  · split
    · exact ⟨rfl, rfl, rfl, Or.inl rfl⟩
    · split_ifs
      · exact ⟨rfl, rfl, rfl, Or.inl rfl⟩
      · obtain ⟨v1, v2, v3, _⟩ := hu { s with blockOverviewRendering := true }
          (fun t => { t with cachedTex := none, lastCaptureAt := h.clock s.ticks })
        exact ⟨v1, v2, v3, Or.inr rfl⟩

theorem pendingIter_budget {cfg : HorzaConfig} {h : Host} {start : Int} {p : PendingState}
    (hc : (canDoOptionalCapture cfg h start p.optionalCapturesThisFrame p.s).1 = false) :
    pendingIter cfg h start p =
      ({ p with s := (canDoOptionalCapture cfg h start p.optionalCapturesThisFrame p.s).2.2 },
        false) := by
  unfold pendingIter
  dsimp only
  rw [if_pos (by rw [hc]; rfl)]

theorem pendingIter_none {cfg : HorzaConfig} {h : Host} {start : Int} {p : PendingState}
    (hc : (canDoOptionalCapture cfg h start p.optionalCapturesThisFrame p.s).1 = true)
    (hp : pickPending h (canDoOptionalCapture cfg h start p.optionalCapturesThisFrame p.s).2.2 =
      -1) :
    pendingIter cfg h start p =
      ({ p with s := { (canDoOptionalCapture cfg h start p.optionalCapturesThisFrame p.s).2.2 with
          pendingCapture := false } }, false) := by
  unfold pendingIter
  dsimp only
  rw [if_neg (by rw [hc]; simp), if_pos hp, hp]
  rfl

theorem pendingIter_capture {cfg : HorzaConfig} {h : Host} {start : Int} {p : PendingState}
    (hc : (canDoOptionalCapture cfg h start p.optionalCapturesThisFrame p.s).1 = true)
    (hp : pickPending h (canDoOptionalCapture cfg h start p.optionalCapturesThisFrame p.s).2.2 ≠
      -1) :
    pendingIter cfg h start p =
      ({ s := captureAndMark h
            { (canDoOptionalCapture cfg h start p.optionalCapturesThisFrame p.s).2.2 with
              pendingCapture := true }
            (pickPending h (canDoOptionalCapture cfg h start p.optionalCapturesThisFrame p.s).2.2)
         optionalCapturesThisFrame := p.optionalCapturesThisFrame + 1
         capturedAny := true
         log := p.log ++ [⟨pickPending h
             (canDoOptionalCapture cfg h start p.optionalCapturesThisFrame p.s).2.2,
           { (canDoOptionalCapture cfg h start p.optionalCapturesThisFrame p.s).2.2 with
              pendingCapture := true }, p.optionalCapturesThisFrame,
           (canDoOptionalCapture cfg h start p.optionalCapturesThisFrame p.s).2.1⟩] }, true) := by
  unfold pendingIter
  dsimp only
  rw [if_neg (by rw [hc]; simp), if_neg hp]
  have : decide (pickPending h
      (canDoOptionalCapture cfg h start p.optionalCapturesThisFrame p.s).2.2 ≠ -1) = true := by
    simpa using hp
  rw [this]

/-- The three ways one evaluation of the loop can go. -/
theorem pendingIter_cases (cfg : HorzaConfig) (h : Host) (start : Int) (p : PendingState) :
    ((canDoOptionalCapture cfg h start p.optionalCapturesThisFrame p.s).1 = false) ∨
      ((canDoOptionalCapture cfg h start p.optionalCapturesThisFrame p.s).1 = true ∧
        pickPending h (canDoOptionalCapture cfg h start p.optionalCapturesThisFrame p.s).2.2 =
          -1) ∨
      ((canDoOptionalCapture cfg h start p.optionalCapturesThisFrame p.s).1 = true ∧
        pickPending h (canDoOptionalCapture cfg h start p.optionalCapturesThisFrame p.s).2.2 ≠
          -1) := by
  cases hc : (canDoOptionalCapture cfg h start p.optionalCapturesThisFrame p.s).1 with
  | false => exact Or.inl rfl
  | true =>
      by_cases hp : pickPending h
          (canDoOptionalCapture cfg h start p.optionalCapturesThisFrame p.s).2.2 = -1
      · exact Or.inr (Or.inl ⟨rfl, hp⟩)
      · exact Or.inr (Or.inr ⟨rfl, hp⟩)

/-- Enough evaluations: the loop ends within one more evaluation than there are uncaptured
tiles. -/
theorem pendingLoop_total (cfg : HorzaConfig) (h : Host) (start : Int) :
    ∀ (fuel : Nat) (p : PendingState), uncapturedCount p.s.images < fuel →
      ∃ q, pendingLoop cfg h start fuel p = some q := by
  intro fuel
  induction fuel with
  | zero => intro p hlt; exact absurd hlt (Nat.not_lt_zero _)
  | succ fuel ih =>
      intro p hlt
      unfold pendingLoop
      dsimp only
      rcases pendingIter_cases cfg h start p with hc | ⟨hc, hp⟩ | ⟨hc, hp⟩
      · rw [pendingIter_budget hc]; exact ⟨_, rfl⟩
      · rw [pendingIter_none hc hp]; exact ⟨_, rfl⟩
      · rw [pendingIter_capture hc hp]
        dsimp only
        rw [if_pos rfl]
        apply ih
        dsimp only
        obtain ⟨t, ht, he⟩ := pickPending_some h _ hp
        have himg := (canDo_fields cfg h start p.optionalCapturesThisFrame p.s).1
        have key : ∀ sx : COverview, sx.images = p.s.images → ∀ (i : Int) (u : SWorkspaceImage),
            tileAt sx.images i = some u → u.captured = false →
            uncapturedCount (captureAndMark h sx i).images < fuel := by
          intro sx hsx i u hu hcu
          have := captureAndMark_uncaptured h sx i u hu hcu
          rw [hsx] at this
          omega
        refine key _ ?_ _ t ?_ he.1
        · exact himg
        · exact ht

/-- An evaluation of the loop that captures: the recorded capture, and what it leaves. -/
theorem pendingIter_capture_facts {cfg : HorzaConfig} {h : Host} {start : Int}
    {p : PendingState}
    (hc : (canDoOptionalCapture cfg h start p.optionalCapturesThisFrame p.s).1 = true)
    (hp : pickPending h (canDoOptionalCapture cfg h start p.optionalCapturesThisFrame p.s).2.2 ≠
      -1) :
    ∃ (s2 : COverview) (c : OptionalCapture),
      (pendingIter cfg h start p).2 = true ∧
      (pendingIter cfg h start p).1.s = captureAndMark h s2 c.idx ∧
      (pendingIter cfg h start p).1.optionalCapturesThisFrame =
        p.optionalCapturesThisFrame + 1 ∧
      (pendingIter cfg h start p).1.capturedAny = true ∧
      (pendingIter cfg h start p).1.log = p.log ++ [c] ∧
      c.before = s2 ∧ c.idx = pickPending h s2 ∧ c.idx ≠ -1 ∧ Admitted cfg c ∧
      c.countBefore = p.optionalCapturesThisFrame ∧
      s2.images = p.s.images ∧ s2.currentIdx = p.s.currentIdx ∧ s2.calls = p.s.calls ∧
      s2.damageDirty = p.s.damageDirty ∧ s2.closing = p.s.closing ∧
      s2.pendingCapture = true := by
  obtain ⟨f1, f2, f3, _, f5, f6⟩ := canDo_fields cfg h start p.optionalCapturesThisFrame p.s
  have hadm := (canDo_spec cfg h start p.optionalCapturesThisFrame p.s).2.1 hc
  rw [pendingIter_capture hc hp]
  exact ⟨_, _, rfl, rfl, rfl, rfl, rfl, rfl, rfl, hp, hadm, rfl, f1, f5, f2, f3, f6, rfl⟩

/-- An evaluation of the loop that ends it captures nothing. -/
theorem pendingIter_stop_facts {cfg : HorzaConfig} {h : Host} {start : Int} {p : PendingState}
    (hs : (pendingIter cfg h start p).2 = false) :
    (pendingIter cfg h start p).1.log = p.log ∧
      (pendingIter cfg h start p).1.optionalCapturesThisFrame = p.optionalCapturesThisFrame ∧
      (pendingIter cfg h start p).1.capturedAny = p.capturedAny ∧
      (pendingIter cfg h start p).1.s.images = p.s.images ∧
      (pendingIter cfg h start p).1.s.calls = p.s.calls ∧
      (pendingIter cfg h start p).1.s.currentIdx = p.s.currentIdx ∧
      (pendingIter cfg h start p).1.s.damageDirty = p.s.damageDirty ∧
      (pendingIter cfg h start p).1.s.closing = p.s.closing := by
  obtain ⟨f1, f2, f3, _, f5, f6⟩ := canDo_fields cfg h start p.optionalCapturesThisFrame p.s
  rcases pendingIter_cases cfg h start p with hc | ⟨hc, hp⟩ | ⟨hc, hp⟩
  · rw [pendingIter_budget hc]
    exact ⟨rfl, rfl, rfl, f1, f2, f5, f3, f6⟩
  · rw [pendingIter_none hc hp]
    exact ⟨rfl, rfl, rfl, f1, f2, f5, f3, f6⟩
  · rw [pendingIter_capture hc hp] at hs
    exact absurd hs (by simp)

/-- The pending loop as a whole: the captures it records were each admitted by the budget
check and chosen by the selection loop in a state with the index and tile count of the
start; their number is the increase of the counter, which stays within the maximum; and the
loop leaves the index, the tile count, `damageDirty` and `closing` alone. -/
theorem pendingLoop_spec (cfg : HorzaConfig) (h : Host) (start : Int) :
    ∀ (fuel : Nat) (p q : PendingState), pendingLoop cfg h start fuel p = some q →
      ∃ new : List OptionalCapture,
        q.log = p.log ++ new ∧
        q.optionalCapturesThisFrame = p.optionalCapturesThisFrame + (new.length : Int) ∧
        (new = [] → q.capturedAny = p.capturedAny ∧ q.s.images = p.s.images ∧
          q.s.calls = p.s.calls) ∧
        (new ≠ [] → q.capturedAny = true ∧
          q.optionalCapturesThisFrame ≤ max 0 cfg.maxCapturesPerFrame) ∧
        (∀ c ∈ new, Admitted cfg c ∧ c.idx = pickPending h c.before ∧ c.idx ≠ -1 ∧
          c.before.currentIdx = p.s.currentIdx ∧ c.before.size = p.s.size) ∧
        q.s.currentIdx = p.s.currentIdx ∧ q.s.size = p.s.size ∧
        q.s.damageDirty = p.s.damageDirty ∧ q.s.closing = p.s.closing ∧
        q.s.calls.length ≤ p.s.calls.length + new.length := by
  intro fuel
  induction fuel with
  | zero => intro p q hq; simp [pendingLoop] at hq
  | succ fuel ih =>
      intro p q hq
      unfold pendingLoop at hq
      dsimp only at hq
      by_cases hgo : (pendingIter cfg h start p).2 = true
      · rw [if_pos hgo] at hq
        have hcap : (canDoOptionalCapture cfg h start p.optionalCapturesThisFrame p.s).1 = true ∧
            pickPending h (canDoOptionalCapture cfg h start p.optionalCapturesThisFrame p.s).2.2 ≠
              -1 := by
          rcases pendingIter_cases cfg h start p with hc | ⟨hc, hp⟩ | ⟨hc, hp⟩
          · rw [pendingIter_budget hc] at hgo; exact absurd hgo (by simp)
          · rw [pendingIter_none hc hp] at hgo; exact absurd hgo (by simp)
          · exact ⟨hc, hp⟩
        obtain ⟨s2, c, _, e1, e2, e3, e4, e5, e6, e7, e8, e9, g1, g2, g3, g4, g5, _⟩ :=
          pendingIter_capture_facts hcap.1 hcap.2
        obtain ⟨new, n1, n2, n3, n4, n5, n6, n7, n8, n9, n10⟩ := ih _ q hq
        have hcur : (pendingIter cfg h start p).1.s.currentIdx = p.s.currentIdx := by
          rw [e1, captureAndMark_currentIdx, g2]
        have hsize : (pendingIter cfg h start p).1.s.size = p.s.size := by
          rw [e1, captureAndMark_size]
          unfold COverview.size
          rw [g1]
        obtain ⟨k1, _, k3, k4⟩ := captureAndMark_fields h s2 c.idx
        have hcalls : (pendingIter cfg h start p).1.s.calls.length ≤ p.s.calls.length + 1 := by
          rw [e1]
          rcases k4 with k4 | k4 <;> rw [k4, g3]
          · omega
          · simp
        refine ⟨c :: new, ?_, ?_, ?_, ?_, ?_, ?_, ?_, ?_, ?_, ?_⟩
        · rw [n1, e4]; simp
        · rw [n2, e2]; simp only [List.length_cons]; push_cast; ring
        · intro hcon; exact absurd hcon (by simp)
        · intro _
          by_cases hn : new = []
          · obtain ⟨a1, _, _⟩ := n3 hn
            refine ⟨by rw [a1, e3], ?_⟩
            rw [n2, e2, hn]
            have := e8.1
            rw [e9] at this
            simp only [List.length_nil, Nat.cast_zero, add_zero]
            omega
          · exact n4 hn
        · intro d hd
          rcases List.mem_cons.mp hd with hd | hd
          · rw [hd]
            refine ⟨e8, ?_, e7, ?_, ?_⟩
            · rw [e5]; exact e6
            · rw [e5]; exact g2
            · rw [e5]; unfold COverview.size; rw [g1]
          · obtain ⟨b1, b2, b3, b4, b5⟩ := n5 d hd
            exact ⟨b1, b2, b3, by rw [b4, hcur], by rw [b5, hsize]⟩
        · rw [n6, hcur]
        · rw [n7, hsize]
        · rw [n8, e1, k1, g4]
        · rw [n9, e1, k3, g5]
        · simp only [List.length_cons]; omega
      · rw [if_neg hgo] at hq
        simp only [Option.some.injEq] at hq
        obtain ⟨s1, s2, s3, s4, s5, s6, s7, s8⟩ :=
          pendingIter_stop_facts (by simpa using hgo : (pendingIter cfg h start p).2 = false)
        rw [← hq]
        refine ⟨[], by rw [s1]; simp, by rw [s2]; simp, fun _ => ⟨s3, s4, s5⟩,
          fun hcon => absurd rfl hcon, fun c hc => absurd hc (by simp), s6, ?_, s7, s8, ?_⟩
        · unfold COverview.size; rw [s4]
        · rw [s5]; simp

/-- The scheduler always produces a result: the pending loop ends within its evaluations,
and its locals `p` satisfy the loop specification relative to the state the pass began
with. -/
theorem schedulerPass_some (cfg : HorzaConfig) (h : Host) (s : COverview) :
    ∃ p : PendingState,
      schedulerPass cfg h s = some (schedulerTail cfg h (h.clock s.ticks) p) ∧
      p.optionalCapturesThisFrame = (p.log.length : Int) ∧
      (p.log = [] → p.capturedAny = false ∧ p.s.images = s.images ∧ p.s.calls = s.calls) ∧
      (p.log ≠ [] → p.capturedAny = true ∧ s.pendingCapture = true ∧
        p.optionalCapturesThisFrame ≤ max 0 cfg.maxCapturesPerFrame) ∧
      (∀ c ∈ p.log, Admitted cfg c ∧ c.idx = pickPending h c.before ∧ c.idx ≠ -1 ∧
        c.before.currentIdx = s.currentIdx ∧ c.before.size = s.size) ∧
      p.s.currentIdx = s.currentIdx ∧ p.s.size = s.size ∧
      p.s.damageDirty = s.damageDirty ∧ p.s.closing = s.closing ∧
      p.s.calls.length ≤ s.calls.length + p.log.length := by
  unfold schedulerPass
  dsimp only
  by_cases hp : s.pendingCapture = true
  · rw [if_pos hp]
    obtain ⟨q, hq⟩ := pendingLoop_total cfg h (h.clock s.ticks) (s.images.length + 1)
      ⟨{ s with ticks := s.ticks + 1 }, 0, false, []⟩
      (Nat.lt_succ_of_le (uncapturedCount_le s.images))
    obtain ⟨new, n1, n2, n3, n4, n5, n6, n7, n8, n9, n10⟩ :=
      pendingLoop_spec cfg h (h.clock s.ticks) _ _ q hq
    rw [hq]
    have hlog : q.log = new := by rw [n1]; rfl
    rw [← hlog] at n2 n3 n4 n5 n10
    refine ⟨q, rfl, ?_, n3, fun hne => ⟨(n4 hne).1, hp, (n4 hne).2⟩, n5, n6, n7, n8, n9, n10⟩
    rw [n2]
    simp
  · rw [if_neg hp]
    refine ⟨⟨{ s with ticks := s.ticks + 1 }, 0, false, []⟩, rfl, rfl,
      fun _ => ⟨rfl, rfl, rfl⟩, fun hne => absurd rfl hne, fun c hc => absurd hc (by simp),
      rfl, rfl, rfl, rfl, ?_⟩
    simp

theorem schedulerTail_pending (cfg : HorzaConfig) (h : Host) (start : Int) (p : PendingState) :
    (schedulerTail cfg h start p).pending = p.log := by
  unfold schedulerTail
  dsimp only
  split_ifs <;> rfl

theorem schedulerTail_captured {cfg : HorzaConfig} {h : Host} {start : Int} {p : PendingState}
    (ha : p.capturedAny = true) :
    schedulerTail cfg h start p =
      { state := damage { p.s with pendingCapture := hasVisibleUncaptured h p.s }
        pending := p.log } := by
  unfold schedulerTail
  rw [if_pos ha]

theorem schedulerTail_forced {cfg : HorzaConfig} {h : Host} {start : Int} {p : PendingState}
    (ha : p.capturedAny = false) (hd : p.s.damageDirty = true) :
    schedulerTail cfg h start p =
      { state := damage (captureAndMark h { p.s with damageDirty := false } p.s.currentIdx)
        pending := p.log
        forced := true } := by
  unfold schedulerTail
  rw [if_neg (by rw [ha]; simp), if_pos hd]

/-- The live-preview capture, when there is one: the pending loop captured nothing, the
budget check admitted it, and the tile is the one `pickVisibleLivePreviewWorkspace` chose in
the recorded state. -/
theorem schedulerTail_live {cfg : HorzaConfig} {h : Host} {start : Int} {p : PendingState}
    {c : OptionalCapture} (hl : (schedulerTail cfg h start p).live = some c) :
    p.capturedAny = false ∧ (schedulerTail cfg h start p).forced = false ∧ Admitted cfg c ∧
      c.countBefore = p.optionalCapturesThisFrame ∧
      (∃ now, c.idx = pickVisibleLivePreviewWorkspace cfg h c.before now) ∧ c.idx ≠ -1 := by
  unfold schedulerTail at hl ⊢
  dsimp only at hl ⊢
  by_cases ha : p.capturedAny = true
  · rw [if_pos ha] at hl; exact absurd hl (by simp)
  · rw [if_neg ha] at hl ⊢
    by_cases hd : p.s.damageDirty = true
    · rw [if_pos hd] at hl; exact absurd hl (by simp)
    · rw [if_neg hd] at hl ⊢
      by_cases hg : (!p.s.pendingCapture && !p.s.closing) = true
      · rw [if_pos hg] at hl ⊢
        by_cases hc : (canDoOptionalCapture cfg h start p.optionalCapturesThisFrame p.s).1 = true
        · rw [if_pos hc] at hl ⊢
          have hadm := (canDo_spec cfg h start p.optionalCapturesThisFrame p.s).2.1 hc
          split_ifs at hl ⊢ with hv
          · simp only [Option.some.injEq] at hl
            rw [← hl]
            exact ⟨by simpa using ha, rfl, hadm, rfl, ⟨_, rfl⟩, hv⟩
        · rw [if_neg hc] at hl; exact absurd hl (by simp)
      · rw [if_neg hg] at hl; exact absurd hl (by simp)

theorem schedulerTail_forced_iff (cfg : HorzaConfig) (h : Host) (start : Int)
    (p : PendingState) :
    (schedulerTail cfg h start p).forced = true ↔
      p.capturedAny = false ∧ p.s.damageDirty = true := by
  unfold schedulerTail
  dsimp only
  by_cases ha : p.capturedAny = true
  · rw [if_pos ha]; simp [ha]
  · rw [if_neg ha]
    by_cases hd : p.s.damageDirty = true
    · rw [if_pos hd]; simp [ha, hd]
    · rw [if_neg hd]
      split_ifs <;> simp [hd]

theorem damage_calls (s : COverview) : (damage s).calls = s.calls := rfl

/-- The four ways the tail can go. -/
theorem schedulerTail_cases (cfg : HorzaConfig) (h : Host) (start : Int) (p : PendingState) :
    (p.capturedAny = true ∧ schedulerTail cfg h start p =
        { state := damage { p.s with pendingCapture := hasVisibleUncaptured h p.s }
          pending := p.log }) ∨
      (p.capturedAny = false ∧ p.s.damageDirty = true ∧ schedulerTail cfg h start p =
        { state := damage (captureAndMark h { p.s with damageDirty := false } p.s.currentIdx)
          pending := p.log
          forced := true }) ∨
      (p.capturedAny = false ∧ p.s.damageDirty = false ∧
        ∃ (s3 : COverview) (c : OptionalCapture), s3.calls = p.s.calls ∧
          schedulerTail cfg h start p =
            { state := damage (captureAndMark h s3 c.idx), pending := p.log, live := some c }) ∨
      (p.capturedAny = false ∧ p.s.damageDirty = false ∧
        ∃ s3 : COverview, s3.calls = p.s.calls ∧ s3.images = p.s.images ∧
          s3.damageDirty = false ∧ s3.pendingCapture = p.s.pendingCapture ∧
          schedulerTail cfg h start p = { state := s3, pending := p.log }) := by
  obtain ⟨f1, f2, f3, f4, _⟩ := canDo_fields cfg h start p.optionalCapturesThisFrame p.s
  unfold schedulerTail
  dsimp only
  by_cases ha : p.capturedAny = true
  · rw [if_pos ha]; exact Or.inl ⟨ha, rfl⟩
  · rw [if_neg ha]
    have ha2 : p.capturedAny = false := by simpa using ha
    by_cases hd : p.s.damageDirty = true
    · rw [if_pos hd]; exact Or.inr (Or.inl ⟨ha2, hd, rfl⟩)
    · rw [if_neg hd]
      have hd2 : p.s.damageDirty = false := by simpa using hd
      by_cases hg : (!p.s.pendingCapture && !p.s.closing) = true
      · rw [if_pos hg]
        by_cases hc : (canDoOptionalCapture cfg h start p.optionalCapturesThisFrame p.s).1 = true
        · rw [if_pos hc]
          by_cases hv : pickVisibleLivePreviewWorkspace cfg h
              { (canDoOptionalCapture cfg h start p.optionalCapturesThisFrame p.s).2.2 with
                ticks := (canDoOptionalCapture cfg h start p.optionalCapturesThisFrame p.s).2.2.ticks + 1 }
              (h.clock (canDoOptionalCapture cfg h start p.optionalCapturesThisFrame p.s).2.2.ticks) ≠ -1
          · rw [if_pos hv]
            refine Or.inr (Or.inr (Or.inl ⟨ha2, hd2,
              { (canDoOptionalCapture cfg h start p.optionalCapturesThisFrame p.s).2.2 with
                ticks := (canDoOptionalCapture cfg h start p.optionalCapturesThisFrame p.s).2.2.ticks + 1 },
              ⟨_, _, _, _⟩, ?_, rfl⟩))
            exact f2
          · rw [if_neg hv]
            refine Or.inr (Or.inr (Or.inr ⟨ha2, hd2,
              { (canDoOptionalCapture cfg h start p.optionalCapturesThisFrame p.s).2.2 with
                ticks := (canDoOptionalCapture cfg h start p.optionalCapturesThisFrame p.s).2.2.ticks + 1 },
              ?_, ?_, ?_, ?_, rfl⟩))
            · exact f2
            · exact f1
            · rw [← hd2]; exact f3
            · exact f4
        · rw [if_neg hc]
          exact Or.inr (Or.inr (Or.inr ⟨ha2, hd2, _, f2, f1, by rw [← hd2]; exact f3, f4, rfl⟩))
      · rw [if_neg hg]
        exact Or.inr (Or.inr (Or.inr ⟨ha2, hd2, _, rfl, rfl, hd2, rfl, rfl⟩))

/-- The renders of the tail: at most one, and only for the forced or the live-preview
capture. -/
theorem schedulerTail_calls (cfg : HorzaConfig) (h : Host) (start : Int) (p : PendingState) :
    (schedulerTail cfg h start p).state.calls.length ≤
      p.s.calls.length + (if (schedulerTail cfg h start p).live.isSome then 1 else 0) +
        (if (schedulerTail cfg h start p).forced then 1 else 0) := by
  have hcm : ∀ (a : COverview) (i : Int), (captureAndMark h a i).calls.length ≤
      a.calls.length + 1 := by
    intro a i
    rcases (captureAndMark_fields h a i).2.2.2 with k | k <;> rw [k]
    · omega
    · simp
  rcases schedulerTail_cases cfg h start p with ⟨_, e⟩ | ⟨_, _, e⟩ | ⟨_, _, s3, c, hs3, e⟩ |
    ⟨_, _, s3, hs3, _, _, _, e⟩ <;> rw [e]
  · simp [damage_calls]
  · have := hcm { p.s with damageDirty := false } p.s.currentIdx
    simpa [damage_calls] using this
  · have := hcm s3 c.idx
    rw [hs3] at this
    simpa [damage_calls] using this
  · simp [hs3]

/-- A tick that returns before the scheduler makes no optional and no forced capture. -/
theorem preRenderHead_inl {cfg : HorzaConfig} {h : Host} {s : COverview} {r : PreRenderResult}
    (hr : preRenderHead cfg h s = Sum.inl r) :
    r.pending = [] ∧ r.live = none ∧ r.forced = false := by
  unfold preRenderHead at hr
  split at hr
  · simp only [Sum.inl.injEq] at hr
    rw [← hr]; exact ⟨rfl, rfl, rfl⟩
  · dsimp only at hr
    generalize preRenderSync cfg h { s with passQueuedThisFrame := false } = y at hr
    split_ifs at hr <;> simp only [Sum.inl.injEq] at hr <;> rw [← hr] <;>
      exact ⟨rfl, rfl, rfl⟩

theorem workspaceChange_closing (cfg : HorzaConfig) (h : Host) (s : COverview) :
    (onWorkspaceChange cfg h s).closing = s.closing := by
  have hf : ∀ (a b : COverview), CaptureFrame a b → b.closing = a.closing := by
    intro a b hab
    unfold CaptureFrame at hab
    rw [hab]
  unfold onWorkspaceChange
  split
  · rename_i mon sc off _ _ _
    split_ifs
    · rfl
    · simp only []
      split_ifs
      · rfl
      · show (match tileAt (recenterOn cfg mon s.transitMode s sc off _).images
            (recenterOn cfg mon s.transitMode s sc off _).currentIdx with
          | some t => if !t.captured then captureAndMark h _ _ else _
          | none => _).closing = s.closing
        split
        · split_ifs
          · rw [(captureAndMark_fields h _ _).2.2.1]; rfl
          · rfl
        · rfl
  · rfl

theorem activeWorkspaceCheck_fields (cfg : HorzaConfig) (h : Host) (mon : CMonitor)
    (s : COverview) (hv : ValidIdx s) :
    (activeWorkspaceCheck cfg h mon s).closing = s.closing ∧
      ValidIdx (activeWorkspaceCheck cfg h mon s) := by
  unfold activeWorkspaceCheck
  dsimp only
  split_ifs
  · exact ⟨workspaceChange_closing cfg h _, workspaceChange_validIdx cfg h _ hv⟩
  · exact ⟨rfl, hv⟩
  · exact ⟨rfl, hv⟩

/-- A tick that reaches the scheduler does so with a live monitor, in a session that is not
closing, whose current index is valid and whose opening animation is over. -/
theorem preRenderHead_inr {cfg : HorzaConfig} {h : Host} {s s1 : COverview}
    (hr : preRenderHead cfg h s = Sum.inr s1) :
    (∃ mon, h.monitor = some mon) ∧ s1.closing = false ∧ ValidIdx s1 ∧
      openingAnimInProgress cfg s1 = false := by
  unfold preRenderHead at hr
  split at hr
  · exact absurd hr (by simp)
  · rename_i mon hm
    dsimp only at hr
    generalize preRenderSync cfg h { s with passQueuedThisFrame := false } = y at hr
    split_ifs at hr with h1 h2 h3 h4 h5
    simp only [Sum.inr.injEq] at hr
    have hv : ValidIdx y.2 := by
      unfold indexInvalid at h3
      simp only [decide_eq_true_eq, not_or, not_lt, not_le] at h3
      exact ⟨h3.2.1, by simpa using h3.2.2⟩
    obtain ⟨c1, c2⟩ := activeWorkspaceCheck_fields cfg h mon y.2 hv
    rw [← hr]
    exact ⟨⟨mon, hm⟩, by rw [c1]; simpa using h4, c2, by simpa using h5⟩

theorem pickPending_none (h : Host) (s : COverview)
    (hn : ∀ j t, tileAt s.images j = some t → ¬ pendingEligible h t) :
    pickPending h s = -1 := by
  obtain ⟨hsrc, _⟩ := pendingFrom_inv h s.currentIdx s.images (-1, 2147483647) 0
  unfold pickPending
  rcases hsrc with hr | ⟨n, t, hn2, he, _⟩
  · rw [hr]
  · exact absurd he (hn n t (by rw [tileAt_natCast]; exact hn2))

theorem hasVisibleUncaptured_iff (h : Host) (s : COverview) :
    hasVisibleUncaptured h s = true ↔
      ∃ j t, tileAt s.images j = some t ∧ pendingEligible h t := by
  unfold hasVisibleUncaptured pendingEligible
  rw [List.any_eq_true]
  constructor
  · rintro ⟨t, ht, hp⟩
    obtain ⟨n, hn, hnt⟩ := List.getElem_of_mem ht
    simp only [Bool.and_eq_true, Bool.not_eq_true'] at hp
    refine ⟨(n : Int), t, ?_, hp⟩
    rw [tileAt_natCast, List.getElem?_eq_getElem hn, hnt]
  · rintro ⟨j, t, hj, hp⟩
    exact ⟨t, tileAt_mem hj, by simpa using hp⟩

theorem pendingLoop_stop {cfg : HorzaConfig} {h : Host} {start : Int} {p : PendingState}
    (fuel : Nat) (hs : (pendingIter cfg h start p).2 = false) :
    pendingLoop cfg h start (fuel + 1) p = some (pendingIter cfg h start p).1 := by
  unfold pendingLoop
  dsimp only
  rw [if_neg (by rw [hs]; simp)]

/-- With `pendingCapture` clear, with no optional capture allowed, or with no uncaptured tile
on screen, the pending loop captures nothing. -/
theorem schedulerPass_no_pending {cfg : HorzaConfig} {h : Host} {s : COverview}
    {r : PreRenderResult}
    (hc : s.pendingCapture = false ∨ cfg.maxCapturesPerFrame ≤ 0 ∨
      ∀ j t, tileAt s.images j = some t → ¬ pendingEligible h t)
    (hr : schedulerPass cfg h s = some r) : r.pending = [] := by
  unfold schedulerPass at hr
  dsimp only at hr
  by_cases hp : s.pendingCapture = true
  · rw [if_pos hp] at hr
    have hstop : (pendingIter cfg h (h.clock s.ticks)
        ⟨{ s with ticks := s.ticks + 1 }, 0, false, []⟩).2 = false := by
      rcases pendingIter_cases cfg h (h.clock s.ticks)
        ⟨{ s with ticks := s.ticks + 1 }, 0, false, []⟩ with hb | ⟨hb, hk⟩ | ⟨hb, hk⟩
      · rw [pendingIter_budget hb]
      · rw [pendingIter_none hb hk]
      · exfalso
        rcases hc with hc | hc | hc
        · rw [hp] at hc; exact absurd hc (by simp)
        · have := ((canDo_spec cfg h (h.clock s.ticks) 0 { s with ticks := s.ticks + 1 }).2.1
            hb).1
          have hm : max 0 cfg.maxCapturesPerFrame = 0 := max_eq_left hc
          rw [hm] at this
          exact absurd this (lt_irrefl _)
        · apply hk
          apply pickPending_none
          rw [(canDo_fields cfg h (h.clock s.ticks) 0 { s with ticks := s.ticks + 1 }).1]
          exact hc
    rw [pendingLoop_stop _ hstop] at hr
    simp only [Option.map_some', Option.some.injEq] at hr
    rw [← hr, schedulerTail_pending, (pendingIter_stop_facts hstop).1]
  · rw [if_neg hp] at hr
    simp only [Option.map_some', Option.some.injEq] at hr
    rw [← hr, schedulerTail_pending]

/-- The capture block renders tile `i` when the index is in range and the monitor has a
positive pixel size. -/
theorem captureAndMark_renders {h : Host} {s : COverview} {i : Int} {mon : CMonitor}
    (hm : h.monitor = some mon) (hi : 0 ≤ i ∧ i < s.size)
    (hpx : 0 < mon.m_pixelSize.x ∧ 0 < mon.m_pixelSize.y) :
    (captureAndMark h s i).calls = s.calls ++ [HostCall.renderWorkspace i
      ((tileAt s.images i).bind (fun t => t.pWorkspace))] := by
  have hu : ∀ (a : COverview) (f : SWorkspaceImage → SWorkspaceImage),
      (a.updTile i f).calls = a.calls := by
    intro a f
    unfold COverview.updTile
    split_ifs <;> rfl
  unfold captureAndMark
  rw [hu]
  show (captureWorkspace h { s with blockOverviewRendering := true } i).calls = _
  unfold captureWorkspace
  rw [if_neg (by
    show ¬ (i < 0 ∨ i ≥ s.size)
    omega), hm]
  dsimp only
  rw [if_neg (by rw [not_or, not_le, not_le]; exact hpx)]

theorem onPreRender_inr {cfg : HorzaConfig} {h : Host} {s s1 : COverview}
    (hr : preRenderHead cfg h s = Sum.inr s1) :
    onPreRender cfg h s = schedulerPass cfg h s1 := by
  unfold onPreRender
  rw [hr]

/-- The optional captures of a scheduler pass: their number is within the maximum and each
was admitted by the budget check. -/
theorem schedulerPass_budget (cfg : HorzaConfig) (h : Host) (s1 : COverview) :
    ∃ r, schedulerPass cfg h s1 = some r ∧
      (r.pending.length : Int) + (if r.live.isSome then 1 else 0) ≤
        max 0 cfg.maxCapturesPerFrame ∧
      (∀ c, c ∈ r.pending ∨ r.live = some c → Admitted cfg c) ∧
      r.state.calls.length ≤ s1.calls.length + r.pending.length +
        (if r.live.isSome then 1 else 0) + (if r.forced then 1 else 0) := by
  obtain ⟨p, hp, p2, p3, p4, p5, _, _, _, _, p10⟩ := schedulerPass_some cfg h s1
  refine ⟨_, hp, ?_, ?_, ?_⟩
  · rw [schedulerTail_pending]
    cases hl : (schedulerTail cfg h (h.clock s1.ticks) p).live with
    | none =>
        simp only [Option.isSome_none, Bool.false_eq_true, if_false, add_zero]
        by_cases hlog : p.log = []
        · rw [hlog]; simp
        · rw [← p2]; exact (p4 hlog).2.2
    | some c =>
        obtain ⟨l1, _, l3, l4, _⟩ := schedulerTail_live hl
        have hlog : p.log = [] := by
          by_contra hne
          rw [(p4 hne).1] at l1
          exact absurd l1 (by simp)
        have := l3.1
        rw [l4, p2, hlog] at this
        rw [hlog]
        simp only [List.length_nil, Nat.cast_zero, Option.isSome_some, if_true, zero_add]
        simp only [List.length_nil, Nat.cast_zero] at this
        omega
  · intro c hc
    rcases hc with hc | hc
    · rw [schedulerTail_pending] at hc
      exact (p5 c hc).1
    · exact (schedulerTail_live hc).2.2.1
  · have := schedulerTail_calls cfg h (h.clock s1.ticks) p
    rw [schedulerTail_pending]
    omega

theorem tileAt_of_valid {l : List SWorkspaceImage} {i : Int} (h0 : 0 ≤ i)
    (h1 : i < (l.length : Int)) : ∃ t, tileAt l i = some t := by
  unfold tileAt
  rw [if_neg (not_lt.mpr h0)]
  have hlt : i.toNat < l.length := by omega
  exact ⟨l[i.toNat], List.getElem?_eq_getElem hlt⟩

theorem scheduleCloseDrop_scheduled (s : COverview) :
    (scheduleCloseDrop s).closeDropScheduled = true := by
  unfold scheduleCloseDrop
  split_ifs with hc
  · exact hc
  · rfl

theorem closingTail_closing (now : Int) (s : COverview) :
    (closingTail now s).closing = s.closing := by
  unfold closingTail
  split_ifs
  · exact (scheduleCloseDrop_fields s).1
  · rfl

theorem closingTail_timeout {now : Int} {s : COverview} (h0 : s.closeStartedAt ≠ 0)
    (ht : (((now - s.closeStartedAt : Int) : ℚ)) / ticksPerMs ≥ 900) :
    (closingTail now s).closeDropScheduled = true := by
  unfold closingTail
  rw [if_pos ⟨h0, ht⟩]
  exact scheduleCloseDrop_scheduled s

theorem closingHandoff_fields (cfg : HorzaConfig) (s : COverview) :
    (closingHandoff cfg s).closeStartedAt = s.closeStartedAt ∧
      (closingHandoff cfg s).closing = s.closing := by
  have h2 : ∀ s2 : COverview,
      (if closingHandoffActive cfg s2 then
          { s2 with closeOverlayAlpha := computeCloseOverlayAlpha cfg s2 }
        else s2).closeStartedAt = s2.closeStartedAt ∧
      (if closingHandoffActive cfg s2 then
          { s2 with closeOverlayAlpha := computeCloseOverlayAlpha cfg s2 }
        else s2).closing = s2.closing := by
    intro s2
    split_ifs <;> exact ⟨rfl, rfl⟩
  have h1 : (match s.m_scale with
      | some sc =>
          if cfg.asyncCloseHandoff && !s.handoffActive then
            if sc.value ≥ clampQ cfg.asyncCloseFadeStart 0 (999 / 1000) then
              { s with handoffActive := true }
            else s
          else s
      | none => s).closeStartedAt = s.closeStartedAt ∧
      (match s.m_scale with
      | some sc =>
          if cfg.asyncCloseHandoff && !s.handoffActive then
            if sc.value ≥ clampQ cfg.asyncCloseFadeStart 0 (999 / 1000) then
              { s with handoffActive := true }
            else s
          else s
      | none => s).closing = s.closing := by
    cases s.m_scale with
    | none => exact ⟨rfl, rfl⟩
    | some sc =>
        dsimp only
        split_ifs <;> exact ⟨rfl, rfl⟩
  unfold closingHandoff
  exact ⟨(h2 _).1.trans h1.1, (h2 _).2.trans h1.2⟩

theorem closingAnimFinished_fields (now : Int) (s : COverview) :
    (closingAnimFinished now s).closeStartedAt = s.closeStartedAt ∧
      (closingAnimFinished now s).closing = s.closing := by
  unfold closingAnimFinished
  dsimp only
  split_ifs <;> exact ⟨rfl, rfl⟩

theorem closingCrossfade_fields (cfg : HorzaConfig) (now : Int) (s : COverview) :
    (closingCrossfade cfg now s).1.closeStartedAt = s.closeStartedAt ∧
      (closingCrossfade cfg now s).1.closing = s.closing := by
  unfold closingCrossfade
  dsimp only
  split_ifs <;> exact ⟨rfl, rfl⟩

/-- The closing block keeps the session closing, and schedules the drop once 900 ms have
passed since `close()`. -/
theorem closingTick_timeout (cfg : HorzaConfig) (h : Host) (s : COverview) :
    (closingTick cfg h s).closing = s.closing ∧
      (s.closeStartedAt ≠ 0 →
        (((h.clock s.ticks - s.closeStartedAt : Int) : ℚ)) / ticksPerMs ≥ 900 →
        (closingTick cfg h s).closeDropScheduled = true) := by
  obtain ⟨a1, a2⟩ := closingHandoff_fields cfg
    { s with ticks := s.ticks + 1, closeOverlayAlpha := 1 }
  obtain ⟨b1, b2⟩ := closingAnimFinished_fields (h.clock s.ticks)
    (closingHandoff cfg { s with ticks := s.ticks + 1, closeOverlayAlpha := 1 })
  obtain ⟨c1, c2⟩ := closingCrossfade_fields cfg (h.clock s.ticks)
    (closingAnimFinished (h.clock s.ticks)
      (closingHandoff cfg { s with ticks := s.ticks + 1, closeOverlayAlpha := 1 }))
  have h4 : (closingAnimFinished (h.clock s.ticks)
      (closingHandoff cfg { s with ticks := s.ticks + 1, closeOverlayAlpha := 1 })).closeStartedAt =
      s.closeStartedAt := b1.trans a1
  have h4c : (closingAnimFinished (h.clock s.ticks)
      (closingHandoff cfg { s with ticks := s.ticks + 1, closeOverlayAlpha := 1 })).closing =
      s.closing := b2.trans a2
  unfold closingTick
  dsimp only
  split_ifs
  · exact ⟨(scheduleCloseDrop_fields _).1.trans (c2.trans h4c),
      fun _ _ => scheduleCloseDrop_scheduled _⟩
  · refine ⟨(closingTail_closing _ _).trans (c2.trans h4c), fun h0 ht => ?_⟩
    exact closingTail_timeout (by rw [c1, h4]; exact h0) (by rw [c1, h4]; exact ht)
  · refine ⟨(closingTail_closing _ _).trans h4c, fun h0 ht => ?_⟩
    exact closingTail_timeout (by rw [h4]; exact h0) (by rw [h4]; exact ht)

theorem preRenderSync_closing (cfg : HorzaConfig) (h : Host) (s : COverview)
    (hc : s.closing = true) : preRenderSync cfg h s = (false, s) := by
  unfold preRenderSync
  rw [if_pos hc]

theorem clampQ_mono (lo hi : ℚ) {a b : ℚ} (hab : a ≤ b) (h : lo ≤ hi) :
    clampQ a lo hi ≤ clampQ b lo hi := by
  unfold clampQ
  split_ifs <;> linarith

theorem clampQ_lo {v lo hi : ℚ} (h2 : v ≤ lo) (h : lo ≤ hi) : clampQ v lo hi = lo := by
  unfold clampQ
  split_ifs with h1 h3
  · rfl
  · linarith
  · exact le_antisymm h2 (not_lt.mp h1)

theorem fadeStart_mem (cfg : HorzaConfig) : 0 ≤ fadeStart cfg ∧ fadeStart cfg ≤ 999 / 1000 :=
  clampQ_mem _ 0 (999 / 1000) (by norm_num)

theorem fadeMinAlpha_mem (cfg : HorzaConfig) : 0 ≤ fadeMinAlpha cfg ∧ fadeMinAlpha cfg ≤ 1 :=
  clampQ_mem _ 0 1 (by norm_num)

theorem fadeProgress_mem (cfg : HorzaConfig) (v : ℚ) :
    0 ≤ fadeProgress cfg v ∧ fadeProgress cfg v ≤ 1 :=
  clampQ_mem _ 0 1 (by norm_num)

theorem fadeProgress_mono (cfg : HorzaConfig) {v w : ℚ} (h : v ≤ w) :
    fadeProgress cfg v ≤ fadeProgress cfg w := by
  unfold fadeProgress
  apply clampQ_mono 0 1 _ (by norm_num)
  have hs := (fadeStart_mem cfg).2
  have hd : (0 : ℚ) < max (1 / 1000) (1 - fadeStart cfg) :=
    lt_of_lt_of_le (by norm_num) (le_max_left _ _)
  apply div_le_div_of_nonneg_right _ (le_of_lt hd)
  have := clampQ_mono (fadeStart cfg) 1 h (by linarith)
  linarith

theorem fadeProgress_low (cfg : HorzaConfig) {v : ℚ} (h : v ≤ fadeStart cfg) :
    fadeProgress cfg v = 0 := by
  unfold fadeProgress
  have hs := (fadeStart_mem cfg).2
  rw [clampQ_lo h (by linarith), sub_self, zero_div]
  exact clampQ_id (le_refl _) (by norm_num)

theorem fadeProgress_high (cfg : HorzaConfig) {v : ℚ} (h : 1 ≤ v) :
    fadeProgress cfg v = 1 := by
  unfold fadeProgress
  have hs := (fadeStart_mem cfg).2
  rw [clampQ_hi (by linarith) h]
  have hm : max (1 / 1000) (1 - fadeStart cfg) = 1 - fadeStart cfg :=
    max_eq_right (by linarith)
  rw [hm, div_self (by linarith)]
  exact clampQ_id (by norm_num) (le_refl _)

theorem fadeCurve_mem (cfg : HorzaConfig) {t : ℚ} (h0 : 0 ≤ t) (h1 : t ≤ 1) :
    0 ≤ fadeCurve cfg t ∧ fadeCurve cfg t ≤ 1 := by
  unfold fadeCurve
  split_ifs
  · constructor <;> nlinarith [mul_nonneg (sub_nonneg.mpr h1) (sub_nonneg.mpr h1)]
  · exact ⟨h0, h1⟩

theorem fadeCurve_mono (cfg : HorzaConfig) {t u : ℚ} (htu : t ≤ u) (hu : u ≤ 1) :
    fadeCurve cfg t ≤ fadeCurve cfg u := by
  unfold fadeCurve
  split_ifs
  · nlinarith [mul_nonneg (sub_nonneg.mpr htu) (sub_nonneg.mpr hu),
      mul_nonneg (sub_nonneg.mpr htu) (sub_nonneg.mpr (le_trans htu hu))]
  · exact htu

theorem fadeCurve_ends (cfg : HorzaConfig) : fadeCurve cfg 0 = 0 ∧ fadeCurve cfg 1 = 1 := by
  unfold fadeCurve
  split_ifs <;> constructor <;> norm_num

/-- `computeCloseOverlayAlpha` while the handoff is active, in terms of its locals. -/
theorem computeCloseOverlayAlpha_active {cfg : HorzaConfig} {s : COverview} {sc : AnimVar}
    (hsc : s.m_scale = some sc) (ha : closingHandoffActive cfg s = true) :
    computeCloseOverlayAlpha cfg s =
      1 - (1 - fadeMinAlpha cfg) * fadeCurve cfg (fadeProgress cfg sc.value) := by
  have hp := fadeProgress_mem cfg sc.value
  have hc := fadeCurve_mem cfg hp.1 hp.2
  have hm := fadeMinAlpha_mem cfg
  have hid : clampQ (1 - (1 - fadeMinAlpha cfg) * fadeCurve cfg (fadeProgress cfg sc.value))
      (fadeMinAlpha cfg) 1 =
      1 - (1 - fadeMinAlpha cfg) * fadeCurve cfg (fadeProgress cfg sc.value) := by
    apply clampQ_id
    · nlinarith [mul_nonneg (sub_nonneg.mpr hm.2) (sub_nonneg.mpr hc.2)]
    · nlinarith [mul_nonneg (sub_nonneg.mpr hm.2) hc.1]
  rw [← hid]
  unfold computeCloseOverlayAlpha
  rw [hsc]
  dsimp only
  rw [if_neg (by rw [ha]; simp)]
  rfl

theorem normalize_ease_out : normalizeHorzaToken "ease_out" = "ease_out" := by decide

theorem normalize_dash : normalizeHorzaToken "Ease-Out" = "ease_out" := by decide

theorem scheduleCloseDrop_frame (s : COverview) :
    (scheduleCloseDrop s).images = s.images ∧ (scheduleCloseDrop s).calls = s.calls ∧
      (scheduleCloseDrop s).currentIdx = s.currentIdx := by
  unfold scheduleCloseDrop
  split_ifs <;> exact ⟨rfl, rfl, rfl⟩

theorem closeTail_frame (s : COverview) :
    (closeTail s).images = s.images ∧ (closeTail s).calls = s.calls ∧
      (closeTail s).currentIdx = s.currentIdx := by
  unfold closeTail
  split
  · rename_i sc off cross h1 h2 h3
    by_cases hi : s.images = []
    · rw [if_pos hi]
      exact scheduleCloseDrop_frame s
    · rw [if_neg hi]
      dsimp only
      by_cases ht : s.transitMode = true
      · rw [if_pos ht]
        exact scheduleCloseDrop_frame { s with m_offsetX := some (off.setValueAndWarp 0) }
      · rw [if_neg ht]
        exact ⟨rfl, rfl, rfl⟩
  · exact scheduleCloseDrop_frame s

/-- `close()` leaves the tiles, the trace and the index alone. -/
theorem close_frame (h : Host) (s : COverview) :
    (close h s).images = s.images ∧ (close h s).calls = s.calls ∧
      (close h s).currentIdx = s.currentIdx := by
  rw [close_eq]
  split_ifs
  · exact ⟨rfl, rfl, rfl⟩
  · exact closeTail_frame (closeBegin h s)

theorem hook_release (h : Host) (s : COverview) (mon : CMonitor) (hmon : h.monitor = some mon)
    (hnc : s.closing = false) :
    mouseButtonHook h s (some ⟨BTN_LEFT, 0⟩) =
      onButtonReleased h mon { s with lastMousePosLocal :=
        { x := h.mouseCoords.x - mon.m_position.x, y := h.mouseCoords.y - mon.m_position.y } } := by
  unfold mouseButtonHook onMouseButton
  simp [hmon, hnc]

/-- The release of a button that was not dragging: the session is closing afterwards, and
the trace gains the activation of the workspace of the tile under the pointer (when it is
not the active one) and the focus of the window under the pointer, in this order. -/
theorem released_no_drag (h : Host) (mon : CMonitor) (s0 : COverview)
    (hnd : s0.draggingWindow = false) :
    (onButtonReleased h mon s0).closing = true ∧
      (onButtonReleased h mon s0).images = s0.images ∧
      (hitTileIndex s0 s0.lastMousePosLocal = -1 → (onButtonReleased h mon s0).calls = s0.calls) ∧
      ∀ tile ws, tileAt s0.images (hitTileIndex s0 s0.lastMousePosLocal) = some tile →
        tile.pWorkspace = some ws →
        ∃ focus : List HostCall,
          (focus = [] ∨ ∃ w, focus = [HostCall.fullWindowFocus w]) ∧
          (mon.m_activeWorkspace ≠ some ws →
            (onButtonReleased h mon s0).calls =
              s0.calls ++ HostCall.dispatchWorkspace ws.m_id :: focus) ∧
          (mon.m_activeWorkspace = some ws →
            (onButtonReleased h mon s0).calls = s0.calls ++ focus) := by
  unfold onButtonReleased
  dsimp only
  rw [if_neg (by rw [hnd]; simp)]
  by_cases hrel : hitTileIndex s0 s0.lastMousePosLocal = -1
  · rw [if_pos hrel]
    obtain ⟨f1, f2, _⟩ := close_frame h (clearDragState s0)
    refine ⟨(close_fields h _).1, f1, fun _ => f2, ?_⟩
    intro tile ws ht
    rw [hrel] at ht
    simp [tileAt] at ht
  · rw [if_neg hrel]
    have hti : tileAt (clearDragState s0).images (hitTileIndex s0 s0.lastMousePosLocal) =
        tileAt s0.images (hitTileIndex s0 s0.lastMousePosLocal) := rfl
    rw [hti]
    cases ht : tileAt s0.images (hitTileIndex s0 s0.lastMousePosLocal) with
    | none =>
        dsimp only
        obtain ⟨f1, f2, _⟩ := close_frame h (clearDragState s0)
        refine ⟨(close_fields h _).1, f1, fun hc => absurd hc hrel, ?_⟩
        intro tile ws htile
        exact absurd htile (by simp)
    | some tile =>
        dsimp only
        cases hws : tile.pWorkspace with
        | none =>
            dsimp only
            obtain ⟨f1, f2, _⟩ := close_frame h (clearDragState s0)
            refine ⟨(close_fields h _).1, f1, fun hc => absurd hc hrel, ?_⟩
            intro tile2 ws htile hws2
            simp only [Option.some.injEq] at htile
            rw [← htile, hws] at hws2
            exact absurd hws2 (by simp)
        | some ws =>
            dsimp only
            refine ⟨(close_fields h _).1, ?_, fun hc => absurd hc hrel, ?_⟩
            · rw [(close_frame h _).1]
              split <;> split_ifs <;> rfl
            · intro tile2 ws2 htile hws2
              simp only [Option.some.injEq] at htile
              rw [← htile, hws] at hws2
              simp only [Option.some.injEq] at hws2
              subst hws2
              rw [(close_frame h _).2.1]
              cases hp : pickWindowInWorkspace h (some ws)
                  (tileLocalToWorkspacePos h tile.displayBox (clearDragState s0).lastMousePosLocal) with
              | none =>
                  refine ⟨[], Or.inl rfl, fun ha => ?_, fun ha => ?_⟩
                  · dsimp only
                    rw [if_pos ha]
                    rfl
                  · dsimp only
                    rw [if_neg (by rw [ha]; simp)]
                    simp [clearDragState]
              | some w =>
                  refine ⟨[HostCall.fullWindowFocus w], Or.inr ⟨w, rfl⟩, fun ha => ?_, fun ha => ?_⟩
                  · dsimp only
                    rw [if_pos ha]
                    simp [clearDragState]
                  · dsimp only
                    rw [if_neg (by rw [ha]; simp)]
                    simp [clearDragState]

/-- The guarded invalidation `if (idx >= 0 && idx < size) images[idx] = f(images[idx])`:
tile `i` is rewritten when it exists, and nothing else changes. -/
theorem guardTile_fields (a : COverview) (i : Int) (f : SWorkspaceImage → SWorkspaceImage) :
    (∀ j, tileAt (if i ≥ 0 ∧ i < a.size then a.updTile i f else a).images j =
        if j = i then (tileAt a.images j).map f else tileAt a.images j) ∧
      (if i ≥ 0 ∧ i < a.size then a.updTile i f else a).size = a.size ∧
      (if i ≥ 0 ∧ i < a.size then a.updTile i f else a).closing = a.closing ∧
      (if i ≥ 0 ∧ i < a.size then a.updTile i f else a).calls = a.calls ∧
      (if i ≥ 0 ∧ i < a.size then a.updTile i f else a).currentIdx = a.currentIdx ∧
      (if i ≥ 0 ∧ i < a.size then a.updTile i f else a).leftButtonDown = a.leftButtonDown ∧
      (if i ≥ 0 ∧ i < a.size then a.updTile i f else a).draggingWindow = a.draggingWindow ∧
      (if i ≥ 0 ∧ i < a.size then a.updTile i f else a).dragSourceIdx = a.dragSourceIdx ∧
      (if i ≥ 0 ∧ i < a.size then a.updTile i f else a).dragTargetIdx = a.dragTargetIdx ∧
      (if i ≥ 0 ∧ i < a.size then a.updTile i f else a).dragWindow = a.dragWindow := by
  by_cases hc : i ≥ 0 ∧ i < a.size
  · rw [if_pos hc]
    refine ⟨fun j => tileAt_updTile a i j f, updTile_size _ _ _, ?_⟩
    unfold COverview.updTile
    rw [if_neg (not_lt.mpr hc.1)]
    exact ⟨rfl, rfl, rfl, rfl, rfl, rfl, rfl, rfl⟩
  · rw [if_neg hc]
    refine ⟨fun j => ?_, rfl, rfl, rfl, rfl, rfl, rfl, rfl, rfl, rfl⟩
    by_cases hj : j = i
    · rw [if_pos hj]
      have hn : tileAt a.images j = none := by
        cases ht : tileAt a.images j with
        | none => rfl
        | some t =>
            have := tileAt_some_bounds ht
            unfold COverview.size at hc
            rw [hj] at this
            exact absurd ⟨this.1, this.2⟩ hc
      rw [hn]; rfl
    · rw [if_neg hj]

theorem invalidateTile_idem (t : SWorkspaceImage) :
    invalidateTile (invalidateTile t) = invalidateTile t := rfl

/-- The release that ends a drag onto a tile of another workspace. -/
theorem released_drag (h : Host) (mon : CMonitor) (s0 : COverview) (win : CWindow)
    (dst : CWorkspace) (tgt : Int) (hd : s0.draggingWindow = true)
    (hw : s0.dragWindow = some win)
    (htgt : tgt = if hitTileIndex s0 s0.lastMousePosLocal = -1 then s0.dragTargetIdx
          else hitTileIndex s0 s0.lastMousePosLocal)
    (ht : (tileAt s0.images tgt).bind (fun t => t.pWorkspace) = some dst)
    (hne : win.m_workspace ≠ some dst) :
    (∀ j, tileAt (onButtonReleased h mon s0).images j =
        if j = s0.dragSourceIdx ∨ j = tgt
        then (tileAt s0.images j).map invalidateTile else tileAt s0.images j) ∧
      (onButtonReleased h mon s0).size = s0.size ∧
      (onButtonReleased h mon s0).workspaceListDirty = true ∧
      (onButtonReleased h mon s0).damageDirty = true ∧
      (onButtonReleased h mon s0).pendingCapture = true ∧
      (onButtonReleased h mon s0).closing = s0.closing ∧
      (onButtonReleased h mon s0).calls =
        s0.calls ++ [HostCall.moveWindowToWorkspaceSafe win dst] ∧
      (onButtonReleased h mon s0).currentIdx = s0.currentIdx ∧
      (onButtonReleased h mon s0).leftButtonDown = false ∧
      (onButtonReleased h mon s0).draggingWindow = false ∧
      (onButtonReleased h mon s0).dragSourceIdx = -1 ∧
      (onButtonReleased h mon s0).dragTargetIdx = -1 ∧
      (onButtonReleased h mon s0).dragWindow = none := by
  subst htgt
  have key : ∀ (a : COverview) (src tgt : Int),
      (∀ j, tileAt (damage { (if tgt ≥ 0 ∧ tgt < (if src ≥ 0 ∧ src < a.size
              then a.updTile src invalidateTile else a).size
            then (if src ≥ 0 ∧ src < a.size then a.updTile src invalidateTile else a).updTile tgt
              invalidateTile
            else (if src ≥ 0 ∧ src < a.size then a.updTile src invalidateTile else a)) with
          workspaceListDirty := true, damageDirty := true, pendingCapture := true }).images j =
        if j = src ∨ j = tgt then (tileAt a.images j).map invalidateTile
        else tileAt a.images j) ∧
      (damage { (if tgt ≥ 0 ∧ tgt < (if src ≥ 0 ∧ src < a.size
              then a.updTile src invalidateTile else a).size
            then (if src ≥ 0 ∧ src < a.size then a.updTile src invalidateTile else a).updTile tgt
              invalidateTile
            else (if src ≥ 0 ∧ src < a.size then a.updTile src invalidateTile else a)) with
          workspaceListDirty := true, damageDirty := true, pendingCapture := true }).size =
        a.size ∧
      (damage { (if tgt ≥ 0 ∧ tgt < (if src ≥ 0 ∧ src < a.size
              then a.updTile src invalidateTile else a).size
            then (if src ≥ 0 ∧ src < a.size then a.updTile src invalidateTile else a).updTile tgt
              invalidateTile
            else (if src ≥ 0 ∧ src < a.size then a.updTile src invalidateTile else a)) with
          workspaceListDirty := true, damageDirty := true, pendingCapture := true }).closing =
        a.closing ∧
      (damage { (if tgt ≥ 0 ∧ tgt < (if src ≥ 0 ∧ src < a.size
              then a.updTile src invalidateTile else a).size
            then (if src ≥ 0 ∧ src < a.size then a.updTile src invalidateTile else a).updTile tgt
              invalidateTile
            else (if src ≥ 0 ∧ src < a.size then a.updTile src invalidateTile else a)) with
          workspaceListDirty := true, damageDirty := true, pendingCapture := true }).calls =
        a.calls ∧
      (damage { (if tgt ≥ 0 ∧ tgt < (if src ≥ 0 ∧ src < a.size
              then a.updTile src invalidateTile else a).size
            then (if src ≥ 0 ∧ src < a.size then a.updTile src invalidateTile else a).updTile tgt
              invalidateTile
            else (if src ≥ 0 ∧ src < a.size then a.updTile src invalidateTile else a)) with
          workspaceListDirty := true, damageDirty := true, pendingCapture := true }).currentIdx =
        a.currentIdx ∧
      (damage { (if tgt ≥ 0 ∧ tgt < (if src ≥ 0 ∧ src < a.size
              then a.updTile src invalidateTile else a).size
            then (if src ≥ 0 ∧ src < a.size then a.updTile src invalidateTile else a).updTile tgt
              invalidateTile
            else (if src ≥ 0 ∧ src < a.size then a.updTile src invalidateTile else a)) with
          workspaceListDirty := true, damageDirty := true, pendingCapture := true }).leftButtonDown =
        a.leftButtonDown ∧
      (damage { (if tgt ≥ 0 ∧ tgt < (if src ≥ 0 ∧ src < a.size
              then a.updTile src invalidateTile else a).size
            then (if src ≥ 0 ∧ src < a.size then a.updTile src invalidateTile else a).updTile tgt
              invalidateTile
            else (if src ≥ 0 ∧ src < a.size then a.updTile src invalidateTile else a)) with
          workspaceListDirty := true, damageDirty := true, pendingCapture := true }).draggingWindow =
        a.draggingWindow ∧
      (damage { (if tgt ≥ 0 ∧ tgt < (if src ≥ 0 ∧ src < a.size
              then a.updTile src invalidateTile else a).size
            then (if src ≥ 0 ∧ src < a.size then a.updTile src invalidateTile else a).updTile tgt
              invalidateTile
            else (if src ≥ 0 ∧ src < a.size then a.updTile src invalidateTile else a)) with
          workspaceListDirty := true, damageDirty := true, pendingCapture := true }).dragSourceIdx =
        a.dragSourceIdx ∧
      (damage { (if tgt ≥ 0 ∧ tgt < (if src ≥ 0 ∧ src < a.size
              then a.updTile src invalidateTile else a).size
            then (if src ≥ 0 ∧ src < a.size then a.updTile src invalidateTile else a).updTile tgt
              invalidateTile
            else (if src ≥ 0 ∧ src < a.size then a.updTile src invalidateTile else a)) with
          workspaceListDirty := true, damageDirty := true, pendingCapture := true }).dragTargetIdx =
        a.dragTargetIdx ∧
      (damage { (if tgt ≥ 0 ∧ tgt < (if src ≥ 0 ∧ src < a.size
              then a.updTile src invalidateTile else a).size
            then (if src ≥ 0 ∧ src < a.size then a.updTile src invalidateTile else a).updTile tgt
              invalidateTile
            else (if src ≥ 0 ∧ src < a.size then a.updTile src invalidateTile else a)) with
          workspaceListDirty := true, damageDirty := true, pendingCapture := true }).dragWindow =
        a.dragWindow := by
    intro a src tgt
    obtain ⟨g1, g2, g3, g4, g5, g6, g7, g8, g9, g10⟩ := guardTile_fields a src invalidateTile
    obtain ⟨k1, k2, k3, k4, k5, k6, k7, k8, k9, k10⟩ := guardTile_fields
      (if src ≥ 0 ∧ src < a.size then a.updTile src invalidateTile else a) tgt invalidateTile
    refine ⟨fun j => ?_, k2.trans g2, k3.trans g3, k4.trans g4, k5.trans g5, k6.trans g6,
      k7.trans g7, k8.trans g8, k9.trans g9, k10.trans g10⟩
    have := k1 j
    rw [g1 j] at this
    refine this.trans ?_
    by_cases h2 : j = src
    · subst h2
      by_cases h1 : j = tgt
      · subst h1
        simp only [if_true, or_self]
        cases tileAt a.images j <;> rfl
      · simp only [h1, if_true, if_false, true_or]
    · by_cases h1 : j = tgt
      · subst h1
        simp only [h2, if_true, if_false, or_true]
      · simp only [h1, h2, if_false, or_self]
  unfold onButtonReleased
  dsimp only
  rw [if_pos hd, hw]
  have ht2 : (tileAt (clearDragState s0).images
      (if hitTileIndex s0 s0.lastMousePosLocal = -1 then s0.dragTargetIdx
        else hitTileIndex s0 s0.lastMousePosLocal)).bind (fun t => t.pWorkspace) = some dst := ht
  rw [ht2]
  dsimp only
  rw [if_neg hne]
  obtain ⟨q1, q2, q3, q4, q5, q6, q7, q8, q9, q10⟩ := key
    { clearDragState s0 with
      calls := (clearDragState s0).calls ++ [HostCall.moveWindowToWorkspaceSafe win dst] }
    s0.dragSourceIdx
    (if hitTileIndex s0 s0.lastMousePosLocal = -1 then s0.dragTargetIdx
      else hitTileIndex s0 s0.lastMousePosLocal)
  exact ⟨q1, q2, rfl, rfl, rfl, q3, q4, q5, q6, q7, q8, q9, q10⟩

/-- With no grabbed window `dragMove` returns at its second guard at the latest. -/
theorem dragMove_no_window (cfg : HorzaConfig) (h : Host) (s0 : COverview)
    (hw : s0.dragWindow = none) : dragMove cfg h s0 = s0 := by
  unfold dragMove
  by_cases h1 : s0.closing = true ∨ (!s0.leftButtonDown) = true
  · rw [if_pos h1]
  · rw [if_neg h1, if_pos (Or.inl (by rw [hw]; rfl))]

/-- With no grabbed window a pointer move changes `lastMousePosLocal` at most. -/
theorem move_no_window (cfg : HorzaConfig) (h : Host) (s : COverview)
    (hw : s.dragWindow = none) :
    (onMouseMove cfg h s).dragWindow = none ∧
      (onMouseMove cfg h s).draggingWindow = s.draggingWindow ∧
      (onMouseMove cfg h s).currentIdx = s.currentIdx ∧
      (onMouseMove cfg h s).dragTargetIdx = s.dragTargetIdx ∧
      (onMouseMove cfg h s).dragSourceIdx = s.dragSourceIdx ∧
      (onMouseMove cfg h s).leftButtonDown = s.leftButtonDown ∧
      (onMouseMove cfg h s).closing = s.closing ∧
      (onMouseMove cfg h s).images = s.images ∧
      (onMouseMove cfg h s).calls = s.calls := by
  unfold onMouseMove
  cases h.monitor with
  | none => exact ⟨hw, rfl, rfl, rfl, rfl, rfl, rfl, rfl, rfl⟩
  | some mon =>
      dsimp only
      rw [dragMove_no_window cfg h]
      · exact ⟨hw, rfl, rfl, rfl, rfl, rfl, rfl, rfl, rfl⟩
      · exact hw

/-- Any sequence of pointer moves, each with its own host snapshot, on a session with no
grabbed window. -/
theorem moves_no_window (cfg : HorzaConfig) (moves : List Host) (s : COverview)
    (hw : s.dragWindow = none) :
    (moves.foldl (fun st hh => onMouseMove cfg hh st) s).dragWindow = none ∧
      (moves.foldl (fun st hh => onMouseMove cfg hh st) s).draggingWindow = s.draggingWindow ∧
      (moves.foldl (fun st hh => onMouseMove cfg hh st) s).currentIdx = s.currentIdx ∧
      (moves.foldl (fun st hh => onMouseMove cfg hh st) s).dragTargetIdx = s.dragTargetIdx ∧
      (moves.foldl (fun st hh => onMouseMove cfg hh st) s).dragSourceIdx = s.dragSourceIdx ∧
      (moves.foldl (fun st hh => onMouseMove cfg hh st) s).leftButtonDown = s.leftButtonDown ∧
      (moves.foldl (fun st hh => onMouseMove cfg hh st) s).closing = s.closing ∧
      (moves.foldl (fun st hh => onMouseMove cfg hh st) s).images = s.images ∧
      (moves.foldl (fun st hh => onMouseMove cfg hh st) s).calls = s.calls := by
  induction moves generalizing s with
  | nil => exact ⟨hw, rfl, rfl, rfl, rfl, rfl, rfl, rfl, rfl⟩
  | cons hh rest ih =>
      obtain ⟨m1, m2, m3, m4, m5, m6, m7, m8, m9⟩ := move_no_window cfg hh s hw
      obtain ⟨i1, i2, i3, i4, i5, i6, i7, i8, i9⟩ := ih (onMouseMove cfg hh s) m1
      rw [List.foldl_cons]
      exact ⟨i1, i2.trans m2, i3.trans m3, i4.trans m4, i5.trans m5, i6.trans m6, i7.trans m7,
        i8.trans m8, i9.trans m9⟩

/-- A press outside every tile, or on a tile that yields no window, grabs nothing. -/
theorem pressed_no_window (h : Host) (mon : CMonitor) (s0 : COverview)
    (hno : hitTileIndex s0 s0.lastMousePosLocal = -1 ∨
      ∀ tile, tileAt s0.images (hitTileIndex s0 s0.lastMousePosLocal) = some tile →
        pickWindowInWorkspace h tile.pWorkspace
            (tileLocalToWorkspacePos h tile.displayBox s0.lastMousePosLocal) = none ∧
          ∀ ws win, tile.pWorkspace = some ws →
            (h.lastFocusedWindow ws).orElse (fun _ => h.firstWindow ws) = some win →
            win.m_workspace ≠ some ws) :
    (onButtonPressed h mon s0).dragWindow = none ∧
      (onButtonPressed h mon s0).currentIdx = s0.currentIdx ∧
      (onButtonPressed h mon s0).dragTargetIdx = hitTileIndex s0 s0.lastMousePosLocal := by
  have hno2 : ∀ tile, tileAt s0.images (hitTileIndex s0 s0.lastMousePosLocal) = some tile →
      pickWindowInWorkspace h tile.pWorkspace
          (tileLocalToWorkspacePos h tile.displayBox s0.lastMousePosLocal) = none ∧
        ∀ ws win, tile.pWorkspace = some ws →
          (h.lastFocusedWindow ws).orElse (fun _ => h.firstWindow ws) = some win →
          win.m_workspace ≠ some ws := by
    rcases hno with e | e
    · intro tile ht
      rw [e] at ht
      have := tileAt_some_bounds ht
      omega
    · exact e
  unfold onButtonPressed
  dsimp only
  cases ht : tileAt s0.images (hitTileIndex s0 s0.lastMousePosLocal) with
  | none =>
      have : tileAt (clearDragState s0).images (hitTileIndex s0 s0.lastMousePosLocal) = none := ht
      rw [this]
      exact ⟨rfl, rfl, rfl⟩
  | some tile =>
      have : tileAt (clearDragState s0).images (hitTileIndex s0 s0.lastMousePosLocal) =
          some tile := ht
      obtain ⟨hp, hf⟩ := hno2 tile ht
      simp only [this, hp]
      cases hws : tile.pWorkspace with
      | none => exact ⟨rfl, rfl, rfl⟩
      | some ws =>
          dsimp only
          cases hwin : (h.lastFocusedWindow ws).orElse (fun _ => h.firstWindow ws) with
          | none => exact ⟨rfl, rfl, rfl⟩
          | some win =>
              dsimp only
              rw [if_pos (hf ws win hws hwin)]
              exact ⟨rfl, rfl, rfl⟩

/-- The shape of a successful restore: the entry found after the prune is handed out and
written back with `cachedAt` replaced. -/
theorem restore_ok_spec {cfg : HorzaConfig} {t1 t2 : Int} {m : TileCache} {mon ws : Int}
    {outTex : Option CTexture} {outCap : Int}
    (hok : (restoreWorkspaceTileFromCache cfg t1 t2 m mon ws outTex outCap).ok = true) :
    tileCacheEnabled cfg = true ∧
      ∃ i e, cacheFind (pruneWorkspaceTileCache cfg t1 m) ⟨mon, ws⟩ = some (i, e) ∧
        deadTex e.tex = false ∧
        restoreWorkspaceTileFromCache cfg t1 t2 m mon ws outTex outCap =
          ⟨true, e.tex, e.capturedAt,
            (pruneWorkspaceTileCache cfg t1 m).set i (⟨mon, ws⟩, { e with cachedAt := t2 })⟩ := by
  by_cases hen : tileCacheEnabled cfg = true
  · refine ⟨hen, ?_⟩
    cases hf : cacheFind (pruneWorkspaceTileCache cfg t1 m) ⟨mon, ws⟩ with
    | none => simp [restoreWorkspaceTileFromCache, hen, hf] at hok
    | some r =>
      obtain ⟨i, e⟩ := r
      by_cases hd : deadTex e.tex = true
      · simp [restoreWorkspaceTileFromCache, hen, hf, hd] at hok
      · refine ⟨i, e, rfl, by simpa using hd, ?_⟩
        simp [restoreWorkspaceTileFromCache, hen, hf, hd]
  · simp [restoreWorkspaceTileFromCache, hen] at hok

/-- In the eviction order of a trim, an entry with a strictly smaller `cachedAt` than an
evicted entry stands before it. -/
theorem trimEvicted_before (M : Int) (fuel : Nat) (m l1 l2 : TileCache)
    (x y : STileCacheKey × STileCacheEntry) (hx : trimEvicted M fuel m = l1 ++ x :: l2)
    (hy : y ∈ m) (hlt : y.2.cachedAt < x.2.cachedAt) : y ∈ l1 := by
  have hperm := trimEvicted_perm M fuel m
  have hxe : x ∈ trimEvicted M fuel m := by rw [hx]; simp
  have hye : y ∈ trimEvicted M fuel m := by
    rcases List.mem_append.1 (hperm.subset hy) with h | h
    · exact h
    · have := trimEvicted_le_survivor M fuel m x hxe y h
      omega
  have hs := trimEvicted_sorted M fuel m
  rw [hx] at hye hs
  rcases List.mem_append.1 hye with h | h
  · exact h
  · rcases List.mem_cons.1 h with h | h
    · subst h; omega
    · have h2 := (List.pairwise_append.1 hs).2.1
      have := (List.pairwise_cons.1 h2).1 y h
      omega

/-! ## The workspaces of the tiles -/

theorem modifyTile_ws (f : SWorkspaceImage → SWorkspaceImage)
    (hf : ∀ t, (f t).pWorkspace = t.pWorkspace) :
    ∀ (l : List SWorkspaceImage) (n : Nat),
      (modifyTile f l n).map (fun t => t.pWorkspace) = l.map (fun t => t.pWorkspace) := by
  intro l
  induction l with
  | nil => intro n; rfl
  | cons t ts ih =>
    intro n
    cases n with
    | zero => simp [modifyTile, hf]
    | succ k => simp [modifyTile, ih]

theorem updTile_ws (s : COverview) (i : Int) (f : SWorkspaceImage → SWorkspaceImage)
    (hf : ∀ t, (f t).pWorkspace = t.pWorkspace) :
    tileWorkspaces (s.updTile i f) = tileWorkspaces s := by
  unfold COverview.updTile tileWorkspaces
  split_ifs
  · rfl
  · exact modifyTile_ws f hf _ _

theorem captureWorkspace_ws (h : Host) (s : COverview) (i : Int) :
    tileWorkspaces (captureWorkspace h s i) = tileWorkspaces s := by
  unfold captureWorkspace
  split_ifs
  · rfl
  · split
    · rfl
    · split_ifs
      · rfl
      · exact updTile_ws s i _ (fun _ => rfl)

theorem captureAndMark_ws (h : Host) (s : COverview) (i : Int) :
    tileWorkspaces (captureAndMark h s i) = tileWorkspaces s := by
  unfold captureAndMark
  refine Eq.trans (updTile_ws _ _ _ ?_) ?_
  · intro t; rfl
  · exact captureWorkspace_ws h { s with blockOverviewRendering := true } i

theorem restoreTileFromCache_ws (cfg : HorzaConfig) (h : Host) (s : COverview) (i : Int) :
    tileWorkspaces (restoreTileFromCache cfg h s i).2 = tileWorkspaces s := by
  unfold restoreTileFromCache
  split_ifs
  · rfl
  · split
    · simp only []
      split_ifs
      · rfl
      · exact updTile_ws _ _ _ (fun _ => rfl)
    · rfl

theorem captureOrDirty_ws (h : Host) (s : COverview) :
    tileWorkspaces (captureOrDirty h s) = tileWorkspaces s := by
  unfold captureOrDirty
  split
  · rfl
  · split_ifs
    · exact captureAndMark_ws h s _
    · rfl
    · rfl

theorem recentered_ws (cfg : HorzaConfig) (h : Host) (mon : CMonitor) (tr : Bool)
    (s : COverview) (sc off : AnimVar) (t : Int) :
    tileWorkspaces (damage (captureOrDirty h (recenterOn cfg mon tr s sc off t))) =
      tileWorkspaces s :=
  captureOrDirty_ws h (recenterOn cfg mon tr s sc off t)

theorem shift_ws (cfg : HorzaConfig) (h : Host) (s : COverview) (step : Int) :
    tileWorkspaces (shiftCurrentIndexBy cfg h s step).2 = tileWorkspaces s := by
  unfold shiftCurrentIndexBy
  split_ifs
  · rfl
  · split
    · simp only []
      split_ifs
      · rfl
      · exact recentered_ws cfg h _ false s _ _ _
    · rfl

theorem axis_ws (cfg : HorzaConfig) (h : Host) (s : COverview) (e : Option SAxisEvent) :
    tileWorkspaces (onMouseAxis cfg h s e) = tileWorkspaces s := by
  unfold onMouseAxis
  split_ifs
  · rfl
  · split
    · simp only []
      split_ifs
      · rfl
      · rfl
      · split
        · rfl
        · split_ifs
          · rfl
          · rfl
          · split
            · exact recentered_ws cfg h _ false _ _ _ _
            · rfl
    · rfl

theorem workspaceChange_ws (cfg : HorzaConfig) (h : Host) (s : COverview) :
    tileWorkspaces (onWorkspaceChange cfg h s) = tileWorkspaces s := by
  unfold onWorkspaceChange
  split
  · rename_i mon sc off _ _ _
    by_cases he : s.images = []
    · rw [if_pos he]
    · rw [if_neg he]
      dsimp only
      by_cases hn : (findActiveFrom mon.m_activeWorkspace s.images 0).getD s.currentIdx =
          s.currentIdx
      · rw [if_pos hn]
      · rw [if_neg hn]
        have key : ∀ s1 : COverview,
            tileWorkspaces { (match tileAt s1.images s1.currentIdx with
              | some t => if !t.captured then captureAndMark h s1 s1.currentIdx else s1
              | none => s1) with damageDirty := true } = tileWorkspaces s1 := by
          intro s1
          cases tileAt s1.images s1.currentIdx with
          | none => rfl
          | some t =>
              dsimp only
              by_cases hc : (!t.captured) = true
              · rw [if_pos hc]
                exact captureAndMark_ws h s1 _
              · rw [if_neg hc]
                rfl
        exact key _
  · rfl

theorem dragHover_ws (cfg : HorzaConfig) (h : Host) (s1 : COverview) :
    tileWorkspaces (dragHover cfg h s1) = tileWorkspaces s1 := by
  unfold dragHover
  simp only []
  split_ifs <;> first
    | rfl
    | exact shift_ws cfg h { s1 with ticks := s1.ticks + 1 } _

theorem promoteDrag_ws (h : Host) (s0 : COverview) :
    tileWorkspaces (promoteDrag h s0) = tileWorkspaces s0 := by
  unfold promoteDrag
  split_ifs <;> rfl

theorem dragMove_ws (cfg : HorzaConfig) (h : Host) (s0 : COverview) :
    tileWorkspaces (dragMove cfg h s0) = tileWorkspaces s0 := by
  unfold dragMove
  split_ifs
  · rfl
  · rfl
  · exact promoteDrag_ws h s0
  · exact (dragHover_ws cfg h _).trans (promoteDrag_ws h s0)

theorem move_ws (cfg : HorzaConfig) (h : Host) (s : COverview) :
    tileWorkspaces (onMouseMove cfg h s) = tileWorkspaces s := by
  unfold onMouseMove
  split
  · rfl
  · exact dragMove_ws cfg h _

theorem close_ws (h : Host) (s : COverview) : tileWorkspaces (close h s) = tileWorkspaces s := by
  unfold tileWorkspaces
  rw [(close_frame h s).1]

theorem reopen_ws (cfg : HorzaConfig) (s : COverview) :
    tileWorkspaces (reopen cfg s) = tileWorkspaces s := by
  unfold reopen
  split_ifs <;> rfl

theorem released_ws (h : Host) (mon : CMonitor) (s : COverview) :
    tileWorkspaces (onButtonReleased h mon s) = tileWorkspaces s := by
  have g : ∀ (a : COverview) (i : Int),
      tileWorkspaces (if i ≥ 0 ∧ i < a.size then a.updTile i invalidateTile else a) =
        tileWorkspaces a := by
    intro a i
    split_ifs
    · exact updTile_ws a i _ (fun _ => rfl)
    · rfl
  have e : ∀ x : COverview, tileWorkspaces (damage
      { x with workspaceListDirty := true, damageDirty := true, pendingCapture := true }) =
        tileWorkspaces x := fun _ => rfl
  unfold onButtonReleased
  dsimp only
  generalize (if hitTileIndex s s.lastMousePosLocal = -1 then s.dragTargetIdx
    else hitTileIndex s s.lastMousePosLocal) = tgt
  by_cases hd : s.draggingWindow = true
  · rw [if_pos hd]
    split
    · rename_i win dst _ _
      by_cases hw : win.m_workspace = some dst
      · rw [if_pos hw]
        rfl
      · rw [if_neg hw]
        exact (e _).trans ((g _ _).trans ((g _ _).trans rfl))
    · rfl
  · rw [if_neg hd]
    by_cases hr : hitTileIndex s s.lastMousePosLocal = -1
    · rw [if_pos hr]
      exact close_ws h (clearDragState s)
    · rw [if_neg hr]
      split
      · exact close_ws h (clearDragState s)
      · split
        · exact close_ws h (clearDragState s)
        · refine (close_ws h _).trans ?_
          split <;> split_ifs <;> rfl

theorem hook_ws (h : Host) (s : COverview) (e : Option SButtonEvent) :
    tileWorkspaces (mouseButtonHook h s e) = tileWorkspaces s := by
  unfold mouseButtonHook
  by_cases hc : s.closing = true
  · rw [if_pos hc]
  · rw [if_neg hc]
    unfold onMouseButton
    cases h.monitor with
    | none => rfl
    | some mon =>
      dsimp only
      cases e with
      | none => rfl
      | some ev =>
        dsimp only
        by_cases h1 : ev.button ≠ BTN_LEFT
        · rw [if_pos h1]
          rfl
        · rw [if_neg h1]
          by_cases h2 : ev.state = 1
          · rw [if_pos h2]
            unfold tileWorkspaces
            rw [(pressed_fields h mon _).2.2.2.1]
          · rw [if_neg h2]
            by_cases h3 : ev.state ≠ 0
            · rw [if_pos h3]
              rfl
            · rw [if_neg h3]
              exact released_ws h mon _

theorem restoreLoop_ws (cfg : HorzaConfig) (h : Host) :
    ∀ (n : Nat) (i : Int) (s : COverview),
      tileWorkspaces (restoreLoop cfg h n i s) = tileWorkspaces s := by
  intro n
  induction n with
  | zero => intro i s; rfl
  | succ k ih =>
    intro i s
    unfold restoreLoop
    simp only []
    split
    · split_ifs
      · exact ih _ _
      · exact (ih _ _).trans (restoreTileFromCache_ws cfg h s i)
    · exact ih _ _

theorem restoreAllLoop_ws (cfg : HorzaConfig) (h : Host) :
    ∀ (n : Nat) (i : Int) (s : COverview),
      tileWorkspaces (restoreAllLoop cfg h n i s) = tileWorkspaces s := by
  intro n
  induction n with
  | zero => intro i s; rfl
  | succ k ih =>
    intro i s
    unfold restoreAllLoop
    exact (ih _ _).trans (restoreTileFromCache_ws cfg h s i)

theorem prewarmLoop_ws (h : Host) :
    ∀ (n : Nat) (i : Int) (s : COverview),
      tileWorkspaces (prewarmLoop h n i s) = tileWorkspaces s := by
  intro n
  induction n with
  | zero => intro i s; rfl
  | succ k ih =>
    intro i s
    unfold prewarmLoop
    simp only []
    split
    · split_ifs
      · exact ih _ _
      · refine (ih _ _).trans (Eq.trans (updTile_ws _ _ _ ?_) (captureWorkspace_ws h s i))
        intro t; rfl
    · exact ih _ _

theorem syncRefill_ws (cfg : HorzaConfig) (h : Host) (mon : CMonitor)
    (pc : Option CWorkspace) (s1 : COverview) :
    tileWorkspaces (syncRefill cfg h mon pc s1) = tileWorkspaces s1 := by
  unfold syncRefill
  simp only []
  have h3 : tileWorkspaces (restoreLoop cfg h s1.images.length 0
      { s1 with currentIdx := resolveIndex mon pc s1.images s1.currentIdx }) =
        tileWorkspaces s1 := restoreLoop_ws cfg h _ _ _
  split_ifs with hp
  · have h4 := prewarmLoop_ws h
      (restoreLoop cfg h s1.images.length 0
        { s1 with currentIdx := resolveIndex mon pc s1.images s1.currentIdx }).images.length 0
      { restoreLoop cfg h s1.images.length 0
        { s1 with currentIdx := resolveIndex mon pc s1.images s1.currentIdx } with
        blockOverviewRendering := true }
    split
    · split_ifs
      · exact h4.trans h3
      · exact h4.trans h3
    · exact h4.trans h3
  · split
    · split_ifs
      · exact h3
      · exact h3
    · exact h3

theorem reconcileStep_ws (acc : List SWorkspaceImage × List SWorkspaceImage) (ws : CWorkspace) :
    (reconcileStep acc ws).2.map (fun t => t.pWorkspace) =
      acc.2.map (fun t => t.pWorkspace) ++ [some ws] := by
  unfold reconcileStep
  split
  · split <;> simp
  · simp

theorem reconcile_foldl_ws (wsList : List CWorkspace) :
    ∀ acc : List SWorkspaceImage × List SWorkspaceImage,
      (wsList.foldl reconcileStep acc).2.map (fun t => t.pWorkspace) =
        acc.2.map (fun t => t.pWorkspace) ++ wsList.map some := by
  induction wsList with
  | nil => intro acc; simp
  | cons w rest ih =>
    intro acc
    rw [List.foldl_cons, ih, reconcileStep_ws]
    simp

/-- The rebuilt tile list holds the workspaces of `wsList`, in its order. -/
theorem reconcile_ws (old : List SWorkspaceImage) (wsList : List CWorkspace) :
    (reconcile old wsList).map (fun t => t.pWorkspace) = wsList.map some := by
  unfold reconcile
  rw [reconcile_foldl_ws]
  simp

/-- After `syncWorkspaces` with a live monitor the tiles hold the monitor's workspaces with
`m_id >= 0`, sorted by id. -/
theorem sync_ws (cfg : HorzaConfig) (h : Host) (s : COverview) (mon : CMonitor)
    (hm : h.monitor = some mon) :
    tileWorkspaces (syncWorkspaces cfg h s).2 = (sortedWorkspaces h mon).map some := by
  by_cases hchg : s.images.map (fun t => t.pWorkspace) = (sortedWorkspaces h mon).map some
  · have : syncWorkspaces cfg h s = (false, { s with workspaceListDirty := false }) := by
      unfold syncWorkspaces
      simp only [hm, hchg, if_true]
    rw [this]
    exact hchg
  · by_cases hne : sortedWorkspaces h mon = []
    · have : (syncWorkspaces cfg h s).2.images = reconcile s.images (sortedWorkspaces h mon) := by
        have hnil : reconcile s.images (sortedWorkspaces h mon) = [] := by
          apply List.length_eq_zero.1
          rw [reconcile_length, hne]
          rfl
        unfold syncWorkspaces
        simp only [hm, hchg, hnil, if_false, if_true]
      unfold tileWorkspaces
      rw [this]
      exact reconcile_ws _ _
    · rw [sync_rebuild hm hchg hne]
      unfold tileWorkspaces
      rw [(syncDragGuard_frame _ _).2.2]
      exact (syncRefill_ws cfg h mon _ _).trans (reconcile_ws _ _)

theorem transitDestCapture_ws (h : Host) (started : CWorkspace) (dest : Option CWorkspace)
    (s4 : COverview) :
    tileWorkspaces (transitDestCapture h started dest s4) = tileWorkspaces s4 := by
  unfold transitDestCapture
  cases dest with
  | none => rfl
  | some d =>
      dsimp only
      by_cases hd : d ≠ started
      · rw [if_pos hd]
        split
        · refine Eq.trans (updTile_ws _ _ _ ?_) ?_
          · intro t; rfl
          · split
            · split_ifs
              · exact captureWorkspace_ws h _ _
              · rfl
            · rfl
        · rfl
      · rw [if_neg hd]

theorem constructTransit_ws (h : Host) (started : CWorkspace) (dest : Option CWorkspace)
    (s2 : COverview) : tileWorkspaces (constructTransit h started dest s2) = tileWorkspaces s2 := by
  unfold constructTransit
  refine Eq.trans (b := tileWorkspaces (transitDestCapture h started dest _)) rfl ?_
  refine (transitDestCapture_ws h started dest _).trans ?_
  refine Eq.trans (updTile_ws _ _ _ ?_) ?_
  · intro t; rfl
  · exact captureWorkspace_ws h _ _

theorem captureBackground_ws (h : Host) (s : COverview) :
    tileWorkspaces (captureBackground h s) = tileWorkspaces s := by
  unfold captureBackground
  split
  · rfl
  · split_ifs <;> rfl

theorem captureStartTile_ws (h : Host) (s4 : COverview) :
    tileWorkspaces (captureStartTile h s4) = tileWorkspaces s4 := by
  unfold captureStartTile
  split
  · split_ifs
    · refine Eq.trans (updTile_ws _ _ _ ?_) (captureWorkspace_ws h _ _)
      intro t; rfl
    · rfl
    · rfl
  · rfl

theorem constructOverview_ws (cfg : HorzaConfig) (h : Host) (s2 : COverview) :
    tileWorkspaces (constructOverview cfg h s2) = tileWorkspaces s2 := by
  have k6 : ∀ s5 : COverview, tileWorkspaces
      (if cfg.hyprpaperBackground then captureBackground h s5 else s5) = tileWorkspaces s5 := by
    intro s5
    split_ifs
    · exact captureBackground_ws h s5
    · rfl
  have k7 : ∀ s6 : COverview, tileWorkspaces
      (if cfg.prewarmAll then prewarmLoop h s6.images.length 0 s6 else s6) =
        tileWorkspaces s6 := by
    intro s6
    split_ifs
    · exact prewarmLoop_ws h _ _ _
    · rfl
  unfold constructOverview
  exact Eq.trans (b := tileWorkspaces (if cfg.prewarmAll then prewarmLoop h _ 0 _ else _)) rfl
    ((k7 _).trans ((k6 _).trans ((captureStartTile_ws h _).trans
      (restoreAllLoop_ws cfg h _ _ _))))

/-- After a construction that found the focused monitor and the starting workspace the
tiles hold the monitor's workspaces with `m_id >= 0`, sorted by id. -/
theorem construct_ws (cfg : HorzaConfig) (h : Host) (mon : CMonitor) (started : CWorkspace)
    (tm : Bool) (dest : Option CWorkspace) (cache : TileCache) (ticks : Nat)
    (hm : h.monitor = some mon) :
    tileWorkspaces (construct cfg h (some started) tm dest cache ticks) =
      (sortedWorkspaces h mon).map some := by
  have hmap : ((sortedWorkspaces h mon).map
      (fun ws => ({ pWorkspace := some ws, captured := false } : SWorkspaceImage))).map
        (fun t => t.pWorkspace) = (sortedWorkspaces h mon).map some := by
    rw [List.map_map]
    rfl
  unfold construct
  simp only [hm]
  split_ifs
  · exact hmap
  · exact (constructTransit_ws h started dest _).trans hmap
  · exact (constructOverview_ws cfg h _).trans hmap

theorem tileIds_of_ws {l l' : List SWorkspaceImage}
    (h : l.map (fun t => t.pWorkspace) = l'.map (fun t => t.pWorkspace)) :
    tileIds l = tileIds l' := by
  have e : ∀ m : List SWorkspaceImage,
      tileIds m = (m.map (fun t => t.pWorkspace)).map (Option.map (fun w => w.m_id)) := by
    intro m
    unfold tileIds
    rw [List.map_map]
    rfl
  rw [e, e, h]

/-- The search loop returns the first position holding the id. -/
theorem findTileById_some (id : Int) :
    ∀ (l : List SWorkspaceImage) (i j : Int), findTileById id l i = some j →
      ∃ n : Nat, j = i + n ∧ (tileIds l)[n]? = some (some id) ∧
        ∀ k : Nat, k < n → (tileIds l)[k]? ≠ some (some id) := by
  intro l
  induction l with
  | nil => intro i j h; simp [findTileById] at h
  | cons t ts ih =>
    intro i j h
    unfold findTileById at h
    have step : findTileById id ts (i + 1) = some j →
        (t.pWorkspace.map (fun w => w.m_id)) ≠ some id →
        ∃ n : Nat, j = i + n ∧ (tileIds (t :: ts))[n]? = some (some id) ∧
          ∀ k : Nat, k < n → (tileIds (t :: ts))[k]? ≠ some (some id) := by
      intro hj hne
      obtain ⟨n, hn, hget, hfirst⟩ := ih (i + 1) j hj
      refine ⟨n + 1, by push_cast; omega, by simpa [tileIds] using hget, ?_⟩
      intro k hk
      cases k with
      | zero =>
          simp only [tileIds, List.map_cons, List.getElem?_cons_zero, ne_eq, Option.some.injEq]
          exact hne
      | succ k2 =>
          have := hfirst k2 (by omega)
          simpa [tileIds] using this
    cases hw : t.pWorkspace with
    | none =>
        rw [hw] at h
        exact step h (by rw [hw]; simp)
    | some w =>
        rw [hw] at h
        dsimp only at h
        by_cases hid : w.m_id = id
        · rw [if_pos hid] at h
          refine ⟨0, by simp at h; simp [h], by simp [tileIds, hw, hid], ?_⟩
          intro k hk
          omega
        · rw [if_neg hid] at h
          exact step h (by rw [hw]; simpa using hid)

/-- The search loop finds nothing only when no tile holds the id. -/
theorem findTileById_none (id : Int) :
    ∀ (l : List SWorkspaceImage) (i : Int), findTileById id l i = none →
      some id ∉ tileIds l := by
  intro l
  induction l with
  | nil => intro i _; simp [tileIds]
  | cons t ts ih =>
    intro i h
    unfold findTileById at h
    cases hw : t.pWorkspace with
    | none =>
        rw [hw] at h
        have := ih (i + 1) h
        simp only [tileIds, List.map_cons, hw, Option.map_none', List.mem_cons, not_or]
        exact ⟨by simp, this⟩
    | some w =>
        rw [hw] at h
        dsimp only at h
        by_cases hid : w.m_id = id
        · rw [if_pos hid] at h
          exact absurd h (by simp)
        · rw [if_neg hid] at h
          have := ih (i + 1) h
          simp only [tileIds, List.map_cons, hw, Option.map_some', List.mem_cons, not_or,
            Option.some.injEq]
          exact ⟨fun e => hid e.symm, this⟩

/-- The three cases of the index resolution. -/
theorem resolveIndex_spec (mon : CMonitor) (pc : Option CWorkspace) (l : List SWorkspaceImage)
    (cur : Int) :
    (∀ p, pc = some p → some p.m_id ∈ tileIds l →
        ∃ n : Nat, resolveIndex mon pc l cur = n ∧ (tileIds l)[n]? = some (some p.m_id) ∧
          ∀ k : Nat, k < n → (tileIds l)[k]? ≠ some (some p.m_id)) ∧
      (∀ aw, mon.m_activeWorkspace = some aw →
        (∀ p, pc = some p → some p.m_id ∉ tileIds l) → some aw.m_id ∈ tileIds l →
        ∃ n : Nat, resolveIndex mon pc l cur = n ∧ (tileIds l)[n]? = some (some aw.m_id) ∧
          ∀ k : Nat, k < n → (tileIds l)[k]? ≠ some (some aw.m_id)) ∧
      ((∀ p, pc = some p → some p.m_id ∉ tileIds l) →
        (∀ aw, mon.m_activeWorkspace = some aw → some aw.m_id ∉ tileIds l) →
        resolveIndex mon pc l cur = clampI cur 0 ((l.length : Int) - 1)) := by
  have found : ∀ id j, findTileById id l 0 = some j →
      ∃ n : Nat, j = n ∧ (tileIds l)[n]? = some (some id) ∧
        ∀ k : Nat, k < n → (tileIds l)[k]? ≠ some (some id) := by
    intro id j hj
    obtain ⟨n, hn, r⟩ := findTileById_some id l 0 j hj
    exact ⟨n, by omega, r⟩
  have present : ∀ id, some id ∈ tileIds l → ∃ j, findTileById id l 0 = some j := by
    intro id hmem
    cases hf : findTileById id l 0 with
    | none => exact absurd hmem (findTileById_none id l 0 hf)
    | some j => exact ⟨j, rfl⟩
  have absent : ∀ id, some id ∉ tileIds l → findTileById id l 0 = none := by
    intro id hmem
    cases hf : findTileById id l 0 with
    | none => rfl
    | some j =>
        obtain ⟨n, _, hget, _⟩ := found id j hf
        exact absurd (List.getElem?_mem hget) hmem
  unfold resolveIndex
  refine ⟨?_, ?_, ?_⟩
  · intro p hp hmem
    subst hp
    obtain ⟨j, hj⟩ := present _ hmem
    simp only [hj]
    exact found _ j hj
  · intro aw haw hno hmem
    obtain ⟨j, hj⟩ := present _ hmem
    have hc : (match pc with
        | some p => findTileById p.m_id l 0
        | none => none) = none := by
      cases pc with
      | none => rfl
      | some p => exact absent _ (hno p rfl)
    simp only [hc, haw, hj]
    exact found _ j hj
  · intro hno hna
    have hc : (match pc with
        | some p => findTileById p.m_id l 0
        | none => none) = none := by
      cases pc with
      | none => rfl
      | some p => exact absent _ (hno p rfl)
    simp only [hc]
    cases haw : mon.m_activeWorkspace with
    | none => rfl
    | some aw =>
        simp only [absent _ (hna aw haw)]

theorem sortedWorkspaces_perm (h : Host) (mon : CMonitor) :
    List.Perm (sortedWorkspaces h mon) (monitorWorkspaces h mon) :=
  List.perm_insertionSort _ _

theorem mem_monitorWorkspaces (h : Host) (mon : CMonitor) (ws : CWorkspace) :
    ws ∈ monitorWorkspaces h mon ↔
      some ws ∈ h.m_workspaces ∧ ws.monitorID = mon.m_id ∧ 0 ≤ ws.m_id := by
  unfold monitorWorkspaces
  simp [List.mem_filter, List.mem_filterMap]

theorem sortedWorkspaces_sorted (h : Host) (mon : CMonitor) :
    (sortedWorkspaces h mon).Pairwise (fun a b => a.m_id ≤ b.m_id) := by
  haveI : IsTotal CWorkspace (fun a b => a.m_id ≤ b.m_id) := ⟨fun a b => le_total _ _⟩
  haveI : IsTrans CWorkspace (fun a b => a.m_id ≤ b.m_id) := ⟨fun _ _ _ h1 h2 => le_trans h1 h2⟩
  exact List.sorted_insertionSort (fun a b : CWorkspace => a.m_id ≤ b.m_id) _

theorem sortedWorkspaces_ids_nodup (h : Host) (mon : CMonitor)
    (hd : ((monitorWorkspaces h mon).map (fun w => w.m_id)).Nodup) :
    ((sortedWorkspaces h mon).map (fun w => w.m_id)).Nodup :=
  ((sortedWorkspaces_perm h mon).map _).nodup_iff.2 hd

theorem sortedWorkspaces_strict (h : Host) (mon : CMonitor)
    (hd : ((monitorWorkspaces h mon).map (fun w => w.m_id)).Nodup) :
    (sortedWorkspaces h mon).Pairwise (fun a b => a.m_id < b.m_id) := by
  have h1 := sortedWorkspaces_sorted h mon
  have h2 : (sortedWorkspaces h mon).Pairwise (fun a b => a.m_id ≠ b.m_id) := by
    have := sortedWorkspaces_ids_nodup h mon hd
    unfold List.Nodup at this
    rw [List.pairwise_map] at this
    exact this
  exact (h1.and h2).imp (fun hab => lt_of_le_of_ne hab.1 hab.2)

theorem sortedWorkspaces_unique (h : Host) (mon : CMonitor)
    (hd : ((monitorWorkspaces h mon).map (fun w => w.m_id)).Nodup) (ws : CWorkspace)
    (hw : ws ∈ monitorWorkspaces h mon) :
    ∃! n : Nat, ((sortedWorkspaces h mon).map some)[n]? = some (some ws) := by
  have hn : (sortedWorkspaces h mon).Nodup :=
    List.Nodup.of_map _ (sortedWorkspaces_ids_nodup h mon hd)
  have hn2 : ((sortedWorkspaces h mon).map some).Nodup :=
    hn.map (Option.some_injective _)
  have hmem : some ws ∈ (sortedWorkspaces h mon).map some :=
    List.mem_map.2 ⟨ws, (sortedWorkspaces_perm h mon).symm.subset hw, rfl⟩
  obtain ⟨n, hget⟩ := List.mem_iff_getElem?.1 hmem
  refine ⟨n, hget, fun m hm2 => ?_⟩
  have hlt : ∀ (i j : Nat), ((sortedWorkspaces h mon).map some)[i]? = some (some ws) →
      ((sortedWorkspaces h mon).map some)[j]? = some (some ws) → ¬ i < j := by
    intro i j hi hj hij
    have hjl : j < ((sortedWorkspaces h mon).map some).length := by
      by_contra hcon
      rw [List.getElem?_eq_none (by omega)] at hj
      exact absurd hj (by simp)
    exact (List.nodup_iff_getElem?_ne_getElem?.1 hn2 i j hij hjl) (hi.trans hj.symm)
  have h1 := hlt n m hget hm2
  have h2 := hlt m n hm2 hget
  omega

/-- The capture block keeps every captured tile captured. -/
theorem captureAndMark_keeps (h : Host) (s : COverview) (i j : Int)
    (hi : ∃ t, tileAt s.images i = some t)
    (hj : ∃ u, tileAt s.images j = some u ∧ u.captured = true) :
    ∃ u, tileAt (captureAndMark h s i).images j = some u ∧ u.captured = true := by
  by_cases hji : j = i
  · obtain ⟨t, ht⟩ := hi
    obtain ⟨u, hu, hc, _⟩ := (captureAndMark_tileAt h s i).2 t ht
    rw [hji]
    exact ⟨u, hu, hc⟩
  · rw [(captureAndMark_tileAt h s i).1 j hji]
    exact hj

/-- One evaluation of the pending loop keeps captured tiles captured, and leaves the tile
of every capture in its log captured. -/
theorem pendingIter_marks (cfg : HorzaConfig) (h : Host) (start : Int) (p : PendingState) :
    (∀ j, (∃ u, tileAt p.s.images j = some u ∧ u.captured = true) →
        ∃ u, tileAt (pendingIter cfg h start p).1.s.images j = some u ∧ u.captured = true) ∧
      ((∀ c ∈ p.log, ∃ u, tileAt p.s.images c.idx = some u ∧ u.captured = true) →
        ∀ c ∈ (pendingIter cfg h start p).1.log,
          ∃ u, tileAt (pendingIter cfg h start p).1.s.images c.idx = some u ∧
            u.captured = true) := by
  by_cases hgo : (pendingIter cfg h start p).2 = true
  · have hcap : (canDoOptionalCapture cfg h start p.optionalCapturesThisFrame p.s).1 = true ∧
        pickPending h (canDoOptionalCapture cfg h start p.optionalCapturesThisFrame p.s).2.2 ≠
          -1 := by
      rcases pendingIter_cases cfg h start p with hc | ⟨hc, hp⟩ | ⟨hc, hp⟩
      · rw [pendingIter_budget hc] at hgo; exact absurd hgo (by simp)
      · rw [pendingIter_none hc hp] at hgo; exact absurd hgo (by simp)
      · exact ⟨hc, hp⟩
    obtain ⟨s2, c, _, e1, _, _, e4, e5, e6, e7, _, _, g1, _⟩ :=
      pendingIter_capture_facts hcap.1 hcap.2
    have hex : ∃ t, tileAt s2.images c.idx = some t := by
      have hne : pickPending h s2 ≠ -1 := by rw [← e6]; exact e7
      obtain ⟨t, ht, _⟩ := pickPending_some h s2 hne
      exact ⟨t, by rw [e6]; exact ht⟩
    have keep : ∀ j, (∃ u, tileAt p.s.images j = some u ∧ u.captured = true) →
        ∃ u, tileAt (pendingIter cfg h start p).1.s.images j = some u ∧ u.captured = true := by
      intro j hj
      rw [e1]
      exact captureAndMark_keeps h s2 c.idx j hex (by rw [g1]; exact hj)
    refine ⟨keep, ?_⟩
    intro hinv d hd
    rw [e4] at hd
    rcases List.mem_append.mp hd with hd | hd
    · exact keep d.idx (hinv d hd)
    · simp only [List.mem_singleton] at hd
      rw [hd, e1]
      obtain ⟨t, ht⟩ := hex
      obtain ⟨u, hu, hc, _⟩ := (captureAndMark_tileAt h s2 c.idx).2 t ht
      exact ⟨u, hu, hc⟩
  · obtain ⟨s1, _, _, s4, _⟩ :=
      pendingIter_stop_facts (by simpa using hgo : (pendingIter cfg h start p).2 = false)
    rw [s1, s4]
    exact ⟨fun j hj => hj, fun hinv => hinv⟩

/-- The pending loop keeps captured tiles captured, and leaves the tile of every capture in
its log captured. -/
theorem pendingLoop_marks (cfg : HorzaConfig) (h : Host) (start : Int) :
    ∀ (fuel : Nat) (p q : PendingState), pendingLoop cfg h start fuel p = some q →
      (∀ j, (∃ u, tileAt p.s.images j = some u ∧ u.captured = true) →
        ∃ u, tileAt q.s.images j = some u ∧ u.captured = true) ∧
      ((∀ c ∈ p.log, ∃ u, tileAt p.s.images c.idx = some u ∧ u.captured = true) →
        ∀ c ∈ q.log, ∃ u, tileAt q.s.images c.idx = some u ∧ u.captured = true) := by
  intro fuel
  induction fuel with
  | zero => intro p q hq; simp [pendingLoop] at hq
  | succ fuel ih =>
      intro p q hq
      unfold pendingLoop at hq
      dsimp only at hq
      obtain ⟨m1, m2⟩ := pendingIter_marks cfg h start p
      by_cases hgo : (pendingIter cfg h start p).2 = true
      · rw [if_pos hgo] at hq
        obtain ⟨i1, i2⟩ := ih _ q hq
        exact ⟨fun j hj => i1 j (m1 j hj), fun hinv => i2 (m2 hinv)⟩
      · rw [if_neg hgo] at hq
        simp only [Option.some.injEq] at hq
        rw [← hq]
        exact ⟨m1, m2⟩

/-- The result of a scheduler pass is that of the tail on the locals the pending loop
leaves, or on the initial locals when `pendingCapture` is clear. -/
theorem schedulerPass_split {cfg : HorzaConfig} {h : Host} {s : COverview}
    {r : PreRenderResult} (hr : schedulerPass cfg h s = some r) :
    ∃ q : PendingState, r = schedulerTail cfg h (h.clock s.ticks) q ∧
      (s.pendingCapture = true →
        pendingLoop cfg h (h.clock s.ticks) (s.images.length + 1)
          ⟨{ s with ticks := s.ticks + 1 }, 0, false, []⟩ = some q) ∧
      (s.pendingCapture = false → q = ⟨{ s with ticks := s.ticks + 1 }, 0, false, []⟩) := by
  unfold schedulerPass at hr
  dsimp only at hr
  by_cases hp : s.pendingCapture = true
  · rw [if_pos hp] at hr
    cases hq : pendingLoop cfg h (h.clock s.ticks) (s.images.length + 1)
        ⟨{ s with ticks := s.ticks + 1 }, 0, false, []⟩ with
    | none => rw [hq] at hr; exact absurd hr (by simp)
    | some q =>
        rw [hq] at hr
        simp only [Option.map_some', Option.some.injEq] at hr
        exact ⟨q, hr.symm, fun _ => rfl, fun hc => absurd hp (by rw [hc]; simp)⟩
  · rw [if_neg hp] at hr
    simp only [Option.map_some', Option.some.injEq] at hr
    exact ⟨_, hr.symm, fun hc => absurd hc hp, fun _ => rfl⟩

/-- After a scheduler pass the tile of every capture of the pending loop is captured. -/
theorem schedulerPass_marks {cfg : HorzaConfig} {h : Host} {s : COverview}
    {r : PreRenderResult} (hr : schedulerPass cfg h s = some r) :
    ∀ c ∈ r.pending, ∃ u, tileAt r.state.images c.idx = some u ∧ u.captured = true := by
  obtain ⟨q, hq, hloop, hno⟩ := schedulerPass_split hr
  intro c hc
  rw [hq, schedulerTail_pending] at hc
  by_cases hp : s.pendingCapture = true
  · obtain ⟨_, m2⟩ := pendingLoop_marks cfg h _ _ _ q (hloop hp)
    obtain ⟨new, n1, _, _, n4, _⟩ := pendingLoop_spec cfg h _ _ _ q (hloop hp)
    have hne : new ≠ [] := by
      intro hcon
      rw [n1, hcon] at hc
      exact absurd hc (by simp)
    rw [hq, schedulerTail_captured (n4 hne).1]
    exact m2 (fun d hd => absurd hd (by simp)) c hc
  · rw [hno (by simpa using hp)] at hc
    exact absurd hc (by simp)

/-- The first evaluation of the pending loop in a pass: with `pendingCapture` set, the
budget check passing and an uncaptured tile on screen, the pass records a capture, chosen
among the tiles the pass began with. -/
theorem schedulerPass_first {cfg : HorzaConfig} {h : Host} {s : COverview}
    {r : PreRenderResult} (hv : ValidIdx s) (hsz : s.size ≤ 2147483647)
    (hr : schedulerPass cfg h s = some r) (hp : s.pendingCapture = true)
    (hc : (canDoOptionalCapture cfg h (h.clock s.ticks) 0 { s with ticks := s.ticks + 1 }).1 =
      true)
    (hex : ∃ j t, tileAt s.images j = some t ∧ pendingEligible h t) :
    ∃ c rest, r.pending = c :: rest ∧ c.before.images = s.images ∧
      c.before.currentIdx = s.currentIdx ∧ c.countBefore = 0 ∧
      c.idx = pickPending h c.before := by
  obtain ⟨q, hq, hloop, _⟩ := schedulerPass_split hr
  have hl := hloop hp
  obtain ⟨f1, _, _, _, f5, _⟩ :=
    canDo_fields cfg h (h.clock s.ticks) 0 { s with ticks := s.ticks + 1 }
  have hk : pickPending h
      (canDoOptionalCapture cfg h (h.clock s.ticks) 0 { s with ticks := s.ticks + 1 }).2.2 ≠
        -1 := by
    intro hcon
    obtain ⟨j, t, hj, he⟩ := hex
    have hv2 : ValidIdx
        (canDoOptionalCapture cfg h (h.clock s.ticks) 0 { s with ticks := s.ticks + 1 }).2.2 := by
      unfold ValidIdx COverview.size
      rw [f1, f5]
      exact hv
    have hsz2 : (canDoOptionalCapture cfg h (h.clock s.ticks) 0
        { s with ticks := s.ticks + 1 }).2.2.size ≤ 2147483647 := by
      unfold COverview.size
      rw [f1]
      exact hsz
    exact (pickPending_spec h _ hv2 hsz2).1.mp hcon j t (by rw [f1]; exact hj) he
  obtain ⟨s2, c, e0, _, _, _, e4, e5, e6, _, _, e9, g1, g2, _⟩ :=
    pendingIter_capture_facts (p := ⟨{ s with ticks := s.ticks + 1 }, 0, false, []⟩) hc hk
  unfold pendingLoop at hl
  dsimp only at hl
  rw [if_pos e0] at hl
  obtain ⟨new, n1, _⟩ := pendingLoop_spec cfg h _ _ _ q hl
  refine ⟨c, new, ?_, ?_, ?_, e9, ?_⟩
  · rw [hq, schedulerTail_pending, n1, e4]
    rfl
  · rw [e5]; exact g1
  · rw [e5]; exact g2
  · rw [e5]; exact e6

/-- When the pending loop captured nothing, the tail leaves `pendingCapture` as the loop
left it. -/
theorem schedulerTail_pendingCapture {cfg : HorzaConfig} {h : Host} {start : Int}
    {p : PendingState} (ha : p.capturedAny = false) :
    (schedulerTail cfg h start p).state.pendingCapture = p.s.pendingCapture := by
  obtain ⟨_, _, _, f4, _⟩ := canDo_fields cfg h start p.optionalCapturesThisFrame p.s
  unfold schedulerTail
  dsimp only
  rw [if_neg (by rw [ha]; simp)]
  by_cases hd : p.s.damageDirty = true
  · rw [if_pos hd]
    show (captureAndMark h { p.s with damageDirty := false } p.s.currentIdx).pendingCapture = _
    rw [(captureAndMark_fields h _ _).2.1]
  · rw [if_neg hd]
    by_cases hg : (!p.s.pendingCapture && !p.s.closing) = true
    · rw [if_pos hg]
      by_cases hc : (canDoOptionalCapture cfg h start p.optionalCapturesThisFrame p.s).1 = true
      · rw [if_pos hc]
        split_ifs
        · show (captureAndMark h _ _).pendingCapture = _
          rw [(captureAndMark_fields h _ _).2.1]
          exact f4
        · exact f4
      · rw [if_neg hc]
        exact f4
    · rw [if_neg hg]

/-- A pass that starts with `pendingCapture` set, passes its first budget check and finds
no uncaptured tile on screen leaves `pendingCapture` clear and the pending loop without a
capture. -/
theorem schedulerPass_clears {cfg : HorzaConfig} {h : Host} {s : COverview}
    {r : PreRenderResult} (hr : schedulerPass cfg h s = some r) (hp : s.pendingCapture = true)
    (hc : (canDoOptionalCapture cfg h (h.clock s.ticks) 0 { s with ticks := s.ticks + 1 }).1 =
      true)
    (hno : ∀ j t, tileAt s.images j = some t → ¬ pendingEligible h t) :
    r.pending = [] ∧ r.state.pendingCapture = false := by
  obtain ⟨q, hq, hloop, _⟩ := schedulerPass_split hr
  have hl := hloop hp
  have hk : pickPending h
      (canDoOptionalCapture cfg h (h.clock s.ticks) 0 { s with ticks := s.ticks + 1 }).2.2 =
        -1 := by
    apply pickPending_none
    rw [(canDo_fields cfg h (h.clock s.ticks) 0 { s with ticks := s.ticks + 1 }).1]
    exact hno
  have hit := pendingIter_none (p := ⟨{ s with ticks := s.ticks + 1 }, 0, false, []⟩) hc hk
  have hstop : (pendingIter cfg h (h.clock s.ticks)
      ⟨{ s with ticks := s.ticks + 1 }, 0, false, []⟩).2 = false := by rw [hit]
  rw [pendingLoop_stop _ hstop] at hl
  simp only [Option.some.injEq] at hl
  have hqs : q.s.pendingCapture = false := by rw [← hl, hit]
  have hqa : q.capturedAny = false := by rw [← hl, hit]
  have hql : q.log = [] := by rw [← hl, hit]
  refine ⟨by rw [hq, schedulerTail_pending, hql], ?_⟩
  rw [hq]
  rw [schedulerTail_pendingCapture hqa]
  exact hqs

/-- An evaluation of the pending loop whose budget check passes while an uncaptured tile is
on screen captures the nearest such tile (the lower index on a tie), leaves the other tiles
as they were, and goes on. -/
theorem pendingIter_takes {cfg : HorzaConfig} {h : Host} {start : Int} {p : PendingState}
    (hv : ValidIdx p.s) (hsz : p.s.size ≤ 2147483647)
    (hc : (canDoOptionalCapture cfg h start p.optionalCapturesThisFrame p.s).1 = true)
    (hex : ∃ j t, tileAt p.s.images j = some t ∧ pendingEligible h t) :
    (pendingIter cfg h start p).2 = true ∧
      ∃ c : OptionalCapture, (pendingIter cfg h start p).1.log = p.log ++ [c] ∧
        (∃ t, tileAt p.s.images c.idx = some t ∧ pendingEligible h t ∧
          ∀ j u, tileAt p.s.images j = some u → pendingEligible h u →
            |c.idx - p.s.currentIdx| ≤ |j - p.s.currentIdx| ∧
            (|j - p.s.currentIdx| = |c.idx - p.s.currentIdx| → c.idx ≤ j)) ∧
        (∃ u, tileAt (pendingIter cfg h start p).1.s.images c.idx = some u ∧
          u.captured = true) ∧
        (∀ j, j ≠ c.idx →
          tileAt (pendingIter cfg h start p).1.s.images j = tileAt p.s.images j) ∧
        (pendingIter cfg h start p).1.s.pendingCapture = true := by
  obtain ⟨f1, _, _, _, f5, _⟩ := canDo_fields cfg h start p.optionalCapturesThisFrame p.s
  have hv2 : ValidIdx (canDoOptionalCapture cfg h start p.optionalCapturesThisFrame p.s).2.2 := by
    unfold ValidIdx COverview.size
    rw [f1, f5]
    exact hv
  have hsz2 : (canDoOptionalCapture cfg h start p.optionalCapturesThisFrame p.s).2.2.size ≤
      2147483647 := by
    unfold COverview.size
    rw [f1]
    exact hsz
  have hk : pickPending h (canDoOptionalCapture cfg h start p.optionalCapturesThisFrame p.s).2.2 ≠
      -1 := by
    intro hcon
    obtain ⟨j, t, hj, he⟩ := hex
    exact (pickPending_spec h _ hv2 hsz2).1.mp hcon j t (by rw [f1]; exact hj) he
  obtain ⟨s2, c, e0, e1, _, _, e4, e5, e6, e7, _, _, g1, g2, _, _, _, g6⟩ :=
    pendingIter_capture_facts hc hk
  have hv3 : ValidIdx s2 := by
    unfold ValidIdx COverview.size
    rw [g1, g2]
    exact hv
  have hsz3 : s2.size ≤ 2147483647 := by
    unfold COverview.size
    rw [g1]
    exact hsz
  obtain ⟨t, ht, he, hmin⟩ := (pickPending_spec h s2 hv3 hsz3).2 (by rw [← e6]; exact e7)
  rw [← e6, g1] at ht
  rw [← e6, g1, g2] at hmin
  refine ⟨e0, c, e4, ⟨t, ht, he, hmin⟩, ?_, ?_, ?_⟩
  · rw [e1]
    obtain ⟨u, hu, hcu, _⟩ := (captureAndMark_tileAt h s2 c.idx).2 t (by rw [g1]; exact ht)
    exact ⟨u, hu, hcu⟩
  · intro j hj
    rw [e1, (captureAndMark_tileAt h s2 c.idx).1 j hj, g1]
  · rw [e1, (captureAndMark_fields h s2 c.idx).2.1]
    exact g6

/-- The first capture of the pending loop of a pass is chosen among the tiles the pass
began with. -/
theorem schedulerPass_head {cfg : HorzaConfig} {h : Host} {s : COverview}
    {r : PreRenderResult} (hr : schedulerPass cfg h s = some r) (hne : r.pending ≠ []) :
    ∃ c rest, r.pending = c :: rest ∧ c.before.images = s.images ∧
      c.before.currentIdx = s.currentIdx ∧ c.idx = pickPending h c.before ∧ c.idx ≠ -1 := by
  obtain ⟨q, hq, hloop, hno⟩ := schedulerPass_split hr
  by_cases hp : s.pendingCapture = true
  · have hl := hloop hp
    unfold pendingLoop at hl
    dsimp only at hl
    by_cases hgo : (pendingIter cfg h (h.clock s.ticks)
        ⟨{ s with ticks := s.ticks + 1 }, 0, false, []⟩).2 = true
    · rw [if_pos hgo] at hl
      have hcap : (canDoOptionalCapture cfg h (h.clock s.ticks) 0
            { s with ticks := s.ticks + 1 }).1 = true ∧
          pickPending h (canDoOptionalCapture cfg h (h.clock s.ticks) 0
            { s with ticks := s.ticks + 1 }).2.2 ≠ -1 := by
        rcases pendingIter_cases cfg h (h.clock s.ticks)
          ⟨{ s with ticks := s.ticks + 1 }, 0, false, []⟩ with hc | ⟨hc, hk⟩ | ⟨hc, hk⟩
        · rw [pendingIter_budget hc] at hgo; exact absurd hgo (by simp)
        · rw [pendingIter_none hc hk] at hgo; exact absurd hgo (by simp)
        · exact ⟨hc, hk⟩
      obtain ⟨s2, c, _, _, _, _, e4, e5, e6, e7, _, _, g1, g2, _⟩ :=
        pendingIter_capture_facts (p := ⟨{ s with ticks := s.ticks + 1 }, 0, false, []⟩)
          hcap.1 hcap.2
      obtain ⟨new, n1, _⟩ := pendingLoop_spec cfg h _ _ _ q hl
      refine ⟨c, new, ?_, ?_, ?_, ?_, e7⟩
      · rw [hq, schedulerTail_pending, n1, e4]
        rfl
      · rw [e5]; exact g1
      · rw [e5]; exact g2
      · rw [e5]; exact e6
    · rw [if_neg hgo] at hl
      simp only [Option.some.injEq] at hl
      exfalso
      apply hne
      rw [hq, schedulerTail_pending, ← hl,
        (pendingIter_stop_facts (by simpa using hgo : (pendingIter cfg h (h.clock s.ticks)
          ⟨{ s with ticks := s.ticks + 1 }, 0, false, []⟩).2 = false)).1]
  · exfalso
    apply hne
    rw [hq, schedulerTail_pending, hno (by simpa using hp)]

/-- A pass that starts with `damageDirty` set and the current tile uncaptured: when the
pending loop captures nothing, the forced capture takes the current tile; when the current
tile is on screen, the pass captures it either way; and when the pending loop captures
something, the forced capture does not run and `damageDirty` stays set. -/
theorem schedulerPass_dirty_current {cfg : HorzaConfig} {h : Host} {s : COverview}
    {r : PreRenderResult} {t : SWorkspaceImage} (hv : ValidIdx s) (hsz : s.size ≤ 2147483647)
    (hd : s.damageDirty = true) (ht : tileAt s.images s.currentIdx = some t)
    (hc : t.captured = false) (hr : schedulerPass cfg h s = some r) :
    (r.pending = [] →
        r.forced = true ∧ ∃ u, tileAt r.state.images s.currentIdx = some u ∧ u.captured = true) ∧
      (isTileOnScreen h t.displayBox = true →
        ∃ u, tileAt r.state.images s.currentIdx = some u ∧ u.captured = true) ∧
      (r.pending ≠ [] → r.forced = false ∧ r.state.damageDirty = true) := by
  obtain ⟨p, hp, _, p3, p4, _, p6, _, p8, _⟩ := schedulerPass_some cfg h s
  have hrp : r = schedulerTail cfg h (h.clock s.ticks) p := by
    rw [hp] at hr
    simp only [Option.some.injEq] at hr
    exact hr.symm
  have hempty : r.pending = [] →
      r.forced = true ∧ ∃ u, tileAt r.state.images s.currentIdx = some u ∧ u.captured = true := by
    intro he
    rw [hrp, schedulerTail_pending] at he
    obtain ⟨a1, a2, _⟩ := p3 he
    rw [hrp, schedulerTail_forced a1 (by rw [p8]; exact hd)]
    refine ⟨rfl, ?_⟩
    show ∃ u, tileAt (captureAndMark h { p.s with damageDirty := false } p.s.currentIdx).images
      s.currentIdx = some u ∧ u.captured = true
    rw [p6]
    obtain ⟨u, hu, hcu, _⟩ :=
      (captureAndMark_tileAt h { p.s with damageDirty := false } s.currentIdx).2 t
        (by show tileAt p.s.images s.currentIdx = some t; rw [a2]; exact ht)
    exact ⟨u, hu, hcu⟩
  refine ⟨hempty, ?_, ?_⟩
  · intro hon
    by_cases he : r.pending = []
    · exact (hempty he).2
    · obtain ⟨c, rest, b1, b2, b3, b4, b5⟩ := schedulerPass_head hr he
      have hvb : ValidIdx c.before := by
        unfold ValidIdx COverview.size
        rw [b2, b3]
        exact hv
      have hszb : c.before.size ≤ 2147483647 := by
        unfold COverview.size
        rw [b2]
        exact hsz
      obtain ⟨_, _, _, hmin⟩ :=
        (pickPending_spec h c.before hvb hszb).2 (by rw [← b4]; exact b5)
      have hm := (hmin s.currentIdx t (by rw [b2]; exact ht) ⟨hc, hon⟩).1
      rw [← b4, b3, sub_self, abs_zero] at hm
      have hidx : c.idx = s.currentIdx := by
        have := abs_nonneg (c.idx - s.currentIdx)
        have h0 : |c.idx - s.currentIdx| = 0 := le_antisymm hm this
        have := abs_eq_zero.mp h0
        omega
      have := schedulerPass_marks hr c (by rw [b1]; exact List.mem_cons_self _ _)
      rw [hidx] at this
      exact this
  · intro hne
    rw [hrp, schedulerTail_pending] at hne
    rw [hrp, schedulerTail_captured (p4 hne).1]
    refine ⟨rfl, ?_⟩
    show p.s.damageDirty = true
    rw [p8]; exact hd

/-- Rounding a positive value in the normal range moves it by at most half a unit in the
last place, which is at most the value times `2^-prec`. -/
theorem roundFloat_near (prec : Nat) (emin : Int) {x : ℚ} (hx : 0 < x)
    (hn : emin ≤ floorLog2 x) :
    |roundFloat prec emin x - x| ≤ x * pow2 (-(prec : Int)) := by
  have hu := ulpAt_pos prec emin x
  have hmax : max (floorLog2 x) emin = floorLog2 x := max_eq_left hn
  have hhalf : ulpAt prec emin x * (1 / 2) = pow2 (floorLog2 x) * pow2 (-(prec : Int)) := by
    unfold ulpAt
    rw [hmax, ← pow2_add]
    have e : floorLog2 x - ((prec : Int) - 1) = floorLog2 x + -(prec : Int) + 1 := by ring
    rw [e, pow2_add (floorLog2 x + -(prec : Int)) 1]
    have h1 : pow2 1 = 2 := by decide
    rw [h1]
    ring
  rw [roundFloat_of_pos prec emin hx]
  have hnear := roundHalfEven_near (x / ulpAt prec emin x)
  have e2 : (roundHalfEven (x / ulpAt prec emin x) : ℚ) * ulpAt prec emin x - x =
      ((roundHalfEven (x / ulpAt prec emin x) : ℚ) - x / ulpAt prec emin x) *
        ulpAt prec emin x := by
    field_simp
  rw [e2, abs_mul, abs_of_pos hu]
  calc |(roundHalfEven (x / ulpAt prec emin x) : ℚ) - x / ulpAt prec emin x| *
        ulpAt prec emin x
      ≤ 1 / 2 * ulpAt prec emin x := mul_le_mul_of_nonneg_right hnear (le_of_lt hu)
    _ = pow2 (floorLog2 x) * pow2 (-(prec : Int)) := by rw [← hhalf]; ring
    _ ≤ x * pow2 (-(prec : Int)) :=
        mul_le_mul_of_nonneg_right (floorLog2_spec hx).1 (le_of_lt (pow2_pos _))

/-- A `float` conversion of a value of at least `2^-126` has relative error at most
`2^-24`. -/
theorem f32_near {x : ℚ} (hx : pow2 (-126) ≤ x) :
    x * (1 - 1 / 2 ^ 24) ≤ f32 x ∧ f32 x ≤ x * (1 + 1 / 2 ^ 24) := by
  have hpos : 0 < x := lt_of_lt_of_le (pow2_pos _) hx
  have hfl : (-126 : Int) ≤ floorLog2 x := by
    have h1 : floorLog2 (pow2 (-126)) = -126 :=
      floorLog2_unique (le_refl _) (pow2_lt_pow2_iff.2 (by decide))
    have := floorLog2_mono (pow2_pos (-126)) hx
    rw [h1] at this
    exact this
  have h := roundFloat_near 24 (-126) hpos hfl
  have hp : pow2 (-((24 : Nat) : Int)) = 1 / 2 ^ 24 := by decide!
  rw [hp, abs_le] at h
  unfold f32
  constructor <;> nlinarith [h.1, h.2]

theorem f32_nonpos {x : ℚ} (hx : x ≤ 0) : f32 x ≤ 0 := by
  have h := roundFloat_nonneg 24 (-126) (neg_nonneg.2 hx)
  rw [roundFloat_neg] at h
  unfold f32
  linarith

/-- The `float` comparison `f32 a ≤ f32 t` of an integer count `a` with a positive bound `t`
gives the exact comparison up to a relative `2^-22`. -/
theorem f32_le_exact {a t : ℚ} (ha : a ≤ 0 ∨ 1 ≤ a) (ht : 0 < t) (h : f32 a ≤ f32 t) :
    a ≤ t * (1 + 1 / 2 ^ 22) := by
  rcases ha with ha | ha
  · nlinarith
  · have h1 : pow2 (-126) ≤ a := le_trans (by decide!) ha
    have ha1 := (f32_near h1).1
    by_cases htn : pow2 (-126) ≤ t
    · have ht1 := (f32_near htn).2
      have hk : a * (1 - 1 / 2 ^ 24) ≤ t * (1 + 1 / 2 ^ 22) * (1 - 1 / 2 ^ 24) := by
        nlinarith
      exact le_of_mul_le_mul_right hk (by norm_num)
    · exfalso
      have hm := f32_mono (le_of_lt (not_le.1 htn))
      have he : f32 (pow2 (-126)) = pow2 (-126) := by decide!
      have hs : pow2 (-126) < 1 / 2 := by decide!
      rw [he] at hm
      nlinarith

/-- The `float` comparison `f32 i ≤ f32 a` of an integer count `a` with a bound `i` of at
least 1 gives the exact comparison up to a relative `2^-22`. -/
theorem f32_ge_exact {a i : ℚ} (ha : a ≤ 0 ∨ 1 ≤ a) (hi : 1 ≤ i) (h : f32 i ≤ f32 a) :
    i * (1 - 1 / 2 ^ 22) ≤ a := by
  have h1 : pow2 (-126) ≤ i := le_trans (by decide!) hi
  have hi1 := (f32_near h1).1
  rcases ha with ha | ha
  · exfalso
    have := f32_nonpos ha
    nlinarith
  · have h2 : pow2 (-126) ≤ a := le_trans (by decide!) ha
    have ha1 := (f32_near h2).2
    have hk : i * (1 - 1 / 2 ^ 22) * (1 + 1 / 2 ^ 24) ≤ a * (1 + 1 / 2 ^ 24) := by
      nlinarith
    exact le_of_mul_le_mul_right hk (by norm_num)

/-- An integer, as a rational, is at most 0 or at least 1. -/
theorem intCast_le_zero_or_one_le (n : Int) : ((n : ℚ)) ≤ 0 ∨ 1 ≤ ((n : ℚ)) := by
  rcases le_or_lt n 0 with h | h
  · exact Or.inl (by exact_mod_cast h)
  · exact Or.inr (by exact_mod_cast h)

/-- The `float` count of milliseconds of an elapsed time is at least the exact count less
a relative `2^-22`: an elapsed time whose `float` count is below a positive budget is below
the budget times `1 + 2^-22`. -/
theorem elapsedMsFloat_lt {e : Int} {b : ℚ} (hb : 0 < b) (h : elapsedMsFloat e < b) :
    ((e : ℚ)) / ticksPerMs < b * (1 + 1 / 2 ^ 22) := by
  unfold ticksPerMs
  unfold elapsedMsFloat ticksPerMs at h
  rcases intCast_le_zero_or_one_le e with he | he
  · have : ((e : ℚ)) / 1000000 ≤ 0 := div_nonpos_of_nonpos_of_nonneg he (by norm_num)
    nlinarith
  · have h1 : pow2 (-126) ≤ (e : ℚ) := le_trans (by decide!) he
    have a1 := (f32_near h1).1
    have h2 : pow2 (-126) ≤ f32 (e : ℚ) / 1000000 := by
      have hs : pow2 (-126) ≤ (1 / 2 : ℚ) / 1000000 := by decide!
      refine le_trans hs ?_
      apply div_le_div_of_nonneg_right _ (by norm_num)
      nlinarith
    have a2 := (f32_near h2).1
    have h3 : f32 (e : ℚ) / 1000000 * (1 - 1 / 2 ^ 24) < b := lt_of_le_of_lt a2 h
    have h4 : (e : ℚ) * (1 - 1 / 2 ^ 24) / 1000000 * (1 - 1 / 2 ^ 24) < b := by
      refine lt_of_le_of_lt ?_ h3
      apply mul_le_mul_of_nonneg_right _ (by norm_num)
      exact div_le_div_of_nonneg_right a1 (by norm_num)
    rw [div_lt_iff₀ (by norm_num)]
    have h5 : (e : ℚ) * ((1 - 1 / 2 ^ 24) * (1 - 1 / 2 ^ 24)) < b * 1000000 := by
      have := (div_lt_iff₀ (by norm_num : (0 : ℚ) < 1000000)).1
        (by
          have e3 : (e : ℚ) * (1 - 1 / 2 ^ 24) / 1000000 * (1 - 1 / 2 ^ 24) =
              (e : ℚ) * ((1 - 1 / 2 ^ 24) * (1 - 1 / 2 ^ 24)) / 1000000 := by ring
          rw [e3] at h4
          exact h4)
      exact this
    have h6 : b * 1000000 ≤
        b * (1 + 1 / 2 ^ 22) * 1000000 * ((1 - 1 / 2 ^ 24) * (1 - 1 / 2 ^ 24)) := by
      have : (1 : ℚ) ≤ (1 + 1 / 2 ^ 22) * ((1 - 1 / 2 ^ 24) * (1 - 1 / 2 ^ 24)) := by norm_num
      nlinarith
    have h7 : (e : ℚ) * ((1 - 1 / 2 ^ 24) * (1 - 1 / 2 ^ 24)) <
        b * (1 + 1 / 2 ^ 22) * 1000000 * ((1 - 1 / 2 ^ 24) * (1 - 1 / 2 ^ 24)) :=
      lt_of_lt_of_le h5 h6
    exact lt_of_mul_lt_mul_right h7 (by norm_num)

/-- The staleness test of the live preview in exact terms: a tile whose `float` age is at
least the `float` interval of `1.0f / fps` seconds, for a rate of at most 60, has an age of
at least `1 / fps` seconds less a relative `2^-21`. -/
theorem livePreview_stale {fps age : ℚ} (h0 : 0 < fps) (h60 : fps ≤ 60)
    (ha : age ≤ 0 ∨ 1 ≤ age) (h : f32 (f32 (1 / fps) * ticksPerSec) ≤ f32 age) :
    1 / fps * ticksPerSec * (1 - 1 / 2 ^ 21) ≤ age := by
  unfold ticksPerSec at h ⊢
  have hinv : (1 : ℚ) / 60 ≤ 1 / fps := one_div_le_one_div_of_le h0 h60
  have h1 : pow2 (-126) ≤ 1 / fps := le_trans (by decide!) hinv
  have a1 := (f32_near h1).1
  have hi : (1 : ℚ) ≤ f32 (1 / fps) * 1000000000 := by nlinarith
  have a2 := f32_ge_exact ha hi h
  have hpos : (0 : ℚ) < 1 / fps := by positivity
  nlinarith

/-- Counterexample to C1 as stated: with the default configuration (TTL 1500 ms) an entry
cached 1500000001 ns before the prune stays in the cache although its age exceeds the TTL.
The comparison of line 84 is made in `float` nanoseconds, where the age rounds to 1.5e9,
which is not above the TTL. -/
theorem C1_counterexample :
    pruneWorkspaceTileCache {} 1500000001 [(⟨0, 1⟩, ⟨some ⟨7, ⟨4, 3⟩⟩, 0, 0⟩)] =
        [(⟨0, 1⟩, ⟨some ⟨7, ⟨4, 3⟩⟩, 0, 0⟩)] ∧
      ¬ ((((1500000001 - 0 : Int) : ℚ)) ≤ ({} : HorzaConfig).cacheTtlMs * ticksPerMs) := by
  decide!

/-- C1 (amended). With caching enabled and `cacheMaxEntries >= 0`, after
`pruneWorkspaceTileCache()` read the clock as `now`, every remaining entry has a non-null
image of positive width and height and passes the TTL test as line 84 evaluates it, in
`float` nanoseconds: `float(now - cachedAt) <= float(TTL)`, so that its exact age is at most
the TTL times `1 + 2^-22`; the number of entries is at most `cacheMaxEntries`.  An entry
whose exact age is at most the TTL is never expired. -/
theorem C1_prune_invariant (cfg : HorzaConfig) (now : Int) (m : TileCache)
    (hen : tileCacheEnabled cfg = true) (hmax : 0 ≤ cfg.cacheMaxEntries) :
    (∀ p ∈ pruneWorkspaceTileCache cfg now m,
        (∃ t, p.2.tex = some t ∧ 0 < t.m_size.x ∧ 0 < t.m_size.y) ∧
          f32 (((now - p.2.cachedAt : Int) : ℚ)) ≤ f32 (cfg.cacheTtlMs * ticksPerMs) ∧
          (((now - p.2.cachedAt : Int) : ℚ)) ≤ cfg.cacheTtlMs * ticksPerMs * (1 + 1 / 2 ^ 22)) ∧
      ((pruneWorkspaceTileCache cfg now m).length : Int) ≤ cfg.cacheMaxEntries ∧
      (∀ e : STileCacheEntry, (((now - e.cachedAt : Int) : ℚ)) ≤ cfg.cacheTtlMs * ticksPerMs →
        expired cfg now e = false) := by
  have hprune : pruneWorkspaceTileCache cfg now m =
      trimToMax (max 0 cfg.cacheMaxEntries) (pruneDead cfg now m).length (pruneDead cfg now m) := by
    simp [pruneWorkspaceTileCache, hen]
  rw [hprune]
  refine ⟨?_, ?_, ?_⟩
  · intro p hp
    obtain ⟨h1, h2⟩ := pruneDead_spec cfg now m p ((trimToMax_sublist _ _ _).subset hp)
    have httl : 0 < cfg.cacheTtlMs * ticksPerMs := by
      have : 0 < cfg.cacheTtlMs := by
        simp only [tileCacheEnabled, Bool.and_eq_true, decide_eq_true_eq] at hen
        exact hen.2
      unfold ticksPerMs
      linarith
    exact ⟨h1, h2, f32_le_exact (intCast_le_zero_or_one_le _) httl h2⟩
  · rw [max_eq_right hmax]
    exact trimToMax_length_le cfg.cacheMaxEntries hmax _ (pruneDead cfg now m) (le_refl _)
  · intro e he
    simpa [expired] using f32_mono he

/-- Witness of C1: a three-entry cache (one dead, one expired, one live) pruned at tick
2000000000 with the default configuration and a bound of one entry. -/
theorem C1_prune_invariant_witness :
    (∀ p ∈ pruneWorkspaceTileCache { cacheMaxEntries := 1 } 2000000000
        [(⟨0, 1⟩, ⟨none, 5, 1900000000⟩), (⟨0, 2⟩, ⟨some ⟨7, ⟨4, 3⟩⟩, 5, 100⟩),
         (⟨0, 3⟩, ⟨some ⟨8, ⟨4, 3⟩⟩, 5, 1900000000⟩)],
        (∃ t, p.2.tex = some t ∧ 0 < t.m_size.x ∧ 0 < t.m_size.y) ∧
          f32 (((2000000000 - p.2.cachedAt : Int) : ℚ)) ≤
            f32 (({ cacheMaxEntries := 1 } : HorzaConfig).cacheTtlMs * ticksPerMs) ∧
          (((2000000000 - p.2.cachedAt : Int) : ℚ)) ≤
            ({ cacheMaxEntries := 1 } : HorzaConfig).cacheTtlMs * ticksPerMs *
              (1 + 1 / 2 ^ 22)) ∧
      ((pruneWorkspaceTileCache { cacheMaxEntries := 1 } 2000000000
        [(⟨0, 1⟩, ⟨none, 5, 1900000000⟩), (⟨0, 2⟩, ⟨some ⟨7, ⟨4, 3⟩⟩, 5, 100⟩),
         (⟨0, 3⟩, ⟨some ⟨8, ⟨4, 3⟩⟩, 5, 1900000000⟩)]).length : Int) ≤
        ({ cacheMaxEntries := 1 } : HorzaConfig).cacheMaxEntries ∧
      (∀ e : STileCacheEntry, (((2000000000 - e.cachedAt : Int) : ℚ)) ≤
          ({ cacheMaxEntries := 1 } : HorzaConfig).cacheTtlMs * ticksPerMs →
        expired { cacheMaxEntries := 1 } 2000000000 e = false) :=
  C1_prune_invariant { cacheMaxEntries := 1 } 2000000000 _ (by with_unfolding_all decide)
    (by decide)

/-- C2. In the count-trimming phase of `pruneWorkspaceTileCache()` (entered with the cache
`m`), the evicted entries together with the survivors are exactly the entries of `m`; every
evicted entry has `cachedAt` at most that of every survivor; entries are evicted in
non-decreasing order of `cachedAt`; each round picks an entry of globally smallest `cachedAt`;
and rewriting `capturedAt` arbitrarily does not change which entries survive. -/
theorem C2_trim_evicts_oldest_first (cfg : HorzaConfig) (m : TileCache) :
    List.Perm m (trimEvicted (max 0 cfg.cacheMaxEntries) m.length m ++
        trimToMax (max 0 cfg.cacheMaxEntries) m.length m) ∧
      (∀ e ∈ trimEvicted (max 0 cfg.cacheMaxEntries) m.length m,
        ∀ s ∈ trimToMax (max 0 cfg.cacheMaxEntries) m.length m, e.2.cachedAt ≤ s.2.cachedAt) ∧
      (trimEvicted (max 0 cfg.cacheMaxEntries) m.length m).Pairwise
        (fun a b => a.2.cachedAt ≤ b.2.cachedAt) ∧
      (∀ i, findOldest m = some i → ∃ p, m[i]? = some p ∧ ∀ q ∈ m, p.2.cachedAt ≤ q.2.cachedAt) ∧
      (∀ g : STileCacheKey × STileCacheEntry → Int,
        trimToMax (max 0 cfg.cacheMaxEntries) m.length (m.map (setCapturedAt g)) =
          (trimToMax (max 0 cfg.cacheMaxEntries) m.length m).map (setCapturedAt g)) :=
  ⟨trimEvicted_perm _ _ m, trimEvicted_le_survivor _ _ m, trimEvicted_sorted _ _ m,
    fun _ h => findOldest_eq_some h, fun g => trimToMax_setCapturedAt _ g _ m⟩

/-- C5. `storeWorkspaceTileInCache` leaves the cache untouched when caching is disabled
(`persistentCache` off or `cacheTtlMs <= 0`) or the image is null or has width or height
`<= 0`. -/
theorem C5_store_rejects_bad_input (cfg : HorzaConfig) (t1 t2 t3 : Int) (slot : Nat)
    (m : TileCache) (mon ws : Int) (tex : Option CTexture) (cap : Int)
    (h : cfg.persistentCache = false ∨ cfg.cacheTtlMs ≤ 0 ∨ tex = none ∨
      ∃ t, tex = some t ∧ (t.m_size.x ≤ 0 ∨ t.m_size.y ≤ 0)) :
    storeWorkspaceTileInCache cfg t1 t2 t3 slot m mon ws tex cap = m := by
  rcases h with h | h | h | ⟨t, rfl, h⟩
  · simp [storeWorkspaceTileInCache, tileCacheEnabled, h]
  · simp [storeWorkspaceTileInCache, tileCacheEnabled, not_lt.2 h]
  · subst h
    by_cases hen : tileCacheEnabled cfg = true <;> simp [storeWorkspaceTileInCache, hen, deadTex]
  · have hd : deadTex (some t) = true := by
      rcases h with h | h <;> simp [deadTex, h]
    by_cases hen : tileCacheEnabled cfg = true <;> simp [storeWorkspaceTileInCache, hen, hd]

/-- Witness of C5: a store of a zero-width image, with an existing entry for the same key. -/
theorem C5_store_rejects_bad_input_witness :
    storeWorkspaceTileInCache {} 10 11 12 0 [(⟨0, 1⟩, ⟨some ⟨7, ⟨4, 3⟩⟩, 5, 6⟩)] 0 1
      (some ⟨9, ⟨0, 3⟩⟩) 8 = [(⟨0, 1⟩, ⟨some ⟨7, ⟨4, 3⟩⟩, 5, 6⟩)] :=
  C5_store_rejects_bad_input {} 10 11 12 0 _ 0 1 (some ⟨9, ⟨0, 3⟩⟩) 8
    (Or.inr (Or.inr (Or.inr ⟨⟨9, ⟨0, 3⟩⟩, rfl, Or.inl (le_refl _)⟩)))


/-- Counterexample to C3 as stated: with the TTL switched off (`cacheTtlMs = 0`), persistence
on and `cacheMaxEntries = 2`, the three stores for workspaces 1, 2, 3 leave the cache empty,
so the entries of B and C are not in it. -/
theorem C3_counterexample :
    storeWorkspaceTileInCache { cacheTtlMs := 0, cacheMaxEntries := 2 } 70 80 90 0
      (storeWorkspaceTileInCache { cacheTtlMs := 0, cacheMaxEntries := 2 } 40 50 60 0
        (storeWorkspaceTileInCache { cacheTtlMs := 0, cacheMaxEntries := 2 } 10 20 30 0 []
          0 1 (some ⟨1, ⟨1920, 1080⟩⟩) 20)
        0 2 (some ⟨2, ⟨1920, 1080⟩⟩) 50)
      0 3 (some ⟨3, ⟨1920, 1080⟩⟩) 80 = [] := by
  with_unfolding_all decide

/-- C3 (amended). With caching enabled (which needs `cacheTtlMs > 0`), `cacheMaxEntries = 2`,
a monotone clock on which the store of A reads a strictly earlier time than the store of B,
and a TTL that has not elapsed between A's store and the end of C's store, storing valid
images for three distinct workspaces A, B, C into the empty cache leaves exactly the entries
of B and C, wherever the hash table places new nodes. -/
theorem C3_three_stores_evict_oldest (cfg : HorzaConfig)
    (a1 a2 a3 b1 b2 b3 c1 c2 c3 : Int) (sa sb sc : Nat) (mon wA wB wC : Int)
    (iA iB iC : CTexture) (tA tB tC : Int)
    (hen : tileCacheEnabled cfg = true) (hmax : cfg.cacheMaxEntries = 2)
    (hA : 0 < iA.m_size.x ∧ 0 < iA.m_size.y) (hB : 0 < iB.m_size.x ∧ 0 < iB.m_size.y)
    (hC : 0 < iC.m_size.x ∧ 0 < iC.m_size.y)
    (hAB : wA ≠ wB) (hAC : wA ≠ wC) (hBC : wB ≠ wC)
    (hclock : a1 ≤ a2 ∧ a2 ≤ a3 ∧ a3 ≤ b1 ∧ b1 ≤ b2 ∧ b2 ≤ b3 ∧ b3 ≤ c1 ∧ c1 ≤ c2 ∧ c2 ≤ c3)
    (hstrict : a2 < b2)
    (httl : (((c3 - a2 : Int) : ℚ)) ≤ cfg.cacheTtlMs * ticksPerMs) :
    List.Perm
      (storeWorkspaceTileInCache cfg c1 c2 c3 sc
        (storeWorkspaceTileInCache cfg b1 b2 b3 sb
          (storeWorkspaceTileInCache cfg a1 a2 a3 sa [] mon wA (some iA) tA)
          mon wB (some iB) tB)
        mon wC (some iC) tC)
      [(⟨mon, wC⟩, ⟨some iC, if tC = 0 then c2 else tC, c2⟩),
       (⟨mon, wB⟩, ⟨some iB, if tB = 0 then b2 else tB, b2⟩)] := by
  obtain ⟨h1, h2, h3, h4, h5, h6, h7, h8⟩ := hclock
  have hM : max 0 cfg.cacheMaxEntries = 2 := by rw [hmax]; rfl
  -- after the store of A
  have hSA : List.Perm (storeWorkspaceTileInCache cfg a1 a2 a3 sa [] mon wA (some iA) tA)
      [(⟨mon, wA⟩, ⟨some iA, if tA = 0 then a2 else tA, a2⟩)] :=
    store_perm_insert hen sa tA hA (by simp) (by rw [hM]; simp) (by simp)
      (age_le (by omega) httl)
  -- after the store of B
  have hSB : List.Perm
      (storeWorkspaceTileInCache cfg b1 b2 b3 sb
        (storeWorkspaceTileInCache cfg a1 a2 a3 sa [] mon wA (some iA) tA) mon wB (some iB) tB)
      [(⟨mon, wB⟩, ⟨some iB, if tB = 0 then b2 else tB, b2⟩),
       (⟨mon, wA⟩, ⟨some iA, if tA = 0 then a2 else tA, a2⟩)] := by
    refine (store_perm_insert hen sb tB hB ?_ ?_ ?_ (age_le (by omega) httl)).trans
      (hSA.cons _)
    · intro p hp
      have := hSA.subset hp
      simp only [List.mem_singleton] at this
      subst this
      exact ⟨fresh_mk hA (age_le (by omega) httl), fresh_mk hA (age_le (by omega) httl)⟩
    · rw [hSA.length_eq, hM]; simp
    · intro p hp
      have := hSA.subset hp
      simp only [List.mem_singleton] at this
      subst this
      simpa using hAB
  -- the store of C evicts A
  refine store_perm_evict hen sc tC hC ?_ ?_ ?_ (age_le (by omega) httl)
    (hSB.trans (List.Perm.swap _ _ _)) ?_ ?_
  · intro p hp
    have := hSB.subset hp
    simp only [List.mem_cons, List.mem_singleton, List.not_mem_nil, or_false] at this
    rcases this with h | h <;> subst h
    · exact ⟨fresh_mk hB (age_le (by omega) httl), fresh_mk hB (age_le (by omega) httl)⟩
    · exact ⟨fresh_mk hA (age_le (by omega) httl), fresh_mk hA (age_le (by omega) httl)⟩
  · rw [hSB.length_eq, hM]; simp
  · intro p hp
    have := hSB.subset hp
    simp only [List.mem_cons, List.mem_singleton, List.not_mem_nil, or_false] at this
    rcases this with h | h <;> subst h
    · simpa using hBC
    · simpa using hAC
  · intro r hr
    simp only [List.mem_singleton] at hr
    subst hr
    exact hstrict
  · show a2 < c2
    omega

/-- Witness of C3 (amended): the default configuration with two entries, stores at ticks
20, 50, 80 for workspaces 1, 2, 3. -/
theorem C3_three_stores_evict_oldest_witness :
    List.Perm
      (storeWorkspaceTileInCache { cacheMaxEntries := 2 } 70 80 90 0
        (storeWorkspaceTileInCache { cacheMaxEntries := 2 } 40 50 60 0
          (storeWorkspaceTileInCache { cacheMaxEntries := 2 } 10 20 30 0 [] 0 1
            (some ⟨1, ⟨1920, 1080⟩⟩) 20)
          0 2 (some ⟨2, ⟨1920, 1080⟩⟩) 50)
        0 3 (some ⟨3, ⟨1920, 1080⟩⟩) 80)
      [(⟨0, 3⟩, ⟨some ⟨3, ⟨1920, 1080⟩⟩, if (80 : Int) = 0 then 80 else 80, 80⟩),
       (⟨0, 2⟩, ⟨some ⟨2, ⟨1920, 1080⟩⟩, if (50 : Int) = 0 then 50 else 50, 50⟩)] :=
  C3_three_stores_evict_oldest { cacheMaxEntries := 2 } 10 20 30 40 50 60 70 80 90 0 0 0 0 1 2 3
    ⟨1, ⟨1920, 1080⟩⟩ ⟨2, ⟨1920, 1080⟩⟩ ⟨3, ⟨1920, 1080⟩⟩ 20 50 80
    (by with_unfolding_all decide) rfl (by norm_num) (by norm_num) (by norm_num)
    (by decide) (by decide) (by decide) (by decide) (by decide) (by norm_num [ticksPerMs])


/-- C4. With caching enabled, `cacheMaxEntries >= 1` and a valid image, a store followed
directly by a restore of the same key, with both later prunes reading the clock within the
TTL of the store and the store reading it strictly later than the `cachedAt` of every entry
under another key, succeeds and returns the stored image and
`capturedAt = t` (the store's clock reading when `t` is the zero time point). -/
theorem C4_store_restore_roundtrip (cfg : HorzaConfig) (t1 t2 t3 t4 t5 : Int) (slot : Nat)
    (m : TileCache) (mon ws : Int) (img : CTexture) (t : Int) (outTex : Option CTexture)
    (outCap : Int)
    (hen : tileCacheEnabled cfg = true) (hmax : 1 ≤ cfg.cacheMaxEntries)
    (himg : 0 < img.m_size.x ∧ 0 < img.m_size.y) (hnd : KeysNodup m)
    (hnewest : ∀ p ∈ m, p.1 ≠ ⟨mon, ws⟩ → p.2.cachedAt < t2)
    (httl3 : (((t3 - t2 : Int) : ℚ)) ≤ cfg.cacheTtlMs * ticksPerMs)
    (httl4 : (((t4 - t2 : Int) : ℚ)) ≤ cfg.cacheTtlMs * ticksPerMs) :
    (restoreWorkspaceTileFromCache cfg t4 t5
        (storeWorkspaceTileInCache cfg t1 t2 t3 slot m mon ws (some img) t)
        mon ws outTex outCap).ok = true ∧
      (restoreWorkspaceTileFromCache cfg t4 t5
        (storeWorkspaceTileInCache cfg t1 t2 t3 slot m mon ws (some img) t)
        mon ws outTex outCap).outTex = some img ∧
      (restoreWorkspaceTileFromCache cfg t4 t5
        (storeWorkspaceTileInCache cfg t1 t2 t3 slot m mon ws (some img) t)
        mon ws outTex outCap).outCapturedAt = (if t = 0 then t2 else t) := by
  obtain ⟨hmem, hnd3⟩ := store_mem_new hen hmax t1 slot t himg hnd hnewest httl3
  have hlive : deadTex (some img) = false := by simp [deadTex, himg.1, himg.2]
  have hlen3 : ((storeWorkspaceTileInCache cfg t1 t2 t3 slot m mon ws (some img) t).length : Int)
      ≤ max 0 cfg.cacheMaxEntries := by
    rw [store_enabled hen hlive]
    exact prune_length_le _ _ _
  have hmem4 : (⟨mon, ws⟩, ⟨some img, if t = 0 then t2 else t, t2⟩) ∈
      pruneWorkspaceTileCache cfg t4
        (storeWorkspaceTileInCache cfg t1 t2 t3 slot m mon ws (some img) t) := by
    rw [prune_eq_pruneDead hen hlen3]
    exact mem_pruneDead.2 ⟨hmem, fresh_mk himg httl4⟩
  obtain ⟨i, hfind⟩ := cacheFind_of_mem (keysNodup_sublist (prune_sublist cfg t4 _) hnd3) hmem4
  simp [restoreWorkspaceTileFromCache, hen, hfind, hlive]

/-- Witness of C4: a store into a one-entry cache (another workspace, cached at tick 5)
followed by the restore, default configuration. -/
theorem C4_store_restore_roundtrip_witness :
    (restoreWorkspaceTileFromCache {} 40 50
        (storeWorkspaceTileInCache {} 10 20 30 0 [(⟨0, 1⟩, ⟨some ⟨7, ⟨4, 3⟩⟩, 5, 5⟩)] 0 2
          (some ⟨9, ⟨4, 3⟩⟩) 0)
        0 2 none 0).ok = true ∧
      (restoreWorkspaceTileFromCache {} 40 50
        (storeWorkspaceTileInCache {} 10 20 30 0 [(⟨0, 1⟩, ⟨some ⟨7, ⟨4, 3⟩⟩, 5, 5⟩)] 0 2
          (some ⟨9, ⟨4, 3⟩⟩) 0)
        0 2 none 0).outTex = some ⟨9, ⟨4, 3⟩⟩ ∧
      (restoreWorkspaceTileFromCache {} 40 50
        (storeWorkspaceTileInCache {} 10 20 30 0 [(⟨0, 1⟩, ⟨some ⟨7, ⟨4, 3⟩⟩, 5, 5⟩)] 0 2
          (some ⟨9, ⟨4, 3⟩⟩) 0)
        0 2 none 0).outCapturedAt = (if (0 : Int) = 0 then 20 else 0) :=
  C4_store_restore_roundtrip {} 10 20 30 40 50 0 _ 0 2 ⟨9, ⟨4, 3⟩⟩ 0 none 0
    (by with_unfolding_all decide) (by decide) (by norm_num) (by simp [KeysNodup])
    (by simp) (by norm_num [ticksPerMs]) (by norm_num [ticksPerMs])

/-- C6. `restoreWorkspaceTileFromCache` returns false exactly when caching is disabled, no
entry for the key exists after pruning, or the entry found has a degenerate image; when it
returns false the output arguments are unchanged; and when caching is enabled and the image
stored under the key is degenerate, the call returns false and no entry for the key is in
the cache afterwards. -/
theorem C6_restore_none (cfg : HorzaConfig) (t1 t2 : Int) (m : TileCache) (mon ws : Int)
    (outTex : Option CTexture) (outCap : Int) :
    ((restoreWorkspaceTileFromCache cfg t1 t2 m mon ws outTex outCap).ok = false ↔
        (tileCacheEnabled cfg = false ∨
          cacheFind (pruneWorkspaceTileCache cfg t1 m) ⟨mon, ws⟩ = none ∨
          ∃ i e, cacheFind (pruneWorkspaceTileCache cfg t1 m) ⟨mon, ws⟩ = some (i, e) ∧
            deadTex e.tex = true)) ∧
      ((restoreWorkspaceTileFromCache cfg t1 t2 m mon ws outTex outCap).ok = false →
        (restoreWorkspaceTileFromCache cfg t1 t2 m mon ws outTex outCap).outTex = outTex ∧
        (restoreWorkspaceTileFromCache cfg t1 t2 m mon ws outTex outCap).outCapturedAt = outCap) ∧
      (tileCacheEnabled cfg = true → KeysNodup m →
        ∀ e, (⟨mon, ws⟩, e) ∈ m → deadTex e.tex = true →
          (restoreWorkspaceTileFromCache cfg t1 t2 m mon ws outTex outCap).ok = false ∧
          ∀ p ∈ (restoreWorkspaceTileFromCache cfg t1 t2 m mon ws outTex outCap).cache,
            p.1 ≠ ⟨mon, ws⟩) := by
  refine ⟨?_, ?_, ?_⟩
  · by_cases hen : tileCacheEnabled cfg = true
    · cases hf : cacheFind (pruneWorkspaceTileCache cfg t1 m) ⟨mon, ws⟩ with
      | none => simp [restoreWorkspaceTileFromCache, hen, hf]
      | some r =>
        obtain ⟨i, e⟩ := r
        by_cases hd : deadTex e.tex = true
        · simp only [restoreWorkspaceTileFromCache, hen, hf, hd]
          simp only [Bool.not_true, Bool.false_eq_true, if_false, if_true, true_iff]
          exact Or.inr (Or.inr ⟨i, e, rfl, hd⟩)
        · simp [restoreWorkspaceTileFromCache, hen, hf, hd]
    · simp [restoreWorkspaceTileFromCache, hen]
  · by_cases hen : tileCacheEnabled cfg = true
    · cases hf : cacheFind (pruneWorkspaceTileCache cfg t1 m) ⟨mon, ws⟩ with
      | none => simp [restoreWorkspaceTileFromCache, hen, hf]
      | some r =>
        obtain ⟨i, e⟩ := r
        by_cases hd : deadTex e.tex = true <;>
          simp [restoreWorkspaceTileFromCache, hen, hf, hd]
    · simp [restoreWorkspaceTileFromCache, hen]
  · intro hen hnd e he hdead
    have hnone : cacheFind (pruneWorkspaceTileCache cfg t1 m) ⟨mon, ws⟩ = none := by
      rw [cacheFind_eq_none_iff]
      intro p hp hk
      have hpm := (prune_sublist cfg t1 m).subset hp
      have := keysNodup_eq hnd hpm he hk
      subst this
      have := (prune_mem_fresh hen hp).1
      simp [hdead] at this
    simp only [restoreWorkspaceTileFromCache, hen, hnone]
    exact ⟨by simp, fun p hp => cacheFind_eq_none_iff.1 hnone p (by simpa using hp)⟩

/-- Witness of C6: restoring a key whose stored image has zero height. -/
theorem C6_restore_none_witness :
    (restoreWorkspaceTileFromCache {} 40 50
        [(⟨0, 1⟩, ⟨some ⟨7, ⟨4, 0⟩⟩, 5, 5⟩), (⟨0, 2⟩, ⟨some ⟨8, ⟨4, 3⟩⟩, 6, 6⟩)] 0 1 none 0).ok = false ∧
      ∀ p ∈ (restoreWorkspaceTileFromCache {} 40 50
        [(⟨0, 1⟩, ⟨some ⟨7, ⟨4, 0⟩⟩, 5, 5⟩), (⟨0, 2⟩, ⟨some ⟨8, ⟨4, 3⟩⟩, 6, 6⟩)] 0 1 none 0).cache,
        p.1 ≠ ⟨0, 1⟩ :=
  (C6_restore_none {} 40 50 _ 0 1 none 0).2.2 (by with_unfolding_all decide)
    (by simp [KeysNodup]) ⟨some ⟨7, ⟨4, 0⟩⟩, 5, 5⟩ (by simp) (by simp [deadTex])

/-- C7. For every session state with `0 <= currentIdx < len(images)` (so the tile list is
non-empty),
the index is still valid after `shiftCurrentIndexBy(step)` for every `step`, after every
axis event, after `onWorkspaceChange()`, and after a `syncWorkspaces()` that leaves a
non-empty tile list. -/
theorem C7_currentIdx_stays_valid (cfg : HorzaConfig) (h : Host) (s : COverview)
    (hv : 0 ≤ s.currentIdx ∧ s.currentIdx < (s.images.length : Int)) :
    (∀ step : Int,
        0 ≤ (shiftCurrentIndexBy cfg h s step).2.currentIdx ∧
          (shiftCurrentIndexBy cfg h s step).2.currentIdx <
            ((shiftCurrentIndexBy cfg h s step).2.images.length : Int)) ∧
      (∀ e : Option SAxisEvent,
        0 ≤ (onMouseAxis cfg h s e).currentIdx ∧
          (onMouseAxis cfg h s e).currentIdx < ((onMouseAxis cfg h s e).images.length : Int)) ∧
      (0 ≤ (onWorkspaceChange cfg h s).currentIdx ∧
        (onWorkspaceChange cfg h s).currentIdx <
          ((onWorkspaceChange cfg h s).images.length : Int)) ∧
      ((syncWorkspaces cfg h s).2.images ≠ [] →
        0 ≤ (syncWorkspaces cfg h s).2.currentIdx ∧
          (syncWorkspaces cfg h s).2.currentIdx <
            ((syncWorkspaces cfg h s).2.images.length : Int)) :=
  ⟨fun step => shift_validIdx cfg h s step hv, fun e => axis_validIdx cfg h s e hv,
    workspaceChange_validIdx cfg h s hv, fun hne' => sync_validIdx cfg h s hv hne'⟩

/-- Witness of C7: the sample session, with workspace 3 replaced by workspace 4 on the host. -/
theorem C7_currentIdx_stays_valid_witness :
    (∀ step : Int,
        0 ≤ (shiftCurrentIndexBy {} (sampleHost [1, 2, 4] 2 {}) sampleSession step).2.currentIdx ∧
          (shiftCurrentIndexBy {} (sampleHost [1, 2, 4] 2 {}) sampleSession step).2.currentIdx <
            ((shiftCurrentIndexBy {} (sampleHost [1, 2, 4] 2 {}) sampleSession step).2.images.length
              : Int)) ∧
      (∀ e : Option SAxisEvent,
        0 ≤ (onMouseAxis {} (sampleHost [1, 2, 4] 2 {}) sampleSession e).currentIdx ∧
          (onMouseAxis {} (sampleHost [1, 2, 4] 2 {}) sampleSession e).currentIdx <
            ((onMouseAxis {} (sampleHost [1, 2, 4] 2 {}) sampleSession e).images.length : Int)) ∧
      (0 ≤ (onWorkspaceChange {} (sampleHost [1, 2, 4] 2 {}) sampleSession).currentIdx ∧
        (onWorkspaceChange {} (sampleHost [1, 2, 4] 2 {}) sampleSession).currentIdx <
          ((onWorkspaceChange {} (sampleHost [1, 2, 4] 2 {}) sampleSession).images.length : Int)) ∧
      ((syncWorkspaces {} (sampleHost [1, 2, 4] 2 {}) sampleSession).2.images ≠ [] →
        0 ≤ (syncWorkspaces {} (sampleHost [1, 2, 4] 2 {}) sampleSession).2.currentIdx ∧
          (syncWorkspaces {} (sampleHost [1, 2, 4] 2 {}) sampleSession).2.currentIdx <
            ((syncWorkspaces {} (sampleHost [1, 2, 4] 2 {}) sampleSession).2.images.length : Int)) :=
  C7_currentIdx_stays_valid {} (sampleHost [1, 2, 4] 2 {}) sampleSession (by decide)

/-- Counterexample to C8 as stated: the sample session with accumulator 47 receives a
continuous scroll event of delta `1 - 2^-53`.  The exact sum is below 48, yet the session
steps (index 1 to 2) and the accumulator returns to 0: `scrollGestureAccum += e.delta` is
a `double` addition, and the sum rounds to 48.0. -/
theorem C8_counterexample :
    |(47 : ℚ) + (1 - 1 / 2 ^ 53)| < 48 ∧
      (onMouseAxis {} (sampleHost [1, 2, 3] 2 {}) { sampleSession with scrollGestureAccum := 47 }
        (some ⟨0, 1 - 1 / 2 ^ 53, 0⟩)).currentIdx = 2 ∧
      (onMouseAxis {} (sampleHost [1, 2, 3] 2 {}) { sampleSession with scrollGestureAccum := 47 }
        (some ⟨0, 1 - 1 / 2 ^ 53, 0⟩)).scrollGestureAccum = 0 := by
  refine ⟨?_, ?_, ?_⟩
  · rw [abs_of_pos (by norm_num)]; norm_num
  · decide!
  · decide!

/-- C8 (amended). Continuous scroll in `onMouseAxis` (session not closing, at least two
tiles, the event a scroll event on this monitor with `deltaDiscrete = 0`): the accumulator
is first reset to 0 when it and the delta have strictly opposite signs, then the delta is
added in `double` arithmetic, giving `a1` (the sum rounded to a double).  If `|a1| < 48` the accumulator becomes `a1` and the index is unchanged;
otherwise the accumulator becomes 0 and the index moves by exactly one step of the sign of
`a1`, clamped to the tile list.  On the sample session: deltas 20, 20, 20 step once, on the
third event, and end with accumulator 0; deltas 30, -10 do not step and end with
accumulator -10. -/
theorem C8_scroll_accumulator (cfg : HorzaConfig) (h : Host) (s : COverview) (mon : CMonitor)
    (e : SAxisEvent) (sc off : AnimVar) (hnc : s.closing = false) (hsize : 2 ≤ s.images.length)
    (hmon : h.monitor = some mon) (hcur : h.monitorFromCursor = some mon)
    (haxis : e.axis = 0 ∨ e.axis = 1) (hsc : s.m_scale = some sc) (hoff : s.m_offsetX = some off)
    (hdisc : e.deltaDiscrete = 0) :
    (∀ a1 : ℚ,
      a1 = f64 ((if (s.scrollGestureAccum > 0 ∧ e.delta < 0) ∨ (s.scrollGestureAccum < 0 ∧ e.delta > 0)
            then 0 else s.scrollGestureAccum) + e.delta) →
        (|a1| < 48 →
          (onMouseAxis cfg h s (some e)).scrollGestureAccum = a1 ∧
            (onMouseAxis cfg h s (some e)).currentIdx = s.currentIdx) ∧
        (48 ≤ |a1| →
          (onMouseAxis cfg h s (some e)).scrollGestureAccum = 0 ∧
            (onMouseAxis cfg h s (some e)).currentIdx =
              clampI (s.currentIdx + (if a1 < 0 then -1 else 1)) 0 (s.size - 1))) ∧
      ((onMouseAxis {} (sampleHost [1, 2, 3] 2 {})
          (onMouseAxis {} (sampleHost [1, 2, 3] 2 {}) sampleSession (some ⟨0, 20, 0⟩))
          (some ⟨0, 20, 0⟩)).currentIdx = 1 ∧
        (onMouseAxis {} (sampleHost [1, 2, 3] 2 {})
          (onMouseAxis {} (sampleHost [1, 2, 3] 2 {}) sampleSession (some ⟨0, 20, 0⟩))
          (some ⟨0, 20, 0⟩)).scrollGestureAccum = 40 ∧
        (onMouseAxis {} (sampleHost [1, 2, 3] 2 {})
          (onMouseAxis {} (sampleHost [1, 2, 3] 2 {})
            (onMouseAxis {} (sampleHost [1, 2, 3] 2 {}) sampleSession (some ⟨0, 20, 0⟩))
            (some ⟨0, 20, 0⟩))
          (some ⟨0, 20, 0⟩)).currentIdx = 2 ∧
        (onMouseAxis {} (sampleHost [1, 2, 3] 2 {})
          (onMouseAxis {} (sampleHost [1, 2, 3] 2 {})
            (onMouseAxis {} (sampleHost [1, 2, 3] 2 {}) sampleSession (some ⟨0, 20, 0⟩))
            (some ⟨0, 20, 0⟩))
          (some ⟨0, 20, 0⟩)).scrollGestureAccum = 0) ∧
      ((onMouseAxis {} (sampleHost [1, 2, 3] 2 {})
          (onMouseAxis {} (sampleHost [1, 2, 3] 2 {}) sampleSession (some ⟨0, 30, 0⟩))
          (some ⟨0, -10, 0⟩)).currentIdx = 1 ∧
        (onMouseAxis {} (sampleHost [1, 2, 3] 2 {})
          (onMouseAxis {} (sampleHost [1, 2, 3] 2 {}) sampleSession (some ⟨0, 30, 0⟩))
          (some ⟨0, -10, 0⟩)).scrollGestureAccum = -10) := by
  refine ⟨?_, ?_, ?_⟩
  · intro a1 ha1
    have hacc := axis_accum cfg h s mon e hnc hsize hmon hcur haxis
    have hidx := axis_currentIdx cfg h s mon e sc off hnc hsize hmon hcur haxis hsc hoff
    constructor
    · intro hlt
      have hst : axisSteps s.scrollGestureAccum e = (a1, none) := by
        unfold axisSteps
        simp only [hdisc, ne_eq, not_true_eq_false, if_false, ← ha1, hlt, if_true]
      rw [hst] at hacc hidx
      exact ⟨hacc, hidx⟩
    · intro hge
      have hst : axisSteps s.scrollGestureAccum e = (0, some (if a1 < 0 then -1 else 1)) := by
        unfold axisSteps
        simp only [hdisc, ne_eq, not_true_eq_false, if_false, ← ha1, not_lt.2 hge]
      rw [hst] at hacc hidx
      exact ⟨hacc, hidx⟩
  · refine ⟨?_, ?_, ?_, ?_⟩ <;> with_unfolding_all decide
  · refine ⟨?_, ?_⟩ <;> with_unfolding_all decide

/-- Witness of C8: the sample session receives a single delta of 50. -/
theorem C8_scroll_accumulator_witness :
    (onMouseAxis {} (sampleHost [1, 2, 3] 2 {}) sampleSession (some ⟨0, 50, 0⟩)).scrollGestureAccum
        = 0 ∧
      (onMouseAxis {} (sampleHost [1, 2, 3] 2 {}) sampleSession (some ⟨0, 50, 0⟩)).currentIdx =
        clampI (sampleSession.currentIdx + (if (50 : ℚ) < 0 then -1 else 1)) 0
          (sampleSession.size - 1) :=
  ((C8_scroll_accumulator {} (sampleHost [1, 2, 3] 2 {}) sampleSession (sampleMonitor 2)
      ⟨0, 50, 0⟩ ⟨7 / 10, 7 / 10, false⟩ ⟨0, 0, false⟩ rfl (by decide) rfl rfl (Or.inl rfl) rfl rfl
      rfl).1 50 (by decide!)).2 (by norm_num)

/-- Counterexample to C10 as stated: a drag is in progress on the tile of workspace 2 when
workspace 2 leaves the monitor and workspace 4 joins it (as when two monitors swap their
workspaces).  `syncWorkspaces()` rebuilds the tiles for workspaces 1, 3, 4, and the drag
state is kept: the button flags stay set and `dragSourceIdx = dragTargetIdx = 1` now name
the tile of workspace 3. -/
theorem C10_counterexample :
    (tileAt sampleDragSession.images sampleDragSession.dragSourceIdx).bind (fun t => t.pWorkspace)
        = some (sampleWs 2) ∧
      (syncWorkspaces {} (sampleHost [1, 3, 4] 4 {}) sampleDragSession).1 = true ∧
      (syncWorkspaces {} (sampleHost [1, 3, 4] 4 {}) sampleDragSession).2.images.map
        (fun t => t.pWorkspace) = [some (sampleWs 1), some (sampleWs 3), some (sampleWs 4)] ∧
      (syncWorkspaces {} (sampleHost [1, 3, 4] 4 {}) sampleDragSession).2.leftButtonDown = true ∧
      (syncWorkspaces {} (sampleHost [1, 3, 4] 4 {}) sampleDragSession).2.draggingWindow = true ∧
      (syncWorkspaces {} (sampleHost [1, 3, 4] 4 {}) sampleDragSession).2.dragSourceIdx = 1 ∧
      (syncWorkspaces {} (sampleHost [1, 3, 4] 4 {}) sampleDragSession).2.dragTargetIdx = 1 ∧
      (syncWorkspaces {} (sampleHost [1, 3, 4] 4 {}) sampleDragSession).2.dragWindow =
        some sampleWindow := by
  refine ⟨?_, ?_, ?_, ?_, ?_, ?_, ?_, ?_⟩ <;> with_unfolding_all decide

/-- C10 (amended). When `syncWorkspaces()` reconciles a non-empty workspace set, all drag
state is cleared (`leftButtonDown` and `draggingWindow` false, `dragSourceIdx =
dragTargetIdx = -1`, `dragWindow` empty) if the number of workspaces differs from the number
of tiles; in particular if the workspace of the drag source tile or of the drag target
tile has been removed and no workspace has been added (workspace ids being distinct).  And
after every rebuild to a non-empty tile list both drag indices are below `len(images)`. -/
theorem C10_sync_clears_drag_on_count_change (cfg : HorzaConfig) (h : Host) (s : COverview)
    (mon : CMonitor) (hmon : h.monitor = some mon) (hne : sortedWorkspaces h mon ≠ []) :
    ((sortedWorkspaces h mon).length ≠ s.images.length →
        (syncWorkspaces cfg h s).2.leftButtonDown = false ∧
          (syncWorkspaces cfg h s).2.draggingWindow = false ∧
          (syncWorkspaces cfg h s).2.dragSourceIdx = -1 ∧
          (syncWorkspaces cfg h s).2.dragTargetIdx = -1 ∧
          (syncWorkspaces cfg h s).2.dragWindow = none) ∧
      (((sortedWorkspaces h mon).map (fun w => w.m_id)).Nodup →
        (∀ w ∈ sortedWorkspaces h mon,
          ∃ t ∈ s.images, ∃ w0, t.pWorkspace = some w0 ∧ w0.m_id = w.m_id) →
        ∀ t w0,
          (tileAt s.images s.dragSourceIdx = some t ∨ tileAt s.images s.dragTargetIdx = some t) →
          t.pWorkspace = some w0 →
          (∀ w ∈ sortedWorkspaces h mon, w.m_id ≠ w0.m_id) →
          (syncWorkspaces cfg h s).2.leftButtonDown = false ∧
            (syncWorkspaces cfg h s).2.draggingWindow = false ∧
            (syncWorkspaces cfg h s).2.dragSourceIdx = -1 ∧
            (syncWorkspaces cfg h s).2.dragTargetIdx = -1 ∧
            (syncWorkspaces cfg h s).2.dragWindow = none) ∧
      ((syncWorkspaces cfg h s).1 = true →
        (syncWorkspaces cfg h s).2.dragSourceIdx < ((syncWorkspaces cfg h s).2.images.length : Int) ∧
          (syncWorkspaces cfg h s).2.dragTargetIdx <
            ((syncWorkspaces cfg h s).2.images.length : Int)) := by
  refine ⟨sync_count_changed hmon hne, ?_, ?_⟩
  · intro hnd hnoadd t w0 ht hw0 hrem
    apply sync_count_changed hmon hne
    have htm : t ∈ s.images := by
      rcases ht with ht | ht <;> exact tileAt_mem ht
    have hlt : ((sortedWorkspaces h mon).map (fun w => w.m_id)).length <
        (s.images.filterMap (fun t => t.pWorkspace.map (fun w => w.m_id))).length := by
      apply length_lt_of_removed hnd (x := w0.m_id)
      · intro a ha
        obtain ⟨w, hw, rfl⟩ := List.mem_map.1 ha
        obtain ⟨t', ht', w', hw', hid⟩ := hnoadd w hw
        exact List.mem_filterMap.2 ⟨t', ht', by simp [hw', hid]⟩
      · exact List.mem_filterMap.2 ⟨t, htm, by simp [hw0]⟩
      · intro hx
        obtain ⟨w, hw, hid⟩ := List.mem_map.1 hx
        exact hrem w hw hid
    have hle := List.length_filterMap_le (fun t : SWorkspaceImage =>
      t.pWorkspace.map (fun w => w.m_id)) s.images
    rw [List.length_map] at hlt
    omega
  · intro hret
    by_cases hchg : s.images.map (fun t => t.pWorkspace) = (sortedWorkspaces h mon).map some
    · exfalso
      have : syncWorkspaces cfg h s = (false, { s with workspaceListDirty := false }) := by
        unfold syncWorkspaces; simp only [hmon, hchg, if_true]
      rw [this] at hret
      exact absurd hret (by simp)
    · rw [sync_rebuild hmon hchg hne]
      apply syncDragGuard_in_range
      rw [(syncRefill_frame cfg h mon _ _).1]
      show (0 : Int) < ((reconcile s.images (sortedWorkspaces h mon)).length : Int)
      rw [reconcile_length]
      have := List.length_pos.2 hne
      omega

/-- Witness of C10 (amended): workspace 2, the drag source, is removed and none is added. -/
theorem C10_sync_clears_drag_on_count_change_witness :
    (syncWorkspaces {} (sampleHost [1, 3] 3 {}) sampleDragSession).2.leftButtonDown = false ∧
      (syncWorkspaces {} (sampleHost [1, 3] 3 {}) sampleDragSession).2.draggingWindow = false ∧
      (syncWorkspaces {} (sampleHost [1, 3] 3 {}) sampleDragSession).2.dragSourceIdx = -1 ∧
      (syncWorkspaces {} (sampleHost [1, 3] 3 {}) sampleDragSession).2.dragTargetIdx = -1 ∧
      (syncWorkspaces {} (sampleHost [1, 3] 3 {}) sampleDragSession).2.dragWindow = none :=
  (C10_sync_clears_drag_on_count_change {} (sampleHost [1, 3] 3 {}) sampleDragSession
    (sampleMonitor 3) rfl (by with_unfolding_all decide)).1 (by with_unfolding_all decide)

/-- C11. For every session, `close()` followed by `reopen()` leaves it active with no drop:
`closing`, `closeDropScheduled` (so `closeDropPending()`), `handoffActive` and
`finalCrossfadeActive` are false, `closeOverlayAlpha = 1`, the session holds no drop timer
and a firing of the timer callback does not destroy it, and the animated variables it held
have the opening goals `clampDisplayScale(displayScale)`, `0` and `centerOffset`. -/
theorem C11_close_then_reopen (cfg : HorzaConfig) (h : Host) (s : COverview) :
    (reopen cfg (close h s)).closing = false ∧
      (reopen cfg (close h s)).closeDropScheduled = false ∧
      closeDropPending (reopen cfg (close h s)) = false ∧
      (reopen cfg (close h s)).handoffActive = false ∧
      (reopen cfg (close h s)).finalCrossfadeActive = false ∧
      (reopen cfg (close h s)).closeOverlayAlpha = 1 ∧
      (reopen cfg (close h s)).closeDropTimer = none ∧
      closeDropTimerFired (reopen cfg (close h s)) ≠ none ∧
      ((reopen cfg (close h s)).m_scale.isSome = s.m_scale.isSome ∧
        ∀ a, (reopen cfg (close h s)).m_scale = some a →
          a.goal = clampDisplayScale cfg.displayScale) ∧
      ((reopen cfg (close h s)).m_offsetX.isSome = s.m_offsetX.isSome ∧
        ∀ a, (reopen cfg (close h s)).m_offsetX = some a → a.goal = 0) ∧
      ((reopen cfg (close h s)).m_crossOffset.isSome = s.m_crossOffset.isSome ∧
        ∀ a, (reopen cfg (close h s)).m_crossOffset = some a → a.goal = cfg.centerOffset) := by
  obtain ⟨hc, hsc, hoff, hcr⟩ := close_fields h s
  obtain ⟨r1, r2, r3, r4, r5, r6, r7, r8, r9⟩ := reopen_fields cfg (close h s) hc
  have goalOf : ∀ (o : Option AnimVar) (v : ℚ) (a : AnimVar),
      o.map (fun x => x.assign v) = some a → a.goal = v := by
    intro o v a ha
    cases o with
    | none => simp at ha
    | some x =>
      simp only [Option.map_some', Option.some.injEq] at ha
      rw [← ha]; exact assign_goal x v
  refine ⟨r1, r2, r2, r3, r4, r5, r6, ?_, ⟨?_, ?_⟩, ⟨?_, ?_⟩, ⟨?_, ?_⟩⟩
  · unfold closeDropTimerFired closeDropPending
    rw [r2]
    simp
  · rw [r7, Option.isSome_map', hsc]
  · intro a ha; rw [r7] at ha; exact goalOf _ _ a ha
  · rw [r8, Option.isSome_map', hoff]
  · intro a ha; rw [r8] at ha; exact goalOf _ _ a ha
  · rw [r9, Option.isSome_map', hcr]
  · intro a ha; rw [r9] at ha; exact goalOf _ _ a ha

/-- Counterexample to C13 as stated: in the sample session (current index 1, tile 1344 wide,
gap 16, offset 0) `fullRender` puts the leading edge of tile 0 at -1072, while
`center - (0 * (tileSize + g) + tileSize / 2) + o` is 288. -/
theorem C13_counterexample :
    primaryOf {} sampleSession (tileBase {} (sampleMonitor 2) sampleSession 0) = -1072 ∧
      centerPrimary {} (sampleMonitor 2) sampleSession -
          (((0 : Int) : ℚ) * (tileSizePrimary {} (sampleMonitor 2) sampleSession +
              layoutGap {} sampleSession) +
            tileSizePrimary {} (sampleMonitor 2) sampleSession * (1 / 2)) +
          layoutOffset sampleSession = 288 := by
  constructor <;> with_unfolding_all decide

/-- C13 (amended). For every tile index `i`, current index `c`, scroll offset `o`, tile size
and gap `g`, the primary-axis position (leading edge before the inactive shrink) that
`fullRender` computes for tile `i` is
`center(axis) - (c * (tileSize + g) + tileSize / 2) + o + i * (tileSize + g)`. -/
theorem C13_layout_position (cfg : HorzaConfig) (mon : CMonitor) (s : COverview) (i : Int) :
    primaryOf cfg s (tileBase cfg mon s i) =
      centerPrimary cfg mon s -
          ((s.currentIdx : ℚ) * (tileSizePrimary cfg mon s + layoutGap cfg s) +
            tileSizePrimary cfg mon s * (1 / 2)) +
        layoutOffset s + (i : ℚ) * (tileSizePrimary cfg mon s + layoutGap cfg s) := by
  rw [tileBase_primary, layoutCenter_eq]

/-- C15. In non-transit mode with `tileStep > 0.001` and a percentage stored by the loader,
for every tile: `normFromCenter = clamp(|tileCenter - screenCenter| / tileStep, 0, 1)`,
`factor = 1 - (1 - clamp(inactiveTileSizePercent/100, 0, 1)) * normFromCenter`, the box that
`fullRender` stores in `displayBox` has width `tileW * factor`, height `tileH * factor` and
the centre of the unshrunk tile box; the factor lies in `[inactiveTileSizePercent/100, 1]`,
is 1 for a tile centred on screen and is `inactiveTileSizePercent/100` for every tile at
least one tile step away from the centre. -/
theorem C15_inactive_tile_shrink (cfg : HorzaConfig) (h : Host) (mon : CMonitor)
    (s : COverview) (i : Int) (hm : h.monitor = some mon)
    (htr : s.transitMode = false) (hstep : tileStep cfg mon s > 1 / 1000)
    (hpct : clampInactiveTileSizePercent cfg.inactiveTileSizePercent =
      cfg.inactiveTileSizePercent) :
    (∀ t, tileAt (fullRenderLayout cfg h s).images i = some t →
        t.displayBox = tileDisplayBox cfg mon s i) ∧
      normFromCenter cfg mon s i =
        clampQ (|tileCenterPrimary cfg mon s i - centerPrimary cfg mon s| / tileStep cfg mon s)
          0 1 ∧
      tileScaleFactor cfg mon s i =
        1 - (1 - clampQ (cfg.inactiveTileSizePercent * (1 / 100)) 0 1) *
          normFromCenter cfg mon s i ∧
      (tileDisplayBox cfg mon s i).w = (layoutTile cfg mon s).x * tileScaleFactor cfg mon s i ∧
      (tileDisplayBox cfg mon s i).h = (layoutTile cfg mon s).y * tileScaleFactor cfg mon s i ∧
      (tileDisplayBox cfg mon s i).x + (tileDisplayBox cfg mon s i).w * (1 / 2) =
        (tileBase cfg mon s i).x + (layoutTile cfg mon s).x * (1 / 2) ∧
      (tileDisplayBox cfg mon s i).y + (tileDisplayBox cfg mon s i).h * (1 / 2) =
        (tileBase cfg mon s i).y + (layoutTile cfg mon s).y * (1 / 2) ∧
      cfg.inactiveTileSizePercent * (1 / 100) ≤ tileScaleFactor cfg mon s i ∧
      tileScaleFactor cfg mon s i ≤ 1 ∧
      (tileCenterPrimary cfg mon s i = centerPrimary cfg mon s →
        tileScaleFactor cfg mon s i = 1) ∧
      (tileStep cfg mon s ≤ |tileCenterPrimary cfg mon s i - centerPrimary cfg mon s| →
        tileScaleFactor cfg mon s i = cfg.inactiveTileSizePercent * (1 / 100)) := by
  obtain ⟨hn, hf⟩ := tileScaleFactor_eq cfg mon s htr hstep i
  have hp := loaded_percent_scale hpct
  have hpb := clampQ_mem (cfg.inactiveTileSizePercent * (1 / 100)) 0 1
    (by norm_num)
  rw [hp] at hpb
  have hnb := clampQ_mem
    (|tileCenterPrimary cfg mon s i - centerPrimary cfg mon s| / tileStep cfg mon s)
    0 1 (by norm_num)
  rw [← hn] at hnb
  have hf2 : tileScaleFactor cfg mon s i =
      1 - (1 - cfg.inactiveTileSizePercent * (1 / 100)) * normFromCenter cfg mon s i := by
    rw [hf, hp]
  have hpos : (0 : ℚ) < tileStep cfg mon s := lt_trans (by norm_num) hstep
  refine ⟨fun t ht => fullRenderLayout_box hm ht, hn, hf, rfl, rfl, ?_, ?_, ?_, ?_, ?_, ?_⟩
  · unfold tileDisplayBox; dsimp only; ring
  · unfold tileDisplayBox; dsimp only; ring
  · rw [hf2]
    nlinarith [hpb.1, hpb.2, hnb.1, hnb.2,
      mul_nonneg (sub_nonneg.mpr hpb.2) (sub_nonneg.mpr hnb.2)]
  · rw [hf2]
    nlinarith [mul_nonneg (sub_nonneg.mpr hpb.2) hnb.1]
  · intro hc
    have h0 : normFromCenter cfg mon s i = 0 := by
      rw [hn, hc, sub_self, abs_zero, zero_div]
      exact clampQ_id (le_refl _) (by norm_num)
    rw [hf2, h0]; ring
  · intro hfar
    have h1 : normFromCenter cfg mon s i = 1 := by
      rw [hn]
      exact clampQ_hi (by norm_num) ((one_le_div hpos).mpr hfar)
    rw [hf2, h1]; ring

/-- Witness for C15: the sample session under the default configuration (tile step 1360,
percentage 85). -/
theorem C15_inactive_tile_shrink_witness :
    (sampleHost [1, 2, 3] 2 {}).monitor = some (sampleMonitor 2) ∧
      sampleSession.transitMode = false ∧
      tileStep {} (sampleMonitor 2) sampleSession > 1 / 1000 ∧
      tileScaleFactor {} (sampleMonitor 2) sampleSession 0 = 85 * (1 / 100) ∧
      tileScaleFactor {} (sampleMonitor 2) sampleSession 1 = 1 :=
  have hm : (sampleHost [1, 2, 3] 2 {}).monitor = some (sampleMonitor 2) := rfl
  have hs : tileStep {} (sampleMonitor 2) sampleSession > 1 / 1000 := by
    with_unfolding_all decide
  have hp : clampInactiveTileSizePercent ({} : HorzaConfig).inactiveTileSizePercent =
      ({} : HorzaConfig).inactiveTileSizePercent := by with_unfolding_all decide
  ⟨hm, rfl, hs,
    (C15_inactive_tile_shrink {} _ _ sampleSession 0 hm rfl hs hp).2.2.2.2.2.2.2.2.2.2
      (by with_unfolding_all decide),
    (C15_inactive_tile_shrink {} _ _ sampleSession 1 hm rfl hs hp).2.2.2.2.2.2.2.2.2.1
      (by with_unfolding_all decide)⟩

/-- Counterexample to C16 as stated: the box of width and height 1 at the origin has
positive area and meets the sample monitor's rectangle (both contain the origin), yet
`isTileOnScreen` is false for it. -/
theorem C16_counterexample :
    isTileOnScreen (sampleHost [1, 2, 3] 2 {}) { x := 0, y := 0, w := 1, h := 1 } = false ∧
      ((0 : ℚ) < ({ x := 0, y := 0, w := 1, h := 1 } : CBox).w ∧
        (0 : ℚ) < ({ x := 0, y := 0, w := 1, h := 1 } : CBox).h) ∧
      ∃ px py : ℚ, (0 : ℚ) ≤ px ∧ px < 0 + 1 ∧ (0 : ℚ) ≤ py ∧ py < 0 + 1 ∧
        0 ≤ px ∧ px < (sampleMonitor 2).m_size.x ∧ 0 ≤ py ∧ py < (sampleMonitor 2).m_size.y := by
  refine ⟨by with_unfolding_all decide, ⟨by with_unfolding_all decide,
    by with_unfolding_all decide⟩, 0, 0, ?_⟩
  with_unfolding_all decide

/-- C16 (amended). For every box and every monitor of positive size, `isTileOnScreen(box)`
is true if and only if the box is more than one unit wide and more than one unit high
(`w > 1` and `h > 1`) and intersects the monitor rectangle `[0, monitorW) x [0, monitorH)`. -/
theorem C16_tile_on_screen (h : Host) (mon : CMonitor) (box : CBox)
    (hm : h.monitor = some mon) (hW : 0 < mon.m_size.x) (hH : 0 < mon.m_size.y) :
    isTileOnScreen h box = true ↔
      (1 < box.w ∧ 1 < box.h) ∧
        ∃ px py : ℚ, (box.x ≤ px ∧ px < box.x + box.w ∧ 0 ≤ px ∧ px < mon.m_size.x) ∧
          (box.y ≤ py ∧ py < box.y + box.h ∧ 0 ≤ py ∧ py < mon.m_size.y) := by
  rw [isTileOnScreen_iff hm]
  constructor
  · rintro ⟨⟨hw, hh⟩, h1, h2, h3, h4⟩
    obtain ⟨px, hpx⟩ := (interval_meets (lt_trans one_pos hw) hW).mpr ⟨h1, h3⟩
    obtain ⟨py, hpy⟩ := (interval_meets (lt_trans one_pos hh) hH).mpr ⟨h2, h4⟩
    exact ⟨⟨hw, hh⟩, px, py, hpx, hpy⟩
  · rintro ⟨⟨hw, hh⟩, px, py, hpx, hpy⟩
    have hx := (interval_meets (lt_trans one_pos hw) hW).mp ⟨px, hpx⟩
    have hy := (interval_meets (lt_trans one_pos hh) hH).mp ⟨py, hpy⟩
    exact ⟨⟨hw, hh⟩, hx.1, hy.1, hx.2, hy.2⟩

/-- Witness for C16: the captured middle tile of the sample session is on screen. -/
theorem C16_tile_on_screen_witness :
    isTileOnScreen (sampleHost [1, 2, 3] 2 {}) { x := 288, y := 162, w := 1344, h := 756 } =
      true :=
  (C16_tile_on_screen (sampleHost [1, 2, 3] 2 {}) (sampleMonitor 2)
    { x := 288, y := 162, w := 1344, h := 756 } rfl (by with_unfolding_all decide)
    (by with_unfolding_all decide)).mpr
    ⟨⟨by with_unfolding_all decide, by with_unfolding_all decide⟩, 300, 200,
      by with_unfolding_all decide, by with_unfolding_all decide⟩

/-- Counterexample to C19 as stated: with the default 6 frames per second, the sample
session whose tile 0 is captured at tick 0 is asked for a live-preview target at tick
166666665.  Tile 0 is returned although it is stale by less than 1/6 second: the test of
line 1398 is made in `float` nanoseconds, where the age and the interval both round to
166666672. -/
theorem C19_counterexample :
    pickVisibleLivePreviewWorkspace {} (sampleHost [1, 2, 3] 2 {})
        (sampleSession.updTile 0 (fun t => { t with captured := true })) 166666665 = 0 ∧
      (tileAt (sampleSession.updTile 0 (fun t => { t with captured := true })).images 0).map
        (fun t => t.lastCaptureAt) = some 0 ∧
      (((166666665 - 0 : Int) : ℚ)) <
        (1 / clampQ ({} : HorzaConfig).livePreviewFps 0 60) * ticksPerSec := by
  refine ⟨?_, ?_, ?_⟩ <;> decide!

/-- C19 (amended). `pickVisibleLivePreviewWorkspace(now)`, when it is not -1, returns an
index that is not `currentIdx`, whose tile is captured, on screen and passes the staleness
test as line 1398 evaluates it, in `float` nanoseconds: the `float` of its age is at least
the `float` product of `1.0f / fps` and 1e9 (fps clamped to at most 60), so that its exact
age is at least `1 / fps` seconds less a relative `2^-21`; among all tiles
satisfying those conditions it has the oldest `lastCaptureAt`.  It returns -1 exactly when
there are fewer than 2 tiles, when `livePreviewFps <= 0`, or when no tile satisfies them. -/
theorem C19_live_preview_target (cfg : HorzaConfig) (h : Host) (s : COverview) (now : Int) :
    (pickVisibleLivePreviewWorkspace cfg h s now ≠ -1 →
        ∃ t, tileAt s.images (pickVisibleLivePreviewWorkspace cfg h s now) = some t ∧
          pickVisibleLivePreviewWorkspace cfg h s now ≠ s.currentIdx ∧
          t.captured = true ∧ isTileOnScreen h t.displayBox = true ∧
          f32 (f32 (1 / clampQ cfg.livePreviewFps 0 60) * ticksPerSec) ≤
            f32 (((now - t.lastCaptureAt : Int)) : ℚ) ∧
          1 / clampQ cfg.livePreviewFps 0 60 * ticksPerSec * (1 - 1 / 2 ^ 21) ≤
            (((now - t.lastCaptureAt : Int)) : ℚ) ∧
          ∀ j u, tileAt s.images j = some u →
            livePreviewEligible h s.currentIdx now (f32 (1 / clampQ cfg.livePreviewFps 0 60)) j u →
            t.lastCaptureAt ≤ u.lastCaptureAt) ∧
      (pickVisibleLivePreviewWorkspace cfg h s now = -1 ↔
        s.images.length < 2 ∨ cfg.livePreviewFps ≤ 0 ∨
          ∀ j u, tileAt s.images j = some u →
            ¬ livePreviewEligible h s.currentIdx now (f32 (1 / clampQ cfg.livePreviewFps 0 60)) j u) := by
  obtain ⟨hnone, hsome⟩ := livePreviewFrom_inv h s.currentIdx now
    (f32 (1 / clampQ cfg.livePreviewFps 0 60)) s.images none 0
  have hall : (∀ (n : Nat) (t : SWorkspaceImage), s.images[n]? = some t →
      ¬ livePreviewEligible h s.currentIdx now (f32 (1 / clampQ cfg.livePreviewFps 0 60))
        (0 + (n : Int)) t) ↔
      ∀ j u, tileAt s.images j = some u →
        ¬ livePreviewEligible h s.currentIdx now (f32 (1 / clampQ cfg.livePreviewFps 0 60)) j u := by
    constructor
    · intro hn j u hj
      obtain ⟨h0, _⟩ := tileAt_some_bounds hj
      have hj2 : j = 0 + ((j.toNat : Nat) : Int) := by rw [Int.toNat_of_nonneg h0]; ring
      rw [hj2]
      refine hn j.toNat u ?_
      rw [← tileAt_natCast, Int.toNat_of_nonneg h0]; exact hj
    · intro hn n t ht
      rw [zero_add]
      exact hn n t (by rw [tileAt_natCast]; exact ht)
  unfold pickVisibleLivePreviewWorkspace
  by_cases hlen : s.images.length < 2
  · rw [if_pos hlen]
    exact ⟨fun hc => absurd rfl hc, fun _ => Or.inl hlen, fun _ => rfl⟩
  · rw [if_neg hlen]
    dsimp only
    by_cases hfps : clampQ cfg.livePreviewFps 0 60 ≤ 0
    · rw [if_pos hfps]
      exact ⟨fun hc => absurd rfl hc, fun _ => Or.inr (Or.inl (clampQ_fps_pos.mp hfps)),
        fun _ => rfl⟩
    · rw [if_neg hfps]
      cases hr : livePreviewFrom h s.currentIdx now (f32 (1 / clampQ cfg.livePreviewFps 0 60)) none
          s.images 0 with
      | none =>
          dsimp only
          refine ⟨fun hc => absurd rfl hc, fun _ => ?_, fun _ => rfl⟩
          exact Or.inr (Or.inr (hall.mp (hnone.mp hr).2))
      | some b =>
          obtain ⟨j, bt⟩ := b
          dsimp only
          obtain ⟨hsrc, _, hmin⟩ := hsome j bt hr
          rcases hsrc with hsrc | ⟨n, t, hn, hj, hb, he⟩
          · simp at hsrc
          · rw [zero_add] at hj he
            have hj1 : j ≠ -1 := by omega
            constructor
            · intro _
              refine ⟨t, by rw [hj, tileAt_natCast]; exact hn, by rw [hj]; exact he.1, he.2.1,
                he.2.2.1, he.2.2.2,
                livePreview_stale (not_le.1 hfps) (clampQ_mem _ 0 60 (by norm_num)).2
                  (intCast_le_zero_or_one_le _) he.2.2.2, ?_⟩
              intro k u hk hu
              obtain ⟨h0, _⟩ := tileAt_some_bounds hk
              rw [← hb]
              refine hmin k.toNat u ?_ ?_
              · rw [← tileAt_natCast, Int.toNat_of_nonneg h0]; exact hk
              · rw [zero_add, Int.toNat_of_nonneg h0]; exact hu
            · constructor
              · intro hc; exact absurd hc hj1
              · rintro (hc | hc | hc)
                · exact absurd hc hlen
                · exact absurd (clampQ_fps_pos.mpr hc) hfps
                · exact absurd he (hc n t (by rw [tileAt_natCast]; exact hn))

/-- C14. Recentring does not snap.  For the monitor of the session, every state, new index
`cNew` and scroll offset: the layout computed with current index `cNew` and the offset moved
by `oldCenter(c_old) - newCenter(cNew)` gives every tile the position it has with the old
index and offset; and `shiftCurrentIndexBy`, `onMouseAxis` (both reachable only outside
transit mode, where the pointer hooks are installed) and `onWorkspaceChange` leave every
tile's base position and display box unchanged, and whenever they change `currentIdx` they
warp the offset by exactly that amount and set its goal to 0. -/
theorem C14_recentring_keeps_layout (cfg : HorzaConfig) (h : Host) (mon : CMonitor)
    (s : COverview) (hm : h.monitor = some mon) :
    (∀ (off : AnimVar) (cNew : Int) (g : ℚ) (b : Bool) (i : Int), s.m_offsetX = some off →
        tileBase cfg mon
            { s with
              currentIdx := cNew
              m_offsetX := some ⟨off.value +
                (layoutCenter cfg mon s s.currentIdx - layoutCenter cfg mon s cNew), g, b⟩ } i =
          tileBase cfg mon s i) ∧
      ∀ r : COverview,
        ((s.transitMode = false ∧ ∃ step, r = (shiftCurrentIndexBy cfg h s step).2) ∨
          (s.transitMode = false ∧ ∃ e, r = onMouseAxis cfg h s e) ∨
          r = onWorkspaceChange cfg h s) →
        (∀ i, tileBase cfg mon r i = tileBase cfg mon s i ∧
          tileDisplayBox cfg mon r i = tileDisplayBox cfg mon s i) ∧
        (r.currentIdx ≠ s.currentIdx →
          ∃ off a, s.m_offsetX = some off ∧ r.m_offsetX = some a ∧
            a.value = off.value +
              (layoutCenter cfg mon s s.currentIdx - layoutCenter cfg mon s r.currentIdx) ∧
            a.goal = 0) := by
  constructor
  · intro off cNew g b i hoff
    refine (layout_congr cfg mon (s := s) (r := { s with
      currentIdx := cNew
      m_offsetX := some ⟨off.value +
        (layoutCenter cfg mon s s.currentIdx - layoutCenter cfg mon s cNew), g, b⟩ })
      rfl rfl rfl ?_ i).1
    unfold layoutOffset
    rw [hoff]
    dsimp only
    ring
  · intro r hr
    apply recentred_layout
    rcases hr with ⟨htr, step, rfl⟩ | ⟨htr, e, rfl⟩ | rfl
    · exact shift_recentred cfg h mon s step hm htr
    · exact axis_recentred cfg h mon s e hm htr
    · exact workspaceChange_recentred cfg h mon s hm

/-- Witness for C14: one step to the right in the sample session keeps the base position of
every tile. -/
theorem C14_recentring_keeps_layout_witness :
    (sampleHost [1, 2, 3] 2 {}).monitor = some (sampleMonitor 2) ∧
      ∀ i, tileBase {} (sampleMonitor 2)
          (shiftCurrentIndexBy {} (sampleHost [1, 2, 3] 2 {}) sampleSession 1).2 i =
        tileBase {} (sampleMonitor 2) sampleSession i :=
  ⟨rfl, fun i =>
    (((C14_recentring_keeps_layout {} (sampleHost [1, 2, 3] 2 {}) (sampleMonitor 2)
      sampleSession rfl).2 _ (Or.inl ⟨rfl, 1, rfl⟩)).1 i).1⟩

/-- Counterexample to C12 as stated: in the sample session right after a step from tile 0
to tile 1 (3 tiles, `currentIdx = 1`, default configuration, tile 2 uncaptured with a cached
image and still off screen), `shiftCurrentIndexBy(+1)` sets `damageDirty`, but the next
scheduler pass captures tile 1 in its pending loop and returns before the forced capture:
tile 2 is still uncaptured after it. -/
theorem C12_counterexample :
    (tileAt sampleScrolledSession.images 2).map (fun t => (t.captured, t.cachedTex.isSome)) =
        some (false, true) ∧
      (shiftCurrentIndexBy {} (sampleHost [1, 2, 3] 2 {}) sampleScrolledSession 1).1 = true ∧
      (shiftCurrentIndexBy {} (sampleHost [1, 2, 3] 2 {}) sampleScrolledSession 1).2.currentIdx =
        2 ∧
      (shiftCurrentIndexBy {} (sampleHost [1, 2, 3] 2 {}) sampleScrolledSession 1).2.damageDirty =
        true ∧
      (onPreRender {} (sampleHost [1, 2, 3] 2 {})
          (shiftCurrentIndexBy {} (sampleHost [1, 2, 3] 2 {}) sampleScrolledSession 1).2).map
        (fun r => (r.pending.map (fun c => c.idx), r.forced,
          (tileAt r.state.images 2).map (fun t => t.captured))) =
        some ([1], false, some false) ∧
      (schedulerPass {} (sampleHost [1, 2, 3] 2 {})
          (shiftCurrentIndexBy {} (sampleHost [1, 2, 3] 2 {}) sampleScrolledSession 1).2).map
        (fun r => (r.pending.map (fun c => c.idx), r.forced,
          (tileAt r.state.images 2).map (fun t => t.captured))) =
        some ([1], false, some false) := by
  refine ⟨?_, ?_, ?_, ?_, ?_, ?_⟩ <;> decide!

/-- C12 (amended). In a session with 3 tiles and `currentIdx = 1` (under every
configuration, so also with `displayScale = 0.7` and `overviewGap = 16`),
`shiftCurrentIndexBy(+1)` returns true and sets `currentIdx = 2`; the scroll offset's goal
is 0, and with the offset at that goal the layout puts the centre of tile 2 exactly on the
screen centre of the primary axis.  Tile 2, if it was uncaptured, is afterwards captured
when it had no cached image.  When it had one, it stays uncaptured and `damageDirty` is
set; a scheduler pass run on that state (under any configuration and host) produces a
result, in which tile 2 is captured if the pending loop captured nothing (by the forced
capture) or if tile 2 is on screen; a pass whose pending loop captured something skips the
forced capture and leaves `damageDirty` set for a later pass. -/
theorem C12_step_scenario (cfg : HorzaConfig) (h : Host) (mon : CMonitor) (s : COverview)
    (sc off : AnimVar) (hm : h.monitor = some mon) (hsc : s.m_scale = some sc)
    (hoff : s.m_offsetX = some off) (hlen : s.images.length = 3) (hcur : s.currentIdx = 1) :
    (shiftCurrentIndexBy cfg h s 1).1 = true ∧
      (shiftCurrentIndexBy cfg h s 1).2.currentIdx = 2 ∧
      (∃ a, (shiftCurrentIndexBy cfg h s 1).2.m_offsetX = some a ∧ a.goal = 0 ∧
        ∀ a2 : AnimVar, a2.value = a.goal →
          tileCenterPrimary cfg mon
              { (shiftCurrentIndexBy cfg h s 1).2 with m_offsetX := some a2 } 2 =
            centerPrimary cfg mon (shiftCurrentIndexBy cfg h s 1).2) ∧
      ∀ t, tileAt s.images 2 = some t → t.captured = false →
        (t.cachedTex = none →
          ∃ u, tileAt (shiftCurrentIndexBy cfg h s 1).2.images 2 = some u ∧
            u.captured = true) ∧
        (t.cachedTex ≠ none →
          (shiftCurrentIndexBy cfg h s 1).2.damageDirty = true ∧
          tileAt (shiftCurrentIndexBy cfg h s 1).2.images 2 = some t ∧
          ∀ (cfg2 : HorzaConfig) (h2 : Host),
            ∃ r, schedulerPass cfg2 h2 (shiftCurrentIndexBy cfg h s 1).2 = some r ∧
              (r.pending = [] →
                r.forced = true ∧ ∃ u, tileAt r.state.images 2 = some u ∧ u.captured = true) ∧
              (isTileOnScreen h2 t.displayBox = true →
                ∃ u, tileAt r.state.images 2 = some u ∧ u.captured = true) ∧
              (r.pending ≠ [] → r.forced = false ∧ r.state.damageDirty = true)) := by
  have htgt : clampI (wrapInt32 (s.currentIdx + 1)) 0 (s.size - 1) = 2 := by
    rw [hcur]
    unfold COverview.size
    rw [hlen]
    decide
  have hstep := shift_step cfg 1 hm hsc hoff (by decide) (by omega)
    (by rw [htgt, hcur]; decide)
  rw [htgt] at hstep
  rw [hstep]
  dsimp only
  obtain ⟨hidx, hfr⟩ := recentered_fields cfg h mon false s sc off 2
  obtain ⟨_, _, _, f4, _⟩ := captureFrame_layout hfr
  refine ⟨rfl, hidx, ?_, ?_⟩
  · refine ⟨_, f4, assign_goal _ _, ?_⟩
    intro a2 ha2
    rw [assign_goal] at ha2
    have key : ∀ r2 : COverview, r2.currentIdx = 2 → layoutOffset r2 = 0 →
        tileCenterPrimary cfg mon r2 2 = centerPrimary cfg mon r2 := by
      intro r2 h2 h1
      rw [tileCenterPrimary_eq, h1, h2]
      push_cast
      ring
    exact key _ hidx ha2
  · intro t ht hc
    have ht2 : tileAt (recenterOn cfg mon false s sc off 2).images
        (recenterOn cfg mon false s sc off 2).currentIdx = some t := ht
    obtain ⟨hA, hB⟩ := captureOrDirty_spec (h := h) ht2 hc
    constructor
    · intro hn
      obtain ⟨u, hu, hcap, _⟩ :=
        (captureAndMark_tileAt h (recenterOn cfg mon false s sc off 2) 2).2 t ht
      refine ⟨u, ?_, hcap⟩
      show tileAt (captureOrDirty h (recenterOn cfg mon false s sc off 2)).images 2 = some u
      rw [hA hn]
      exact hu
    · intro hn
      have key : ∀ sx : COverview, sx.currentIdx = 2 → sx.images.length = 3 →
          sx.damageDirty = true → tileAt sx.images 2 = some t →
          sx.damageDirty = true ∧ tileAt sx.images 2 = some t ∧
          ∀ (cfg2 : HorzaConfig) (h2 : Host),
            ∃ r, schedulerPass cfg2 h2 sx = some r ∧
              (r.pending = [] →
                r.forced = true ∧ ∃ u, tileAt r.state.images 2 = some u ∧ u.captured = true) ∧
              (isTileOnScreen h2 t.displayBox = true →
                ∃ u, tileAt r.state.images 2 = some u ∧ u.captured = true) ∧
              (r.pending ≠ [] → r.forced = false ∧ r.state.damageDirty = true) := by
        intro sx h2 h3 hd htx
        refine ⟨hd, htx, ?_⟩
        intro cfg2 hh
        obtain ⟨p, hp, _⟩ := schedulerPass_some cfg2 hh sx
        have hvx : ValidIdx sx := by
          unfold ValidIdx COverview.size
          rw [h2, h3]
          decide
        have hszx : sx.size ≤ 2147483647 := by
          unfold COverview.size
          rw [h3]
          decide
        have := schedulerPass_dirty_current hvx hszx hd (by rw [h2]; exact htx) hc hp
        rw [h2] at this
        exact ⟨_, hp, this⟩
      refine key _ ?_ ?_ ?_ ?_
      · exact hidx
      · show (captureOrDirty h (recenterOn cfg mon false s sc off 2)).images.length = 3
        rw [hB hn]
        exact hlen
      · show (captureOrDirty h (recenterOn cfg mon false s sc off 2)).damageDirty = true
        rw [hB hn]
      · show tileAt (captureOrDirty h (recenterOn cfg mon false s sc off 2)).images 2 = some t
        rw [hB hn]
        exact ht

/-- Witness for C12: the sample session (3 tiles, index 1, display scale 0.7, gap 16) with
the default configuration. -/
theorem C12_step_scenario_witness :
    (shiftCurrentIndexBy {} (sampleHost [1, 2, 3] 2 {}) sampleSession 1).1 = true ∧
      (shiftCurrentIndexBy {} (sampleHost [1, 2, 3] 2 {}) sampleSession 1).2.currentIdx = 2 :=
  have hw := C12_step_scenario {} (sampleHost [1, 2, 3] 2 {}) (sampleMonitor 2) sampleSession
    ⟨7 / 10, 7 / 10, false⟩ ⟨0, 0, false⟩ rfl rfl rfl rfl rfl
  ⟨hw.1, hw.2.1⟩

/-- C17. In a scheduler pass with a valid current index (as the guard of line 1660 ensures)
and a tile count that fits an `int`, the pass produces a result in which every capture of the
pending loop took, in the state it was chosen in, an uncaptured on-screen tile with the
smallest `|i - currentIdx|` among all uncaptured on-screen tiles, the lower index winning a
tie, and left that tile captured.  An admitted iteration that finds such a tile captures
the nearest one (and only it) and goes on; an admitted iteration that finds none captures
nothing and sets `pendingCapture` to false.  A pass that starts with `pendingCapture` set and
whose first budget check passes therefore captures a tile when an uncaptured one is on
screen, and otherwise captures nothing in the loop and ends with `pendingCapture` false.
After a pass that captured something, `pendingCapture` is true if and only if some on-screen
tile is still uncaptured.  The result is that of `onPreRender` for every tick that reaches
the scheduler in this state. -/
theorem C17_capture_priority (cfg : HorzaConfig) (h : Host) (s1 : COverview)
    (hv : ValidIdx s1) (hsz : s1.size ≤ 2147483647) :
    ∃ r, schedulerPass cfg h s1 = some r ∧
      (∀ s, preRenderHead cfg h s = Sum.inr s1 → onPreRender cfg h s = some r) ∧
      (∀ c ∈ r.pending, c.before.currentIdx = s1.currentIdx ∧
        ∃ t, tileAt c.before.images c.idx = some t ∧ t.captured = false ∧
          isTileOnScreen h t.displayBox = true ∧
          ∀ j u, tileAt c.before.images j = some u → u.captured = false →
            isTileOnScreen h u.displayBox = true →
            |c.idx - s1.currentIdx| ≤ |j - s1.currentIdx| ∧
            (|j - s1.currentIdx| = |c.idx - s1.currentIdx| → c.idx ≤ j)) ∧
      (∀ (start : Int) (p : PendingState),
        (canDoOptionalCapture cfg h start p.optionalCapturesThisFrame p.s).1 = true →
        (∀ j t, tileAt p.s.images j = some t →
          ¬ (t.captured = false ∧ isTileOnScreen h t.displayBox = true)) →
        (pendingIter cfg h start p).2 = false ∧
          (pendingIter cfg h start p).1.s.pendingCapture = false ∧
          (pendingIter cfg h start p).1.s.images = p.s.images ∧
          (pendingIter cfg h start p).1.s.calls = p.s.calls ∧
          (pendingIter cfg h start p).1.log = p.log) ∧
      (r.pending ≠ [] →
        (r.state.pendingCapture = true ↔
          ∃ j t, tileAt r.state.images j = some t ∧ t.captured = false ∧
            isTileOnScreen h t.displayBox = true)) ∧
      (∀ c ∈ r.pending, ∃ u, tileAt r.state.images c.idx = some u ∧ u.captured = true) ∧
      (∀ (start : Int) (p : PendingState), ValidIdx p.s → p.s.size ≤ 2147483647 →
        (canDoOptionalCapture cfg h start p.optionalCapturesThisFrame p.s).1 = true →
        (∃ j t, tileAt p.s.images j = some t ∧ t.captured = false ∧
          isTileOnScreen h t.displayBox = true) →
        (pendingIter cfg h start p).2 = true ∧
          ∃ c : OptionalCapture, (pendingIter cfg h start p).1.log = p.log ++ [c] ∧
            (∃ t, tileAt p.s.images c.idx = some t ∧ t.captured = false ∧
              isTileOnScreen h t.displayBox = true ∧
              ∀ j u, tileAt p.s.images j = some u → u.captured = false →
                isTileOnScreen h u.displayBox = true →
                |c.idx - p.s.currentIdx| ≤ |j - p.s.currentIdx| ∧
                (|j - p.s.currentIdx| = |c.idx - p.s.currentIdx| → c.idx ≤ j)) ∧
            (∃ u, tileAt (pendingIter cfg h start p).1.s.images c.idx = some u ∧
              u.captured = true) ∧
            (∀ j, j ≠ c.idx →
              tileAt (pendingIter cfg h start p).1.s.images j = tileAt p.s.images j) ∧
            (pendingIter cfg h start p).1.s.pendingCapture = true) ∧
      (s1.pendingCapture = true →
        (canDoOptionalCapture cfg h (h.clock s1.ticks) 0 { s1 with ticks := s1.ticks + 1 }).1 =
          true →
        ((∃ j t, tileAt s1.images j = some t ∧ t.captured = false ∧
            isTileOnScreen h t.displayBox = true) →
          ∃ c rest, r.pending = c :: rest ∧ c.before.images = s1.images ∧
            c.before.currentIdx = s1.currentIdx) ∧
        ((∀ j t, tileAt s1.images j = some t →
            ¬ (t.captured = false ∧ isTileOnScreen h t.displayBox = true)) →
          r.pending = [] ∧ r.state.pendingCapture = false)) := by
  obtain ⟨p, hp, _, _, p4, p5, _⟩ := schedulerPass_some cfg h s1
  refine ⟨_, hp, fun s hs => by rw [onPreRender_inr hs, hp], ?_, ?_, ?_, schedulerPass_marks hp,
    ?_, ?_⟩
  · intro c hc
    rw [schedulerTail_pending] at hc
    obtain ⟨_, c2, c3, c4, c5⟩ := p5 c hc
    have hvb : ValidIdx c.before := by
      unfold ValidIdx
      rw [c4, c5]
      exact hv
    obtain ⟨t, ht, he, hmin⟩ :=
      (pickPending_spec h c.before hvb (by rw [c5]; exact hsz)).2 (by rw [← c2]; exact c3)
    rw [← c2, c4] at hmin
    rw [← c2] at ht
    exact ⟨c4, t, ht, he.1, he.2, fun j u hj hu1 hu2 => hmin j u hj ⟨hu1, hu2⟩⟩
  · intro start q hc hn
    have hk : pickPending h
        (canDoOptionalCapture cfg h start q.optionalCapturesThisFrame q.s).2.2 = -1 := by
      apply pickPending_none
      rw [(canDo_fields cfg h start q.optionalCapturesThisFrame q.s).1]
      exact hn
    have hs : (pendingIter cfg h start q).2 = false := by rw [pendingIter_none hc hk]
    obtain ⟨s1, _, _, s4, s5, _⟩ := pendingIter_stop_facts hs
    refine ⟨hs, ?_, s4, s5, s1⟩
    rw [pendingIter_none hc hk]
  · intro hne
    rw [schedulerTail_pending] at hne
    rw [schedulerTail_captured (p4 hne).1]
    show hasVisibleUncaptured h p.s = true ↔ ∃ j t, tileAt p.s.images j = some t ∧ _
    exact hasVisibleUncaptured_iff h p.s
  · intro start q hvq hszq hc hex
    obtain ⟨t1, c, t2, ⟨t, ht, he, hmin⟩, t4, t5, t6⟩ := pendingIter_takes hvq hszq hc hex
    exact ⟨t1, c, t2, ⟨t, ht, he.1, he.2, fun j u hj hu1 hu2 => hmin j u hj ⟨hu1, hu2⟩⟩,
      t4, t5, t6⟩
  · intro hpc hc
    constructor
    · intro hex
      obtain ⟨c, rest, a1, a2, a3, _⟩ := schedulerPass_first hv hsz hp hpc hc hex
      exact ⟨c, rest, a1, a2, a3⟩
    · intro hno
      exact schedulerPass_clears hp hpc hc hno

/-- Witness for C17: the sample session with a pending capture; the pass captures tile 0,
which ties with tile 2 at distance 1 from the current index. -/
theorem C17_capture_priority_witness :
    ∃ r, schedulerPass {} (sampleHost [1, 2, 3] 2 {}) sampleDirtySession = some r ∧
      (r.pending ≠ [] →
        (r.state.pendingCapture = true ↔
          ∃ j t, tileAt r.state.images j = some t ∧ t.captured = false ∧
            isTileOnScreen (sampleHost [1, 2, 3] 2 {}) t.displayBox = true)) ∧
      (∀ c ∈ r.pending, ∃ u, tileAt r.state.images c.idx = some u ∧ u.captured = true) :=
  match C17_capture_priority {} (sampleHost [1, 2, 3] 2 {}) sampleDirtySession
    ⟨by decide, by decide⟩ (by decide) with
  | ⟨r, hr, _, _, _, h5, h6, _⟩ => ⟨r, hr, h5, h6⟩

/-- The pending loop of the sample pass: one capture, of tile 0. -/
theorem sample_pass_pending :
    (schedulerPass {} (sampleHost [1, 2, 3] 2 {}) sampleDirtySession).map
        (fun r => r.pending.map (fun c => c.idx)) = some [0] := by
  with_unfolding_all decide

/-- Counterexample to C18 as stated: with `captureBudgetMs = 16.842001f` (the `float`
8830059 / 2^19) and a clock that advances 16842001 ns per reading, the pass on the sample
session with a pending capture captures tile 0 after a budget check made 16.842001 ms after
the start of the pass, which is not below the budget: `elapsedMs` is a `float`, and the
conversion of the nanosecond count rounds it to 16.841999. -/
theorem C18_counterexample :
    (onPreRender { captureBudgetMs := 8830059 / 524288 }
        { sampleHost [1, 2, 3] 2 {} with clock := fun n => 16842001 * n }
        sampleDirtySession).map
      (fun r => r.pending.map (fun c => (c.idx, c.elapsed))) = some [(0, some 16842001)] ∧
      max 0 ({ captureBudgetMs := 8830059 / 524288 } : HorzaConfig).captureBudgetMs ≤
        ((16842001 : Int) : ℚ) / ticksPerMs := by
  decide!

/-- C18 (amended). In one `onPreRender` pass the number of optional captures (captures of
the pending loop plus the live-preview refresh) is at most `max(0, maxCapturesPerFrame)`, so
none is made when `maxCapturesPerFrame = 0`; every optional capture was admitted by a budget
check made when fewer than the maximum had been done and, unless `captureBudgetMs` is 0 or
less (no time limit, no clock reading), the time elapsed since the start of the pass, as
the `float` count of milliseconds that line 1756 computes from the nanosecond count
(`elapsedMsFloat`), was below `captureBudgetMs`, so that the exact elapsed time was below
`captureBudgetMs` times `1 + 2^-22`; the check refuses once that `float` has
reached a positive `captureBudgetMs`; and a pass that reaches the scheduler renders at most
once per optional capture plus once for the forced capture. -/
theorem C18_capture_budget (cfg : HorzaConfig) (h : Host) (s : COverview) :
    ∃ r, onPreRender cfg h s = some r ∧
      (r.pending.length : Int) + (if r.live.isSome then 1 else 0) ≤
        max 0 cfg.maxCapturesPerFrame ∧
      (cfg.maxCapturesPerFrame = 0 → r.pending = [] ∧ r.live = none) ∧
      (∀ c, c ∈ r.pending ∨ r.live = some c →
        c.countBefore < max 0 cfg.maxCapturesPerFrame ∧
          match c.elapsed with
          | none => max 0 cfg.captureBudgetMs ≤ 0
          | some e => 0 < max 0 cfg.captureBudgetMs ∧
              elapsedMsFloat e < max 0 cfg.captureBudgetMs ∧
              ((e : ℚ)) / ticksPerMs < max 0 cfg.captureBudgetMs * (1 + 1 / 2 ^ 22)) ∧
      (∀ (start count : Int) (s2 : COverview), 0 < max 0 cfg.captureBudgetMs →
        max 0 cfg.captureBudgetMs ≤ elapsedMsFloat (h.clock s2.ticks - start) →
        (canDoOptionalCapture cfg h start count s2).1 = false) ∧
      (∀ s1, preRenderHead cfg h s = Sum.inr s1 →
        r.state.calls.length ≤ s1.calls.length + r.pending.length +
          (if r.live.isSome then 1 else 0) + (if r.forced then 1 else 0)) := by
  have hrefuse : ∀ (start count : Int) (s2 : COverview), 0 < max 0 cfg.captureBudgetMs →
      max 0 cfg.captureBudgetMs ≤ elapsedMsFloat (h.clock s2.ticks - start) →
      (canDoOptionalCapture cfg h start count s2).1 = false := by
    intro start count s2 hb he
    unfold canDoOptionalCapture
    split_ifs with h1 h2
    · rfl
    · exact absurd h2 (not_le.mpr hb)
    · exact decide_eq_false (not_lt.mpr he)
  have hzero : ∀ r : PreRenderResult,
      (r.pending.length : Int) + (if r.live.isSome then 1 else 0) ≤
        max 0 cfg.maxCapturesPerFrame →
      cfg.maxCapturesPerFrame = 0 → r.pending = [] ∧ r.live = none := by
    intro r hle hm
    rw [hm] at hle
    simp only [max_self] at hle
    cases hl : r.live with
    | none =>
        rw [hl] at hle
        simp only [Option.isSome_none, Bool.false_eq_true, if_false, add_zero] at hle
        exact ⟨List.length_eq_zero.mp (by omega), rfl⟩
    | some c =>
        rw [hl] at hle
        simp only [Option.isSome_some, if_true] at hle
        omega
  have hup : ∀ c : OptionalCapture,
      (c.countBefore < max 0 cfg.maxCapturesPerFrame ∧
        match c.elapsed with
        | none => max 0 cfg.captureBudgetMs ≤ 0
        | some e => 0 < max 0 cfg.captureBudgetMs ∧
            elapsedMsFloat e < max 0 cfg.captureBudgetMs) →
      (c.countBefore < max 0 cfg.maxCapturesPerFrame ∧
        match c.elapsed with
        | none => max 0 cfg.captureBudgetMs ≤ 0
        | some e => 0 < max 0 cfg.captureBudgetMs ∧
            elapsedMsFloat e < max 0 cfg.captureBudgetMs ∧
            ((e : ℚ)) / ticksPerMs < max 0 cfg.captureBudgetMs * (1 + 1 / 2 ^ 22)) := by
    intro c hc
    obtain ⟨h1, h2⟩ := hc
    refine ⟨h1, ?_⟩
    cases hce : c.elapsed with
    | none => rw [hce] at h2; exact h2
    | some e =>
        rw [hce] at h2
        exact ⟨h2.1, h2.2, elapsedMsFloat_lt h2.1 h2.2⟩
  cases hh : preRenderHead cfg h s with
  | inl r0 =>
      obtain ⟨a1, a2, _⟩ := preRenderHead_inl hh
      have hle : (r0.pending.length : Int) + (if r0.live.isSome then 1 else 0) ≤
          max 0 cfg.maxCapturesPerFrame := by
        rw [a1, a2]; simp
      refine ⟨r0, by unfold onPreRender; rw [hh], hle, hzero r0 hle, ?_, hrefuse, ?_⟩
      · intro c hc
        rw [a1, a2] at hc
        rcases hc with hc | hc
        · exact absurd hc (by simp)
        · exact absurd hc (by simp)
      · intro s1 hs1; exact absurd hs1 (by simp)
  | inr s1 =>
      obtain ⟨r, hr, b1, b2, b3⟩ := schedulerPass_budget cfg h s1
      refine ⟨r, by rw [onPreRender_inr hh, hr], b1, hzero r b1, fun c hc => hup c (b2 c hc),
        hrefuse, ?_⟩
      intro s2 hs2
      simp only [Sum.inr.injEq] at hs2
      rw [← hs2]
      exact b3

/-- Counterexample to C20 as stated: the sample session is active (not closing, opening
animation over) with `damageDirty` and `pendingCapture` set; the tick captures the pending
tile 0 and returns, so the current tile 1 is not captured in this pass and `damageDirty`
stays set. -/
theorem C20_counterexample :
    sampleDirtySession.closing = false ∧
      openingAnimInProgress {} sampleDirtySession = false ∧
      sampleDirtySession.damageDirty = true ∧ sampleDirtySession.currentIdx = 1 ∧
      (onPreRender {} (sampleHost [1, 2, 3] 2 {}) sampleDirtySession).map
          (fun r => (r.state.damageDirty, r.forced, r.pending.map (fun c => c.idx),
            r.state.calls)) =
        some (true, false, [0], [HostCall.renderWorkspace 0 (some (sampleWs 1))]) := by
  refine ⟨rfl, ?_, rfl, rfl, ?_⟩ <;> with_unfolding_all decide

/-- C20 (amended). In a scheduler pass of an active session with a live monitor and a valid
current index in which `damageDirty` is set: if the pending loop captures nothing - which is
the case when `pendingCapture` is clear, when `maxCapturesPerFrame <= 0`, or when no
uncaptured tile is on screen - then the current tile is captured in that same pass (marked
captured, its cached image dropped, and rendered when the monitor has a positive pixel
size) and `damageDirty` is cleared, whatever `maxCapturesPerFrame` and `captureBudgetMs`
are; if the pending loop does capture, the pass returns after it with `damageDirty` still
set and without the forced capture. -/
theorem C20_forced_capture (cfg : HorzaConfig) (h : Host) (mon : CMonitor) (s1 : COverview)
    (hm : h.monitor = some mon) (hv : ValidIdx s1) (hd : s1.damageDirty = true) :
    ∃ r, schedulerPass cfg h s1 = some r ∧
      (∀ s, preRenderHead cfg h s = Sum.inr s1 → onPreRender cfg h s = some r) ∧
      ((s1.pendingCapture = false ∨ cfg.maxCapturesPerFrame ≤ 0 ∨
          ∀ j t, tileAt s1.images j = some t →
            ¬ (t.captured = false ∧ isTileOnScreen h t.displayBox = true)) →
        r.pending = []) ∧
      (r.pending = [] →
        r.forced = true ∧ r.live = none ∧ r.state.damageDirty = false ∧
          (∃ u, tileAt r.state.images s1.currentIdx = some u ∧ u.captured = true ∧
            u.cachedTex = none) ∧
          (0 < mon.m_pixelSize.x ∧ 0 < mon.m_pixelSize.y →
            r.state.calls = s1.calls ++ [HostCall.renderWorkspace s1.currentIdx
              ((tileAt s1.images s1.currentIdx).bind (fun t => t.pWorkspace))])) ∧
      (r.pending ≠ [] → r.forced = false ∧ r.state.damageDirty = true) := by
  obtain ⟨p, hp, _, p3, p4, _, p6, p7, p8, _, _⟩ := schedulerPass_some cfg h s1
  refine ⟨_, hp, fun s hs => by rw [onPreRender_inr hs, hp],
    fun hc => schedulerPass_no_pending hc hp, ?_, ?_⟩
  · intro hlog
    rw [schedulerTail_pending] at hlog
    obtain ⟨a1, a2, a3⟩ := p3 hlog
    rw [schedulerTail_forced a1 (by rw [p8]; exact hd)]
    obtain ⟨k1, _, _, _⟩ := captureAndMark_fields h { p.s with damageDirty := false }
      p.s.currentIdx
    obtain ⟨t, ht⟩ := tileAt_of_valid hv.1 hv.2
    have ht2 : tileAt ({ p.s with damageDirty := false } : COverview).images p.s.currentIdx =
        some t := by
      show tileAt p.s.images p.s.currentIdx = some t
      rw [a2, p6]; exact ht
    obtain ⟨u, hu, hu1, hu2, _⟩ :=
      (captureAndMark_tileAt h { p.s with damageDirty := false } p.s.currentIdx).2 t ht2
    refine ⟨rfl, rfl, k1, ⟨u, ?_, hu1, hu2⟩, ?_⟩
    · rw [← p6]; exact hu
    · intro hpx
      have hi : 0 ≤ p.s.currentIdx ∧
          p.s.currentIdx < ({ p.s with damageDirty := false } : COverview).size := by
        have : ({ p.s with damageDirty := false } : COverview).size = p.s.size := rfl
        rw [this, p6, p7]; exact hv
      have := captureAndMark_renders (s := { p.s with damageDirty := false }) hm hi hpx
      show (captureAndMark h { p.s with damageDirty := false } p.s.currentIdx).calls = _
      rw [this]
      show p.s.calls ++ [HostCall.renderWorkspace p.s.currentIdx
        ((tileAt p.s.images p.s.currentIdx).bind (fun t => t.pWorkspace))] = _
      rw [a2, a3, p6]
  · intro hlog
    rw [schedulerTail_pending] at hlog
    rw [schedulerTail_captured (p4 hlog).1]
    refine ⟨rfl, ?_⟩
    show p.s.damageDirty = true
    rw [p8]; exact hd

/-- Witness for C20: the sample session with `damageDirty` set and no pending capture; the
pass makes the forced capture of the current tile. -/
theorem C20_forced_capture_witness :
    ∃ r, schedulerPass {} (sampleHost [1, 2, 3] 2 {})
        { sampleSession with damageDirty := true } = some r ∧
      r.forced = true ∧ r.state.damageDirty = false :=
  match C20_forced_capture {} (sampleHost [1, 2, 3] 2 {}) (sampleMonitor 2)
    { sampleSession with damageDirty := true } rfl ⟨by decide, by decide⟩ rfl with
  | ⟨r, hr, _, h3, h4, _⟩ =>
      ⟨r, hr, (h4 (h3 (Or.inl rfl))).1, (h4 (h3 (Or.inl rfl))).2.2.1⟩

/-- C23. For every closing session with a live monitor whose `closeStartedAt` is set (as
`close()` leaves it), an `onPreRender` tick whose clock reading `now` satisfies
`now - closeStartedAt >= 900 ms` schedules the drop: `closeDropScheduled` is true afterwards,
whatever the state of the scale animation and of the final crossfade, and the session stays
closing. -/
theorem C23_hard_close_timeout (cfg : HorzaConfig) (h : Host) (mon : CMonitor) (s : COverview)
    (hm : h.monitor = some mon) (hc : s.closing = true) (h0 : s.closeStartedAt ≠ 0)
    (ht : (((h.clock s.ticks - s.closeStartedAt : Int) : ℚ)) / ticksPerMs ≥ 900) :
    ∃ r, onPreRender cfg h s = some r ∧ r.state.closeDropScheduled = true ∧
      r.state.closing = true := by
  have hsync := preRenderSync_closing cfg h { s with passQueuedThisFrame := false } hc
  obtain ⟨t1, t2⟩ := closingTick_timeout cfg h { s with passQueuedThisFrame := false }
  unfold onPreRender preRenderHead
  rw [hm]
  dsimp only
  rw [hsync]
  dsimp only
  rw [if_neg (by simp)]
  by_cases hi : indexInvalid { s with passQueuedThisFrame := false } = true
  · rw [if_pos hi]
    refine ⟨_, rfl, scheduleCloseDrop_scheduled _, ?_⟩
    show (scheduleCloseDrop { s with passQueuedThisFrame := false }).closing = true
    rw [(scheduleCloseDrop_fields _).1]
    exact hc
  · rw [if_neg hi, if_pos hc]
    exact ⟨_, rfl, t2 h0 ht, t1.trans hc⟩

/-- Witness for C23: the sample session, closed at tick 1 ms and asked to render when the
clock reads 901 ms, with the scale animation still running. -/
theorem C23_hard_close_timeout_witness :
    ∃ r, onPreRender {} (sampleHost [1, 2, 3] 2 {})
        sampleClosingSession = some r ∧
      r.state.closeDropScheduled = true ∧ r.state.closing = true :=
  C23_hard_close_timeout {} (sampleHost [1, 2, 3] 2 {}) (sampleMonitor 2)
    sampleClosingSession rfl rfl (by decide)
    (by norm_num [sampleHost, sampleClosingSession, sampleSession, ticksPerMs])

/-- C29. For every session state with `closing = true`, `close()` changes no field: the
state after it is the state before it (so `closeStartedAt`, `closeAnimFinishedAt`, the
handoff and crossfade flags, `closeDropScheduled` and the drop timer are retained).
Symmetrically `reopen()` returns the state unchanged when `closing = false`. -/
theorem C29_close_idempotent (cfg : HorzaConfig) (h : Host) (s : COverview) :
    (s.closing = true →
        close h s = s ∧ close h (close h s) = close h s ∧
          (close h s).closeStartedAt = s.closeStartedAt ∧
          (close h s).closeDropScheduled = s.closeDropScheduled ∧
          (close h s).closeDropTimer = s.closeDropTimer) ∧
      (s.closing = false → reopen cfg s = s) ∧
      close h (close h s) = close h s := by
  have hclose : ∀ x : COverview, x.closing = true → close h x = x := by
    intro x hx
    rw [close_eq, if_pos hx]
  refine ⟨fun hc => ?_, fun hc => ?_, hclose _ (close_fields h s).1⟩
  · have := hclose s hc
    rw [this]
    exact ⟨rfl, this, rfl, rfl, rfl⟩
  · unfold reopen
    rw [if_pos (by rw [hc]; rfl)]

/-- C26. While the closing handoff is active (and the scale variable exists),
`computeCloseOverlayAlpha()` maps the scale to
`t = clamp((clamp(scale, start, 1) - start) / max(0.001, 1 - start), 0, 1)`, applies
`t2 = 1 - (1 - t)^2` for the `ease_out` curve (`t2 = t` otherwise) and returns
`1 - (1 - minAlpha) * t2`, where `start` and `minAlpha` are the configured values clamped to
`[0, 0.999]` and `[0, 1]`; the result lies in `[minAlpha, 1]`, is 1 at `scale <= start`, is
`minAlpha` at `scale >= 1`, and does not increase with the scale.  When the handoff is not
active it returns exactly 1. -/
theorem C26_handoff_overlay_alpha (cfg : HorzaConfig) (s : COverview) (sc : AnimVar)
    (hsc : s.m_scale = some sc) (ha : closingHandoffActive cfg s = true) :
    fadeProgress cfg sc.value =
        clampQ ((clampQ sc.value (fadeStart cfg) 1 - fadeStart cfg) /
          max (1 / 1000) (1 - fadeStart cfg)) 0 1 ∧
      computeCloseOverlayAlpha cfg s =
        1 - (1 - fadeMinAlpha cfg) *
          (if normalizeHorzaToken cfg.asyncCloseFadeCurve = "ease_out"
            then 1 - (1 - fadeProgress cfg sc.value) * (1 - fadeProgress cfg sc.value)
            else fadeProgress cfg sc.value) ∧
      fadeMinAlpha cfg ≤ computeCloseOverlayAlpha cfg s ∧
      computeCloseOverlayAlpha cfg s ≤ 1 ∧
      (sc.value ≤ fadeStart cfg → computeCloseOverlayAlpha cfg s = 1) ∧
      (1 ≤ sc.value → computeCloseOverlayAlpha cfg s = fadeMinAlpha cfg) ∧
      (∀ sc2 : AnimVar, sc.value ≤ sc2.value →
        computeCloseOverlayAlpha cfg { s with m_scale := some sc2 } ≤
          computeCloseOverlayAlpha cfg s) ∧
      ∀ s2 : COverview, closingHandoffActive cfg s2 = false →
        computeCloseOverlayAlpha cfg s2 = 1 := by
  have hval := computeCloseOverlayAlpha_active hsc ha
  have hp := fadeProgress_mem cfg sc.value
  have hc := fadeCurve_mem cfg hp.1 hp.2
  have hm := fadeMinAlpha_mem cfg
  refine ⟨rfl, hval, ?_, ?_, ?_, ?_, ?_, ?_⟩
  · rw [hval]
    nlinarith [mul_nonneg (sub_nonneg.mpr hm.2) (sub_nonneg.mpr hc.2)]
  · rw [hval]
    nlinarith [mul_nonneg (sub_nonneg.mpr hm.2) hc.1]
  · intro hlow
    rw [hval, fadeProgress_low cfg hlow, (fadeCurve_ends cfg).1]
    ring
  · intro hhigh
    rw [hval, fadeProgress_high cfg hhigh, (fadeCurve_ends cfg).2]
    ring
  · intro sc2 hle
    have hval2 : computeCloseOverlayAlpha cfg { s with m_scale := some sc2 } =
        1 - (1 - fadeMinAlpha cfg) * fadeCurve cfg (fadeProgress cfg sc2.value) :=
      computeCloseOverlayAlpha_active (s := { s with m_scale := some sc2 }) rfl ha
    rw [hval, hval2]
    have hmono := fadeCurve_mono cfg (fadeProgress_mono cfg hle) (fadeProgress_mem cfg sc2.value).2
    nlinarith [mul_nonneg (sub_nonneg.mpr hm.2) (sub_nonneg.mpr hmono)]
  · intro s2 hn
    unfold computeCloseOverlayAlpha
    split
    · rfl
    · rw [if_pos (by rw [hn]; rfl)]

/-- Witness for C26: a closing session in handoff under the default curve (`ease_out`, fade
start 0.88, minimum alpha 0) at scale 0.94, half way through the fade: alpha 1/4. -/
theorem C26_handoff_overlay_alpha_witness :
    computeCloseOverlayAlpha { asyncCloseHandoff := true }
        { sampleSession with closing := true, handoffActive := true,
                             m_scale := some ⟨94 / 100, 1, true⟩ } = 1 / 4 :=
  ((C26_handoff_overlay_alpha { asyncCloseHandoff := true }
      { sampleSession with closing := true, handoffActive := true,
                           m_scale := some ⟨94 / 100, 1, true⟩ }
      ⟨94 / 100, 1, true⟩ rfl rfl).2.1).trans (by
        rw [if_pos normalize_ease_out]
        norm_num [fadeProgress, fadeStart, fadeMinAlpha, clampQ])

/-- C25. With a live monitor, a left-button release delivered by the `mouseButton` hook while
no drag is in progress leaves the session closing, whether the release point is outside all
tiles or inside one; the tiles are untouched; a release outside all tiles calls nothing on
the host; and when the release point is inside a tile with a workspace, that workspace is
activated (a `workspace` dispatch is recorded, before the focus of the window under the
pointer, if any) exactly when it is not already the monitor's active workspace. -/
theorem C25_release_closes (h : Host) (mon : CMonitor) (s : COverview)
    (hm : h.monitor = some mon) (hnd : s.draggingWindow = false) :
    (mouseButtonHook h s (some ⟨BTN_LEFT, 0⟩)).closing = true ∧
      (mouseButtonHook h s (some ⟨BTN_LEFT, 0⟩)).images = s.images ∧
      (s.closing = false →
        ∀ pos : Vector2D,
          pos = { x := h.mouseCoords.x - mon.m_position.x,
                  y := h.mouseCoords.y - mon.m_position.y } →
          (hitTileIndex s pos = -1 →
            (mouseButtonHook h s (some ⟨BTN_LEFT, 0⟩)).calls = s.calls) ∧
          ∀ tile ws, tileAt s.images (hitTileIndex s pos) = some tile →
            tile.pWorkspace = some ws →
            ∃ focus : List HostCall,
              (focus = [] ∨ ∃ w, focus = [HostCall.fullWindowFocus w]) ∧
              (mon.m_activeWorkspace ≠ some ws →
                (mouseButtonHook h s (some ⟨BTN_LEFT, 0⟩)).calls =
                  s.calls ++ HostCall.dispatchWorkspace ws.m_id :: focus) ∧
              (mon.m_activeWorkspace = some ws →
                (mouseButtonHook h s (some ⟨BTN_LEFT, 0⟩)).calls = s.calls ++ focus)) := by
  by_cases hc : s.closing = true
  · have : mouseButtonHook h s (some ⟨BTN_LEFT, 0⟩) = s := by
      unfold mouseButtonHook
      rw [if_pos hc]
    rw [this]
    exact ⟨hc, rfl, fun hcf => absurd hc (by rw [hcf]; simp)⟩
  · have hcf : s.closing = false := by simpa using hc
    rw [hook_release h s mon hm hcf]
    obtain ⟨r1, r2, r3, r4⟩ := released_no_drag h mon { s with lastMousePosLocal :=
      { x := h.mouseCoords.x - mon.m_position.x, y := h.mouseCoords.y - mon.m_position.y } } hnd
    refine ⟨r1, r2, fun _ pos hpos => ?_⟩
    subst hpos
    exact ⟨r3, r4⟩

/-- Witness for C25: on the sample session a release at the centre of the screen, inside the
tile of the active workspace 2, closes the session; the window under the pointer is
focused. -/
theorem C25_release_closes_witness :
    (mouseButtonHook (sampleHost [1, 2, 3] 2 ⟨960, 540⟩) sampleSession
        (some ⟨BTN_LEFT, 0⟩)).closing = true ∧
      (mouseButtonHook (sampleHost [1, 2, 3] 2 ⟨960, 540⟩) sampleSession
        (some ⟨BTN_LEFT, 0⟩)).images = sampleSession.images :=
  ⟨(C25_release_closes (sampleHost [1, 2, 3] 2 ⟨960, 540⟩) (sampleMonitor 2) sampleSession
      rfl rfl).1,
    (C25_release_closes (sampleHost [1, 2, 3] 2 ⟨960, 540⟩) (sampleMonitor 2) sampleSession
      rfl rfl).2.1⟩

/-- C24: a left-button release that ends a drag of the grabbed window `win` over a target
tile (the tile under the pointer, or the last drag target when the pointer is over none)
whose workspace `dst` is not the window's workspace moves the window there, invalidates the
source tile and the target tile (`captured = false`, no cached image, title cache cleared),
leaves every other tile as it was, raises `workspaceListDirty`, `damageDirty` and
`pendingCapture`, clears the drag state, and does not put the session into closing. -/
theorem C24_drag_release_moves_window (h : Host) (mon : CMonitor) (s : COverview)
    (win : CWindow) (dst : CWorkspace) (pos : Vector2D) (tgt : Int)
    (hm : h.monitor = some mon) (hnc : s.closing = false)
    (hd : s.draggingWindow = true) (hw : s.dragWindow = some win)
    (hpos : pos = { x := h.mouseCoords.x - mon.m_position.x,
                    y := h.mouseCoords.y - mon.m_position.y })
    (htgt : tgt = if hitTileIndex s pos = -1 then s.dragTargetIdx else hitTileIndex s pos)
    (ht : (tileAt s.images tgt).bind (fun t => t.pWorkspace) = some dst)
    (hne : win.m_workspace ≠ some dst) :
    (∃ t, tileAt s.images tgt = some t ∧
        tileAt (mouseButtonHook h s (some ⟨BTN_LEFT, 0⟩)).images tgt =
          some (invalidateTile t)) ∧
      (∀ t, tileAt s.images s.dragSourceIdx = some t →
        tileAt (mouseButtonHook h s (some ⟨BTN_LEFT, 0⟩)).images s.dragSourceIdx =
          some (invalidateTile t)) ∧
      (∀ t, (invalidateTile t).captured = false ∧ (invalidateTile t).cachedTex = none ∧
        (invalidateTile t).titleTex = none ∧ (invalidateTile t).titleTextCached = "" ∧
        (invalidateTile t).pWorkspace = t.pWorkspace) ∧
      (∀ j, j ≠ s.dragSourceIdx → j ≠ tgt →
        tileAt (mouseButtonHook h s (some ⟨BTN_LEFT, 0⟩)).images j = tileAt s.images j) ∧
      (mouseButtonHook h s (some ⟨BTN_LEFT, 0⟩)).size = s.size ∧
      (mouseButtonHook h s (some ⟨BTN_LEFT, 0⟩)).workspaceListDirty = true ∧
      (mouseButtonHook h s (some ⟨BTN_LEFT, 0⟩)).damageDirty = true ∧
      (mouseButtonHook h s (some ⟨BTN_LEFT, 0⟩)).pendingCapture = true ∧
      (mouseButtonHook h s (some ⟨BTN_LEFT, 0⟩)).leftButtonDown = false ∧
      (mouseButtonHook h s (some ⟨BTN_LEFT, 0⟩)).draggingWindow = false ∧
      (mouseButtonHook h s (some ⟨BTN_LEFT, 0⟩)).dragSourceIdx = -1 ∧
      (mouseButtonHook h s (some ⟨BTN_LEFT, 0⟩)).dragTargetIdx = -1 ∧
      (mouseButtonHook h s (some ⟨BTN_LEFT, 0⟩)).dragWindow = none ∧
      (mouseButtonHook h s (some ⟨BTN_LEFT, 0⟩)).closing = false ∧
      (mouseButtonHook h s (some ⟨BTN_LEFT, 0⟩)).currentIdx = s.currentIdx ∧
      (mouseButtonHook h s (some ⟨BTN_LEFT, 0⟩)).calls =
        s.calls ++ [HostCall.moveWindowToWorkspaceSafe win dst] := by
  have ex : ∃ t, tileAt s.images tgt = some t := by
    cases hx : tileAt s.images tgt with
    | none => rw [hx] at ht; exact absurd ht (by simp)
    | some t => exact ⟨t, rfl⟩
  subst hpos
  rw [hook_release h s mon hm hnc]
  obtain ⟨t0, hx⟩ := ex
  obtain ⟨q1, q2, q3, q4, q5, q6, q7, q8, q9, q10, q11, q12, q13⟩ :=
    released_drag h mon { s with lastMousePosLocal :=
      { x := h.mouseCoords.x - mon.m_position.x, y := h.mouseCoords.y - mon.m_position.y } }
      win dst tgt hd hw htgt ht hne
  refine ⟨⟨t0, hx, ?_⟩, fun t hs => ?_, fun t => ⟨rfl, rfl, rfl, rfl, rfl⟩, fun j h1 h2 => ?_,
    q2, q3, q4, q5, q9, q10, q11, q12, q13, q6.trans hnc, q8, q7⟩
  · refine (q1 tgt).trans ?_
    rw [if_pos (Or.inr rfl)]
    exact congrArg (Option.map invalidateTile) hx
  · refine (q1 s.dragSourceIdx).trans ?_
    rw [if_pos (Or.inl rfl)]
    exact congrArg (Option.map invalidateTile) hs
  · refine (q1 j).trans ?_
    rw [if_neg (by rintro (e | e); exact h1 e; exact h2 e)]

/-- Witness for C24: on the sample drag session (the window of workspace 2 grabbed on the
centre tile) a release over the tile of workspace 3 marks the workspace list dirty and
leaves the session open with no drag. -/
theorem C24_drag_release_moves_window_witness :
    (mouseButtonHook (sampleHost [1, 2, 3] 2 ⟨1800, 540⟩) sampleDragSession
        (some ⟨BTN_LEFT, 0⟩)).workspaceListDirty = true ∧
      (mouseButtonHook (sampleHost [1, 2, 3] 2 ⟨1800, 540⟩) sampleDragSession
        (some ⟨BTN_LEFT, 0⟩)).closing = false ∧
      tileAt (mouseButtonHook (sampleHost [1, 2, 3] 2 ⟨1800, 540⟩) sampleDragSession
        (some ⟨BTN_LEFT, 0⟩)).images 1 = (tileAt sampleDragSession.images 1).map invalidateTile :=
  have key := C24_drag_release_moves_window (sampleHost [1, 2, 3] 2 ⟨1800, 540⟩)
    (sampleMonitor 2) sampleDragSession sampleWindow (sampleWs 3) ⟨1800, 540⟩ 2 rfl rfl rfl rfl
    (by with_unfolding_all decide) (by with_unfolding_all decide) (by with_unfolding_all decide)
    (by decide)
  ⟨key.2.2.2.2.2.1, key.2.2.2.2.2.2.2.2.2.2.2.2.2.1, key.2.1 _ rfl⟩

/-- C30: a left-button press that lands outside every tile, or on a tile whose workspace
yields no window (none under the pointer, and the last-focused-or-first window of the
workspace, if any, does not belong to it), leaves `dragWindow` empty; after it, any sequence
of pointer moves, each with an arbitrary host snapshot (any pointer position), keeps
`draggingWindow` false and changes neither `currentIdx` nor `dragTargetIdx`, nor the tiles,
nor the host calls. -/
theorem C30_press_without_window_never_drags (cfg : HorzaConfig) (h : Host) (mon : CMonitor)
    (s : COverview) (pos : Vector2D) (hm : h.monitor = some mon) (hnc : s.closing = false)
    (hpos : pos = { x := h.mouseCoords.x - mon.m_position.x,
                    y := h.mouseCoords.y - mon.m_position.y })
    (hno : hitTileIndex s pos = -1 ∨
      ∀ tile, tileAt s.images (hitTileIndex s pos) = some tile →
        pickWindowInWorkspace h tile.pWorkspace
            (tileLocalToWorkspacePos h tile.displayBox pos) = none ∧
          ∀ ws win, tile.pWorkspace = some ws →
            (h.lastFocusedWindow ws).orElse (fun _ => h.firstWindow ws) = some win →
            win.m_workspace ≠ some ws) :
    (mouseButtonHook h s (some ⟨BTN_LEFT, 1⟩)).dragWindow = none ∧
      (mouseButtonHook h s (some ⟨BTN_LEFT, 1⟩)).draggingWindow = false ∧
      (mouseButtonHook h s (some ⟨BTN_LEFT, 1⟩)).leftButtonDown = true ∧
      (mouseButtonHook h s (some ⟨BTN_LEFT, 1⟩)).currentIdx = s.currentIdx ∧
      (mouseButtonHook h s (some ⟨BTN_LEFT, 1⟩)).dragTargetIdx = hitTileIndex s pos ∧
      ∀ moves : List Host,
        (moves.foldl (fun st hh => onMouseMove cfg hh st)
            (mouseButtonHook h s (some ⟨BTN_LEFT, 1⟩))).draggingWindow = false ∧
          (moves.foldl (fun st hh => onMouseMove cfg hh st)
            (mouseButtonHook h s (some ⟨BTN_LEFT, 1⟩))).dragWindow = none ∧
          (moves.foldl (fun st hh => onMouseMove cfg hh st)
            (mouseButtonHook h s (some ⟨BTN_LEFT, 1⟩))).currentIdx = s.currentIdx ∧
          (moves.foldl (fun st hh => onMouseMove cfg hh st)
            (mouseButtonHook h s (some ⟨BTN_LEFT, 1⟩))).dragTargetIdx = hitTileIndex s pos ∧
          (moves.foldl (fun st hh => onMouseMove cfg hh st)
            (mouseButtonHook h s (some ⟨BTN_LEFT, 1⟩))).images = s.images ∧
          (moves.foldl (fun st hh => onMouseMove cfg hh st)
            (mouseButtonHook h s (some ⟨BTN_LEFT, 1⟩))).calls = s.calls := by
  subst hpos
  obtain ⟨p1, p2, p3⟩ := pressed_no_window h mon { s with lastMousePosLocal :=
    { x := h.mouseCoords.x - mon.m_position.x, y := h.mouseCoords.y - mon.m_position.y } } hno
  obtain ⟨f1, f2, _, f4, _, _⟩ := pressed_fields h mon { s with lastMousePosLocal :=
    { x := h.mouseCoords.x - mon.m_position.x, y := h.mouseCoords.y - mon.m_position.y } }
  have fc : (onButtonPressed h mon { s with lastMousePosLocal :=
      { x := h.mouseCoords.x - mon.m_position.x,
        y := h.mouseCoords.y - mon.m_position.y } }).calls = s.calls := by
    unfold onButtonPressed
    dsimp only
    split
    · rfl
    · split <;> rfl
  rw [hook_press h s mon hm hnc]
  refine ⟨p1, f2, f1, p2, p3, fun moves => ?_⟩
  obtain ⟨m1, m2, m3, m4, _, _, _, m8, m9⟩ := moves_no_window cfg moves _ p1
  exact ⟨m2.trans f2, m1, m3.trans p2, m4.trans p3, m8.trans f4, m9.trans fc⟩

/-- Witness for C30: on the sample session a press above every tile grabs nothing, and two
moves that end 840 pixels away from the press point, over the tile of workspace 3, start no
drag. -/
theorem C30_press_without_window_never_drags_witness :
    ([sampleHost [1, 2, 3] 2 ⟨1000, 300⟩, sampleHost [1, 2, 3] 2 ⟨1800, 540⟩].foldl
        (fun st hh => onMouseMove ({} : HorzaConfig) hh st)
        (mouseButtonHook (sampleHost [1, 2, 3] 2 ⟨960, 50⟩) sampleSession
          (some ⟨BTN_LEFT, 1⟩))).draggingWindow = false ∧
      ([sampleHost [1, 2, 3] 2 ⟨1000, 300⟩, sampleHost [1, 2, 3] 2 ⟨1800, 540⟩].foldl
        (fun st hh => onMouseMove ({} : HorzaConfig) hh st)
        (mouseButtonHook (sampleHost [1, 2, 3] 2 ⟨960, 50⟩) sampleSession
          (some ⟨BTN_LEFT, 1⟩))).currentIdx = 1 :=
  have key := (C30_press_without_window_never_drags ({} : HorzaConfig)
    (sampleHost [1, 2, 3] 2 ⟨960, 50⟩) (sampleMonitor 2) sampleSession ⟨960, 50⟩ rfl rfl
    (by with_unfolding_all decide) (Or.inl (by with_unfolding_all decide))).2.2.2.2.2
    [sampleHost [1, 2, 3] 2 ⟨1000, 300⟩, sampleHost [1, 2, 3] 2 ⟨1800, 540⟩]
  ⟨key.1, key.2.2.1⟩

/-- Counterexample to C28 as stated: with the default configuration (TTL 1.5 s) the cache
holds a fresh entry for workspace 1 and an entry for workspace 2 cached 2 s ago; the restore
of workspace 1 succeeds, and the prune it runs first has erased the entry of workspace 2, so
not every other entry is unchanged. -/
theorem C28_counterexample :
    restoreWorkspaceTileFromCache {} 2000000000 2000000000
        [(⟨0, 1⟩, ⟨some ⟨7, ⟨4, 3⟩⟩, 5, 1900000000⟩), (⟨0, 2⟩, ⟨some ⟨8, ⟨4, 3⟩⟩, 6, 100⟩)]
        0 1 none 0 =
      ⟨true, some ⟨7, ⟨4, 3⟩⟩, 5, [(⟨0, 1⟩, ⟨some ⟨7, ⟨4, 3⟩⟩, 5, 2000000000⟩)]⟩ := by
  decide!

/-- C28, amended: a successful `restoreWorkspaceTileFromCache` with clock readings `t1` (the
prune it runs first) and `t2` hands out the image and `capturedAt` of the entry found, and
leaves the pruned cache with that entry's `cachedAt` set to `t2`, its image and `capturedAt`
and every other entry of the pruned cache unchanged; when no entry is dead or expired and
the count bound holds, the prune erases nothing and this is the cache before the call.
Whenever a later trim evicts the restored entry, every entry of the trimmed cache with an
earlier `cachedAt` (cached or restored at an earlier clock reading) was evicted before it. -/
theorem C28_restore_refreshes_age (cfg : HorzaConfig) (t1 t2 : Int) (m : TileCache)
    (mon ws : Int) (outTex : Option CTexture) (outCap : Int)
    (hok : (restoreWorkspaceTileFromCache cfg t1 t2 m mon ws outTex outCap).ok = true) :
    ∃ i e, cacheFind (pruneWorkspaceTileCache cfg t1 m) ⟨mon, ws⟩ = some (i, e) ∧
      (⟨mon, ws⟩, e) ∈ m ∧
      (restoreWorkspaceTileFromCache cfg t1 t2 m mon ws outTex outCap).outTex = e.tex ∧
      (restoreWorkspaceTileFromCache cfg t1 t2 m mon ws outTex outCap).outCapturedAt =
        e.capturedAt ∧
      (restoreWorkspaceTileFromCache cfg t1 t2 m mon ws outTex outCap).cache =
        (pruneWorkspaceTileCache cfg t1 m).set i
          (⟨mon, ws⟩, { tex := e.tex, capturedAt := e.capturedAt, cachedAt := t2 }) ∧
      (restoreWorkspaceTileFromCache cfg t1 t2 m mon ws outTex outCap).cache[i]? =
        some (⟨mon, ws⟩, { tex := e.tex, capturedAt := e.capturedAt, cachedAt := t2 }) ∧
      (∀ j : Nat, j ≠ i →
        (restoreWorkspaceTileFromCache cfg t1 t2 m mon ws outTex outCap).cache[j]? =
          (pruneWorkspaceTileCache cfg t1 m)[j]?) ∧
      ((∀ p ∈ m, Fresh cfg t1 p) → (m.length : Int) ≤ max 0 cfg.cacheMaxEntries →
        (restoreWorkspaceTileFromCache cfg t1 t2 m mon ws outTex outCap).cache =
          m.set i (⟨mon, ws⟩, { tex := e.tex, capturedAt := e.capturedAt, cachedAt := t2 })) ∧
      ∀ (M : Int) (fuel : Nat) (later l1 l2 : TileCache),
        trimEvicted M fuel later =
          l1 ++ (⟨mon, ws⟩, { tex := e.tex, capturedAt := e.capturedAt, cachedAt := t2 }) :: l2 →
        ∀ y ∈ later, y.2.cachedAt < t2 → y ∈ l1 := by
  obtain ⟨hen, i, e, hf, _, hr⟩ := restore_ok_spec hok
  have hget := cacheFind_some_getElem hf
  have hi : i < (pruneWorkspaceTileCache cfg t1 m).length := by
    by_contra hcon
    rw [List.getElem?_eq_none (by omega)] at hget
    exact absurd hget (by simp)
  refine ⟨i, e, hf, (prune_sublist cfg t1 m).subset (List.getElem?_mem hget), ?_, ?_, ?_, ?_,
    ?_, ?_, ?_⟩
  · rw [hr]
  · rw [hr]
  · rw [hr]
  · rw [hr]
    simp [hi]
  · intro j hj
    rw [hr]
    simp [List.getElem?_set, Ne.symm hj]
  · intro hfresh hlen
    rw [hr, prune_eq_self hen hfresh hlen]
  · intro M fuel later l1 l2 hx y hy hlt
    exact trimEvicted_before M fuel later l1 l2 _ y hx hy hlt

/-- Witness for C28: with no entry to prune, the restore of workspace 1 at clock reading 50
rewrites only the `cachedAt` of its entry. -/
theorem C28_restore_refreshes_age_witness :
    (restoreWorkspaceTileFromCache {} 40 50
        [(⟨0, 1⟩, ⟨some ⟨7, ⟨4, 3⟩⟩, 5, 5⟩), (⟨0, 2⟩, ⟨some ⟨8, ⟨4, 3⟩⟩, 6, 6⟩)]
        0 1 none 0).ok = true ∧
      ∃ i e, cacheFind (pruneWorkspaceTileCache {} 40
          [(⟨0, 1⟩, ⟨some ⟨7, ⟨4, 3⟩⟩, 5, 5⟩), (⟨0, 2⟩, ⟨some ⟨8, ⟨4, 3⟩⟩, 6, 6⟩)]) ⟨0, 1⟩ =
            some (i, e) ∧
        (restoreWorkspaceTileFromCache {} 40 50
          [(⟨0, 1⟩, ⟨some ⟨7, ⟨4, 3⟩⟩, 5, 5⟩), (⟨0, 2⟩, ⟨some ⟨8, ⟨4, 3⟩⟩, 6, 6⟩)]
          0 1 none 0).cache[i]? =
            some (⟨0, 1⟩, { tex := e.tex, capturedAt := e.capturedAt, cachedAt := 50 }) :=
  ⟨by with_unfolding_all decide,
    (C28_restore_refreshes_age {} 40 50
      [(⟨0, 1⟩, ⟨some ⟨7, ⟨4, 3⟩⟩, 5, 5⟩), (⟨0, 2⟩, ⟨some ⟨8, ⟨4, 3⟩⟩, 6, 6⟩)] 0 1 none 0
      (by with_unfolding_all decide)).imp
      (fun _ hi => hi.imp (fun _ he => ⟨he.1, he.2.2.2.2.2.1⟩))⟩

/-- C21: when `syncWorkspaces()` rebuilds the tile list (it returns true) to a non-empty
one, the new `currentIdx` is (a) the first position whose tile has the workspace id of the
previously centred workspace, if a tile has that id; else (b) the first position whose tile
has the id of the monitor's active workspace, if a tile has that id; else (c) the former
`currentIdx` clamped to `[0, len(images) - 1]`. -/
theorem C21_index_resolution (cfg : HorzaConfig) (h : Host) (s : COverview) (mon : CMonitor)
    (hm : h.monitor = some mon) (hr : (syncWorkspaces cfg h s).1 = true)
    (hne : (syncWorkspaces cfg h s).2.images ≠ []) :
    (∀ p, (tileAt s.images s.currentIdx).bind (fun t => t.pWorkspace) = some p →
        some p.m_id ∈ tileIds (syncWorkspaces cfg h s).2.images →
        ∃ n : Nat, (syncWorkspaces cfg h s).2.currentIdx = n ∧
          (tileIds (syncWorkspaces cfg h s).2.images)[n]? = some (some p.m_id) ∧
          ∀ k : Nat, k < n →
            (tileIds (syncWorkspaces cfg h s).2.images)[k]? ≠ some (some p.m_id)) ∧
      (∀ aw, mon.m_activeWorkspace = some aw →
        (∀ p, (tileAt s.images s.currentIdx).bind (fun t => t.pWorkspace) = some p →
          some p.m_id ∉ tileIds (syncWorkspaces cfg h s).2.images) →
        some aw.m_id ∈ tileIds (syncWorkspaces cfg h s).2.images →
        ∃ n : Nat, (syncWorkspaces cfg h s).2.currentIdx = n ∧
          (tileIds (syncWorkspaces cfg h s).2.images)[n]? = some (some aw.m_id) ∧
          ∀ k : Nat, k < n →
            (tileIds (syncWorkspaces cfg h s).2.images)[k]? ≠ some (some aw.m_id)) ∧
      ((∀ p, (tileAt s.images s.currentIdx).bind (fun t => t.pWorkspace) = some p →
          some p.m_id ∉ tileIds (syncWorkspaces cfg h s).2.images) →
        (∀ aw, mon.m_activeWorkspace = some aw →
          some aw.m_id ∉ tileIds (syncWorkspaces cfg h s).2.images) →
        (syncWorkspaces cfg h s).2.currentIdx =
          clampI s.currentIdx 0 (((syncWorkspaces cfg h s).2.images.length : Int) - 1)) := by
  have hchg : s.images.map (fun t => t.pWorkspace) ≠ (sortedWorkspaces h mon).map some := by
    intro hc
    have : syncWorkspaces cfg h s = (false, { s with workspaceListDirty := false }) := by
      unfold syncWorkspaces
      simp only [hm, hc, if_true]
    rw [this] at hr
    exact absurd hr (by simp)
  have hws : sortedWorkspaces h mon ≠ [] := by
    intro hnil
    have hw := sync_ws cfg h s mon hm
    rw [hnil] at hw
    exact hne (List.map_eq_nil_iff.1 hw)
  have himg : (syncWorkspaces cfg h s).2.images.map (fun t => t.pWorkspace) =
      (reconcile s.images (sortedWorkspaces h mon)).map (fun t => t.pWorkspace) :=
    (sync_ws cfg h s mon hm).trans (reconcile_ws _ _).symm
  have hids := tileIds_of_ws himg
  have hlen : (syncWorkspaces cfg h s).2.images.length =
      (reconcile s.images (sortedWorkspaces h mon)).length := by
    have := congrArg List.length himg
    simpa using this
  have hidx : (syncWorkspaces cfg h s).2.currentIdx =
      resolveIndex mon ((tileAt s.images s.currentIdx).bind (fun t => t.pWorkspace))
        (reconcile s.images (sortedWorkspaces h mon)) s.currentIdx := by
    rw [sync_rebuild hm hchg hws]
    exact (syncDragGuard_frame _ _).2.1.trans (syncRefill_frame cfg h mon _ _).2
  rw [hids, hlen, hidx]
  exact resolveIndex_spec mon _ _ _

/-- Witness for C21: workspace 3 disappears while workspace 2 is centred on the sample
session; the rebuilt list keeps workspace 2, at position 1, centred. -/
theorem C21_index_resolution_witness :
    ∃ n : Nat, (syncWorkspaces {} (sampleHost [1, 2] 2 {}) sampleSession).2.currentIdx = n ∧
      (tileIds (syncWorkspaces {} (sampleHost [1, 2] 2 {}) sampleSession).2.images)[n]? =
        some (some 2) ∧
      ∀ k : Nat, k < n →
        (tileIds (syncWorkspaces {} (sampleHost [1, 2] 2 {}) sampleSession).2.images)[k]? ≠
          some (some 2) :=
  (C21_index_resolution {} (sampleHost [1, 2] 2 {}) sampleSession (sampleMonitor 2) rfl
    (by with_unfolding_all decide) (by with_unfolding_all decide)).1 (sampleWs 2)
    (by with_unfolding_all decide) (by with_unfolding_all decide)

/-- C22: after a construction that found the focused monitor `mon` and the starting
workspace, and after every `syncWorkspaces()` with the session's monitor `mon` alive, the
workspaces of the tiles, in tile order, are the list `sortedWorkspaces`: a rearrangement of
the live workspaces of `mon` with `m_id >= 0`, in non-decreasing order of id, and, when
these workspaces have distinct ids, in strictly ascending order with every such workspace
at exactly one position.  `shiftCurrentIndexBy`, the scroll, pointer-move and button handlers,
`onWorkspaceChange`, `close` and `reopen` leave the workspaces of the tiles, in order, as
they are. -/
theorem C22_tile_order (cfg : HorzaConfig) (h : Host) (mon : CMonitor)
    (hm : h.monitor = some mon) :
    (∀ (started : CWorkspace) (tm : Bool) (dest : Option CWorkspace) (cache : TileCache)
        (ticks : Nat),
        tileWorkspaces (construct cfg h (some started) tm dest cache ticks) =
          (sortedWorkspaces h mon).map some) ∧
      (∀ s : COverview,
        tileWorkspaces (syncWorkspaces cfg h s).2 = (sortedWorkspaces h mon).map some) ∧
      List.Perm (sortedWorkspaces h mon) (monitorWorkspaces h mon) ∧
      (∀ ws, ws ∈ monitorWorkspaces h mon ↔
        some ws ∈ h.m_workspaces ∧ ws.monitorID = mon.m_id ∧ 0 ≤ ws.m_id) ∧
      (sortedWorkspaces h mon).Pairwise (fun a b => a.m_id ≤ b.m_id) ∧
      (((monitorWorkspaces h mon).map (fun w => w.m_id)).Nodup →
        (sortedWorkspaces h mon).Pairwise (fun a b => a.m_id < b.m_id) ∧
          ∀ ws, ws ∈ monitorWorkspaces h mon →
            ∃! n : Nat, ((sortedWorkspaces h mon).map some)[n]? = some (some ws)) ∧
      ∀ (h2 : Host) (s : COverview),
        (∀ step, tileWorkspaces (shiftCurrentIndexBy cfg h2 s step).2 = tileWorkspaces s) ∧
          (∀ e, tileWorkspaces (onMouseAxis cfg h2 s e) = tileWorkspaces s) ∧
          tileWorkspaces (onMouseMove cfg h2 s) = tileWorkspaces s ∧
          (∀ e, tileWorkspaces (mouseButtonHook h2 s e) = tileWorkspaces s) ∧
          tileWorkspaces (onWorkspaceChange cfg h2 s) = tileWorkspaces s ∧
          tileWorkspaces (close h2 s) = tileWorkspaces s ∧
          tileWorkspaces (reopen cfg s) = tileWorkspaces s :=
  ⟨fun started tm dest cache ticks => construct_ws cfg h mon started tm dest cache ticks hm,
    fun s => sync_ws cfg h s mon hm, sortedWorkspaces_perm h mon, mem_monitorWorkspaces h mon,
    sortedWorkspaces_sorted h mon,
    fun hd => ⟨sortedWorkspaces_strict h mon hd, sortedWorkspaces_unique h mon hd⟩,
    fun h2 s => ⟨shift_ws cfg h2 s, axis_ws cfg h2 s, move_ws cfg h2 s, hook_ws h2 s,
      workspaceChange_ws cfg h2 s, close_ws h2 s, reopen_ws cfg s⟩⟩

/-- Witness for C22: the host lists the workspaces in the order 3, 1, 2; the session built
on workspace 2 and the sample session after a sync both hold them in the order 1, 2, 3. -/
theorem C22_tile_order_witness :
    tileWorkspaces (construct {} (sampleHost [3, 1, 2] 2 {}) (some (sampleWs 2)) false none
        [] 0) = [some (sampleWs 1), some (sampleWs 2), some (sampleWs 3)] ∧
      tileWorkspaces (syncWorkspaces {} (sampleHost [3, 1, 2] 2 {}) sampleSession).2 =
        [some (sampleWs 1), some (sampleWs 2), some (sampleWs 3)] :=
  ⟨((C22_tile_order {} (sampleHost [3, 1, 2] 2 {}) (sampleMonitor 2) rfl).1 (sampleWs 2)
      false none [] 0).trans (by with_unfolding_all decide),
    ((C22_tile_order {} (sampleHost [3, 1, 2] 2 {}) (sampleMonitor 2) rfl).2.1
      sampleSession).trans (by with_unfolding_all decide)⟩

end Horza
